import Mathlib

/-!
# vsfs: a FAT file system on a virtual disk

A shallow embedding of `vsfs.c` / `vsfs.h`.

* The process globals of the C file (the four superblock counters, the open-file
  table, the cached FAT, the cached root directory) and the container file are the
  fields of `State`; every C function becomes a function on `State`.
* C `int` values are `Int`.  The two additions that involve the caller's byte
  count (`positionPtr + n` in `vsread`, `size + n` in `vsappend`) are reduced with
  `wrapInt32`; all other arithmetic stays far inside the `int` range.  Counters
  that start at 0 and are only incremented (`byteCount`, `*byteCounter`, the
  indices of the `for` loops over the tables) are `Nat`.
* C `/` and `%` are `Int.tdiv` and `Int.tmod` (truncation towards zero).
* A result `none` means that the C program leaves defined behaviour: an array is
  indexed outside its bounds, a block transfer is asked for a negative block
  number, `strcmp` runs past the 30 bytes of a stored file name, or a `while`
  loop never ends.
* `read_block` / `write_block` on a non-negative block number always transfer
  the whole block (the container is at least that long).
* An index `i` is inside an array of `n` elements when `0 ≤ i ∧ i.toNat < n`.
-/

namespace Vsfs

/-! ## Constants (`vsfs.h`, top of `vsfs.c`) -/

@[simp, reducible] def BLOCKSIZE : Int := 2048
@[simp, reducible] def MODE_READ : Int := 0
@[simp, reducible] def MODE_APPEND : Int := 1
@[simp, reducible] def SUPERBLOCK_START : Int := 0
@[simp, reducible] def FAT_BLOCK_START : Int := 1
@[simp, reducible] def FAT_BLOCK_COUNT : Nat := 32
@[simp, reducible] def ROOT_DIR_START : Int := 33
@[simp, reducible] def ROOT_DIR_COUNT : Nat := 8
@[simp, reducible] def METADATA_BLOCK_SIZE : Nat := 41
@[simp, reducible] def FAT_ENTRY_SIZE : Nat := 4
@[simp, reducible] def FAT_ENTRY_PER_BLOCK : Nat := 512
@[simp, reducible] def FAT_ENTRY_COUNT : Nat := 16384
@[simp, reducible] def DIR_ENTRY_SIZE : Nat := 128
@[simp, reducible] def DIR_ENTRY_PER_BLOCK : Nat := 16
@[simp, reducible] def DIR_ENTRY_COUNT : Nat := 128
@[simp, reducible] def MAX_FILENAME_LENGTH : Nat := 30
@[simp, reducible] def MAX_NOF_OPEN_FILES : Nat := 16
@[simp, reducible] def NOT_USED_FLAG : Int := 0
@[simp, reducible] def USED_FLAG : Int := 1
@[simp, reducible] def EOF_FLAG : Int := -1

/-! ## Data model -/

/-- One disk block: the byte at each offset (offsets `0..2047` are meaningful). -/
abbrev Block := Nat → Nat

/-- The container file, block by block. -/
abbrev Disk := Nat → Block

/-- A region of the caller's memory, byte by byte from the pointer passed in. -/
abbrev Bytes := Nat → Nat

/-- C `struct dirEntry`. -/
structure dirEntry where
  filename : Fin 30 → Nat
  size : Int
  startBlock : Int
  allocated : Int

/-- C `struct fileStruct`. -/
structure fileStruct where
  accessMode : Int
  dirBlock : Int
  dirBlockOffset : Int
  cachedRootDirIndex : Int
  positionPtr : Int

/-- The globals of `vsfs.c` together with the container (`vs_fd`). -/
structure State where
  disk : Disk
  dataBlockCount : Int
  totalBlockCount : Int
  freeBlockCount : Int
  fileCount : Int
  openFileCount : Int
  openFileTable : Nat → fileStruct
  cachedFatTable : Nat → Int
  cachedRootDirectory : Nat → dirEntry

/-- Two's-complement reduction of an `int` result. -/
def wrapInt32 (x : Int) : Int := (x + 2147483648) % 4294967296 - 2147483648

/-- Byte `k` (little endian) of the 32-bit representation of `v`. -/
def int32Byte (v : Int) (k : Nat) : Nat := ((v % 4294967296).toNat / 256 ^ k) % 256

/-- The store `((int *)(block + off))[0] = v`. -/
def storeInt32 (block : Block) (off : Nat) (v : Int) : Block :=
  fun i => if off ≤ i ∧ i < off + 4 then int32Byte v (i - off) else block i

/-- The load `((int *)(block + off))[0]`. -/
def loadInt32 (block : Block) (off : Nat) : Int :=
  wrapInt32 (((block off) % 256 + 256 * ((block (off + 1)) % 256)
    + 65536 * ((block (off + 2)) % 256) + 16777216 * ((block (off + 3)) % 256) : Nat) : Int)

/-- The copy `memcpy(dst, src, MAX_FILENAME_LENGTH)` into a 30-byte name array. -/
def memcpyName (src : Bytes) : Fin 30 → Nat := fun i => src i.val

/-- A stored name seen through a `char *`: the 30 bytes of the array. -/
def nameBytes (f : Fin 30 → Nat) : Bytes := fun i => if h : i < 30 then f ⟨i, h⟩ else 0

/-- The copy `memcpy(block + off, src, MAX_FILENAME_LENGTH)`. -/
def storeName (block : Block) (off : Nat) (src : Bytes) : Block :=
  fun i => if off ≤ i ∧ i < off + MAX_FILENAME_LENGTH then src (i - off) else block i

/-! ## Block device -/

/-- C `read_block`. -/
def read_block (d : Disk) (k : Int) : Option Block :=
  if 0 ≤ k then some (d k.toNat) else none

/-- C `write_block`. -/
def write_block (d : Disk) (block : Block) (k : Int) : Option Disk :=
  if 0 ≤ k then some (Function.update d k.toNat block) else none

/-! ## String comparison -/

/-- The byte loop of `strcmp`, from index `i`, for at most `fuel` bytes. -/
def strcmpAux (a b : Bytes) : Nat → Nat → Option Bool
  | 0, _ => none
  | fuel + 1, i =>
    if a i ≠ b i then some false
    else if a i = 0 then some true
    else strcmpAux a b fuel (i + 1)

/-- The test `strcmp(a, b) == 0` where one side is a 30-byte name array: a
comparison that is still undecided after 30 bytes reads past the array. -/
def strcmp0 (a b : Bytes) : Option Bool := strcmpAux a b MAX_FILENAME_LENGTH 0

/-! ## Scans of the cached tables -/

/-- A loop `for (k = i; k < i + cnt; k++) if (p k) return k;`. -/
def scan (p : Nat → Bool) : Nat → Nat → Option Nat
  | 0, _ => none
  | cnt + 1, i => if p i then some i else scan p cnt (i + 1)

/-- Two nested loops, `rows` outer rounds from row `i`, `cols` inner rounds,
testing index `i * cols + j`. -/
def scanRows (p : Nat → Bool) (cols : Nat) : Nat → Nat → Option Nat
  | 0, _ => none
  | rows + 1, i =>
    match scan p cols (i * cols) with
    | some c => some c
    | none => scanRows p cols rows (i + 1)

/-- C `findAvailableDirectoryEntryIndex`. -/
def findAvailableDirectoryEntryIndex (s : State) : Int :=
  match scanRows (fun c => decide ((s.cachedRootDirectory c).allocated = NOT_USED_FLAG))
      DIR_ENTRY_PER_BLOCK ROOT_DIR_COUNT 0 with
  | some c => (c : Int)
  | none => -1

/-- C `findAvailableBlockIndex`. -/
def findAvailableBlockIndex (s : State) : Int :=
  match scanRows (fun c => decide (s.cachedFatTable c = NOT_USED_FLAG))
      FAT_ENTRY_PER_BLOCK FAT_BLOCK_COUNT 0 with
  | some c => (c : Int)
  | none => -1

/-- C `findAvailableOpenFileTableIndex`. -/
def findAvailableOpenFileTableIndex (s : State) : Int :=
  match scan (fun i => decide ((s.openFileTable i).dirBlock = -1)) MAX_NOF_OPEN_FILES 0 with
  | some i => (i : Int)
  | none => -1

/-- The loop of `findDirectoryEntryIndexByFilename`, `cnt` rounds from index `i`. -/
def findDirLoop (s : State) (filename : Bytes) : Nat → Nat → Option Int
  | 0, _ => some (-1)
  | cnt + 1, i =>
    if (s.cachedRootDirectory i).allocated = USED_FLAG then
      match strcmp0 filename (nameBytes (s.cachedRootDirectory i).filename) with
      | none => none
      | some true => some (i : Int)
      | some false => findDirLoop s filename cnt (i + 1)
    else findDirLoop s filename cnt (i + 1)

/-- C `findDirectoryEntryIndexByFilename`. -/
def findDirectoryEntryIndexByFilename (s : State) (filename : Bytes) : Option Int :=
  findDirLoop s filename DIR_ENTRY_COUNT 0

/-! ## Write-through updates of the FAT and of the directory -/

/-- C `allocateBlockFatEntry` (its return value, `cacheIndex`, is read by no caller). -/
def allocateBlockFatEntry (s : State) (cacheIndex data : Int) : Option State :=
  if 0 ≤ cacheIndex ∧ cacheIndex.toNat < FAT_ENTRY_COUNT then
    let fatBlock := cacheIndex.tdiv FAT_ENTRY_PER_BLOCK
    let fatBlockOffset := cacheIndex.tmod FAT_ENTRY_PER_BLOCK
    match read_block s.disk (FAT_BLOCK_START + fatBlock) with
    | none => none
    | some block =>
      match write_block s.disk (storeInt32 block (fatBlockOffset.toNat * FAT_ENTRY_SIZE) data)
          (FAT_BLOCK_START + fatBlock) with
      | none => none
      | some d =>
        some { s with
          cachedFatTable := Function.update s.cachedFatTable cacheIndex.toNat data
          disk := d }
  else none

/-- C `allocateDirectoryEntry` (its return value is read by no caller). -/
def allocateDirectoryEntry (s : State) (cacheIndex : Int) (filename : Bytes)
    (size startBlock allocationStatus : Int) : Option State :=
  if 0 ≤ cacheIndex ∧ cacheIndex.toNat < DIR_ENTRY_COUNT then
    let availableEntryBlock := cacheIndex.tdiv DIR_ENTRY_PER_BLOCK
    let availableEntryBlockOffset := cacheIndex.tmod DIR_ENTRY_PER_BLOCK
    match read_block s.disk (availableEntryBlock + ROOT_DIR_START) with
    | none => none
    | some block =>
      let emptyBlockOffsetBytes := availableEntryBlockOffset.toNat * DIR_ENTRY_SIZE
      let block1 := storeName block emptyBlockOffsetBytes filename
      let block2 := storeInt32 block1 (emptyBlockOffsetBytes + MAX_FILENAME_LENGTH) size
      let block3 := storeInt32 block2 (emptyBlockOffsetBytes + (MAX_FILENAME_LENGTH + 4)) startBlock
      let block4 := storeInt32 block3 (emptyBlockOffsetBytes + (MAX_FILENAME_LENGTH + 8))
        allocationStatus
      match write_block s.disk block4 (availableEntryBlock + ROOT_DIR_START) with
      | none => none
      | some d =>
        some { s with
          cachedRootDirectory := Function.update s.cachedRootDirectory cacheIndex.toNat
            { filename := memcpyName filename, size := size, startBlock := startBlock,
              allocated := allocationStatus }
          disk := d }
  else none

/-- C `deallocateDirectoryEntry`. -/
def deallocateDirectoryEntry (s : State) (cacheIndex : Int) : Option State :=
  if 0 ≤ cacheIndex ∧ cacheIndex.toNat < DIR_ENTRY_COUNT then
    let dirBlock := cacheIndex.tdiv DIR_ENTRY_PER_BLOCK
    let dirBlockOffset := cacheIndex.tmod DIR_ENTRY_PER_BLOCK
    match read_block s.disk (ROOT_DIR_START + dirBlock) with
    | none => none
    | some block =>
      match write_block s.disk
          (storeInt32 block (dirBlockOffset.toNat * DIR_ENTRY_SIZE + (MAX_FILENAME_LENGTH + 8))
            NOT_USED_FLAG)
          (ROOT_DIR_START + dirBlock) with
      | none => none
      | some d =>
        some { s with
          cachedRootDirectory := Function.update s.cachedRootDirectory cacheIndex.toNat
            { s.cachedRootDirectory cacheIndex.toNat with allocated := NOT_USED_FLAG }
          disk := d }
  else none

/-- C `allocateOpenFileTableEntry`. -/
def allocateOpenFileTableEntry (s : State) (fd cacheIndex accessMode : Int) : Option State :=
  if 0 ≤ fd ∧ fd.toNat < MAX_NOF_OPEN_FILES then
    some { s with
      openFileTable := Function.update s.openFileTable fd.toNat
        { dirBlock := cacheIndex.tdiv DIR_ENTRY_PER_BLOCK
          dirBlockOffset := cacheIndex.tmod DIR_ENTRY_PER_BLOCK
          accessMode := accessMode
          positionPtr := 0
          cachedRootDirIndex := cacheIndex }
      openFileCount := s.openFileCount + 1 }
  else none

/-! ## FAT chains -/

/-- The `while` loop of `getLastBlockOfFile`, for at most `fuel` steps. -/
def getLastBlockLoop (fat : Nat → Int) : Nat → Int → Option Int
  | 0, _ => none
  | fuel + 1, traverseBlock =>
    if 0 ≤ traverseBlock ∧ traverseBlock.toNat < FAT_ENTRY_COUNT then
      if fat traverseBlock.toNat ≠ EOF_FLAG then
        getLastBlockLoop fat fuel (fat traverseBlock.toNat)
      else some traverseBlock
    else none

/-- C `getLastBlockOfFile`.  A walk that has not ended after `FAT_ENTRY_COUNT`
steps has come back to an entry it has seen and never ends. -/
def getLastBlockOfFile (s : State) (startBlock : Int) : Option Int :=
  getLastBlockLoop s.cachedFatTable (FAT_ENTRY_COUNT + 1) startBlock

/-- C `allocateAvailableBlockForFile`. -/
def allocateAvailableBlockForFile (s : State) (startBlock : Int) : Option (Int × State) :=
  match getLastBlockOfFile s startBlock with
  | none => none
  | some lastBlock =>
    let newBlock := findAvailableBlockIndex s
    if newBlock = -1 then some (-1, s)
    else
      match allocateBlockFatEntry s newBlock EOF_FLAG with
      | none => none
      | some s1 =>
        match allocateBlockFatEntry { s1 with freeBlockCount := s1.freeBlockCount - 1 }
            lastBlock newBlock with
        | none => none
        | some s2 => some (newBlock, s2)

/-- The `while` loop of `deallocateFatEntriesOfFile`, for at most `fuel` steps. -/
def deallocateFatLoop : Nat → State → Int → Option State
  | 0, _, _ => none
  | fuel + 1, s, traverseBlock =>
    if traverseBlock ≠ EOF_FLAG then
      if 0 ≤ traverseBlock ∧ traverseBlock.toNat < FAT_ENTRY_COUNT then
        let tmpNextBlock := s.cachedFatTable traverseBlock.toNat
        let fatBlock := traverseBlock.tdiv FAT_ENTRY_PER_BLOCK
        let fatBlockOffset := traverseBlock.tmod FAT_ENTRY_PER_BLOCK
        match read_block s.disk (FAT_BLOCK_START + fatBlock) with
        | none => none
        | some block =>
          match write_block s.disk
              (storeInt32 block (FAT_ENTRY_SIZE * fatBlockOffset.toNat) NOT_USED_FLAG)
              (FAT_BLOCK_START + fatBlock) with
          | none => none
          | some d =>
            deallocateFatLoop fuel
              { s with
                cachedFatTable := Function.update s.cachedFatTable traverseBlock.toNat NOT_USED_FLAG
                disk := d
                freeBlockCount := s.freeBlockCount + 1 }
              tmpNextBlock
      else none
    else some s

/-- C `deallocateFatEntriesOfFile`.  Every step clears one entry, and a cleared
entry leads to entry 0, so a walk of more than `FAT_ENTRY_COUNT + 2` steps
never ends. -/
def deallocateFatEntriesOfFile (s : State) (startBlock : Int) : Option State :=
  deallocateFatLoop (FAT_ENTRY_COUNT + 3) s startBlock

/-! ## Copying between a block and the caller's buffer -/

/-- The `for` loop of `readFromBlockToBuffer`: `cnt` rounds from offset `i`. -/
def readLoop (blockData : Block) : Nat → Int → Bytes → Nat → Option (Bytes × Nat)
  | 0, _, blockBuffer, byteCounter => some (blockBuffer, byteCounter)
  | cnt + 1, i, blockBuffer, byteCounter =>
    if 0 ≤ i ∧ i.toNat < BLOCKSIZE.toNat then
      readLoop blockData cnt (i + 1)
        (Function.update blockBuffer byteCounter (blockData i.toNat)) (byteCounter + 1)
    else none

/-- C `readFromBlockToBuffer`; the result is the buffer and `*byteCounter`. -/
def readFromBlockToBuffer (d : Disk) (blockBuffer : Bytes) (block startOffset endOffset : Int)
    (byteCounter : Nat) : Option (Bytes × Nat) :=
  match read_block d block with
  | none => none
  | some blockData =>
    readLoop blockData (endOffset - startOffset).toNat startOffset blockBuffer byteCounter

/-- The `for` loop of `writeFromBufferToBlock`: `cnt` rounds from offset `i`,
leaving early once `*byteCounter == writeSize`. -/
def writeLoop (blockBuffer : Bytes) (writeSize : Int) : Nat → Int → Block → Nat → Option (Block × Nat)
  | 0, _, blockData, byteCounter => some (blockData, byteCounter)
  | cnt + 1, i, blockData, byteCounter =>
    if 0 ≤ i ∧ i.toNat < BLOCKSIZE.toNat then
      if ((byteCounter + 1 : Nat) : Int) = writeSize then
        some (Function.update blockData i.toNat (blockBuffer byteCounter), byteCounter + 1)
      else
        writeLoop blockBuffer writeSize cnt (i + 1)
          (Function.update blockData i.toNat (blockBuffer byteCounter)) (byteCounter + 1)
    else none

/-- C `writeFromBufferToBlock`; the result is the new disk and `*byteCounter`. -/
def writeFromBufferToBlock (d : Disk) (blockBuffer : Bytes) (block startOffset endOffset : Int)
    (byteCounter : Nat) (writeSize : Int) : Option (Disk × Nat) :=
  match read_block d block with
  | none => none
  | some blockData =>
    match writeLoop blockBuffer writeSize (endOffset - startOffset).toNat startOffset blockData
        byteCounter with
    | none => none
    | some (blockData1, byteCounter1) =>
      match write_block d blockData1 block with
      | none => none
      | some d1 => some (d1, byteCounter1)

/-! ## The public operations -/

/-- The duplicate-name loop of `vscreate`: `cnt` rounds from index `i`; `true`
stands for the `return -1` inside the loop. -/
def createDupLoop (s : State) (filename : Bytes) : Nat → Nat → Option Bool
  | 0, _ => some false
  | cnt + 1, i =>
    if (s.cachedRootDirectory i).allocated = USED_FLAG then
      match strcmp0 (nameBytes (s.cachedRootDirectory i).filename) filename with
      | none => none
      | some true => some true
      | some false => createDupLoop s filename cnt (i + 1)
    else createDupLoop s filename cnt (i + 1)

/-- C `vscreate`. -/
def vscreate (s : State) (filename : Bytes) : Option (Int × State) :=
  if s.fileCount = DIR_ENTRY_COUNT then some (-1, s)
  else
    match createDupLoop s filename DIR_ENTRY_COUNT 0 with
    | none => none
    | some true => some (-1, s)
    | some false =>
      let blockIndex := findAvailableBlockIndex s
      if blockIndex = -1 then some (-1, s)
      else
        let availableDirectoryEntryIndex := findAvailableDirectoryEntryIndex s
        if availableDirectoryEntryIndex = -1 then some (-1, s)
        else
          match allocateBlockFatEntry s blockIndex EOF_FLAG with
          | none => none
          | some s1 =>
            match allocateDirectoryEntry { s1 with freeBlockCount := s1.freeBlockCount - 1 }
                availableDirectoryEntryIndex filename 0 blockIndex USED_FLAG with
            | none => none
            | some s2 => some (0, { s2 with fileCount := s2.fileCount + 1 })

/-- The already-open loop of `vsopen`: `cnt` rounds from slot `i`; `true` stands
for the `return -1` inside the loop. -/
def openDupLoop (s : State) (file : Bytes) : Nat → Nat → Option Bool
  | 0, _ => some false
  | cnt + 1, i =>
    if (s.openFileTable i).dirBlock > -1 then
      if 0 ≤ (s.openFileTable i).cachedRootDirIndex
          ∧ (s.openFileTable i).cachedRootDirIndex.toNat < DIR_ENTRY_COUNT then
        match strcmp0
            (nameBytes (s.cachedRootDirectory (s.openFileTable i).cachedRootDirIndex.toNat).filename)
            file with
        | none => none
        | some true => some true
        | some false => openDupLoop s file cnt (i + 1)
      else none
    else openDupLoop s file cnt (i + 1)

/-- C `vsopen`.  The two `printf`-only branches (`fd == -1`,
`directoryEntryIndex == -1`) have no effect on the state and fall through. -/
def vsopen (s : State) (file : Bytes) (mode : Int) : Option (Int × State) :=
  if s.openFileCount = MAX_NOF_OPEN_FILES then some (-1, s)
  else
    match openDupLoop s file MAX_NOF_OPEN_FILES 0 with
    | none => none
    | some true => some (-1, s)
    | some false =>
      let fd := findAvailableOpenFileTableIndex s
      match findDirectoryEntryIndexByFilename s file with
      | none => none
      | some directoryEntryIndex =>
        match allocateOpenFileTableEntry s fd directoryEntryIndex mode with
        | none => none
        | some s1 => some (fd, s1)

/-- C `vsclose`. -/
def vsclose (s : State) (fd : Int) : Option (Int × State) :=
  if 0 ≤ fd ∧ fd.toNat < MAX_NOF_OPEN_FILES then
    if (s.openFileTable fd.toNat).dirBlock = -1 then some (-1, s)
    else
      some (0, { s with
        openFileTable := Function.update s.openFileTable fd.toNat
          { s.openFileTable fd.toNat with dirBlock := -1 }
        openFileCount := s.openFileCount - 1 })
  else none

/-- C `vssize`. -/
def vssize (s : State) (fd : Int) : Option Int :=
  if 0 ≤ fd ∧ fd.toNat < MAX_NOF_OPEN_FILES then
    if (s.openFileTable fd.toNat).dirBlock = -1 then some (-1)
    else if 0 ≤ (s.openFileTable fd.toNat).cachedRootDirIndex
        ∧ (s.openFileTable fd.toNat).cachedRootDirIndex.toNat < DIR_ENTRY_COUNT then
      let size := (s.cachedRootDirectory (s.openFileTable fd.toNat).cachedRootDirIndex.toNat).size
      if size < 0 then some (-1) else some size
    else none
  else none

/-- The `for` loop of the multi-block branch of `vsread`: `cnt` rounds from
logical block `i`.  The flag is `false` for the `return -1` inside the loop. -/
def vsreadLoop (s : State)
    (logicalStartBlock logicalEndBlock logicalStartBlockOffset logicalEndBlockOffset : Int) :
    Nat → Int → Int → Bytes → Nat → Option (Bool × Bytes × Nat)
  | 0, _, _, buf, byteCount => some (true, buf, byteCount)
  | cnt + 1, i, blockPtr, buf, byteCount =>
    if blockPtr = -1 then some (false, buf, byteCount)
    else
      match (if i = logicalStartBlock then
          readFromBlockToBuffer s.disk buf blockPtr logicalStartBlockOffset BLOCKSIZE byteCount
        else if i = logicalEndBlock then
          readFromBlockToBuffer s.disk buf blockPtr 0 logicalEndBlockOffset byteCount
        else readFromBlockToBuffer s.disk buf blockPtr 0 BLOCKSIZE byteCount) with
      | none => none
      | some (buf1, byteCount1) =>
        if 0 ≤ blockPtr ∧ blockPtr.toNat < FAT_ENTRY_COUNT then
          vsreadLoop s logicalStartBlock logicalEndBlock logicalStartBlockOffset
            logicalEndBlockOffset cnt (i + 1) (s.cachedFatTable blockPtr.toNat) buf1 byteCount1
        else none

/-- The end of `vsread`: store the new position, compare the byte count. -/
def vsreadFinish (s : State) (fd : Int) (logicalEndOffset n : Int) (buf : Bytes) (byteCount : Nat) :
    Int × State × Bytes :=
  let s1 : State := { s with
    openFileTable := Function.update s.openFileTable fd.toNat
      { s.openFileTable fd.toNat with positionPtr := logicalEndOffset } }
  if (byteCount : Int) ≠ n then (-1, s1, buf) else ((byteCount : Int), s1, buf)

/-- C `vsread`; the result is the return value, the new state and the buffer. -/
def vsread (s : State) (fd : Int) (buf : Bytes) (n : Int) : Option (Int × State × Bytes) :=
  if 0 ≤ fd ∧ fd.toNat < MAX_NOF_OPEN_FILES then
    if (s.openFileTable fd.toNat).dirBlock = -1 then some (-1, s, buf)
    else if (s.openFileTable fd.toNat).accessMode = MODE_APPEND then some (-1, s, buf)
    else if 0 ≤ (s.openFileTable fd.toNat).cachedRootDirIndex
        ∧ (s.openFileTable fd.toNat).cachedRootDirIndex.toNat < DIR_ENTRY_COUNT then
      let tmpDirEntry := s.cachedRootDirectory (s.openFileTable fd.toNat).cachedRootDirIndex.toNat
      let logicalStartOffset := (s.openFileTable fd.toNat).positionPtr
      let logicalEndOffset := wrapInt32 (logicalStartOffset + n)
      if tmpDirEntry.size < logicalEndOffset then some (-1, s, buf)
      else
        let logicalStartBlock := logicalStartOffset.tdiv BLOCKSIZE
        let logicalStartBlockOffset := logicalStartOffset.tmod BLOCKSIZE
        let logicalEndBlock := logicalEndOffset.tdiv BLOCKSIZE
        let logicalEndBlockOffset := logicalEndOffset.tmod BLOCKSIZE
        if logicalStartBlock = logicalEndBlock then
          match readFromBlockToBuffer s.disk buf tmpDirEntry.startBlock logicalStartBlockOffset
              logicalEndBlockOffset 0 with
          | none => none
          | some (buf1, byteCount) => some (vsreadFinish s fd logicalEndOffset n buf1 byteCount)
        else
          match vsreadLoop s logicalStartBlock logicalEndBlock logicalStartBlockOffset
              logicalEndBlockOffset (logicalEndBlock - logicalStartBlock).toNat logicalStartBlock
              tmpDirEntry.startBlock buf 0 with
          | none => none
          | some (false, buf1, _) => some (-1, s, buf1)
          | some (true, buf1, byteCount) => some (vsreadFinish s fd logicalEndOffset n buf1 byteCount)
    else none
  else none

/-- The `while (byteCount != n)` loop of `vsappend`, for at most `fuel` rounds;
`idx` is the directory index behind `tmpDirEntry`.  The flag is `false` for the
`return -1` inside the loop. -/
def appendLoop (buf : Bytes) (n : Int) (idx : Nat) : Nat → State → Int → Nat →
    Option (Bool × State × Nat)
  | 0, _, _, _ => none
  | fuel + 1, s, dataBlockOffset, byteCount =>
    if (byteCount : Int) ≠ n then
      if dataBlockOffset = BLOCKSIZE then
        match allocateAvailableBlockForFile s (s.cachedRootDirectory idx).startBlock with
        | none => none
        | some (newAllocatedBlock, s1) =>
          if newAllocatedBlock = -1 then some (false, s1, byteCount)
          else
            match writeFromBufferToBlock s1.disk buf newAllocatedBlock 0 BLOCKSIZE byteCount n with
            | none => none
            | some (d, byteCount1) =>
              appendLoop buf n idx fuel { s1 with disk := d } dataBlockOffset byteCount1
      else
        match getLastBlockOfFile s (s.cachedRootDirectory idx).startBlock with
        | none => none
        | some lastBlockOfFile =>
          match writeFromBufferToBlock s.disk buf lastBlockOfFile dataBlockOffset BLOCKSIZE
              byteCount n with
          | none => none
          | some (d, byteCount1) =>
            appendLoop buf n idx fuel { s with disk := d } BLOCKSIZE byteCount1
    else some (true, s, byteCount)

/-- The write cursor of `vsappend` in the last block (`dataBlockOffset`). -/
def appendCursor (size : Int) : Int :=
  if size > 0 ∧ size.tmod BLOCKSIZE = 0 then BLOCKSIZE else size.tmod BLOCKSIZE

/-- The `requiredBlockCount` of `vsappend`. -/
def requiredBlockCount (size n : Int) : Int :=
  let remainingByte := BLOCKSIZE - appendCursor size
  if n ≤ remainingByte then 0 else (n - remainingByte).tdiv BLOCKSIZE + 1

/-- C `vsappend`.  Each round of the loop that comes back stores at least one
byte, so `n + 1` rounds are enough. -/
def vsappend (s : State) (fd : Int) (buf : Bytes) (n : Int) : Option (Int × State) :=
  if n ≤ 0 then some (-1, s)
  else if 0 ≤ fd ∧ fd.toNat < MAX_NOF_OPEN_FILES then
    if (s.openFileTable fd.toNat).dirBlock = -1 then some (-1, s)
    else if (s.openFileTable fd.toNat).accessMode = MODE_READ then some (-1, s)
    else if 0 ≤ (s.openFileTable fd.toNat).cachedRootDirIndex
        ∧ (s.openFileTable fd.toNat).cachedRootDirIndex.toNat < DIR_ENTRY_COUNT then
      let idx := (s.openFileTable fd.toNat).cachedRootDirIndex.toNat
      let size := (s.cachedRootDirectory idx).size
      if requiredBlockCount size n > s.freeBlockCount then some (-1, s)
      else
        match appendLoop buf n idx (n.toNat + 1) s (appendCursor size) 0 with
        | none => none
        | some (false, s1, _) => some (-1, s1)
        | some (true, s1, byteCount) =>
          match allocateDirectoryEntry s1 (s1.openFileTable fd.toNat).cachedRootDirIndex
              (nameBytes (s1.cachedRootDirectory idx).filename)
              (wrapInt32 ((s1.cachedRootDirectory idx).size + n))
              (s1.cachedRootDirectory idx).startBlock (s1.cachedRootDirectory idx).allocated with
          | none => none
          | some s2 => if (byteCount : Int) ≠ n then some (-1, s2) else some ((byteCount : Int), s2)
    else none
  else none

/-- The handle-closing loop of `vsdelete`: `cnt` rounds from slot `i`. -/
def deleteCloseLoop (filename : Bytes) : Nat → Nat → State → Option State
  | 0, _, s => some s
  | cnt + 1, i, s =>
    if (s.openFileTable i).dirBlock > -1 then
      if 0 ≤ (s.openFileTable i).cachedRootDirIndex
          ∧ (s.openFileTable i).cachedRootDirIndex.toNat < DIR_ENTRY_COUNT then
        match strcmp0 filename
            (nameBytes (s.cachedRootDirectory (s.openFileTable i).cachedRootDirIndex.toNat).filename)
            with
        | none => none
        | some true =>
          match vsclose s (i : Int) with
          | none => none
          | some (_, s1) => deleteCloseLoop filename cnt (i + 1) s1
        | some false => deleteCloseLoop filename cnt (i + 1) s
      else none
    else deleteCloseLoop filename cnt (i + 1) s

/-- C `vsdelete`. -/
def vsdelete (s : State) (filename : Bytes) : Option (Int × State) :=
  match deleteCloseLoop filename MAX_NOF_OPEN_FILES 0 s with
  | none => none
  | some s1 =>
    match findDirectoryEntryIndexByFilename s1 filename with
    | none => none
    | some directoryIndex =>
      match deallocateDirectoryEntry s1 directoryIndex with
      | none => none
      | some s2 =>
        if (s2.cachedRootDirectory directoryIndex.toNat).startBlock = -1 then some (-1, s2)
        else
          match deallocateFatEntriesOfFile s2
              (s2.cachedRootDirectory directoryIndex.toNat).startBlock with
          | none => none
          | some s3 => some (0, { s3 with fileCount := s3.fileCount - 1 })

/-! ## Notions used to state the properties -/

/-- The caller's string ends within the first 30 bytes (at most 29 characters). -/
def NulTerminated (name : Bytes) : Prop := ∃ k, k < 30 ∧ name k = 0

instance (name : Bytes) : Decidable (NulTerminated name) := by
  unfold NulTerminated; infer_instance

/-- Directory slot `i` is allocated and `strcmp` finds its name equal to `name`. -/
def HasName (s : State) (i : Nat) (name : Bytes) : Prop :=
  (s.cachedRootDirectory i).allocated = USED_FLAG
    ∧ strcmp0 (nameBytes (s.cachedRootDirectory i).filename) name = some true

instance (s : State) (i : Nat) (name : Bytes) : Decidable (HasName s i name) := by
  unfold HasName; infer_instance

/-- Open-file slot `i` is in use (the test of `vsclose`, `vssize`, `vsread`, `vsappend`). -/
def InUse (s : State) (i : Nat) : Prop := (s.openFileTable i).dirBlock ≠ -1

instance (s : State) (i : Nat) : Decidable (InUse s i) := by
  unfold InUse; infer_instance

/-- Every slot of the open-file table is free (`dirBlock == -1`) or carries a
directory index inside the directory, as `clearOpenFileTable` and a successful
`vsopen` leave it. -/
def HandlesValid (s : State) : Prop :=
  ∀ i, i < MAX_NOF_OPEN_FILES →
    (s.openFileTable i).dirBlock = -1 ∨
      (0 ≤ (s.openFileTable i).dirBlock ∧ 0 ≤ (s.openFileTable i).cachedRootDirIndex
        ∧ (s.openFileTable i).cachedRootDirIndex < DIR_ENTRY_COUNT)

instance (s : State) : Decidable (HandlesValid s) := by
  unfold HandlesValid; infer_instance

/-- The list `l` is the FAT chain that starts at block `b`: every block is a data
block (index in `[41, 16384)`), every entry holds the index of the next block
and the last entry holds `EOF_FLAG`. -/
def IsChain (fat : Nat → Int) : Int → List Nat → Prop
  | _, [] => False
  | b, x :: l =>
    b = (x : Int) ∧ METADATA_BLOCK_SIZE ≤ x ∧ x < FAT_ENTRY_COUNT ∧
      match l with
      | [] => fat x = EOF_FLAG
      | y :: l1 => IsChain fat (fat x) (y :: l1)

instance decIsChain (fat : Nat → Int) : (b : Int) → (l : List Nat) → Decidable (IsChain fat b l)
  | _, [] => isFalse (fun h => h)
  | b, [x] => by unfold IsChain; infer_instance
  | b, x :: y :: l1 =>
    have := decIsChain fat (fat x) (y :: l1)
    by unfold IsChain; infer_instance

/-- The last block of a chain. -/
def lastBlock (l : List Nat) : Nat := l.getD (l.length - 1) 0

/-- Number of FAT entries that hold `NOT_USED_FLAG`. -/
def freeCount (fat : Nat → Int) : Nat :=
  ((Finset.range FAT_ENTRY_COUNT).filter (fun i => fat i = NOT_USED_FLAG)).card

/-- Number of directory slots with `allocated == USED_FLAG`. -/
def allocatedCount (dir : Nat → dirEntry) : Nat :=
  ((Finset.range DIR_ENTRY_COUNT).filter (fun i => (dir i).allocated = USED_FLAG)).card

/-- Number of open-file slots in use. -/
def inUseCount (oft : Nat → fileStruct) : Nat :=
  ((Finset.range MAX_NOF_OPEN_FILES).filter (fun i => (oft i).dirBlock ≠ -1)).card

/-- Number of blocks a file of `size` bytes occupies: `max(1, ceil(size / 2048))`. -/
def blocksFor (size : Int) : Int := max 1 ((size + 2047) / 2048)

/-- Byte at logical offset `x` of the file whose chain is `l`. -/
def fileByte (d : Disk) (l : List Nat) (x : Nat) : Nat := d (l.getD (x / 2048) 0) (x % 2048)

/-- The container after the write-through of FAT entry `i := v`
(block `1 + i / 512`, byte offset `(i % 512) * 4`). -/
def fatDiskWrite (d : Disk) (i : Nat) (v : Int) : Disk :=
  Function.update d (1 + i / 512) (storeInt32 (d (1 + i / 512)) (i % 512 * 4) v)

/-- The container after the write-through of directory slot `j`
(block `33 + j / 16`, byte offset `(j % 16) * 128`). -/
def dirDiskWrite (d : Disk) (j : Nat) (filename : Bytes) (size startBlock allocated : Int) : Disk :=
  Function.update d (33 + j / 16)
    (storeInt32 (storeInt32 (storeInt32 (storeName (d (33 + j / 16)) (j % 16 * 128) filename)
      (j % 16 * 128 + 30) size) (j % 16 * 128 + 34) startBlock) (j % 16 * 128 + 38) allocated)

/-- The container after the write-through of `allocated := 0` in directory slot `j`. -/
def dirDiskClear (d : Disk) (j : Nat) : Disk :=
  Function.update d (33 + j / 16) (storeInt32 (d (33 + j / 16)) (j % 16 * 128 + 38) 0)

/-- The handle in slot `i` points at a directory entry whose stored name `strcmp`
finds equal to `name` (the test of the loops in `vsopen` and `vsdelete`). -/
def RefersTo (s : State) (i : Nat) (name : Bytes) : Prop :=
  strcmp0 (nameBytes (s.cachedRootDirectory (s.openFileTable i).cachedRootDirIndex.toNat).filename)
    name = some true

instance (s : State) (i : Nat) (name : Bytes) : Decidable (RefersTo s i name) := by
  unfold RefersTo; infer_instance

/-- The state after a `vscreate` that takes FAT entry `b` and directory slot `j`. -/
def createState (s : State) (name : Bytes) (b j : Nat) : State :=
  { s with
    disk := dirDiskWrite (fatDiskWrite s.disk b (-1)) j name 0 b 1
    cachedFatTable := Function.update s.cachedFatTable b (-1)
    freeBlockCount := s.freeBlockCount - 1
    cachedRootDirectory := Function.update s.cachedRootDirectory j
      { filename := memcpyName name, size := 0, startBlock := b, allocated := 1 }
    fileCount := s.fileCount + 1 }

/-- The state after a `vsopen` that fills slot `f` for directory index `d`. -/
def openState (s : State) (f : Nat) (d mode : Int) : State :=
  { s with
    openFileTable := Function.update s.openFileTable f
      { accessMode := mode, dirBlock := d.tdiv 16, dirBlockOffset := d.tmod 16,
        cachedRootDirIndex := d, positionPtr := 0 }
    openFileCount := s.openFileCount + 1 }

/-- The state after a `vsclose` of slot `f`. -/
def closeState (s : State) (f : Nat) : State :=
  { s with
    openFileTable := Function.update s.openFileTable f { s.openFileTable f with dirBlock := -1 }
    openFileCount := s.openFileCount - 1 }

/-- The state after `allocateAvailableBlockForFile` links the free block `c`
behind the block `last`. -/
def allocState (s : State) (c last : Nat) : State :=
  { s with
    cachedFatTable := Function.update (Function.update s.cachedFatTable c (-1)) last (c : Int)
    disk := fatDiskWrite (fatDiskWrite s.disk c (-1)) last (c : Int)
    freeBlockCount := s.freeBlockCount - 1 }

/-- A block after bytes `buf[bc .. bc + m)` are stored at offsets `[off, off + m)`. -/
def blockWrite (block : Block) (off m : Nat) (buf : Bytes) (bc : Nat) : Block :=
  fun i => if off ≤ i ∧ i < off + m then buf (bc + (i - off)) else block i

/-- The state after bytes `buf[bc .. bc + m)` are stored in block `k` at offset `off`. -/
def fillState (s : State) (k off m : Nat) (buf : Bytes) (bc : Nat) : State :=
  { s with disk := Function.update s.disk k (blockWrite (s.disk k) off m buf bc) }

/-- A buffer after bytes `[off, off + m)` of a block are stored at `buf[bc .. bc + m)`. -/
def bufferRead (buf : Bytes) (bc m : Nat) (block : Block) (off : Nat) : Bytes :=
  fun j => if bc ≤ j ∧ j < bc + m then block (off + (j - bc)) else buf j

/-- What the block-allocating rounds of `vsappend` do: from state `s`, where the
file's chain is `l` and `bc` of the `N` bytes are already stored, to state `s1`,
where the blocks `new` have been linked behind `l` and hold the other bytes. -/
structure AppendRel (s s1 : State) (start : Int) (l new : List Nat) (buf : Bytes)
    (bc N : Nat) : Prop where
  chain : IsChain s1.cachedFatTable start (l ++ new)
  len : new.length = (N - bc + 2047) / 2048
  dir : s1.cachedRootDirectory = s.cachedRootDirectory
  oft : s1.openFileTable = s.openFileTable
  openCount : s1.openFileCount = s.openFileCount
  fileCount : s1.fileCount = s.fileCount
  total : s1.totalBlockCount = s.totalBlockCount
  dataCount : s1.dataBlockCount = s.dataBlockCount
  free : s1.freeBlockCount = s.freeBlockCount - new.length
  freeCnt : freeCount s1.cachedFatTable + new.length = freeCount s.cachedFatTable
  wasFree : ∀ c ∈ new, s.cachedFatTable c = 0
  fatFrame : ∀ i, i ∉ new → (i ≠ lastBlock l ∨ new = []) → s1.cachedFatTable i = s.cachedFatTable i
  diskFrame : ∀ k, 41 ≤ k → k ∉ new → s1.disk k = s.disk k
  data : ∀ j o, j < new.length → o < 2048 → bc + j * 2048 + o < N →
    s1.disk (new.getD j 0) o = buf (bc + j * 2048 + o)

/-- What a successful `vsappend` of `N` bytes does to a file of `sz` bytes in
directory slot `j` whose chain was `l`: the blocks `new` are linked behind `l`. -/
structure AppendSpec (s s2 : State) (j : Nat) (l new : List Nat) (buf : Bytes)
    (sz N : Nat) : Prop where
  chain : IsChain s2.cachedFatTable (s.cachedRootDirectory j).startBlock (l ++ new)
  blocks : ((l ++ new).length : Int) = blocksFor ((sz : Int) + (N : Int))
  dir : s2.cachedRootDirectory = Function.update s.cachedRootDirectory j
    { s.cachedRootDirectory j with size := (sz : Int) + (N : Int) }
  oft : s2.openFileTable = s.openFileTable
  openCount : s2.openFileCount = s.openFileCount
  fileCount : s2.fileCount = s.fileCount
  total : s2.totalBlockCount = s.totalBlockCount
  dataCount : s2.dataBlockCount = s.dataBlockCount
  free : s2.freeBlockCount = s.freeBlockCount - new.length
  freeCnt : freeCount s2.cachedFatTable + new.length = freeCount s.cachedFatTable
  wasFree : ∀ c ∈ new, s.cachedFatTable c = 0
  fatFrame : ∀ i, i ∉ new → (i ≠ lastBlock l ∨ new = []) → s2.cachedFatTable i = s.cachedFatTable i
  keep : ∀ x, x < sz → fileByte s2.disk (l ++ new) x = fileByte s.disk l x
  added : ∀ y, y < N → fileByte s2.disk (l ++ new) (sz + y) = buf y
  diskFrame : ∀ k, 41 ≤ k → k ∉ new → k ≠ lastBlock l → s2.disk k = s.disk k

/-- The FAT after every entry of the chain `l` is set to `NOT_USED_FLAG`. -/
def freedFat (fat : Nat → Int) (l : List Nat) : Nat → Int := fun i => if i ∈ l then 0 else fat i

/-- The container after the write-through of `NOT_USED_FLAG` for the entries of `l`, in order. -/
def freedDisk (d : Disk) (l : List Nat) : Disk := l.foldl (fun d1 x => fatDiskWrite d1 x 0) d

/-- The open-file table after the loop of `vsdelete` has gone through the slots
below `upto`: a slot in use whose entry is named `name` is closed. -/
def closedTable (s : State) (name : Bytes) (upto : Nat) : Nat → fileStruct :=
  fun k =>
    if k < upto ∧ (s.openFileTable k).dirBlock > -1 ∧ RefersTo s k name then
      { s.openFileTable k with dirBlock := -1 }
    else s.openFileTable k

/-- Number of slots below `upto` that the loop of `vsdelete` closes. -/
def closedCount (s : State) (name : Bytes) (upto : Nat) : Nat :=
  ((Finset.range upto).filter
    (fun k => (s.openFileTable k).dirBlock > -1 ∧ RefersTo s k name)).card

/-- The state after the loop of `vsdelete` has gone through the slots below `upto`. -/
def closeUpTo (s : State) (name : Bytes) (upto : Nat) : State :=
  { s with
    openFileTable := closedTable s name upto
    openFileCount := s.openFileCount - closedCount s name upto }

/-- The state after `vsdelete name` has removed the file in slot `j` with chain `l`. -/
def deleteState (s : State) (name : Bytes) (j : Nat) (l : List Nat) : State :=
  { s with
    openFileTable := closedTable s name 16
    openFileCount := s.openFileCount - closedCount s name 16
    cachedRootDirectory := Function.update s.cachedRootDirectory j
      { s.cachedRootDirectory j with allocated := 0 }
    cachedFatTable := freedFat s.cachedFatTable l
    disk := freedDisk (dirDiskClear s.disk j) l
    freeBlockCount := s.freeBlockCount + l.length
    fileCount := s.fileCount - 1 }

/-- The state after `vsread` has moved the position of slot `f` to `pos`. -/
def seekState (s : State) (f : Nat) (pos : Int) : State :=
  { s with
    openFileTable := Function.update s.openFileTable f
      { s.openFileTable f with positionPtr := pos } }

/-! ## Sample inputs -/

/-- The FAT that `initializeFatBlocks` writes for a volume of `total` blocks. -/
def emptyFat (total : Nat) : Nat → Int :=
  fun i => if i < 41 then -1 else if i < total then 0 else -1

/-- A volume of 128 blocks (`m = 18`) right after `vsformat` and `vsmount`, the
bytes that `vsformat` leaves unset taken as 0: no file, no open handle. -/
def emptyVolume : State where
  disk := fun k o =>
    if k = 0 then
      (if o < 4 then int32Byte 87 o else if o < 8 then int32Byte 128 (o - 4)
        else if o < 12 then int32Byte 87 (o - 8) else 0)
    else if k < 33 then int32Byte (emptyFat 128 ((k - 1) * 512 + o / 4)) (o % 4)
    else 0
  dataBlockCount := 87
  totalBlockCount := 128
  freeBlockCount := 87
  fileCount := 0
  openFileCount := 0
  openFileTable := fun _ =>
    { accessMode := 0, dirBlock := -1, dirBlockOffset := 0, cachedRootDirIndex := 0,
      positionPtr := 0 }
  cachedFatTable := emptyFat 128
  cachedRootDirectory := fun _ =>
    { filename := fun _ => 0, size := 0, startBlock := 0, allocated := 0 }

/-- The sample volume after `vscreate("f")`. -/
def oneFileVolume : State := createState emptyVolume (fun i => if i = 0 then 102 else 0) 41 0

/-- The sample volume after `vscreate("f")` and `vsopen("f", MODE_APPEND)`. -/
def appendVolume : State := openState oneFileVolume 0 0 MODE_APPEND

/-- The string "f". -/
def nameF : Bytes := fun i => if i = 0 then 102 else 0

/-- 2048 bytes 'A' followed by bytes 'B'. -/
def sampleBytes : Bytes := fun i => if i < 2048 then 65 else 66

/-- The string "g". -/
def nameG : Bytes := fun i => if i = 0 then 103 else 0

/-- The number of new blocks an append of `n` bytes needs when the write cursor
in the last block is `c`, in the words of the specification: none if
`n ≤ BLOCKSIZE - c`, otherwise the ceiling of `(n - (BLOCKSIZE - c)) / BLOCKSIZE`. -/
def requiredBlocksSpec (c n : Int) : Int :=
  if n ≤ BLOCKSIZE - c then 0 else (n - (BLOCKSIZE - c) + (BLOCKSIZE - 1)) / BLOCKSIZE

/-- The sample volume after `vscreate("f")` and `vsopen("f", MODE_READ)`. -/
def readVolume : State := openState oneFileVolume 0 0 MODE_READ

/-- The sample volume after `vscreate("f")` and `vsopen("f", 2)`. -/
def modeTwoVolume : State := openState oneFileVolume 0 0 2

/-! ## Formatting, mounting, unmounting

The initialisers and the flush routines fill a local `char block[BLOCKSIZE]`
that C leaves uninitialised; its content on entry is a parameter `block` of the
function.  Where the routine calls `read_block` first, the content on entry is
overwritten and there is no such parameter. -/

/-- C `getSuperblock`. -/
def getSuperblock (s : State) : Option State :=
  match read_block s.disk SUPERBLOCK_START with
  | none => none
  | some block =>
    some { s with
      dataBlockCount := loadInt32 block 0
      totalBlockCount := loadInt32 block 4
      freeBlockCount := loadInt32 block 8
      fileCount := loadInt32 block 12 }

/-- C `setSuperblock`. -/
def setSuperblock (s : State) : Option State :=
  match read_block s.disk SUPERBLOCK_START with
  | none => none
  | some block =>
    match write_block s.disk (storeInt32 (storeInt32 block 8 s.freeBlockCount) 12 s.fileCount)
        SUPERBLOCK_START with
    | none => none
    | some d => some { s with disk := d }

/-- C `initializeSuperBlock`. -/
def initializeSuperBlock (d : Disk) (block : Block) (blockCount : Int) : Option Disk :=
  write_block d
    (storeInt32 (storeInt32 (storeInt32 (storeInt32 block 0 (blockCount - METADATA_BLOCK_SIZE))
      4 blockCount) 8 (blockCount - METADATA_BLOCK_SIZE)) 12 0)
    SUPERBLOCK_START

/-- A loop `for (j = from; j < from + cnt; j++) ((int *)(block + j * stride + off))[0] = v j;`. -/
def storeInts (v : Nat → Int) (stride off : Nat) : Nat → Nat → Block → Block
  | 0, _, block => block
  | cnt + 1, j, block => storeInts v stride off cnt (j + 1) (storeInt32 block (j * stride + off) (v j))

/-- The loop of `initializeFatBlocks` and of `flushCachedFatTable`, `cnt` rounds
from FAT block `i`: the 512 entries `v (i * 512 + j)` are stored in the local
array, which is written to block `FAT_BLOCK_START + i` and goes on to the next
round. -/
def writeFatLoop (v : Nat → Int) : Nat → Nat → Disk → Block → Option (Disk × Block)
  | 0, _, d, block => some (d, block)
  | cnt + 1, i, d, block =>
    let block1 := storeInts (fun j => v (i * FAT_ENTRY_PER_BLOCK + j)) FAT_ENTRY_SIZE 0
      FAT_ENTRY_PER_BLOCK 0 block
    match write_block d block1 (FAT_BLOCK_START + (i : Int)) with
    | none => none
    | some d1 => writeFatLoop v cnt (i + 1) d1 block1

/-- C `initializeFatBlocks`: entry `k` is `NOT_USED_FLAG` when
`k < totalBlockCount` and `EOF_FLAG` otherwise, then the entries of the
metadata blocks are set to `EOF_FLAG` in the first FAT block. -/
def initializeFatBlocks (d : Disk) (block : Block) (totalBlockCount : Int) : Option Disk :=
  match writeFatLoop (fun k => if (k : Int) < totalBlockCount then NOT_USED_FLAG else EOF_FLAG)
      FAT_BLOCK_COUNT 0 d block with
  | none => none
  | some (d1, _) =>
    match read_block d1 FAT_BLOCK_START with
    | none => none
    | some block1 =>
      write_block d1 (storeInts (fun _ => EOF_FLAG) FAT_ENTRY_SIZE 0 METADATA_BLOCK_SIZE 0 block1)
        FAT_BLOCK_START

/-- A loop `for (i = from; i < from + cnt; i++) write_block(block, first + i);`. -/
def writeBlocks (block : Block) (first : Int) : Nat → Nat → Disk → Option Disk
  | 0, _, d => some d
  | cnt + 1, i, d =>
    match write_block d block (first + (i : Int)) with
    | none => none
    | some d1 => writeBlocks block first cnt (i + 1) d1

/-- C `initializeRootDirectoryBlocks`. -/
def initializeRootDirectoryBlocks (d : Disk) (block : Block) : Option Disk :=
  writeBlocks
    (storeInts (fun _ => NOT_USED_FLAG) DIR_ENTRY_SIZE (MAX_FILENAME_LENGTH + 8)
      DIR_ENTRY_PER_BLOCK 0 block)
    ROOT_DIR_START ROOT_DIR_COUNT 0 d

/-- C `vsformat`: the container that `dd` leaves holds zero bytes only; `sb`,
`fb`, `db` are the local arrays of the three initialisers on entry.  The shift
`1 << m` is defined for `m < 31`. -/
def vsformat (m : Nat) (sb fb db : Block) : Option (Int × Disk) :=
  if m < 31 then
    let size : Int := 2 ^ m
    let count := size.tdiv BLOCKSIZE
    match initializeSuperBlock (fun _ _ => 0) sb count with
    | none => none
    | some d1 =>
      match initializeFatBlocks d1 fb count with
      | none => none
      | some d2 =>
        match initializeRootDirectoryBlocks d2 db with
        | none => none
        | some d3 => some (0, d3)
  else none

/-- The inner loop of `cacheFatTable`: `cnt` rounds from entry `j` of FAT block `i`. -/
def cacheFatInner (block : Block) (i : Nat) : Nat → Nat → (Nat → Int) → (Nat → Int)
  | 0, _, fat => fat
  | cnt + 1, j, fat =>
    cacheFatInner block i cnt (j + 1)
      (Function.update fat (i * FAT_ENTRY_PER_BLOCK + j) (loadInt32 block (j * FAT_ENTRY_SIZE)))

/-- The outer loop of `cacheFatTable`: `cnt` rounds from FAT block `i`. -/
def cacheFatLoop : Nat → Nat → State → Option State
  | 0, _, s => some s
  | cnt + 1, i, s =>
    match read_block s.disk (FAT_BLOCK_START + (i : Int)) with
    | none => none
    | some block =>
      cacheFatLoop cnt (i + 1)
        { s with cachedFatTable := cacheFatInner block i FAT_ENTRY_PER_BLOCK 0 s.cachedFatTable }

/-- C `cacheFatTable`. -/
def cacheFatTable (s : State) : Option State := cacheFatLoop FAT_BLOCK_COUNT 0 s

/-- The inner loop of `cacheRootDirectory`: `cnt` rounds from entry `j` of
directory block `i`. -/
def cacheDirInner (block : Block) (i : Nat) : Nat → Nat → (Nat → dirEntry) → (Nat → dirEntry)
  | 0, _, dir => dir
  | cnt + 1, j, dir =>
    cacheDirInner block i cnt (j + 1)
      (Function.update dir (i * DIR_ENTRY_PER_BLOCK + j)
        { filename := memcpyName (fun k => block (j * DIR_ENTRY_SIZE + k))
          size := loadInt32 block (j * DIR_ENTRY_SIZE + MAX_FILENAME_LENGTH)
          startBlock := loadInt32 block (j * DIR_ENTRY_SIZE + MAX_FILENAME_LENGTH + 4)
          allocated := loadInt32 block (j * DIR_ENTRY_SIZE + MAX_FILENAME_LENGTH + 8) })

/-- The outer loop of `cacheRootDirectory`: `cnt` rounds from directory block `i`. -/
def cacheDirLoop : Nat → Nat → State → Option State
  | 0, _, s => some s
  | cnt + 1, i, s =>
    match read_block s.disk (ROOT_DIR_START + (i : Int)) with
    | none => none
    | some block =>
      cacheDirLoop cnt (i + 1)
        { s with
          cachedRootDirectory := cacheDirInner block i DIR_ENTRY_PER_BLOCK 0 s.cachedRootDirectory }

/-- C `cacheRootDirectory`. -/
def cacheRootDirectory (s : State) : Option State := cacheDirLoop ROOT_DIR_COUNT 0 s

/-- The loop of `clearOpenFileTable`: `cnt` rounds from slot `i`. -/
def clearLoop : Nat → Nat → State → State
  | 0, _, s => s
  | cnt + 1, i, s =>
    clearLoop cnt (i + 1)
      { s with
        openFileTable := Function.update s.openFileTable i { s.openFileTable i with dirBlock := -1 }
        openFileCount := 0 }

/-- C `clearOpenFileTable`. -/
def clearOpenFileTable (s : State) : State := clearLoop MAX_NOF_OPEN_FILES 0 s

/-- C `vsmount`: `s` holds the globals as the process has them, `image` is the
content of the container that is opened. -/
def vsmount (s : State) (image : Disk) : Option (Int × State) :=
  match getSuperblock { s with disk := image } with
  | none => none
  | some s1 =>
    match cacheFatTable s1 with
    | none => none
    | some s2 =>
      match cacheRootDirectory s2 with
      | none => none
      | some s3 => some (0, clearOpenFileTable s3)

/-- C `flushCachedFatTable`. -/
def flushCachedFatTable (s : State) (block : Block) : Option State :=
  match writeFatLoop s.cachedFatTable FAT_BLOCK_COUNT 0 s.disk block with
  | none => none
  | some (d, _) => some { s with disk := d }

/-- The inner loop of `flushCachedRootDirectory`: `cnt` rounds from entry `j`
of directory block `i`. -/
def flushDirInner (dir : Nat → dirEntry) (i : Nat) : Nat → Nat → Block → Block
  | 0, _, block => block
  | cnt + 1, j, block =>
    let tmpDirEntry := dir (i * DIR_ENTRY_PER_BLOCK + j)
    let entryStartOffset := j * DIR_ENTRY_SIZE
    flushDirInner dir i cnt (j + 1)
      (storeInt32
        (storeInt32
          (storeInt32 (storeName block entryStartOffset (nameBytes tmpDirEntry.filename))
            (entryStartOffset + MAX_FILENAME_LENGTH) tmpDirEntry.size)
          (entryStartOffset + MAX_FILENAME_LENGTH + 4) tmpDirEntry.startBlock)
        (entryStartOffset + MAX_FILENAME_LENGTH + 8) tmpDirEntry.allocated)

/-- The outer loop of `flushCachedRootDirectory`: `cnt` rounds from directory block `i`. -/
def flushDirLoop (dir : Nat → dirEntry) : Nat → Nat → Disk → Block → Option (Disk × Block)
  | 0, _, d, block => some (d, block)
  | cnt + 1, i, d, block =>
    let block1 := flushDirInner dir i DIR_ENTRY_PER_BLOCK 0 block
    match write_block d block1 (ROOT_DIR_START + (i : Int)) with
    | none => none
    | some d1 => flushDirLoop dir cnt (i + 1) d1 block1

/-- C `flushCachedRootDirectory`. -/
def flushCachedRootDirectory (s : State) (block : Block) : Option State :=
  match flushDirLoop s.cachedRootDirectory ROOT_DIR_COUNT 0 s.disk block with
  | none => none
  | some (d, _) => some { s with disk := d }

/-- The handle-closing loop of `vsumount`: `cnt` rounds from slot `i`. -/
def umountCloseLoop : Nat → Nat → State → Option State
  | 0, _, s => some s
  | cnt + 1, i, s =>
    if (s.openFileTable i).dirBlock > -1 then
      match vsclose s (i : Int) with
      | none => none
      | some (_, s1) => umountCloseLoop cnt (i + 1) s1
    else umountCloseLoop cnt (i + 1) s

/-- C `vsumount`; `fb` and `db` are the local arrays of `flushCachedFatTable` and
`flushCachedRootDirectory` on entry. -/
def vsumount (s : State) (fb db : Block) : Option (Int × State) :=
  match setSuperblock s with
  | none => none
  | some s1 =>
    match flushCachedFatTable s1 fb with
    | none => none
    | some s2 =>
      match flushCachedRootDirectory s2 db with
      | none => none
      | some s3 =>
        match umountCloseLoop MAX_NOF_OPEN_FILES 0 s3 with
        | none => none
        | some s4 => some (0, s4)

/-! ## Decoding the container -/

/-- FAT entry `i` as the container holds it (block `1 + i / 512`, offset `(i % 512) * 4`). -/
def fatOnDisk (d : Disk) (i : Nat) : Int := loadInt32 (d (1 + i / 512)) (i % 512 * 4)

/-- Directory entry `j` as the container holds it (block `33 + j / 16`,
offset `(j % 16) * 128`; name at +0, size at +30, start block at +34,
allocation flag at +38). -/
def dirOnDisk (d : Disk) (j : Nat) : dirEntry :=
  { filename := memcpyName (fun k => d (33 + j / 16) (j % 16 * 128 + k))
    size := loadInt32 (d (33 + j / 16)) (j % 16 * 128 + 30)
    startBlock := loadInt32 (d (33 + j / 16)) (j % 16 * 128 + 34)
    allocated := loadInt32 (d (33 + j / 16)) (j % 16 * 128 + 38) }

/-- Byte `r` (`r < 42`) of a directory entry as `allocateDirectoryEntry` and
`flushCachedRootDirectory` lay it out: the name, then size, start block and
allocation flag. -/
def entryByte (e : dirEntry) (r : Nat) : Nat :=
  if r < 30 then nameBytes e.filename r
  else if r < 34 then int32Byte e.size (r - 30)
  else if r < 38 then int32Byte e.startBlock (r - 34)
  else int32Byte e.allocated (r - 38)

/-- The state after `vsmount` has loaded the container `d` over the globals `g`. -/
def mountState (g : State) (d : Disk) : State :=
  { disk := d
    dataBlockCount := loadInt32 (d 0) 0
    totalBlockCount := loadInt32 (d 0) 4
    freeBlockCount := loadInt32 (d 0) 8
    fileCount := loadInt32 (d 0) 12
    openFileCount := 0
    openFileTable := fun i => if i < 16 then { g.openFileTable i with dirBlock := -1 }
      else g.openFileTable i
    cachedFatTable := fun i => if i < 16384 then fatOnDisk d i else g.cachedFatTable i
    cachedRootDirectory := fun j => if j < 128 then dirOnDisk d j else g.cachedRootDirectory j }

/-- The FAT of a freshly formatted volume of `total` blocks: `EOF_FLAG` for
the 41 metadata blocks and for indices from `total` on, `NOT_USED_FLAG` between. -/
def formatFat (total : Int) (i : Nat) : Int :=
  if i < 41 then -1 else if (i : Int) < total then 0 else -1

/-! ## Reachable states and their invariant -/

/-- Blocks held by the files of the directory, with `max(1, ceil(size / 2048))`
blocks for a file: an empty file holds the block that `vscreate` gives it. -/
def usedBlocks (dir : Nat → dirEntry) : Int :=
  ∑ j in Finset.range DIR_ENTRY_COUNT,
    if (dir j).allocated = USED_FLAG then blocksFor (dir j).size else 0

/-- The sum of `ceil(size / 2048)` over the allocated directory entries, the
count of the specification. -/
def ceilBlocks (dir : Nat → dirEntry) : Int :=
  ∑ j in Finset.range DIR_ENTRY_COUNT,
    if (dir j).allocated = USED_FLAG then ((dir j).size + 2047) / 2048 else 0

/-- The invariant of the mounted volume; `ch j` is the FAT chain of the file in
directory slot `j`. -/
structure WF (s : State) (ch : Nat → List Nat) : Prop where
  flags : ∀ j, j < 128 →
    (s.cachedRootDirectory j).allocated = 0 ∨ (s.cachedRootDirectory j).allocated = 1
  handles : ∀ f, f < 16 → (s.openFileTable f).dirBlock = -1 ∨
    (0 ≤ (s.openFileTable f).dirBlock ∧
      ((s.openFileTable f).cachedRootDirIndex = -1 ∨
        (0 ≤ (s.openFileTable f).cachedRootDirIndex ∧
          (s.openFileTable f).cachedRootDirIndex.toNat < 128 ∧
          (s.cachedRootDirectory (s.openFileTable f).cachedRootDirIndex.toNat).allocated = 1)))
  chain : ∀ j, j < 128 → (s.cachedRootDirectory j).allocated = 1 →
    IsChain s.cachedFatTable (s.cachedRootDirectory j).startBlock (ch j)
  size : ∀ j, j < 128 → (s.cachedRootDirectory j).allocated = 1 →
    0 ≤ (s.cachedRootDirectory j).size ∧
      ((ch j).length : Int) = blocksFor (s.cachedRootDirectory j).size
  disjoint : ∀ i j, i < 128 → j < 128 → i ≠ j → (s.cachedRootDirectory i).allocated = 1 →
    (s.cachedRootDirectory j).allocated = 1 → ∀ x, x ∈ ch i → x ∉ ch j
  free : s.freeBlockCount = (freeCount s.cachedFatTable : Int)
  metadata : ∀ i, i < 41 → s.cachedFatTable i ≠ 0
  used : usedBlocks s.cachedRootDirectory + s.freeBlockCount + 41 = s.totalBlockCount
  files : s.fileCount = (allocatedCount s.cachedRootDirectory : Int)
  data : s.dataBlockCount = s.totalBlockCount - 41
  nul : ∀ j, j < 128 → (s.cachedRootDirectory j).allocated = 1 →
    NulTerminated (nameBytes (s.cachedRootDirectory j).filename)
  distinct : ∀ i j, i < 128 → j < 128 → i ≠ j → (s.cachedRootDirectory i).allocated = 1 →
    (s.cachedRootDirectory j).allocated = 1 →
    strcmp0 (nameBytes (s.cachedRootDirectory i).filename)
      (nameBytes (s.cachedRootDirectory j).filename) = some false

/-- A volume right after `vsformat` with `18 ≤ m ≤ 23` and `vsmount`. -/
def Fresh (s : State) : Prop :=
  ∃ (m : Nat) (g : State) (sb fb db : Block) (d : Disk),
    18 ≤ m ∧ m ≤ 23 ∧ vsformat m sb fb db = some (0, d) ∧ vsmount g d = some (0, s)

/-- One call of `vscreate`, `vsopen`, `vsclose`, `vsread`, `vsappend` or
`vsdelete` that stays within defined behaviour, whatever it returns; file
names are strings of at most 29 characters. -/
def Step (s s1 : State) : Prop :=
  (∃ (name : Bytes) (r : Int), NulTerminated name ∧ vscreate s name = some (r, s1))
  ∨ (∃ (name : Bytes) (mode r : Int), NulTerminated name ∧ vsopen s name mode = some (r, s1))
  ∨ (∃ (fd r : Int), vsclose s fd = some (r, s1))
  ∨ (∃ (fd n r : Int) (buf buf1 : Bytes), vsread s fd buf n = some (r, s1, buf1))
  ∨ (∃ (fd n r : Int) (buf : Bytes), vsappend s fd buf n = some (r, s1))
  ∨ (∃ (name : Bytes) (r : Int), NulTerminated name ∧ vsdelete s name = some (r, s1))

/-- The states reached from a freshly formatted and mounted volume by any
sequence of such calls. -/
inductive Reachable : State → Prop
  | fresh (s : State) : Fresh s → Reachable s
  | step (s s1 : State) : Reachable s → Step s s1 → Reachable s1

/-! ## The FAT and the container in reachable states -/

/-- The invariant `WF` together with the shape of the FAT (metadata entries and
entries past the end of the volume hold `EOF_FLAG`, every chain stays inside
the volume, every entry in use lies on the chain of a file) and the agreement
of the container with the two caches. -/
structure FatWF (s : State) (ch : Nat → List Nat) : Prop where
  wf : WF s ch
  low : ∀ i, i < 41 → s.cachedFatTable i = EOF_FLAG
  high : ∀ i : Nat, i < 16384 → s.totalBlockCount ≤ (i : Int) → s.cachedFatTable i = EOF_FLAG
  inside : ∀ j, j < 128 → (s.cachedRootDirectory j).allocated = 1 →
    ∀ x ∈ ch j, (x : Int) < s.totalBlockCount
  cover : ∀ i : Nat, i < 16384 → 41 ≤ i → (i : Int) < s.totalBlockCount →
    s.cachedFatTable i ≠ NOT_USED_FLAG →
    ∃ j, j < 128 ∧ (s.cachedRootDirectory j).allocated = 1 ∧ i ∈ ch j
  fatDisk : ∀ i, i < 16384 → fatOnDisk s.disk i = s.cachedFatTable i
  dirDisk : ∀ j, j < 128 → dirOnDisk s.disk j = s.cachedRootDirectory j

/-! # Lemmas and theorems -/

theorem nameBytes_memcpyName (src : Bytes) (i : Nat) (h : i < 30) :
    nameBytes (memcpyName src) i = src i := by
  simp [nameBytes, memcpyName, h]

theorem memcpyName_nameBytes (f : Fin 30 → Nat) : memcpyName (nameBytes f) = f := by
  funext i
  simp [nameBytes, memcpyName]

theorem strcmpAux_comm (a b : Bytes) (fuel i : Nat) :
    strcmpAux a b fuel i = strcmpAux b a fuel i := by
  induction fuel generalizing i with
  | zero => rfl
  | succ f ih =>
    simp only [strcmpAux]
    by_cases h : a i = b i
    · rw [ih (i + 1)]; simp [h]
    · have h2 : ¬ b i = a i := fun e => h e.symm
      simp [h, h2]

theorem strcmp0_comm (a b : Bytes) : strcmp0 a b = strcmp0 b a :=
  strcmpAux_comm a b _ 0

theorem strcmpAux_congr (a c b : Bytes) (fuel i : Nat)
    (h : ∀ k, i ≤ k → k < i + fuel → a k = c k) :
    strcmpAux a b fuel i = strcmpAux c b fuel i := by
  induction fuel generalizing i with
  | zero => rfl
  | succ f ih =>
    simp only [strcmpAux]
    rw [h i (le_refl _) (by omega), ih (i + 1) (fun k h1 h2 => h k (by omega) (by omega))]

theorem strcmpAux_isSome (a b : Bytes) (fuel i : Nat)
    (h : ∃ k, i ≤ k ∧ k < i + fuel ∧ b k = 0) :
    ∃ r, strcmpAux a b fuel i = some r := by
  induction fuel generalizing i with
  | zero => obtain ⟨k, h1, h2, _⟩ := h; omega
  | succ f ih =>
    simp only [strcmpAux]
    by_cases h1 : a i = b i
    · by_cases h2 : a i = 0
      · exact ⟨true, by rw [if_neg (not_not.mpr h1), if_pos h2]⟩
      · obtain ⟨k, hk1, hk2, hk3⟩ := h
        have hki : k ≠ i := by
          intro e; subst e; exact h2 (h1.trans hk3)
        obtain ⟨r, hr⟩ := ih (i + 1) ⟨k, by omega, by omega, hk3⟩
        exact ⟨r, by rw [if_neg (not_not.mpr h1), if_neg h2, hr]⟩
    · exact ⟨false, by rw [if_pos h1]⟩

theorem strcmp0_isSome (a b : Bytes) (h : NulTerminated b) : ∃ r, strcmp0 a b = some r := by
  obtain ⟨k, hk, hz⟩ := h
  exact strcmpAux_isSome a b 30 0 ⟨k, by omega, by omega, hz⟩

theorem strcmpAux_self (a : Bytes) (fuel i : Nat)
    (h : ∃ k, i ≤ k ∧ k < i + fuel ∧ a k = 0) : strcmpAux a a fuel i = some true := by
  induction fuel generalizing i with
  | zero => obtain ⟨k, h1, h2, _⟩ := h; omega
  | succ f ih =>
    simp only [strcmpAux]
    by_cases h2 : a i = 0
    · simp [h2]
    · obtain ⟨k, hk1, hk2, hk3⟩ := h
      have hki : k ≠ i := by
        intro e; subst e; exact h2 hk3
      simp [h2, ih (i + 1) ⟨k, by omega, by omega, hk3⟩]

theorem strcmp0_memcpyName (name : Bytes) (h : NulTerminated name) :
    strcmp0 (nameBytes (memcpyName name)) name = some true := by
  obtain ⟨k, hk, hz⟩ := h
  unfold strcmp0
  rw [strcmpAux_congr (nameBytes (memcpyName name)) name name 30 0
    (fun k _ h2 => nameBytes_memcpyName name k (by simpa using h2))]
  exact strcmpAux_self name 30 0 ⟨k, by omega, by omega, hz⟩

/-! scans -/

theorem scan_some (p : Nat → Bool) (cnt i c : Nat) (h : scan p cnt i = some c) :
    i ≤ c ∧ c < i + cnt ∧ p c = true ∧ ∀ k, i ≤ k → k < c → p k = false := by
  induction cnt generalizing i with
  | zero => simp [scan] at h
  | succ n ih =>
    simp only [scan] at h
    by_cases hp : p i = true
    · simp [hp] at h
      subst h
      exact ⟨le_refl _, by omega, hp, fun k h1 h2 => by omega⟩
    · simp [hp] at h
      obtain ⟨h1, h2, h3, h4⟩ := ih (i + 1) h
      refine ⟨by omega, by omega, h3, fun k hk1 hk2 => ?_⟩
      by_cases e : k = i
      · subst e; simpa using hp
      · exact h4 k (by omega) hk2

theorem scan_none (p : Nat → Bool) (cnt i : Nat) (h : scan p cnt i = none) :
    ∀ k, i ≤ k → k < i + cnt → p k = false := by
  induction cnt generalizing i with
  | zero => intro k h1 h2; omega
  | succ n ih =>
    simp only [scan] at h
    by_cases hp : p i = true
    · simp [hp] at h
    · simp [hp] at h
      intro k h1 h2
      by_cases e : k = i
      · subst e; simpa using hp
      · exact ih (i + 1) h k (by omega) (by omega)

theorem scan_of_least (p : Nat → Bool) (cnt i c : Nat) (h1 : i ≤ c) (h2 : c < i + cnt)
    (h3 : p c = true) (h4 : ∀ k, i ≤ k → k < c → p k = false) : scan p cnt i = some c := by
  cases hs : scan p cnt i with
  | none => have := scan_none p cnt i hs c h1 h2; simp [h3] at this
  | some d =>
    obtain ⟨d1, d2, d3, d4⟩ := scan_some p cnt i d hs
    have : d = c := by
      rcases Nat.lt_trichotomy d c with hlt | heq | hgt
      · have := h4 d d1 hlt; simp [d3] at this
      · exact heq
      · have := d4 c h1 hgt; simp [h3] at this
    rw [this]

theorem scanRows_eq_scan (p : Nat → Bool) (cols rows i : Nat) :
    scanRows p cols rows i = scan p (rows * cols) (i * cols) := by
  induction rows generalizing i with
  | zero => simp [scanRows, scan]
  | succ r ih =>
    simp only [scanRows]
    cases hs : scan p cols (i * cols) with
    | some c =>
      obtain ⟨c1, c2, c3, c4⟩ := scan_some p cols _ c hs
      simp only
      symm
      apply scan_of_least p _ _ c c1 _ c3 c4
      have : (r + 1) * cols = r * cols + cols := by ring
      omega
    | none =>
      simp only
      rw [ih (i + 1)]
      have hn := scan_none p cols _ hs
      cases hs2 : scan p (r * cols) ((i + 1) * cols) with
      | none =>
        have hn2 := scan_none p _ _ hs2
        cases hs3 : scan p ((r + 1) * cols) (i * cols) with
        | none => rfl
        | some d =>
          obtain ⟨d1, d2, d3, d4⟩ := scan_some p _ _ d hs3
          have e1 : (r + 1) * cols = r * cols + cols := by ring
          have e2 : (i + 1) * cols = i * cols + cols := by ring
          by_cases hd : d < i * cols + cols
          · have := hn d d1 hd; simp [d3] at this
          · have := hn2 d (by omega) (by omega); simp [d3] at this
      | some c =>
        obtain ⟨c1, c2, c3, c4⟩ := scan_some p _ _ c hs2
        have e1 : (r + 1) * cols = r * cols + cols := by ring
        have e2 : (i + 1) * cols = i * cols + cols := by ring
        symm
        apply scan_of_least p _ _ c (by omega) (by omega) c3
        intro k hk1 hk2
        by_cases hd : k < i * cols + cols
        · exact hn k hk1 hd
        · exact c4 k (by omega) hk2

theorem tdiv_512 (i : Nat) : (i : Int).tdiv 512 = ((i / 512 : Nat) : Int) := by
  rw [Int.tdiv_eq_ediv (by omega) (by omega)]; omega

theorem tmod_512 (i : Nat) : (i : Int).tmod 512 = ((i % 512 : Nat) : Int) := by
  rw [Int.tmod_eq_emod (by omega) (by omega)]; omega

theorem tdiv_16 (i : Nat) : (i : Int).tdiv 16 = ((i / 16 : Nat) : Int) := by
  rw [Int.tdiv_eq_ediv (by omega) (by omega)]; omega

theorem tmod_16 (i : Nat) : (i : Int).tmod 16 = ((i % 16 : Nat) : Int) := by
  rw [Int.tmod_eq_emod (by omega) (by omega)]; omega

theorem allocateBlockFatEntry_eq (s : State) (i : Nat) (v : Int) (hi : i < 16384) :
    allocateBlockFatEntry s (i : Int) v = some { s with
      cachedFatTable := Function.update s.cachedFatTable i v
      disk := fatDiskWrite s.disk i v } := by
  have h1 := tdiv_512 i
  have h2 := tmod_512 i
  have h3 : (0 : Int) ≤ 1 + ((i / 512 : Nat) : Int) := by omega
  have h4 : (1 + ((i / 512 : Nat) : Int)).toNat = 1 + i / 512 := by omega
  simp only [allocateBlockFatEntry, read_block, write_block, fatDiskWrite, FAT_ENTRY_COUNT,
    FAT_ENTRY_PER_BLOCK, FAT_BLOCK_START, FAT_ENTRY_SIZE, h1, h2, h3, h4, Int.toNat_ofNat,
    Nat.cast_ofNat, Int.ofNat_nonneg, hi, true_and, and_self, if_true]

theorem allocateBlockFatEntry_none (s : State) (i v : Int) (hi : ¬ (0 ≤ i ∧ i < 16384)) :
    allocateBlockFatEntry s i v = none := by
  have h : ¬ (0 ≤ i ∧ i.toNat < 16384) := by omega
  simp only [allocateBlockFatEntry, FAT_ENTRY_COUNT, h, if_false]

theorem allocateDirectoryEntry_eq (s : State) (j : Nat) (name : Bytes) (size start alloc : Int)
    (hj : j < 128) :
    allocateDirectoryEntry s (j : Int) name size start alloc = some { s with
      cachedRootDirectory := Function.update s.cachedRootDirectory j
        { filename := memcpyName name, size := size, startBlock := start, allocated := alloc }
      disk := dirDiskWrite s.disk j name size start alloc } := by
  have h1 := tdiv_16 j
  have h2 := tmod_16 j
  have h3 : (0 : Int) ≤ ((j / 16 : Nat) : Int) + 33 := by omega
  have h4 : (((j / 16 : Nat) : Int) + 33).toNat = 33 + j / 16 := by omega
  simp only [allocateDirectoryEntry, read_block, write_block, dirDiskWrite, DIR_ENTRY_COUNT,
    DIR_ENTRY_PER_BLOCK, ROOT_DIR_START, DIR_ENTRY_SIZE, MAX_FILENAME_LENGTH, h1, h2, h3, h4,
    Int.toNat_ofNat, Nat.cast_ofNat, Int.ofNat_nonneg, hj, true_and, and_self, if_true]

theorem deallocateDirectoryEntry_eq (s : State) (j : Nat) (hj : j < 128) :
    deallocateDirectoryEntry s (j : Int) = some { s with
      cachedRootDirectory := Function.update s.cachedRootDirectory j
        { s.cachedRootDirectory j with allocated := 0 }
      disk := dirDiskClear s.disk j } := by
  have h1 := tdiv_16 j
  have h2 := tmod_16 j
  have h3 : (0 : Int) ≤ 33 + ((j / 16 : Nat) : Int) := by omega
  have h4 : (33 + ((j / 16 : Nat) : Int)).toNat = 33 + j / 16 := by omega
  simp only [deallocateDirectoryEntry, read_block, write_block, dirDiskClear, DIR_ENTRY_COUNT,
    DIR_ENTRY_PER_BLOCK, ROOT_DIR_START, DIR_ENTRY_SIZE, MAX_FILENAME_LENGTH, NOT_USED_FLAG,
    h1, h2, h3, h4, Int.toNat_ofNat, Nat.cast_ofNat, Int.ofNat_nonneg, hj, true_and, and_self, if_true]

theorem deallocateDirectoryEntry_none (s : State) (j : Int) (hj : ¬ (0 ≤ j ∧ j < 128)) :
    deallocateDirectoryEntry s j = none := by
  have h : ¬ (0 ≤ j ∧ j.toNat < 128) := by omega
  simp only [deallocateDirectoryEntry, DIR_ENTRY_COUNT, h, if_false]

/-! find functions -/

theorem findAvailableBlockIndex_eq (s : State) (b : Nat) (hb : b < 16384)
    (hz : s.cachedFatTable b = 0) (hl : ∀ k, k < b → s.cachedFatTable k ≠ 0) :
    findAvailableBlockIndex s = (b : Int) := by
  unfold findAvailableBlockIndex
  rw [scanRows_eq_scan, scan_of_least _ _ _ b (by simp) (by simpa using hb) (by simpa using hz)
    (fun k _ hk => by simpa using hl k hk)]

theorem findAvailableBlockIndex_none (s : State) (h : ∀ k, k < 16384 → s.cachedFatTable k ≠ 0) :
    findAvailableBlockIndex s = -1 := by
  unfold findAvailableBlockIndex
  rw [scanRows_eq_scan]
  cases hs : scan (fun c => decide (s.cachedFatTable c = NOT_USED_FLAG))
      (FAT_BLOCK_COUNT * FAT_ENTRY_PER_BLOCK) (0 * FAT_ENTRY_PER_BLOCK) with
  | none => rfl
  | some c =>
    obtain ⟨_, c2, c3, _⟩ := scan_some _ _ _ c hs
    have := h c (by simpa using c2)
    simp at c3
    exact absurd c3 this

theorem findAvailableDirectoryEntryIndex_eq (s : State) (j : Nat) (hj : j < 128)
    (hz : (s.cachedRootDirectory j).allocated = 0)
    (hl : ∀ k, k < j → (s.cachedRootDirectory k).allocated ≠ 0) :
    findAvailableDirectoryEntryIndex s = (j : Int) := by
  unfold findAvailableDirectoryEntryIndex
  rw [scanRows_eq_scan, scan_of_least _ _ _ j (by simp) (by simpa using hj) (by simpa using hz)
    (fun k _ hk => by simpa using hl k hk)]

theorem findAvailableDirectoryEntryIndex_none (s : State)
    (h : ∀ k, k < 128 → (s.cachedRootDirectory k).allocated ≠ 0) :
    findAvailableDirectoryEntryIndex s = -1 := by
  unfold findAvailableDirectoryEntryIndex
  rw [scanRows_eq_scan]
  cases hs : scan (fun c => decide ((s.cachedRootDirectory c).allocated = NOT_USED_FLAG))
      (ROOT_DIR_COUNT * DIR_ENTRY_PER_BLOCK) (0 * DIR_ENTRY_PER_BLOCK) with
  | none => rfl
  | some c =>
    obtain ⟨_, c2, c3, _⟩ := scan_some _ _ _ c hs
    have := h c (by simpa using c2)
    simp at c3
    exact absurd c3 this

theorem findAvailableOpenFileTableIndex_eq (s : State) (f : Nat) (hf : f < 16)
    (hz : (s.openFileTable f).dirBlock = -1)
    (hl : ∀ k, k < f → (s.openFileTable k).dirBlock ≠ -1) :
    findAvailableOpenFileTableIndex s = (f : Int) := by
  unfold findAvailableOpenFileTableIndex
  rw [scan_of_least _ _ _ f (by simp) (by simpa using hf) (by simpa using hz)
    (fun k _ hk => by simpa using hl k hk)]

theorem findAvailableOpenFileTableIndex_none (s : State)
    (h : ∀ k, k < 16 → (s.openFileTable k).dirBlock ≠ -1) :
    findAvailableOpenFileTableIndex s = -1 := by
  unfold findAvailableOpenFileTableIndex
  cases hs : scan (fun i => decide ((s.openFileTable i).dirBlock = -1)) MAX_NOF_OPEN_FILES 0 with
  | none => rfl
  | some c =>
    obtain ⟨_, c2, c3, _⟩ := scan_some _ _ _ c hs
    have := h c (by simpa using c2)
    simp at c3
    exact absurd c3 this

/-- A least index below `n` with a decidable property, when one exists. -/
theorem exists_least (p : Nat → Prop) [DecidablePred p] (n : Nat) (h : ∃ k, k < n ∧ p k) :
    ∃ b, b < n ∧ p b ∧ ∀ k, k < b → ¬ p k := by
  have h2 : ∃ k, k < n ∧ p k := h
  refine ⟨Nat.find h2, (Nat.find_spec h2).1, (Nat.find_spec h2).2, fun k hk hp => ?_⟩
  exact Nat.find_min h2 hk ⟨lt_trans hk (Nat.find_spec h2).1, hp⟩

/-! name loops -/

theorem createDupLoop_false (s : State) (name : Bytes) (hn : NulTerminated name) (cnt i : Nat)
    (h : ∀ k, i ≤ k → k < i + cnt → ¬ HasName s k name) :
    createDupLoop s name cnt i = some false := by
  induction cnt generalizing i with
  | zero => rfl
  | succ n ih =>
    simp only [createDupLoop]
    have hrec := ih (i + 1) (fun k h1 h2 => h k (by omega) (by omega))
    by_cases ha : (s.cachedRootDirectory i).allocated = USED_FLAG
    · rw [if_pos ha]
      obtain ⟨r, hr⟩ := strcmp0_isSome (nameBytes (s.cachedRootDirectory i).filename) name hn
      cases r with
      | true => exact absurd ⟨ha, hr⟩ (h i (le_refl _) (by omega))
      | false => rw [hr]; exact hrec
    · rw [if_neg ha]; exact hrec

theorem createDupLoop_true (s : State) (name : Bytes) (hn : NulTerminated name) (cnt i j : Nat)
    (h1 : i ≤ j) (h2 : j < i + cnt) (h : HasName s j name) :
    createDupLoop s name cnt i = some true := by
  induction cnt generalizing i with
  | zero => omega
  | succ n ih =>
    simp only [createDupLoop]
    by_cases e : j = i
    · subst e
      rw [if_pos h.1, h.2]
    · have hrec := ih (i + 1) (by omega) (by omega)
      by_cases ha : (s.cachedRootDirectory i).allocated = USED_FLAG
      · rw [if_pos ha]
        obtain ⟨r, hr⟩ := strcmp0_isSome (nameBytes (s.cachedRootDirectory i).filename) name hn
        cases r with
        | true => rw [hr]
        | false => rw [hr]; exact hrec
      · rw [if_neg ha]; exact hrec

theorem findDirLoop_none (s : State) (name : Bytes) (hn : NulTerminated name) (cnt i : Nat)
    (h : ∀ k, i ≤ k → k < i + cnt → ¬ HasName s k name) :
    findDirLoop s name cnt i = some (-1) := by
  induction cnt generalizing i with
  | zero => rfl
  | succ n ih =>
    simp only [findDirLoop]
    have hrec := ih (i + 1) (fun k h1 h2 => h k (by omega) (by omega))
    by_cases ha : (s.cachedRootDirectory i).allocated = USED_FLAG
    · rw [if_pos ha, strcmp0_comm]
      obtain ⟨r, hr⟩ := strcmp0_isSome (nameBytes (s.cachedRootDirectory i).filename) name hn
      cases r with
      | true => exact absurd ⟨ha, hr⟩ (h i (le_refl _) (by omega))
      | false => rw [hr]; exact hrec
    · rw [if_neg ha]; exact hrec

theorem findDirLoop_some (s : State) (name : Bytes) (hn : NulTerminated name) (cnt i j : Nat)
    (h1 : i ≤ j) (h2 : j < i + cnt) (h : HasName s j name)
    (hl : ∀ k, i ≤ k → k < j → ¬ HasName s k name) :
    findDirLoop s name cnt i = some (j : Int) := by
  induction cnt generalizing i with
  | zero => omega
  | succ n ih =>
    simp only [findDirLoop]
    by_cases e : j = i
    · subst e
      rw [if_pos h.1, strcmp0_comm, h.2]
    · have hrec := ih (i + 1) (by omega) (by omega) (fun k k1 k2 => hl k (by omega) k2)
      by_cases ha : (s.cachedRootDirectory i).allocated = USED_FLAG
      · rw [if_pos ha, strcmp0_comm]
        obtain ⟨r, hr⟩ := strcmp0_isSome (nameBytes (s.cachedRootDirectory i).filename) name hn
        cases r with
        | true => exact absurd ⟨ha, hr⟩ (hl i (le_refl _) (by omega))
        | false => rw [hr]; exact hrec
      · rw [if_neg ha]; exact hrec

theorem allocateDirectoryEntry_none (s : State) (j : Int) (name : Bytes) (size start alloc : Int)
    (hj : ¬ (0 ≤ j ∧ j < 128)) : allocateDirectoryEntry s j name size start alloc = none := by
  have h : ¬ (0 ≤ j ∧ j.toNat < 128) := by omega
  simp only [allocateDirectoryEntry, DIR_ENTRY_COUNT, h, if_false]

theorem vscreate_eq (s : State) (name : Bytes) (b j : Nat) (hn : NulTerminated name)
    (hfc : s.fileCount ≠ 128) (hno : ∀ k, k < 128 → ¬ HasName s k name)
    (hb : b < 16384) (hbz : s.cachedFatTable b = 0) (hbl : ∀ k, k < b → s.cachedFatTable k ≠ 0)
    (hj : j < 128) (hjz : (s.cachedRootDirectory j).allocated = 0)
    (hjl : ∀ k, k < j → (s.cachedRootDirectory k).allocated ≠ 0) :
    vscreate s name = some (0, createState s name b j) := by
  have h1 := createDupLoop_false s name hn 128 0 (fun k _ h2 => hno k (by omega))
  have h2 := findAvailableBlockIndex_eq s b hb hbz hbl
  have h3 := findAvailableDirectoryEntryIndex_eq s j hj hjz hjl
  have h4 : ¬ ((b : Int) = -1) := by omega
  have h5 : ¬ ((j : Int) = -1) := by omega
  unfold vscreate
  rw [if_neg (by simpa using hfc)]
  simp only [DIR_ENTRY_COUNT, h1, h2, h3, h4, h5, if_false, EOF_FLAG, USED_FLAG,
    allocateBlockFatEntry_eq s b (-1) hb, allocateDirectoryEntry_eq _ j name 0 b 1 hj]
  rfl

theorem vscreate_fail (s : State) (name : Bytes) (hn : NulTerminated name)
    (h : s.fileCount = 128 ∨ (∃ k, k < 128 ∧ HasName s k name)
      ∨ (∀ b, b < 16384 → s.cachedFatTable b ≠ 0)) :
    vscreate s name = some (-1, s) := by
  unfold vscreate
  by_cases hfc : s.fileCount = 128
  · rw [if_pos (by simpa using hfc)]
  · rw [if_neg (by simpa using hfc)]
    by_cases hd : ∃ k, k < 128 ∧ HasName s k name
    · obtain ⟨k, hk, hh⟩ := hd
      rw [createDupLoop_true s name hn 128 0 k (by omega) (by omega) hh]
    · rw [createDupLoop_false s name hn 128 0 (fun k _ h2 hh => hd ⟨k, by omega, hh⟩)]
      rcases h with h | h | h
      · exact absurd h hfc
      · exact absurd h hd
      · simp only [findAvailableBlockIndex_none s h, if_true]

theorem vscreate_inv (s s1 : State) (name : Bytes) (h : vscreate s name = some (0, s1)) :
    ∃ b j, b < 16384 ∧ j < 128 ∧ s1 = createState s name b j := by
  unfold vscreate at h
  split at h
  · simp at h
  · split at h
    · simp at h
    · simp at h
    · simp only at h
      split at h
      · simp at h
      · split at h
        · simp at h
        · rename_i hb hj
          by_cases hb2 : 0 ≤ findAvailableBlockIndex s ∧ findAvailableBlockIndex s < 16384
          · obtain ⟨b, hbe⟩ := Int.eq_ofNat_of_zero_le hb2.1
            rw [hbe] at hb2 h
            have hb3 : b < 16384 := by omega
            simp only [EOF_FLAG, USED_FLAG] at h
            rw [allocateBlockFatEntry_eq s b (-1) hb3] at h
            simp only at h
            by_cases hj2 : 0 ≤ findAvailableDirectoryEntryIndex s
                ∧ findAvailableDirectoryEntryIndex s < 128
            · obtain ⟨j, hje⟩ := Int.eq_ofNat_of_zero_le hj2.1
              rw [hje] at hj2 h
              have hj3 : j < 128 := by omega
              rw [allocateDirectoryEntry_eq _ j name 0 b 1 hj3] at h
              refine ⟨b, j, hb3, hj3, ?_⟩
              simp only [Option.some.injEq, Prod.mk.injEq, true_and] at h
              rw [← h]; rfl
            · rw [allocateDirectoryEntry_none _ _ _ _ _ _ hj2] at h
              simp at h
          · rw [allocateBlockFatEntry_none s _ _ hb2] at h
            simp at h

theorem createState_hasName (s : State) (name : Bytes) (b j : Nat) (hn : NulTerminated name) :
    HasName (createState s name b j) j name := by
  refine ⟨?_, ?_⟩
  · simp [createState]
  · simp only [createState, Function.update_same]
    exact strcmp0_memcpyName name hn

/-! ## Counting arguments -/

theorem exists_unallocated (dir : Nat → dirEntry)
    (hflags : ∀ i, i < 128 → (dir i).allocated = 0 ∨ (dir i).allocated = 1)
    (h : allocatedCount dir < 128) : ∃ j, j < 128 ∧ (dir j).allocated = 0 := by
  by_contra hc
  have hall : ∀ i ∈ Finset.range 128, (dir i).allocated = 1 := by
    intro i hi
    have hi2 : i < 128 := Finset.mem_range.mp hi
    rcases hflags i hi2 with h0 | h1
    · exact absurd ⟨i, hi2, h0⟩ hc
    · exact h1
  have : allocatedCount dir = 128 := by
    unfold allocatedCount
    simp only [DIR_ENTRY_COUNT, USED_FLAG]
    rw [Finset.filter_true_of_mem hall, Finset.card_range]
  omega

theorem exists_free_slot (oft : Nat → fileStruct) (h : inUseCount oft < 16) :
    ∃ f, f < 16 ∧ (oft f).dirBlock = -1 := by
  by_contra hc
  have hall : ∀ i ∈ Finset.range 16, (oft i).dirBlock ≠ -1 := by
    intro i hi h0
    exact hc ⟨i, Finset.mem_range.mp hi, h0⟩
  have : inUseCount oft = 16 := by
    unfold inUseCount
    simp only [MAX_NOF_OPEN_FILES]
    rw [Finset.filter_true_of_mem hall, Finset.card_range]
  omega

theorem exists_free_block (fat : Nat → Int) (h : 0 < freeCount fat) :
    ∃ b, b < 16384 ∧ fat b = 0 := by
  unfold freeCount at h
  obtain ⟨b, hb⟩ := Finset.card_pos.mp h
  simp only [FAT_ENTRY_COUNT, NOT_USED_FLAG, Finset.mem_filter, Finset.mem_range] at hb
  exact ⟨b, hb.1, hb.2⟩

/-! ## `vsopen`, `vsclose` -/

theorem openDupLoop_false (s : State) (name : Bytes) (hn : NulTerminated name)
    (hv : HandlesValid s) (cnt i : Nat) (hi : i + cnt ≤ 16)
    (h : ∀ k, i ≤ k → k < i + cnt → InUse s k → ¬ RefersTo s k name) :
    openDupLoop s name cnt i = some false := by
  induction cnt generalizing i with
  | zero => rfl
  | succ n ih =>
    simp only [openDupLoop]
    have hrec := ih (i + 1) (by omega) (fun k h1 h2 => h k (by omega) (by omega))
    rcases hv i (by simp only [MAX_NOF_OPEN_FILES]; omega) with h0 | ⟨h1, h2, h3⟩
    · rw [if_neg (by omega)]; exact hrec
    · simp only [DIR_ENTRY_COUNT] at h3
      rw [if_pos (by omega), if_pos ⟨h2, by simp only [DIR_ENTRY_COUNT]; omega⟩]
      obtain ⟨r, hr⟩ := strcmp0_isSome (nameBytes (s.cachedRootDirectory
        (s.openFileTable i).cachedRootDirIndex.toNat).filename) name hn
      cases r with
      | true => exact absurd hr (h i (le_refl _) (by omega) (by unfold InUse; omega))
      | false => rw [hr]; exact hrec

theorem openDupLoop_true (s : State) (name : Bytes) (hn : NulTerminated name)
    (hv : HandlesValid s) (cnt i j : Nat) (hi : i + cnt ≤ 16) (h1 : i ≤ j) (h2 : j < i + cnt)
    (hu : InUse s j) (hr : RefersTo s j name) :
    openDupLoop s name cnt i = some true := by
  induction cnt generalizing i with
  | zero => omega
  | succ n ih =>
    simp only [openDupLoop]
    rcases hv i (by simp only [MAX_NOF_OPEN_FILES]; omega) with h0 | ⟨k1, k2, k3⟩
    · have e : j ≠ i := by
        intro e; subst e; exact hu h0
      rw [if_neg (by omega)]; exact ih (i + 1) (by omega) (by omega) (by omega)
    · simp only [DIR_ENTRY_COUNT] at k3
      rw [if_pos (by omega), if_pos ⟨k2, by simp only [DIR_ENTRY_COUNT]; omega⟩]
      by_cases e : j = i
      · subst e
        unfold RefersTo at hr
        rw [hr]
      · obtain ⟨r, hr2⟩ := strcmp0_isSome (nameBytes (s.cachedRootDirectory
          (s.openFileTable i).cachedRootDirIndex.toNat).filename) name hn
        cases r with
        | true => rw [hr2]
        | false => rw [hr2]; exact ih (i + 1) (by omega) (by omega) (by omega)

theorem allocateOpenFileTableEntry_eq (s : State) (f : Nat) (d mode : Int) (hf : f < 16) :
    allocateOpenFileTableEntry s (f : Int) d mode = some (openState s f d mode) := by
  simp only [allocateOpenFileTableEntry, MAX_NOF_OPEN_FILES, DIR_ENTRY_PER_BLOCK, Int.toNat_ofNat,
    Int.ofNat_nonneg, hf, and_self, if_true, openState, Nat.cast_ofNat]

theorem vsopen_eq (s : State) (name : Bytes) (mode d : Int) (f : Nat) (hn : NulTerminated name)
    (hoc : s.openFileCount ≠ 16) (hv : HandlesValid s)
    (hno : ∀ k, k < 16 → InUse s k → ¬ RefersTo s k name)
    (hf : f < 16) (hfz : (s.openFileTable f).dirBlock = -1)
    (hfl : ∀ k, k < f → (s.openFileTable k).dirBlock ≠ -1)
    (hd : findDirectoryEntryIndexByFilename s name = some d) :
    vsopen s name mode = some ((f : Int), openState s f d mode) := by
  have h1 := openDupLoop_false s name hn hv 16 0 (by omega) (fun k _ h2 => hno k (by omega))
  have h2 := findAvailableOpenFileTableIndex_eq s f hf hfz hfl
  unfold vsopen
  rw [if_neg (by simpa using hoc)]
  simp only [MAX_NOF_OPEN_FILES, h1, h2, hd, allocateOpenFileTableEntry_eq s f d mode hf]

theorem vsopen_fail (s : State) (name : Bytes) (mode : Int) (hn : NulTerminated name)
    (hv : HandlesValid s)
    (h : s.openFileCount = 16 ∨ ∃ k, k < 16 ∧ InUse s k ∧ RefersTo s k name) :
    vsopen s name mode = some (-1, s) := by
  unfold vsopen
  by_cases hoc : s.openFileCount = 16
  · rw [if_pos (by simpa using hoc)]
  · rw [if_neg (by simpa using hoc)]
    rcases h with h | ⟨k, hk, hu, hr⟩
    · exact absurd h hoc
    · simp only [MAX_NOF_OPEN_FILES,
        openDupLoop_true s name hn hv 16 0 k (by omega) (by omega) (by omega) hu hr]

theorem vsclose_eq (s : State) (f : Nat) (hf : f < 16) (hu : (s.openFileTable f).dirBlock ≠ -1) :
    vsclose s (f : Int) = some (0, closeState s f) := by
  simp only [vsclose, MAX_NOF_OPEN_FILES, Int.toNat_ofNat, Int.ofNat_nonneg, hf, and_self, if_true,
    hu, if_false, closeState]

theorem vsclose_free (s : State) (f : Nat) (hf : f < 16) (hu : (s.openFileTable f).dirBlock = -1) :
    vsclose s (f : Int) = some (-1, s) := by
  simp only [vsclose, MAX_NOF_OPEN_FILES, Int.toNat_ofNat, Int.ofNat_nonneg, hf, and_self, if_true,
    hu]

theorem findDirectoryEntryIndexByFilename_none (s : State) (name : Bytes) (hn : NulTerminated name)
    (h : ∀ k, k < 128 → ¬ HasName s k name) :
    findDirectoryEntryIndexByFilename s name = some (-1) :=
  findDirLoop_none s name hn 128 0 (fun k _ h2 => h k (by omega))

theorem findDirectoryEntryIndexByFilename_some (s : State) (name : Bytes) (hn : NulTerminated name)
    (j : Nat) (hj : j < 128) (h : HasName s j name) (hl : ∀ k, k < j → ¬ HasName s k name) :
    findDirectoryEntryIndexByFilename s name = some (j : Int) :=
  findDirLoop_some s name hn 128 0 j (by omega) (by omega) h (fun k _ h2 => hl k h2)

theorem deleteCloseLoop_noop (s : State) (name : Bytes) (hn : NulTerminated name)
    (hv : HandlesValid s) (cnt i : Nat) (hi : i + cnt ≤ 16)
    (h : ∀ k, i ≤ k → k < i + cnt → InUse s k → ¬ RefersTo s k name) :
    deleteCloseLoop name cnt i s = some s := by
  induction cnt generalizing i with
  | zero => rfl
  | succ n ih =>
    simp only [deleteCloseLoop]
    have hrec := ih (i + 1) (by omega) (fun k h1 h2 => h k (by omega) (by omega))
    rcases hv i (by simp only [MAX_NOF_OPEN_FILES]; omega) with h0 | ⟨h1, h2, h3⟩
    · rw [if_neg (by omega)]; exact hrec
    · simp only [DIR_ENTRY_COUNT] at h3
      rw [if_pos (by omega), if_pos ⟨h2, by simp only [DIR_ENTRY_COUNT]; omega⟩, strcmp0_comm]
      obtain ⟨r, hr⟩ := strcmp0_isSome (nameBytes (s.cachedRootDirectory
        (s.openFileTable i).cachedRootDirIndex.toNat).filename) name hn
      cases r with
      | true => exact absurd hr (h i (le_refl _) (by omega) (by unfold InUse; omega))
      | false => rw [hr]; exact hrec

theorem vsdelete_notfound (s : State) (name : Bytes) (hn : NulTerminated name)
    (hv : HandlesValid s) (hno : ∀ k, k < 16 → InUse s k → ¬ RefersTo s k name)
    (hnone : ∀ k, k < 128 → ¬ HasName s k name) : vsdelete s name = none := by
  unfold vsdelete
  simp only [MAX_NOF_OPEN_FILES,
    deleteCloseLoop_noop s name hn hv 16 0 (by omega) (fun k _ h2 => hno k (by omega)),
    findDirectoryEntryIndexByFilename_none s name hn hnone,
    deallocateDirectoryEntry_none s (-1) (by omega)]

/-! ## Facts about the sample inputs -/

theorem nameF_nul : NulTerminated nameF := ⟨1, by decide, rfl⟩

theorem nameG_nul : NulTerminated nameG := ⟨1, by decide, rfl⟩

theorem emptyVolume_handlesValid : HandlesValid emptyVolume := fun _ _ => Or.inl rfl

theorem emptyVolume_not_inUse (k : Nat) : ¬ InUse emptyVolume k := fun h => h rfl

theorem emptyVolume_no_name (k : Nat) (name : Bytes) : ¬ HasName emptyVolume k name := by
  intro h
  have := h.1
  simp [emptyVolume] at this

theorem emptyVolume_flags (i : Nat) :
    (emptyVolume.cachedRootDirectory i).allocated = 0
      ∨ (emptyVolume.cachedRootDirectory i).allocated = 1 := Or.inl rfl

theorem emptyVolume_allocatedCount : allocatedCount emptyVolume.cachedRootDirectory = 0 := by
  simp [allocatedCount, emptyVolume]

theorem emptyVolume_inUseCount : inUseCount emptyVolume.openFileTable = 0 := by
  simp [inUseCount, emptyVolume]

theorem emptyVolume_fat_41 : emptyVolume.cachedFatTable 41 = 0 := by
  simp [emptyVolume, emptyFat]

theorem emptyVolume_fat_meta (k : Nat) (hk : k < 41) : emptyVolume.cachedFatTable k ≠ 0 := by
  simp [emptyVolume, emptyFat, hk]

/-! ## FAT chains -/

theorem isChain_singleton (fat : Nat → Int) (b : Int) (x : Nat) :
    IsChain fat b [x] ↔ b = (x : Int) ∧ 41 ≤ x ∧ x < 16384 ∧ fat x = -1 := by
  simp [IsChain]

theorem isChain_cons_cons (fat : Nat → Int) (b : Int) (x y : Nat) (l : List Nat) :
    IsChain fat b (x :: y :: l) ↔
      b = (x : Int) ∧ 41 ≤ x ∧ x < 16384 ∧ IsChain fat (fat x) (y :: l) := by
  simp [IsChain]

theorem isChain_head (fat : Nat → Int) (b : Int) (x : Nat) (l : List Nat)
    (h : IsChain fat b (x :: l)) : b = (x : Int) ∧ 41 ≤ x ∧ x < 16384 := by
  cases l with
  | nil => exact ⟨((isChain_singleton _ _ _).mp h).1, ((isChain_singleton _ _ _).mp h).2.1,
      ((isChain_singleton _ _ _).mp h).2.2.1⟩
  | cons y l1 => exact ⟨((isChain_cons_cons _ _ _ _ _).mp h).1,
      ((isChain_cons_cons _ _ _ _ _).mp h).2.1, ((isChain_cons_cons _ _ _ _ _).mp h).2.2.1⟩

theorem isChain_ne_nil (fat : Nat → Int) (b : Int) (l : List Nat) (h : IsChain fat b l) :
    l ≠ [] := by
  intro e; subst e; exact h

theorem isChain_next (fat : Nat → Int) (b : Int) (x y : Nat) (l : List Nat)
    (h : IsChain fat b (x :: y :: l)) : fat x = (y : Int) :=
  (isChain_head fat (fat x) y l ((isChain_cons_cons _ _ _ _ _).mp h).2.2.2).1

theorem isChain_mem (fat : Nat → Int) (b : Int) (l : List Nat) (h : IsChain fat b l) :
    ∀ x ∈ l, 41 ≤ x ∧ x < 16384 ∧ fat x ≠ 0 := by
  induction l generalizing b with
  | nil => exact absurd h (fun h => h)
  | cons x l ih =>
    intro z hz
    cases l with
    | nil =>
      have h1 := (isChain_singleton _ _ _).mp h
      simp only [List.mem_singleton] at hz
      subst hz
      exact ⟨h1.2.1, h1.2.2.1, by rw [h1.2.2.2]; decide⟩
    | cons y l1 =>
      have h1 := (isChain_cons_cons _ _ _ _ _).mp h
      rcases List.mem_cons.mp hz with e | e
      · subst e
        have h2 := isChain_next fat b z y l1 h
        have h3 := isChain_head fat _ y l1 h1.2.2.2
        exact ⟨h1.2.1, h1.2.2.1, by omega⟩
      · exact ih (fat x) h1.2.2.2 z e

theorem isChain_congr (fat fat2 : Nat → Int) (b : Int) (l : List Nat) (h : IsChain fat b l)
    (he : ∀ x ∈ l, fat2 x = fat x) : IsChain fat2 b l := by
  induction l generalizing b with
  | nil => exact absurd h (fun h => h)
  | cons x l ih =>
    cases l with
    | nil =>
      have h1 := (isChain_singleton _ _ _).mp h
      exact (isChain_singleton _ _ _).mpr
        ⟨h1.1, h1.2.1, h1.2.2.1, by rw [he x (List.mem_singleton.mpr rfl)]; exact h1.2.2.2⟩
    | cons y l1 =>
      have h1 := (isChain_cons_cons _ _ _ _ _).mp h
      refine (isChain_cons_cons _ _ _ _ _).mpr ⟨h1.1, h1.2.1, h1.2.2.1, ?_⟩
      rw [he x (List.mem_cons_self _ _)]
      exact ih (fat x) h1.2.2.2 (fun z hz => he z (List.mem_cons_of_mem _ hz))

theorem isChain_unique (fat : Nat → Int) (b : Int) (l l2 : List Nat) (h : IsChain fat b l)
    (h2 : IsChain fat b l2) : l = l2 := by
  induction l generalizing b l2 with
  | nil => exact absurd h (fun h => h)
  | cons x l ih =>
    cases l2 with
    | nil => exact absurd h2 (fun h => h)
    | cons x2 m =>
      have e1 := (isChain_head _ _ _ _ h).1
      have e2 := (isChain_head _ _ _ _ h2).1
      have ex : x = x2 := by omega
      subst ex
      cases l with
      | nil =>
        cases m with
        | nil => rfl
        | cons y2 m1 =>
          have a := ((isChain_singleton _ _ _).mp h).2.2.2
          have c := isChain_next _ _ _ _ _ h2
          omega
      | cons y l1 =>
        cases m with
        | nil =>
          have a := ((isChain_singleton _ _ _).mp h2).2.2.2
          have c := isChain_next _ _ _ _ _ h
          omega
        | cons y2 m1 =>
          have a := ((isChain_cons_cons _ _ _ _ _).mp h).2.2.2
          have c := ((isChain_cons_cons _ _ _ _ _).mp h2).2.2.2
          rw [ih (fat x) (y2 :: m1) a c]

theorem isChain_suffix (fat : Nat → Int) (b : Int) (l1 : List Nat) (x : Nat) (l2 : List Nat)
    (h : IsChain fat b (l1 ++ x :: l2)) : IsChain fat (x : Int) (x :: l2) := by
  induction l1 generalizing b with
  | nil =>
    have e := (isChain_head _ _ _ _ h).1
    rw [← e]; exact h
  | cons y l ih =>
    cases l with
    | nil =>
      have h1 := (isChain_cons_cons _ _ _ _ _).mp h
      exact ih (fat y) h1.2.2.2
    | cons z l3 =>
      have h1 := (isChain_cons_cons _ _ _ _ _).mp h
      exact ih (fat y) h1.2.2.2

theorem isChain_nodup (fat : Nat → Int) (b : Int) (l : List Nat) (h : IsChain fat b l) :
    l.Nodup := by
  induction l generalizing b with
  | nil => exact List.nodup_nil
  | cons x l ih =>
    cases l with
    | nil => exact List.nodup_singleton x
    | cons y l1 =>
      have h1 := (isChain_cons_cons _ _ _ _ _).mp h
      refine List.nodup_cons.mpr ⟨fun hx => ?_, ih (fat x) h1.2.2.2⟩
      obtain ⟨a, c, e⟩ := List.append_of_mem hx
      have h2 : IsChain fat b (x :: a ++ x :: c) := by
        rw [List.cons_append, ← e]; exact h
      have h3 := isChain_suffix fat b (x :: a) x c h2
      have h4 : IsChain fat (x : Int) (x :: y :: l1) := by
        rw [← h1.1]; exact h
      have h5 := isChain_unique fat _ _ _ h3 h4
      have h6 := congrArg List.length h5
      rw [e] at h6
      simp at h6
      omega

theorem isChain_length_le (fat : Nat → Int) (b : Int) (l : List Nat) (h : IsChain fat b l) :
    l.length ≤ 16384 := by
  have hn := isChain_nodup fat b l h
  have hs : l.toFinset ⊆ Finset.range 16384 := by
    intro x hx
    exact Finset.mem_range.mpr (isChain_mem fat b l h x (List.mem_toFinset.mp hx)).2.1
  have := Finset.card_le_card hs
  rw [List.toFinset_card_of_nodup hn, Finset.card_range] at this
  exact this

theorem lastBlock_singleton (x : Nat) : lastBlock [x] = x := rfl

theorem lastBlock_cons_cons (x y : Nat) (l : List Nat) :
    lastBlock (x :: y :: l) = lastBlock (y :: l) := by
  simp [lastBlock]

theorem lastBlock_mem (l : List Nat) (h : l ≠ []) : lastBlock l ∈ l := by
  unfold lastBlock
  have hl : 0 < l.length := List.length_pos.mpr h
  rw [List.getD_eq_getElem l 0 (by omega : l.length - 1 < l.length)]
  exact List.getElem_mem _

theorem lastBlock_append_singleton (l : List Nat) (c : Nat) : lastBlock (l ++ [c]) = c := by
  unfold lastBlock
  simp [List.getD_append_right]

theorem isChain_last_eof (fat : Nat → Int) (b : Int) (l : List Nat) (h : IsChain fat b l) :
    fat (lastBlock l) = -1 := by
  induction l generalizing b with
  | nil => exact absurd h (fun h => h)
  | cons x l ih =>
    cases l with
    | nil => exact ((isChain_singleton _ _ _).mp h).2.2.2
    | cons y l1 =>
      rw [lastBlock_cons_cons]
      exact ih (fat x) ((isChain_cons_cons _ _ _ _ _).mp h).2.2.2

theorem getLastBlockLoop_chain (fat : Nat → Int) (b : Int) (l : List Nat) (fuel : Nat)
    (h : IsChain fat b l) (hf : l.length ≤ fuel) :
    getLastBlockLoop fat fuel b = some ((lastBlock l : Nat) : Int) := by
  induction l generalizing b fuel with
  | nil => exact absurd h (fun h => h)
  | cons x l ih =>
    obtain ⟨hb, hx1, hx2⟩ := isChain_head _ _ _ _ h
    cases fuel with
    | zero => simp at hf
    | succ f =>
      subst hb
      simp only [getLastBlockLoop, FAT_ENTRY_COUNT, EOF_FLAG, Int.toNat_ofNat, Int.ofNat_nonneg,
        hx2, and_self, if_true]
      cases l with
      | nil =>
        have h1 := (isChain_singleton _ _ _).mp h
        simp [h1.2.2.2, lastBlock_singleton]
      | cons y l1 =>
        have h1 := (isChain_cons_cons _ _ _ _ _).mp h
        have h2 := isChain_next _ _ _ _ _ h
        have h3 := isChain_head _ _ _ _ h1.2.2.2
        rw [if_pos (by omega), lastBlock_cons_cons]
        exact ih (fat x) f h1.2.2.2 (by simpa using hf)

theorem getLastBlockOfFile_chain (s : State) (b : Int) (l : List Nat)
    (h : IsChain s.cachedFatTable b l) :
    getLastBlockOfFile s b = some ((lastBlock l : Nat) : Int) :=
  getLastBlockLoop_chain _ b l _ h (by
    have := isChain_length_le _ _ _ h
    simp only [FAT_ENTRY_COUNT]; omega)

/-- Linking a free block `c` behind the last block of a chain. -/
theorem isChain_snoc (fat : Nat → Int) (b : Int) (l : List Nat) (c : Nat)
    (h : IsChain fat b l) (hc : fat c = 0) (hc1 : 41 ≤ c) (hc2 : c < 16384) :
    IsChain (Function.update (Function.update fat c (-1)) (lastBlock l) (c : Int)) b (l ++ [c]) := by
  have hnd := isChain_nodup fat b l h
  have hcl : c ∉ l := fun hm => (isChain_mem fat b l h c hm).2.2 hc
  induction l generalizing b with
  | nil => exact absurd h (fun h => h)
  | cons x l ih =>
    cases l with
    | nil =>
      have h1 := (isChain_singleton _ _ _).mp h
      have hxc : x ≠ c := by
        intro e; subst e; omega
      simp only [lastBlock_singleton, List.singleton_append]
      refine (isChain_cons_cons _ _ _ _ _).mpr ⟨h1.1, h1.2.1, h1.2.2.1, ?_⟩
      rw [Function.update_same]
      refine (isChain_singleton _ _ _).mpr ⟨rfl, hc1, hc2, ?_⟩
      rw [Function.update_noteq (Ne.symm hxc), Function.update_same]
    | cons y l1 =>
      have h1 := (isChain_cons_cons _ _ _ _ _).mp h
      have hx_last : x ≠ lastBlock (y :: l1) := by
        intro e
        have := lastBlock_mem (y :: l1) (List.cons_ne_nil _ _)
        rw [← e] at this
        exact (List.nodup_cons.mp hnd).1 this
      have hxc : x ≠ c := fun e => hcl (e ▸ List.mem_cons_self _ _)
      rw [lastBlock_cons_cons, List.cons_append, List.cons_append]
      refine (isChain_cons_cons _ _ _ _ _).mpr ⟨h1.1, h1.2.1, h1.2.2.1, ?_⟩
      rw [Function.update_noteq hx_last, Function.update_noteq hxc]
      exact ih (fat x) h1.2.2.2 (List.nodup_cons.mp hnd).2
        (fun hm => hcl (List.mem_cons_of_mem _ hm))

/-! ## Counting free FAT entries -/

theorem freeCount_update_alloc (fat : Nat → Int) (c : Nat) (v : Int) (hc : c < 16384)
    (hz : fat c = 0) (hv : v ≠ 0) : freeCount (Function.update fat c v) + 1 = freeCount fat := by
  unfold freeCount
  simp only [FAT_ENTRY_COUNT, NOT_USED_FLAG]
  have hmem : c ∈ (Finset.range 16384).filter (fun i => fat i = 0) := by
    simp [hc, hz]
  have he : (Finset.range 16384).filter (fun i => Function.update fat c v i = 0)
      = ((Finset.range 16384).filter (fun i => fat i = 0)).erase c := by
    ext i
    simp only [Finset.mem_filter, Finset.mem_range, Finset.mem_erase]
    by_cases e : i = c
    · subst e; simp [hv]
    · simp [Function.update_noteq e, e]
  rw [he, Finset.card_erase_of_mem hmem]
  have := Finset.card_pos.mpr ⟨c, hmem⟩
  omega

theorem freeCount_update_used (fat : Nat → Int) (x : Nat) (v : Int) (hx : fat x ≠ 0)
    (hv : v ≠ 0) : freeCount (Function.update fat x v) = freeCount fat := by
  unfold freeCount
  simp only [FAT_ENTRY_COUNT, NOT_USED_FLAG]
  have he : (Finset.range 16384).filter (fun i => Function.update fat x v i = 0)
      = (Finset.range 16384).filter (fun i => fat i = 0) := by
    ext i
    simp only [Finset.mem_filter, Finset.mem_range]
    by_cases e : i = x
    · subst e; simp [hv, hx]
    · simp [Function.update_noteq e]
  rw [he]

theorem freeCount_update_free (fat : Nat → Int) (x : Nat) (hx1 : x < 16384) (hx : fat x ≠ 0) :
    freeCount (Function.update fat x 0) = freeCount fat + 1 := by
  have h := freeCount_update_alloc (Function.update fat x 0) x (fat x) hx1
    (Function.update_same x 0 fat) hx
  rw [Function.update_idem, Function.update_eq_self] at h
  omega

theorem freeCount_le (fat : Nat → Int) : freeCount fat ≤ 16384 := by
  unfold freeCount
  have := Finset.card_filter_le (Finset.range FAT_ENTRY_COUNT) (fun i => fat i = NOT_USED_FLAG)
  simpa using this

/-! ## Allocation of a block for a file -/

theorem allocateAvailableBlockForFile_eq (s : State) (b : Int) (l : List Nat) (c : Nat)
    (h : IsChain s.cachedFatTable b l) (hc : c < 16384) (hz : s.cachedFatTable c = 0)
    (hl : ∀ k, k < c → s.cachedFatTable k ≠ 0) :
    allocateAvailableBlockForFile s b = some ((c : Int), allocState s c (lastBlock l)) := by
  have h1 := getLastBlockOfFile_chain s b l h
  have h2 := findAvailableBlockIndex_eq s c hc hz hl
  have h3 : ¬ ((c : Int) = -1) := by omega
  have h4 := (isChain_mem _ _ _ h (lastBlock l) (lastBlock_mem l (isChain_ne_nil _ _ _ h))).2.1
  unfold allocateAvailableBlockForFile
  simp only [h1, h2, h3, if_false, EOF_FLAG]
  rw [allocateBlockFatEntry_eq s c (-1) hc]
  simp only
  rw [allocateBlockFatEntry_eq _ (lastBlock l) (c : Int) h4]
  rfl

theorem allocateAvailableBlockForFile_full (s : State) (b : Int) (l : List Nat)
    (h : IsChain s.cachedFatTable b l) (hfull : ∀ k, k < 16384 → s.cachedFatTable k ≠ 0) :
    allocateAvailableBlockForFile s b = some (-1, s) := by
  unfold allocateAvailableBlockForFile
  simp only [getLastBlockOfFile_chain s b l h, findAvailableBlockIndex_none s hfull, if_true]

/-! ## Copy loops -/

theorem toNat_2048 : (2048 : Int).toNat = 2048 := rfl

theorem writeLoop_eq (buf : Bytes) (N cnt off : Nat) (block : Block) (bc : Nat)
    (ho : off + cnt ≤ 2048) (hb : bc < N) (hcnt : 0 < cnt) :
    writeLoop buf (N : Int) cnt (off : Int) block bc
      = some (blockWrite block off (min cnt (N - bc)) buf bc, bc + min cnt (N - bc)) := by
  induction cnt generalizing off block bc with
  | zero => omega
  | succ n ih =>
    have hin : off < 2048 := by omega
    simp only [writeLoop, BLOCKSIZE, toNat_2048, Int.ofNat_nonneg, hin, and_self, if_true,
      Int.toNat_ofNat]
    by_cases he : bc + 1 = N
    · have he2 : (((bc + 1 : Nat)) : Int) = (N : Int) := by omega
      rw [if_pos he2]
      have hm : min (n + 1) (N - bc) = 1 := by omega
      rw [hm]
      congr 2
      funext i
      simp only [blockWrite, Function.update]
      by_cases e : i = off
      · subst e; simp
      · have : ¬ (off ≤ i ∧ i < off + 1) := by omega
        simp [e, this]
    · have he2 : ¬ ((((bc + 1 : Nat)) : Int) = (N : Int)) := by omega
      rw [if_neg he2]
      by_cases hn : n = 0
      · subst hn
        simp only [writeLoop]
        have hm : min (0 + 1) (N - bc) = 1 := by omega
        rw [hm]
        congr 2
        funext i
        simp only [blockWrite, Function.update]
        by_cases e : i = off
        · subst e; simp
        · have : ¬ (off ≤ i ∧ i < off + 1) := by omega
          simp [e, this]
      · have hcast : (off : Int) + 1 = ((off + 1 : Nat) : Int) := by omega
        rw [hcast, ih (off + 1) _ (bc + 1) (by omega) (by omega) (by omega)]
        have hm : min (n + 1) (N - bc) = min n (N - (bc + 1)) + 1 := by omega
        rw [hm]
        congr 2
        · funext i
          simp only [blockWrite, Function.update]
          by_cases e : i = off
          · subst e
            have : ¬ (i + 1 ≤ i ∧ i < i + 1 + min n (N - (bc + 1))) := by omega
            simp [this]
          · by_cases hr : off + 1 ≤ i ∧ i < off + 1 + min n (N - (bc + 1))
            · have hr2 : off ≤ i ∧ i < off + (min n (N - (bc + 1)) + 1) := by omega
              have e3 : bc + 1 + (i - (off + 1)) = bc + (i - off) := by omega
              simp [hr, hr2, e3]
            · have hr2 : ¬ (off ≤ i ∧ i < off + (min n (N - (bc + 1)) + 1)) := by omega
              simp [hr, hr2, e]
        · omega

theorem writeFromBufferToBlock_eq (d : Disk) (buf : Bytes) (k off N bc : Nat)
    (ho : off < 2048) (hb : bc < N) :
    writeFromBufferToBlock d buf (k : Int) (off : Int) BLOCKSIZE bc (N : Int)
      = some (Function.update d k (blockWrite (d k) off (min (2048 - off) (N - bc)) buf bc),
          bc + min (2048 - off) (N - bc)) := by
  have h1 : ((2048 : Int) - (off : Int)).toNat = 2048 - off := by omega
  simp only [writeFromBufferToBlock, read_block, write_block, BLOCKSIZE, Int.ofNat_nonneg, if_true,
    Int.toNat_ofNat, h1]
  rw [writeLoop_eq buf N (2048 - off) off (d k) bc (by omega) hb (by omega)]

theorem readLoop_eq (block : Block) (cnt off : Nat) (buf : Bytes) (bc : Nat)
    (ho : off + cnt ≤ 2048) :
    readLoop block cnt (off : Int) buf bc = some (bufferRead buf bc cnt block off, bc + cnt) := by
  induction cnt generalizing off buf bc with
  | zero =>
    simp only [readLoop]
    congr 2
    funext j
    have : ¬ (bc ≤ j ∧ j < bc) := by omega
    simp [bufferRead, this]
  | succ n ih =>
    have hin : off < 2048 := by omega
    have hcast : (off : Int) + 1 = ((off + 1 : Nat) : Int) := by omega
    simp only [readLoop, BLOCKSIZE, toNat_2048, Int.ofNat_nonneg, hin, and_self, if_true,
      Int.toNat_ofNat]
    rw [hcast, ih (off + 1) _ (bc + 1) (by omega)]
    congr 2
    · funext j
      simp only [bufferRead, Function.update]
      by_cases e : j = bc
      · subst e
        have : ¬ (j + 1 ≤ j ∧ j < j + 1 + n) := by omega
        simp [this]
      · by_cases hr : bc + 1 ≤ j ∧ j < bc + 1 + n
        · have hr2 : bc ≤ j ∧ j < bc + (n + 1) := by omega
          have e3 : off + 1 + (j - (bc + 1)) = off + (j - bc) := by omega
          simp [hr, hr2, e3]
        · have hr2 : ¬ (bc ≤ j ∧ j < bc + (n + 1)) := by omega
          simp [hr, hr2, e]
    · omega

theorem readFromBlockToBuffer_eq (d : Disk) (buf : Bytes) (k off e bc : Nat)
    (h1 : off ≤ e) (h2 : e ≤ 2048) :
    readFromBlockToBuffer d buf (k : Int) (off : Int) (e : Int) bc
      = some (bufferRead buf bc (e - off) (d k) off, bc + (e - off)) := by
  have h3 : ((e : Int) - (off : Int)).toNat = e - off := by omega
  simp only [readFromBlockToBuffer, read_block, Int.ofNat_nonneg, if_true, Int.toNat_ofNat, h3]
  exact readLoop_eq (d k) (e - off) off buf bc (by omega)

/-! ## The loop of `vsappend` -/

theorem fatDiskWrite_frame (d : Disk) (i : Nat) (v : Int) (k : Nat) (hi : i < 16384)
    (hk : 33 ≤ k) : fatDiskWrite d i v k = d k := by
  unfold fatDiskWrite
  exact Function.update_noteq (by omega) _ _

theorem dirDiskWrite_frame (d : Disk) (j : Nat) (name : Bytes) (a b c : Int) (k : Nat)
    (hj : j < 128) (hk : 41 ≤ k) : dirDiskWrite d j name a b c k = d k := by
  unfold dirDiskWrite
  exact Function.update_noteq (by omega) _ _

theorem writeFromBufferToBlock_zero (d : Disk) (buf : Bytes) (k N bc : Nat) (hb : bc < N) :
    writeFromBufferToBlock d buf (k : Int) 0 BLOCKSIZE bc (N : Int)
      = some (Function.update d k (blockWrite (d k) 0 (min 2048 (N - bc)) buf bc),
          bc + min 2048 (N - bc)) := by
  have := writeFromBufferToBlock_eq d buf k 0 N bc (by omega) hb
  simpa using this

theorem appendRel_refl (s : State) (start : Int) (l : List Nat) (buf : Bytes) (N : Nat)
    (h : IsChain s.cachedFatTable start l) : AppendRel s s start l [] buf N N where
  chain := by simpa using h
  len := by simp
  dir := rfl
  oft := rfl
  openCount := rfl
  fileCount := rfl
  total := rfl
  dataCount := rfl
  free := by simp
  freeCnt := by simp
  wasFree := by simp
  fatFrame := fun _ _ _ => rfl
  diskFrame := fun _ _ _ => rfl
  data := by simp

theorem appendLoop_full (buf : Bytes) (N idx : Nat) :
    ∀ (m fuel : Nat) (s : State) (l : List Nat) (bc : Nat),
      IsChain s.cachedFatTable (s.cachedRootDirectory idx).startBlock l →
      (∀ i, i < 41 → s.cachedFatTable i ≠ 0) →
      bc ≤ N → (N - bc + 2047) / 2048 = m → m ≤ freeCount s.cachedFatTable → m < fuel →
      ∃ s1 new, appendLoop buf (N : Int) idx fuel s 2048 bc = some (true, s1, N) ∧
        AppendRel s s1 (s.cachedRootDirectory idx).startBlock l new buf bc N := by
  intro m
  induction m with
  | zero =>
    intro fuel s l bc hch _ hbc hm _ hfuel
    have hbN : bc = N := by omega
    subst hbN
    obtain ⟨f, rfl⟩ : ∃ f, fuel = f + 1 := ⟨fuel - 1, by omega⟩
    refine ⟨s, [], ?_, appendRel_refl s _ l buf bc hch⟩
    simp only [appendLoop, ne_eq, not_true_eq_false, if_false]
  | succ m ih =>
    intro fuel s l bc hch hmeta hbc hm hfree hfuel
    have hlt : bc < N := by omega
    obtain ⟨f, rfl⟩ : ∃ f, fuel = f + 1 := ⟨fuel - 1, by omega⟩
    obtain ⟨c, hc, hcz, hcl⟩ := exists_least (fun b => s.cachedFatTable b = 0) 16384
      (exists_free_block s.cachedFatTable (by omega))
    have hc41 : 41 ≤ c := by
      by_contra hcon
      exact hmeta c (by omega) hcz
    have hlast := isChain_mem _ _ _ hch (lastBlock l) (lastBlock_mem l (isChain_ne_nil _ _ _ hch))
    have hlc : lastBlock l ≠ c := by
      intro e; rw [e] at hlast; exact hlast.2.2 hcz
    -- the state after the allocation and after the block write
    let s2 : State := { allocState s c (lastBlock l) with
      disk := Function.update (allocState s c (lastBlock l)).disk c
        (blockWrite ((allocState s c (lastBlock l)).disk c) 0 (min 2048 (N - bc)) buf bc) }
    have hs2 : appendLoop buf (N : Int) idx (f + 1) s 2048 bc
        = appendLoop buf (N : Int) idx f s2 2048 (bc + min 2048 (N - bc)) := by
      have hne : ¬ ((bc : Int) = (N : Int)) := by omega
      have hc1 : ¬ ((c : Int) = -1) := by omega
      rw [appendLoop]
      simp only [ne_eq, hne, not_false_eq_true, if_true, BLOCKSIZE]
      rw [allocateAvailableBlockForFile_eq s _ l c hch hc hcz hcl]
      simp only [hc1, if_false]
      have hw := writeFromBufferToBlock_zero (allocState s c (lastBlock l)).disk buf c N bc hlt
      simp only [BLOCKSIZE] at hw
      rw [hw]
    have hfat2 : s2.cachedFatTable
        = Function.update (Function.update s.cachedFatTable c (-1)) (lastBlock l) (c : Int) := rfl
    have hdir2 : s2.cachedRootDirectory = s.cachedRootDirectory := rfl
    have hch2 : IsChain s2.cachedFatTable (s2.cachedRootDirectory idx).startBlock (l ++ [c]) := by
      rw [hfat2, hdir2]
      exact isChain_snoc _ _ l c hch hcz hc41 hc
    have hmeta2 : ∀ i, i < 41 → s2.cachedFatTable i ≠ 0 := by
      intro i hi
      rw [hfat2, Function.update_noteq (by omega), Function.update_noteq (by omega)]
      exact hmeta i hi
    have hfc2 : freeCount s2.cachedFatTable + 1 = freeCount s.cachedFatTable := by
      rw [hfat2, freeCount_update_used _ _ _
        (by rw [Function.update_noteq hlc, isChain_last_eof _ _ _ hch]; decide) (by omega)]
      exact freeCount_update_alloc _ c (-1) hc hcz (by decide)
    obtain ⟨s1, new, hrun, hrel⟩ := ih f s2 (l ++ [c]) (bc + min 2048 (N - bc)) hch2 hmeta2
      (by omega) (by omega) (by omega) (by omega)
    refine ⟨s1, c :: new, by rw [hs2]; exact hrun, ?_⟩
    have hcnew : c ∉ new := by
      intro hmem
      have := hrel.wasFree c hmem
      rw [hfat2, Function.update_noteq hlc.symm, Function.update_same] at this
      exact absurd this (by decide)
    exact {
      chain := by
        have := hrel.chain
        rw [hdir2] at this
        simpa using this
      len := by
        have := hrel.len
        simp only [List.length_cons]
        omega
      dir := hrel.dir.trans hdir2
      oft := hrel.oft
      openCount := hrel.openCount
      fileCount := hrel.fileCount
      total := hrel.total
      dataCount := hrel.dataCount
      free := by
        have := hrel.free
        have h2 : s2.freeBlockCount = s.freeBlockCount - 1 := rfl
        simp only [List.length_cons, Nat.cast_add, Nat.cast_one]
        omega
      freeCnt := by
        have := hrel.freeCnt
        simp only [List.length_cons]
        omega
      wasFree := by
        intro x hx
        rcases List.mem_cons.mp hx with e | e
        · rw [e]; exact hcz
        · have h0 := hrel.wasFree x e
          have hxc : x ≠ c := fun e2 => hcnew (e2 ▸ e)
          have hxl : x ≠ lastBlock l := by
            intro e2
            rw [hfat2, e2, Function.update_same] at h0
            omega
          rw [hfat2, Function.update_noteq hxl, Function.update_noteq hxc] at h0
          exact h0
      fatFrame := by
        intro i hi hor
        have hic : i ≠ c := fun e => hi (e ▸ List.mem_cons_self _ _)
        have hin : i ∉ new := fun e => hi (List.mem_cons_of_mem _ e)
        have hil : i ≠ lastBlock l := by
          rcases hor with h | h
          · exact h
          · exact absurd h (List.cons_ne_nil _ _)
        rw [hrel.fatFrame i hin (Or.inl (by rw [lastBlock_append_singleton]; exact hic)), hfat2,
          Function.update_noteq hil, Function.update_noteq hic]
      diskFrame := by
        intro k hk hkn
        have hkc : k ≠ c := fun e => hkn (e ▸ List.mem_cons_self _ _)
        have hin : k ∉ new := fun e => hkn (List.mem_cons_of_mem _ e)
        rw [hrel.diskFrame k hk hin]
        show Function.update (allocState s c (lastBlock l)).disk c _ k = s.disk k
        rw [Function.update_noteq hkc]
        show fatDiskWrite (fatDiskWrite s.disk c (-1)) (lastBlock l) (c : Int) k = s.disk k
        rw [fatDiskWrite_frame _ _ _ _ hlast.2.1 (by omega), fatDiskWrite_frame _ _ _ _ hc (by omega)]
      data := by
        intro j o hj ho hN
        cases j with
        | zero =>
          simp only [List.getD_cons_zero]
          rw [hrel.diskFrame c hc41 hcnew]
          show Function.update (allocState s c (lastBlock l)).disk c _ c o = _
          rw [Function.update_same]
          have hin : 0 ≤ o ∧ o < 0 + min 2048 (N - bc) := by omega
          simp only [blockWrite, hin, and_self, if_true]
          have e : bc + (o - 0) = bc + 0 * 2048 + o := by omega
          rw [e]
        | succ j =>
          simp only [List.getD_cons_succ]
          simp only [List.length_cons] at hj
          have hmin : min 2048 (N - bc) = 2048 := by omega
          have := hrel.data j o (by omega) ho (by omega)
          rw [this]
          have e : bc + min 2048 (N - bc) + j * 2048 + o = bc + (j + 1) * 2048 + o := by omega
          rw [e] }

/-! ## `vsappend` -/

theorem tdiv_2048 (i : Nat) : (i : Int).tdiv 2048 = ((i / 2048 : Nat) : Int) := by
  rw [Int.tdiv_eq_ediv (by omega) (by omega)]; omega

theorem tmod_2048 (i : Nat) : (i : Int).tmod 2048 = ((i % 2048 : Nat) : Int) := by
  rw [Int.tmod_eq_emod (by omega) (by omega)]; omega

theorem wrapInt32_small (x : Int) (h0 : 0 ≤ x) (h1 : x < 2147483648) : wrapInt32 x = x := by
  unfold wrapInt32; omega

theorem appendCursor_cast (sz : Nat) :
    appendCursor (sz : Int)
      = ((if 0 < sz ∧ sz % 2048 = 0 then 2048 else sz % 2048 : Nat) : Int) := by
  unfold appendCursor
  simp only [BLOCKSIZE, tmod_2048]
  by_cases h : 0 < sz ∧ sz % 2048 = 0
  · have h2 : (sz : Int) > 0 ∧ ((sz % 2048 : Nat) : Int) = 0 := by omega
    rw [if_pos h, if_pos h2]; rfl
  · have h2 : ¬ ((sz : Int) > 0 ∧ ((sz % 2048 : Nat) : Int) = 0) := by omega
    rw [if_neg h, if_neg h2]

theorem requiredBlockCount_cast (sz N c0 : Nat) (hc : appendCursor (sz : Int) = (c0 : Int))
    (hc2 : c0 ≤ 2048) :
    requiredBlockCount (sz : Int) (N : Int)
      = ((if N ≤ 2048 - c0 then 0 else (N - (2048 - c0)) / 2048 + 1 : Nat) : Int) := by
  unfold requiredBlockCount
  simp only [BLOCKSIZE, hc]
  by_cases h : N ≤ 2048 - c0
  · have h2 : (N : Int) ≤ 2048 - (c0 : Int) := by omega
    rw [if_pos h, if_pos h2]; rfl
  · have h2 : ¬ ((N : Int) ≤ 2048 - (c0 : Int)) := by omega
    have h3 : (N : Int) - (2048 - (c0 : Int)) = ((N - (2048 - c0) : Nat) : Int) := by omega
    rw [if_neg h, if_neg h2, h3, tdiv_2048]
    push_cast
    rfl

theorem getD_inj_of_nodup (l : List Nat) (hn : l.Nodup) (i k : Nat) (hi : i < l.length)
    (hk : k < l.length) (h : l.getD i 0 = l.getD k 0) : i = k := by
  rw [List.getD_eq_getElem l 0 hi, List.getD_eq_getElem l 0 hk] at h
  exact (List.Nodup.getElem_inj_iff hn).mp h

theorem getD_mem (l : List Nat) (i : Nat) (hi : i < l.length) : l.getD i 0 ∈ l := by
  rw [List.getD_eq_getElem l 0 hi]
  exact List.getElem_mem _

theorem blockWrite_zero (block : Block) (off : Nat) (buf : Bytes) (bc : Nat) :
    blockWrite block off 0 buf bc = block := by
  funext i
  have : ¬ (off ≤ i ∧ i < off + 0) := by omega
  simp [blockWrite, this]

/-- The loop of `vsappend` from its start: the first round fills the last block
of the chain from the cursor `c0`, the other rounds allocate. -/
theorem appendLoop_ok (s : State) (buf : Bytes) (N j sz c0 : Nat) (l : List Nat)
    (hc0 : c0 = if 0 < sz ∧ sz % 2048 = 0 then 2048 else sz % 2048)
    (hch : IsChain s.cachedFatTable (s.cachedRootDirectory j).startBlock l)
    (hN : 0 < N)
    (hcheck : (if N ≤ 2048 - c0 then 0 else (N - (2048 - c0)) / 2048 + 1)
      ≤ freeCount s.cachedFatTable)
    (hmeta : ∀ i, i < 41 → s.cachedFatTable i ≠ 0) :
    ∃ s1 new, appendLoop buf (N : Int) j (N + 1) s (c0 : Int) 0 = some (true, s1, N) ∧
      AppendRel (fillState s (lastBlock l) c0 (min (2048 - c0) N) buf 0)
        s1 (s.cachedRootDirectory j).startBlock l new buf (min (2048 - c0) N) N := by
  have hc0le : c0 ≤ 2048 := by
    rw [hc0]; split_ifs <;> omega
  by_cases hfull : c0 = 2048
  · have hmin : min (2048 - c0) N = 0 := by omega
    have hs : fillState s (lastBlock l) c0 0 buf 0 = s := by
      unfold fillState
      rw [blockWrite_zero, Function.update_eq_self]
    rw [hmin, hs]
    have hcheck2 : (N - 0 + 2047) / 2048 ≤ freeCount s.cachedFatTable := by
      rw [if_neg (by omega)] at hcheck
      omega
    have := appendLoop_full buf N j ((N - 0 + 2047) / 2048) (N + 1) s l 0 hch hmeta (by omega) rfl
      hcheck2 (by omega)
    rw [hfull]
    exact this
  · have hlt : c0 < 2048 := by omega
    have hne : ¬ ((0 : Int) = (N : Int)) := by omega
    have hne2 : ¬ ((c0 : Int) = 2048) := by omega
    have hlast := isChain_mem _ _ _ hch (lastBlock l) (lastBlock_mem l (isChain_ne_nil _ _ _ hch))
    have hstep : appendLoop buf (N : Int) j (N + 1) s (c0 : Int) 0
        = appendLoop buf (N : Int) j N (fillState s (lastBlock l) c0 (min (2048 - c0) N) buf 0)
            2048 (min (2048 - c0) N) := by
      rw [appendLoop]
      simp only [Nat.cast_zero, ne_eq, hne, not_false_eq_true, if_true, BLOCKSIZE, hne2, if_false]
      rw [getLastBlockOfFile_chain s _ l hch]
      have hw := writeFromBufferToBlock_eq s.disk buf (lastBlock l) c0 N 0 hlt hN
      simp only [BLOCKSIZE, Nat.sub_zero, Nat.zero_add] at hw
      simp only
      rw [hw]
      rfl
    rw [hstep]
    have hcheck2 : (N - min (2048 - c0) N + 2047) / 2048 ≤ freeCount s.cachedFatTable := by
      by_cases h : N ≤ 2048 - c0
      · rw [if_pos h] at hcheck
        omega
      · rw [if_neg h] at hcheck
        omega
    exact appendLoop_full buf N j ((N - min (2048 - c0) N + 2047) / 2048) N
      (fillState s (lastBlock l) c0 (min (2048 - c0) N) buf 0)
      l (min (2048 - c0) N) hch hmeta (by omega) rfl hcheck2 (by omega)

theorem vsappend_ok (s : State) (f : Nat) (buf : Bytes) (N j sz : Nat) (l : List Nat)
    (hf : f < 16) (hin : (s.openFileTable f).dirBlock ≠ -1)
    (hmode : (s.openFileTable f).accessMode ≠ 0)
    (hidx : (s.openFileTable f).cachedRootDirIndex = (j : Int)) (hj : j < 128)
    (hsz : (s.cachedRootDirectory j).size = (sz : Int))
    (hch : IsChain s.cachedFatTable (s.cachedRootDirectory j).startBlock l)
    (hlen : (l.length : Int) = blocksFor (sz : Int))
    (hN : 0 < N)
    (hcheck : requiredBlockCount (sz : Int) (N : Int) ≤ s.freeBlockCount)
    (hfree : s.freeBlockCount ≤ (freeCount s.cachedFatTable : Int))
    (hmeta : ∀ i, i < 41 → s.cachedFatTable i ≠ 0) :
    ∃ s2 new, vsappend s (f : Int) buf (N : Int) = some ((N : Int), s2) ∧
      AppendSpec s s2 j l new buf sz N := by
  -- the cursor and the geometry of the chain
  obtain ⟨c0, hc0⟩ : ∃ c0 : Nat, c0 = if 0 < sz ∧ sz % 2048 = 0 then 2048 else sz % 2048 :=
    ⟨_, rfl⟩
  have hcur : appendCursor (sz : Int) = (c0 : Int) := by rw [appendCursor_cast, hc0]
  have hc0le : c0 ≤ 2048 := by
    rw [hc0]; split_ifs <;> omega
  have hgeom : (l.length - 1) * 2048 + c0 = sz ∧ 1 ≤ l.length := by
    unfold blocksFor at hlen
    split_ifs at hc0 <;> omega
  have hreq := requiredBlockCount_cast sz N c0 hcur hc0le
  have hfc := freeCount_le s.cachedFatTable
  have hcheck2 : (if N ≤ 2048 - c0 then 0 else (N - (2048 - c0)) / 2048 + 1)
      ≤ freeCount s.cachedFatTable := by
    rw [hreq] at hcheck
    omega
  have hNb : N < 16385 * 2048 := by
    split_ifs at hcheck2 <;> omega
  have hlenle := isChain_length_le _ _ _ hch
  have hnd := isChain_nodup _ _ _ hch
  have hlast := isChain_mem _ _ _ hch (lastBlock l) (lastBlock_mem l (isChain_ne_nil _ _ _ hch))
  obtain ⟨s1, new, hrun, hrel⟩ := appendLoop_ok s buf N j sz c0 l hc0 hch hN hcheck2 hmeta
  have hdir1 : s1.cachedRootDirectory = s.cachedRootDirectory := hrel.dir
  have hoft1 : s1.openFileTable = s.openFileTable := hrel.oft
  -- the final state
  refine ⟨{ s1 with
      cachedRootDirectory := Function.update s1.cachedRootDirectory j
        { filename := memcpyName (nameBytes (s1.cachedRootDirectory j).filename)
          size := (sz : Int) + (N : Int)
          startBlock := (s1.cachedRootDirectory j).startBlock
          allocated := (s1.cachedRootDirectory j).allocated }
      disk := dirDiskWrite s1.disk j (nameBytes (s1.cachedRootDirectory j).filename)
        ((sz : Int) + (N : Int)) (s1.cachedRootDirectory j).startBlock
        (s1.cachedRootDirectory j).allocated }, new, ?_, ?_⟩
  · have h1 : ¬ ((N : Int) ≤ 0) := by omega
    have h2 : ¬ (requiredBlockCount (sz : Int) (N : Int) > s.freeBlockCount) := by omega
    have h3 : wrapInt32 ((sz : Int) + (N : Int)) = (sz : Int) + (N : Int) :=
      wrapInt32_small _ (by omega) (by omega)
    unfold vsappend
    simp only [h1, if_false, MAX_NOF_OPEN_FILES, DIR_ENTRY_COUNT, MODE_READ, Int.toNat_ofNat,
      Int.ofNat_nonneg, hf, and_self, if_true, hin, hmode, hidx, hj, hsz, h2, hcur, hrun, hoft1]
    rw [hdir1, hsz, h3, ← hdir1, allocateDirectoryEntry_eq s1 j _ _ _ _ hj]
    simp only [ne_eq, not_true_eq_false, if_false, hoft1]
  · have hnewmem : ∀ c ∈ new, 41 ≤ c ∧ c < 16384 :=
      fun c hc => ⟨(isChain_mem _ _ _ hrel.chain c (List.mem_append_right _ hc)).1,
        (isChain_mem _ _ _ hrel.chain c (List.mem_append_right _ hc)).2.1⟩
    have hdisj : ∀ k ∈ l, k ∉ new := by
      intro k hk hkn
      exact (isChain_mem _ _ _ hch k hk).2.2 (hrel.wasFree k hkn)
    -- the container on data blocks
    have hdisk : ∀ k, 41 ≤ k → k ∉ new →
        (dirDiskWrite s1.disk j (nameBytes (s1.cachedRootDirectory j).filename)
          ((sz : Int) + (N : Int)) (s1.cachedRootDirectory j).startBlock
          (s1.cachedRootDirectory j).allocated) k
        = Function.update s.disk (lastBlock l)
            (blockWrite (s.disk (lastBlock l)) c0 (min (2048 - c0) N) buf 0) k := by
      intro k hk hkn
      rw [dirDiskWrite_frame _ _ _ _ _ _ _ hj hk, hrel.diskFrame k hk hkn]
      rfl
    have hdisknew : ∀ k, k ∈ new →
        (dirDiskWrite s1.disk j (nameBytes (s1.cachedRootDirectory j).filename)
          ((sz : Int) + (N : Int)) (s1.cachedRootDirectory j).startBlock
          (s1.cachedRootDirectory j).allocated) k = s1.disk k := by
      intro k hk
      exact dirDiskWrite_frame _ _ _ _ _ _ _ hj (hnewmem k hk).1
    exact {
      chain := hrel.chain
      blocks := by
        have := hrel.len
        unfold blocksFor
        simp only [List.length_append, Nat.cast_add]
        omega
      dir := by
        show Function.update s1.cachedRootDirectory j _ = _
        rw [memcpyName_nameBytes, hdir1]
      oft := hrel.oft
      openCount := hrel.openCount
      fileCount := hrel.fileCount
      total := hrel.total
      dataCount := hrel.dataCount
      free := hrel.free
      freeCnt := hrel.freeCnt
      wasFree := hrel.wasFree
      fatFrame := hrel.fatFrame
      keep := by
        intro x hx
        have hxi : x / 2048 < l.length := by omega
        have hkm := getD_mem l (x / 2048) hxi
        unfold fileByte
        rw [List.getD_append l new 0 (x / 2048) hxi]
        show (dirDiskWrite s1.disk j _ _ _ _) (l.getD (x / 2048) 0) (x % 2048) = _
        rw [hdisk _ (isChain_mem _ _ _ hch _ hkm).1 (hdisj _ hkm)]
        by_cases hk : l.getD (x / 2048) 0 = lastBlock l
        · have hidx2 : x / 2048 = l.length - 1 :=
            getD_inj_of_nodup l hnd _ _ hxi (by omega) hk
          rw [hk, Function.update_same]
          have : ¬ (c0 ≤ x % 2048 ∧ x % 2048 < c0 + min (2048 - c0) N) := by omega
          simp only [blockWrite, this, if_false]
        · rw [Function.update_noteq hk]
      added := by
        intro y hy
        unfold fileByte
        show (dirDiskWrite s1.disk j _ _ _ _) ((l ++ new).getD ((sz + y) / 2048) 0)
          ((sz + y) % 2048) = _
        by_cases hfirst : y < min (2048 - c0) N
        · have hxi : (sz + y) / 2048 = l.length - 1 := by omega
          have hxo : (sz + y) % 2048 = c0 + y := by omega
          rw [hxi, hxo, List.getD_append l new 0 (l.length - 1) (by omega)]
          have hl : l.getD (l.length - 1) 0 = lastBlock l := rfl
          rw [hl, hdisk _ hlast.1 (hdisj _ (lastBlock_mem l (isChain_ne_nil _ _ _ hch))),
            Function.update_same]
          have : c0 ≤ c0 + y ∧ c0 + y < c0 + min (2048 - c0) N := by omega
          simp only [blockWrite, this, and_self, if_true]
          congr 1
          omega
        · have hmin : min (2048 - c0) N = 2048 - c0 := by omega
          have hxi : (sz + y) / 2048 = l.length + (y - (2048 - c0)) / 2048 := by omega
          have hxo : (sz + y) % 2048 = (y - (2048 - c0)) % 2048 := by omega
          have hjl : (y - (2048 - c0)) / 2048 < new.length := by
            have := hrel.len
            omega
          rw [hxi, hxo, List.getD_append_right l new 0 _ (by omega)]
          have e1 : l.length + (y - (2048 - c0)) / 2048 - l.length = (y - (2048 - c0)) / 2048 := by
            omega
          rw [e1, hdisknew _ (getD_mem new _ hjl),
            hrel.data ((y - (2048 - c0)) / 2048) ((y - (2048 - c0)) % 2048) hjl (by omega)
              (by omega)]
          congr 1
          omega
      diskFrame := by
        intro k hk hkn hkl
        show (dirDiskWrite s1.disk j _ _ _ _) k = _
        rw [hdisk k hk hkn, Function.update_noteq hkl] }

/-! ## `vsdelete` -/

theorem deallocateFatLoop_chain (l : List Nat) :
    ∀ (fuel : Nat) (s : State) (b : Int), IsChain s.cachedFatTable b l → l.length < fuel →
      deallocateFatLoop fuel s b = some { s with
        cachedFatTable := freedFat s.cachedFatTable l
        disk := freedDisk s.disk l
        freeBlockCount := s.freeBlockCount + l.length } := by
  induction l with
  | nil => intro fuel s b h; exact absurd h (fun h => h)
  | cons x l ih =>
    intro fuel s b h hf
    obtain ⟨hb, hx1, hx2⟩ := isChain_head _ _ _ _ h
    obtain ⟨f, rfl⟩ : ∃ f, fuel = f + 1 := ⟨fuel - 1, by omega⟩
    subst hb
    have hne : ¬ ((x : Int) = -1) := by omega
    have h3 : (0 : Int) ≤ 1 + ((x / 512 : Nat) : Int) := by omega
    have h4 : (1 + ((x / 512 : Nat) : Int)).toNat = 1 + x / 512 := by omega
    have hstep : deallocateFatLoop (f + 1) s (x : Int)
        = deallocateFatLoop f { s with
            cachedFatTable := Function.update s.cachedFatTable x 0
            disk := fatDiskWrite s.disk x 0
            freeBlockCount := s.freeBlockCount + 1 } (s.cachedFatTable x) := by
      rw [deallocateFatLoop]
      simp only [EOF_FLAG, ne_eq, hne, not_false_eq_true, if_true, FAT_ENTRY_COUNT,
        FAT_ENTRY_PER_BLOCK, FAT_BLOCK_START, FAT_ENTRY_SIZE, NOT_USED_FLAG, Int.toNat_ofNat,
        Int.ofNat_nonneg, hx2, and_self, Nat.cast_ofNat, tdiv_512, tmod_512, read_block,
        write_block, h3, h4, fatDiskWrite, Nat.mul_comm 4]
    rw [hstep]
    cases l with
    | nil =>
      have h1 := (isChain_singleton _ _ _).mp h
      obtain ⟨g, rfl⟩ : ∃ g, f = g + 1 := ⟨f - 1, by simp at hf; omega⟩
      rw [h1.2.2.2, deallocateFatLoop]
      simp only [EOF_FLAG, ne_eq, not_true_eq_false, if_false, Option.some.injEq]
      have e1 : freedFat s.cachedFatTable [x] = Function.update s.cachedFatTable x 0 := by
        funext i
        by_cases e : i = x
        · subst e; simp [freedFat]
        · simp [freedFat, e, Function.update_noteq e]
      rw [e1]
      rfl
    | cons y l1 =>
      have h1 := (isChain_cons_cons _ _ _ _ _).mp h
      have hnd := isChain_nodup _ _ _ h
      have hx : x ∉ y :: l1 := (List.nodup_cons.mp hnd).1
      have hch2 : IsChain (Function.update s.cachedFatTable x 0) (s.cachedFatTable x) (y :: l1) :=
        isChain_congr _ _ _ _ h1.2.2.2 (fun z hz =>
          Function.update_noteq (fun e => hx (by rw [← e]; exact hz)) _ _)
      rw [ih f _ (s.cachedFatTable x) hch2 (by simp at hf ⊢; omega)]
      have e1 : freedFat (Function.update s.cachedFatTable x 0) (y :: l1)
          = freedFat s.cachedFatTable (x :: y :: l1) := by
        funext i
        by_cases e : i = x
        · subst e; simp [freedFat]
        · simp [freedFat, e, Function.update_noteq e]
      simp only [e1, Option.some.injEq]
      have e2 : s.freeBlockCount + 1 + ((y :: l1).length : Int)
          = s.freeBlockCount + ((x :: y :: l1).length : Int) := by
        simp only [List.length_cons]; push_cast; ring
      rw [e2]
      rfl

theorem freedFat_mem (fat : Nat → Int) (l : List Nat) (x : Nat) (h : x ∈ l) :
    freedFat fat l x = 0 := by
  simp [freedFat, h]

theorem freedFat_not_mem (fat : Nat → Int) (l : List Nat) (x : Nat) (h : x ∉ l) :
    freedFat fat l x = fat x := by
  simp [freedFat, h]

theorem closedTable_zero (s : State) (name : Bytes) : closedTable s name 0 = s.openFileTable := by
  funext k
  simp [closedTable]

theorem closedCount_zero (s : State) (name : Bytes) : closedCount s name 0 = 0 := by
  simp [closedCount]

theorem closeUpTo_zero (s : State) (name : Bytes) : closeUpTo s name 0 = s := by
  unfold closeUpTo
  rw [closedTable_zero, closedCount_zero]
  simp

theorem closedCount_succ (s : State) (name : Bytes) (i : Nat) :
    closedCount s name (i + 1) = closedCount s name i
      + (if (s.openFileTable i).dirBlock > -1 ∧ RefersTo s i name then 1 else 0) := by
  unfold closedCount
  rw [Finset.range_succ, Finset.filter_insert]
  by_cases h : (s.openFileTable i).dirBlock > -1 ∧ RefersTo s i name
  · rw [if_pos h, if_pos h, Finset.card_insert_of_not_mem (by simp)]
  · rw [if_neg h, if_neg h]; rfl

theorem closedTable_succ_skip (s : State) (name : Bytes) (i : Nat)
    (h : ¬ ((s.openFileTable i).dirBlock > -1 ∧ RefersTo s i name)) :
    closedTable s name (i + 1) = closedTable s name i := by
  funext k
  unfold closedTable
  by_cases e : k = i
  · subst e
    have h2 : ¬ (k < k + 1 ∧ (s.openFileTable k).dirBlock > -1 ∧ RefersTo s k name) :=
      fun hh => h hh.2
    have h3 : ¬ (k < k ∧ (s.openFileTable k).dirBlock > -1 ∧ RefersTo s k name) :=
      fun hh => h hh.2
    rw [if_neg h2, if_neg h3]
  · have e2 : k < i + 1 ↔ k < i := by omega
    simp only [e2]

theorem closeUpTo_succ_skip (s : State) (name : Bytes) (i : Nat)
    (h : ¬ ((s.openFileTable i).dirBlock > -1 ∧ RefersTo s i name)) :
    closeUpTo s name (i + 1) = closeUpTo s name i := by
  unfold closeUpTo
  rw [closedTable_succ_skip s name i h, closedCount_succ, if_neg h, Nat.add_zero]

theorem closedTable_at (s : State) (name : Bytes) (i : Nat) :
    closedTable s name i i = s.openFileTable i := by
  unfold closedTable
  rw [if_neg (fun hh => absurd hh.1 (lt_irrefl i))]

theorem closeUpTo_succ_close (s : State) (name : Bytes) (i : Nat)
    (h : (s.openFileTable i).dirBlock > -1 ∧ RefersTo s i name) :
    closeState (closeUpTo s name i) i = closeUpTo s name (i + 1) := by
  unfold closeState closeUpTo
  simp only [closedTable_at]
  have e1 : Function.update (closedTable s name i) i { s.openFileTable i with dirBlock := -1 }
      = closedTable s name (i + 1) := by
    funext k
    unfold closedTable
    by_cases e : k = i
    · subst e
      rw [Function.update_same, if_pos ⟨by omega, h⟩]
    · rw [Function.update_noteq e]
      have e2 : k < i + 1 ↔ k < i := by omega
      simp only [e2]
  have e2 : s.openFileCount - (closedCount s name i : Int) - 1
      = s.openFileCount - (closedCount s name (i + 1) : Int) := by
    rw [closedCount_succ, if_pos h]; push_cast; ring
  rw [e1, e2]

theorem deleteCloseLoop_eq (s : State) (name : Bytes) (hn : NulTerminated name)
    (hv : HandlesValid s) (cnt i : Nat) (hi : i + cnt ≤ 16) :
    deleteCloseLoop name cnt i (closeUpTo s name i) = some (closeUpTo s name (i + cnt)) := by
  induction cnt generalizing i with
  | zero => rfl
  | succ n ih =>
    have hrec := ih (i + 1) (by omega)
    have hadd : i + (n + 1) = i + 1 + n := by omega
    have hoft : (closeUpTo s name i).openFileTable i = s.openFileTable i := closedTable_at s name i
    have hdir : (closeUpTo s name i).cachedRootDirectory = s.cachedRootDirectory := rfl
    rw [deleteCloseLoop, hoft, hdir, hadd]
    rcases hv i (by simp only [MAX_NOF_OPEN_FILES]; omega) with h0 | ⟨h1, h2, h3⟩
    · have hskip : ¬ ((s.openFileTable i).dirBlock > -1 ∧ RefersTo s i name) := by
        intro hh; omega
      rw [if_neg (by omega), ← closeUpTo_succ_skip s name i hskip]
      exact hrec
    · simp only [DIR_ENTRY_COUNT] at h3
      rw [if_pos (by omega), if_pos ⟨h2, by simp only [DIR_ENTRY_COUNT]; omega⟩, strcmp0_comm]
      obtain ⟨r, hr⟩ := strcmp0_isSome (nameBytes (s.cachedRootDirectory
        (s.openFileTable i).cachedRootDirIndex.toNat).filename) name hn
      cases r with
      | true =>
        have hm : (s.openFileTable i).dirBlock > -1 ∧ RefersTo s i name := ⟨by omega, hr⟩
        rw [hr]
        simp only
        rw [vsclose_eq (closeUpTo s name i) i (by omega) (by rw [hoft]; omega)]
        simp only
        rw [closeUpTo_succ_close s name i hm]
        exact hrec
      | false =>
        have hskip : ¬ ((s.openFileTable i).dirBlock > -1 ∧ RefersTo s i name) := by
          intro hh
          have := hh.2
          unfold RefersTo at this
          rw [hr] at this
          exact absurd this (by decide)
        rw [hr]
        simp only
        rw [← closeUpTo_succ_skip s name i hskip]
        exact hrec

theorem vsdelete_ok (s : State) (name : Bytes) (j : Nat) (l : List Nat) (hn : NulTerminated name)
    (hv : HandlesValid s) (hj : j < 128) (hname : HasName s j name)
    (hl : ∀ k, k < j → ¬ HasName s k name)
    (hch : IsChain s.cachedFatTable (s.cachedRootDirectory j).startBlock l) :
    vsdelete s name = some (0, deleteState s name j l) := by
  have h1 : deleteCloseLoop name 16 0 s = some (closeUpTo s name 16) := by
    have := deleteCloseLoop_eq s name hn hv 16 0 (by omega)
    rwa [closeUpTo_zero, Nat.zero_add] at this
  have h2 : findDirectoryEntryIndexByFilename (closeUpTo s name 16) name = some (j : Int) :=
    findDirectoryEntryIndexByFilename_some _ name hn j hj hname hl
  obtain ⟨s2, hs2, h3⟩ : ∃ s2 : State,
      s2 = { closeUpTo s name 16 with
        cachedRootDirectory := Function.update s.cachedRootDirectory j
          { s.cachedRootDirectory j with allocated := 0 }
        disk := dirDiskClear s.disk j } ∧
      deallocateDirectoryEntry (closeUpTo s name 16) (j : Int) = some s2 :=
    ⟨_, rfl, deallocateDirectoryEntry_eq _ j hj⟩
  obtain ⟨x, l1, rfl⟩ : ∃ x l1, l = x :: l1 := by
    cases l with
    | nil => exact absurd hch (fun h => h)
    | cons x l1 => exact ⟨x, l1, rfl⟩
  obtain ⟨hb, hx1, hx2⟩ := isChain_head _ _ _ _ hch
  have hlen := isChain_length_le _ _ _ hch
  have hstart : (s2.cachedRootDirectory j).startBlock = (s.cachedRootDirectory j).startBlock := by
    rw [hs2]
    simp only [Function.update_same]
  have hne : ¬ ((s2.cachedRootDirectory j).startBlock = -1) := by omega
  have hch2 : IsChain s2.cachedFatTable (s2.cachedRootDirectory j).startBlock (x :: l1) := by
    rw [hstart, hs2]
    exact hch
  unfold vsdelete
  simp only [MAX_NOF_OPEN_FILES, h1, h2, h3, Int.toNat_ofNat, hne, if_false]
  unfold deallocateFatEntriesOfFile
  rw [deallocateFatLoop_chain (x :: l1) _ s2 _ hch2 (by simp only [FAT_ENTRY_COUNT]; omega)]
  subst hs2
  rfl

/-! ## `vsread` -/

theorem wrapInt32_natCast (p n : Nat) (h : p + n < 2147483648) :
    wrapInt32 ((p : Int) + (n : Int)) = ((p + n : Nat) : Int) := by
  have hw := wrapInt32_small ((p : Int) + (n : Int)) (by omega) (by omega)
  rw [hw]; push_cast; rfl

/-- A read that stays inside one logical block copies from the file's first
block, whatever the position is. -/
theorem vsread_single (s : State) (f : Nat) (buf : Bytes) (j p n b : Nat)
    (hf : f < 16) (hin : (s.openFileTable f).dirBlock ≠ -1)
    (hmode : (s.openFileTable f).accessMode ≠ 1)
    (hidx : (s.openFileTable f).cachedRootDirIndex = (j : Int)) (hj : j < 128)
    (hpos : (s.openFileTable f).positionPtr = (p : Int))
    (hsz : ((p + n : Nat) : Int) ≤ (s.cachedRootDirectory j).size)
    (hsmall : p + n < 2147483648)
    (hstart : (s.cachedRootDirectory j).startBlock = (b : Int))
    (hblk : p / 2048 = (p + n) / 2048) :
    vsread s (f : Int) buf (n : Int)
      = some ((n : Int), seekState s f ((p + n : Nat) : Int),
          bufferRead buf 0 n (s.disk b) (p % 2048)) := by
  have h4 : ¬ ((s.cachedRootDirectory j).size < ((p + n : Nat) : Int)) := by omega
  have h5 : ((p / 2048 : Nat) : Int) = (((p + n) / 2048 : Nat) : Int) := by omega
  have h6 : (p + n) % 2048 - p % 2048 = n := by omega
  unfold vsread
  simp only [MAX_NOF_OPEN_FILES, DIR_ENTRY_COUNT, MODE_APPEND, BLOCKSIZE, Int.toNat_ofNat,
    Int.ofNat_nonneg, hf, and_self, if_true, hin, hmode, if_false, hidx, hj, hpos, wrapInt32_natCast p n hsmall, h4,
    tdiv_2048, tmod_2048, h5, hstart]
  rw [readFromBlockToBuffer_eq s.disk buf b (p % 2048) ((p + n) % 2048) 0 (by omega) (by omega)]
  simp only [h6, Nat.zero_add, vsreadFinish, ne_eq, not_true_eq_false, if_false, seekState,
    Int.toNat_ofNat]

/-- A read that ends in the logical block after the one it starts in copies only
up to the end of the first block of the file. -/
theorem vsread_next_block (s : State) (f : Nat) (buf : Bytes) (j p n b : Nat)
    (hf : f < 16) (hin : (s.openFileTable f).dirBlock ≠ -1)
    (hmode : (s.openFileTable f).accessMode ≠ 1)
    (hidx : (s.openFileTable f).cachedRootDirIndex = (j : Int)) (hj : j < 128)
    (hpos : (s.openFileTable f).positionPtr = (p : Int))
    (hsz : ((p + n : Nat) : Int) ≤ (s.cachedRootDirectory j).size)
    (hsmall : p + n < 2147483648)
    (hstart : (s.cachedRootDirectory j).startBlock = (b : Int)) (hb : b < 16384)
    (hblk : p / 2048 + 1 = (p + n) / 2048) :
    vsread s (f : Int) buf (n : Int)
      = some ((if 2048 - p % 2048 = n then (n : Int) else -1),
          seekState s f ((p + n : Nat) : Int),
          bufferRead buf 0 (2048 - p % 2048) (s.disk b) (p % 2048)) := by
  have h4 : ¬ ((s.cachedRootDirectory j).size < ((p + n : Nat) : Int)) := by omega
  have h5 : ¬ (((p / 2048 : Nat) : Int) = (((p + n) / 2048 : Nat) : Int)) := by omega
  have h6 : ((((p + n) / 2048 : Nat) : Int) - ((p / 2048 : Nat) : Int)).toNat = 1 := by omega
  have h7 : ¬ ((b : Int) = -1) := by omega
  have hr := readFromBlockToBuffer_eq s.disk buf b (p % 2048) 2048 0 (by omega) (by omega)
  simp only [Nat.cast_ofNat, Nat.zero_add] at hr
  unfold vsread
  simp only [MAX_NOF_OPEN_FILES, DIR_ENTRY_COUNT, MODE_APPEND, BLOCKSIZE, Int.toNat_ofNat,
    Int.ofNat_nonneg, hf, and_self, if_true, hin, hmode, if_false, hidx, hj, hpos, wrapInt32_natCast p n hsmall, h4,
    tdiv_2048, tmod_2048, h5, hstart, h6, vsreadLoop, h7, hr, FAT_ENTRY_COUNT, hb]
  by_cases he : 2048 - p % 2048 = n
  · have he2 : ((2048 - p % 2048 : Nat) : Int) = (n : Int) := by omega
    simp only [vsreadFinish, ne_eq, he2, not_true_eq_false, if_false, he, if_true, seekState,
      Int.toNat_ofNat]
  · have he2 : ¬ (((2048 - p % 2048 : Nat) : Int) = (n : Int)) := by omega
    simp only [vsreadFinish, ne_eq, he2, not_false_eq_true, if_true, he, if_false, seekState,
      Int.toNat_ofNat]

/-! ## Sequences of calls on the sample volume -/

theorem emptyFat_freeCount : freeCount (emptyFat 128) = 87 := by
  unfold freeCount
  have he : (Finset.range FAT_ENTRY_COUNT).filter (fun i => emptyFat 128 i = NOT_USED_FLAG)
      = Finset.Ico 41 128 := by
    ext i
    simp only [FAT_ENTRY_COUNT, NOT_USED_FLAG, emptyFat, Finset.mem_filter, Finset.mem_range,
      Finset.mem_Ico]
    by_cases h1 : i < 41
    · simp [h1]
    · by_cases h2 : i < 128
      · simp [h1, h2]; omega
      · simp [h1, h2]
  rw [he, Nat.card_Ico]

theorem oneFileVolume_eq : oneFileVolume = createState emptyVolume nameF 41 0 := rfl

theorem vscreate_emptyVolume : vscreate emptyVolume nameF = some (0, oneFileVolume) :=
  vscreate_eq emptyVolume nameF 41 0 nameF_nul (by decide)
    (fun k _ => emptyVolume_no_name k nameF) (by omega) emptyVolume_fat_41
    (fun k hk => emptyVolume_fat_meta k hk) (by omega) rfl (fun k hk => by omega)

theorem oneFileVolume_hasName : HasName oneFileVolume 0 nameF :=
  createState_hasName emptyVolume nameF 41 0 nameF_nul

theorem oneFileVolume_handlesValid : HandlesValid oneFileVolume := fun _ _ => Or.inl rfl

theorem oneFileVolume_chain :
    IsChain oneFileVolume.cachedFatTable (oneFileVolume.cachedRootDirectory 0).startBlock [41] := by
  refine (isChain_singleton _ _ _).mpr ⟨?_, by omega, by omega, ?_⟩
  · simp [oneFileVolume, createState]
  · simp [oneFileVolume, createState]

theorem oneFileVolume_meta (i : Nat) (hi : i < 41) : oneFileVolume.cachedFatTable i ≠ 0 := by
  show Function.update emptyVolume.cachedFatTable 41 (-1) i ≠ 0
  rw [Function.update_noteq (by omega)]
  exact emptyVolume_fat_meta i hi

theorem oneFileVolume_freeCount : freeCount oneFileVolume.cachedFatTable = 86 := by
  have h := freeCount_update_alloc emptyVolume.cachedFatTable 41 (-1) (by omega)
    emptyVolume_fat_41 (by decide)
  have h2 : freeCount emptyVolume.cachedFatTable = 87 := emptyFat_freeCount
  have h3 : oneFileVolume.cachedFatTable = Function.update emptyVolume.cachedFatTable 41 (-1) :=
    rfl
  rw [h3]
  omega

theorem vsopen_oneFileVolume : vsopen oneFileVolume nameF MODE_APPEND = some (0, appendVolume) := by
  have h := vsopen_eq oneFileVolume nameF MODE_APPEND 0 0 nameF_nul (by decide)
    oneFileVolume_handlesValid (fun k _ hu => absurd rfl hu) (by omega) rfl
    (fun k hk => by omega)
    (findDirectoryEntryIndexByFilename_some oneFileVolume nameF nameF_nul 0 (by omega)
      oneFileVolume_hasName (fun k hk => by omega))
  simpa using h

theorem appendVolume_slot : appendVolume.openFileTable 0
    = { accessMode := 1, dirBlock := 0, dirBlockOffset := 0, cachedRootDirIndex := 0,
        positionPtr := 0 } := by
  simp [appendVolume, openState]

/-- The call `vsappend(0, buf, N)` on the sample volume with "f" open for appending. -/
theorem vsappend_appendVolume (buf : Bytes) (N : Nat) (hN : 0 < N) (hN2 : N ≤ 176128) :
    ∃ s3 new, vsappend appendVolume 0 buf (N : Int) = some ((N : Int), s3) ∧
      AppendSpec appendVolume s3 0 [41] new buf 0 N := by
  have hcur : appendCursor ((0 : Nat) : Int) = ((0 : Nat) : Int) := by
    rw [appendCursor_cast]; rfl
  have hreq : requiredBlockCount ((0 : Nat) : Int) (N : Int) ≤ appendVolume.freeBlockCount := by
    rw [requiredBlockCount_cast 0 N 0 hcur (by omega)]
    have h2 : appendVolume.freeBlockCount = 86 := by
      simp [appendVolume, openState, oneFileVolume, createState, emptyVolume]
    rw [h2]
    split_ifs <;> omega
  have hfree : appendVolume.freeBlockCount ≤ (freeCount appendVolume.cachedFatTable : Int) := by
    have h2 : appendVolume.freeBlockCount = 86 := by
      simp [appendVolume, openState, oneFileVolume, createState, emptyVolume]
    have h3 : freeCount appendVolume.cachedFatTable = 86 := oneFileVolume_freeCount
    rw [h2, h3]
    rfl
  have h := vsappend_ok appendVolume 0 buf N 0 0 [41] (by omega)
    (by rw [appendVolume_slot]; decide) (by rw [appendVolume_slot]; decide)
    (by rw [appendVolume_slot]; rfl) (by omega) rfl oneFileVolume_chain
    (by unfold blocksFor; decide) hN hreq hfree oneFileVolume_meta
  simpa using h

/-- The calls `vsclose(0)` and `vsopen("f", MODE_READ)` after such an append. -/
theorem reopen_after_append (s3 : State) (new : List Nat) (buf : Bytes) (N : Nat)
    (h : AppendSpec appendVolume s3 0 [41] new buf 0 N) :
    vsclose s3 0 = some (0, closeState s3 0) ∧
      vsopen (closeState s3 0) nameF MODE_READ
        = some (0, openState (closeState s3 0) 0 0 MODE_READ) := by
  have hoft : s3.openFileTable 0 = appendVolume.openFileTable 0 := by rw [h.oft]
  have hclose := vsclose_eq s3 0 (by omega) (by rw [hoft, appendVolume_slot]; decide)
  have hall : ∀ k, ((closeState s3 0).openFileTable k).dirBlock = -1 := by
    intro k
    by_cases e : k = 0
    · subst e; simp [closeState]
    · simp only [closeState, Function.update_noteq e, h.oft]
      simp [appendVolume, openState, Function.update_noteq e, oneFileVolume, createState,
        emptyVolume]
  have hname : HasName (closeState s3 0) 0 nameF := by
    have hd : (closeState s3 0).cachedRootDirectory 0
        = { oneFileVolume.cachedRootDirectory 0 with size := ((0 : Nat) : Int) + (N : Int) } := by
      show s3.cachedRootDirectory 0 = _
      rw [h.dir, Function.update_same]
      rfl
    refine ⟨?_, ?_⟩
    · rw [hd]; rfl
    · rw [hd]; exact oneFileVolume_hasName.2
  have hoc : (closeState s3 0).openFileCount ≠ 16 := by
    show s3.openFileCount - 1 ≠ 16
    rw [h.openCount]
    decide
  have hopen := vsopen_eq (closeState s3 0) nameF MODE_READ 0 0 nameF_nul hoc
    (fun k _ => Or.inl (hall k)) (fun k _ hu => absurd (hall k) hu) (by omega) (hall 0)
    (fun k hk => by omega)
    (findDirectoryEntryIndexByFilename_some _ nameF nameF_nul 0 (by omega) hname
      (fun k hk => by omega))
  constructor
  · simpa using hclose
  · simpa using hopen

/-- The state in which "f" is open for reading after such an append. -/
theorem readVolume_facts (s3 : State) (new : List Nat) (buf : Bytes) (N : Nat)
    (h : AppendSpec appendVolume s3 0 [41] new buf 0 N) :
    (openState (closeState s3 0) 0 0 MODE_READ).openFileTable 0
        = { accessMode := 0, dirBlock := 0, dirBlockOffset := 0, cachedRootDirIndex := 0,
            positionPtr := 0 } ∧
      ((openState (closeState s3 0) 0 0 MODE_READ).cachedRootDirectory 0).size = (N : Int) ∧
      ((openState (closeState s3 0) 0 0 MODE_READ).cachedRootDirectory 0).startBlock
        = ((41 : Nat) : Int) ∧
      (openState (closeState s3 0) 0 0 MODE_READ).disk = s3.disk ∧
      (openState (closeState s3 0) 0 0 MODE_READ).cachedFatTable = s3.cachedFatTable := by
  have hd : s3.cachedRootDirectory 0
      = { oneFileVolume.cachedRootDirectory 0 with size := ((0 : Nat) : Int) + (N : Int) } := by
    rw [h.dir, Function.update_same]
    rfl
  refine ⟨?_, ?_, ?_, rfl, rfl⟩
  · simp [openState]
  · show (s3.cachedRootDirectory 0).size = _
    rw [hd]
    simp
  · show (s3.cachedRootDirectory 0).startBlock = _
    rw [hd]
    simp [oneFileVolume, createState]

theorem oneFileVolume_inUseCount : inUseCount oneFileVolume.openFileTable = 0 := by
  simp [inUseCount, oneFileVolume, createState, emptyVolume]

theorem oneFileVolume_unique (k : Nat) (h : HasName oneFileVolume k nameF) : k = 0 := by
  by_contra hk
  have := h.1
  simp [oneFileVolume, createState, Function.update_noteq hk, emptyVolume] at this

theorem appendVolume_handlesValid : HandlesValid appendVolume := by
  intro k _
  by_cases e : k = 0
  · subst e
    right
    rw [appendVolume_slot]
    simp
  · left
    simp [appendVolume, openState, Function.update_noteq e, oneFileVolume, createState,
      emptyVolume]

theorem appendVolume_refers : InUse appendVolume 0 ∧ RefersTo appendVolume 0 nameF := by
  constructor
  · unfold InUse; simp [appendVolume_slot]
  · unfold RefersTo
    rw [appendVolume_slot]
    exact oneFileVolume_hasName.2

/-! ## Create, open, append, delete -/

theorem create_append_delete (s0 : State) (name buf : Bytes) (N : Nat)
    (hn : NulTerminated name)
    (hflags : ∀ i, i < 128 →
      (s0.cachedRootDirectory i).allocated = 0 ∨ (s0.cachedRootDirectory i).allocated = 1)
    (hcount : s0.fileCount = allocatedCount s0.cachedRootDirectory)
    (hfc : s0.fileCount < 128)
    (hno : ∀ k, k < 128 → ¬ HasName s0 k name)
    (hmeta : ∀ i, i < 41 → s0.cachedFatTable i ≠ 0)
    (hfree : s0.freeBlockCount ≤ (freeCount s0.cachedFatTable : Int))
    (hv : HandlesValid s0)
    (hocount : s0.openFileCount = inUseCount s0.openFileTable)
    (holt : s0.openFileCount < 16)
    (hopen : ∀ k, k < 16 → InUse s0 k →
      (s0.cachedRootDirectory (s0.openFileTable k).cachedRootDirIndex.toNat).allocated = 1)
    (hN : 0 < N)
    (hcheck : requiredBlockCount 0 (N : Int) ≤ s0.freeBlockCount - 1) :
    ∃ (s1 : State) (f : Nat) (s2 s3 s4 : State),
      vscreate s0 name = some (0, s1) ∧
      vsopen s1 name MODE_APPEND = some ((f : Int), s2) ∧
      vsappend s2 (f : Int) buf (N : Int) = some ((N : Int), s3) ∧
      vsdelete s3 name = some (0, s4) ∧
      s4.freeBlockCount = s0.freeBlockCount ∧ s4.fileCount = s0.fileCount := by
  -- the check of `vsappend`, as a statement on natural numbers
  have hcur : appendCursor ((0 : Nat) : Int) = ((0 : Nat) : Int) := by
    rw [appendCursor_cast]; rfl
  have hreq := requiredBlockCount_cast 0 N 0 hcur (by omega)
  simp only [Nat.cast_zero] at hreq
  rw [hreq] at hcheck
  have hpos : 1 ≤ freeCount s0.cachedFatTable := by
    split_ifs at hcheck <;> omega
  -- create
  obtain ⟨b, hb, hbz, hbl⟩ := exists_least (fun b => s0.cachedFatTable b = 0) 16384
    (exists_free_block s0.cachedFatTable (by omega))
  obtain ⟨j, hj, hjz, hjl⟩ := exists_least (fun j => (s0.cachedRootDirectory j).allocated = 0) 128
    (exists_unallocated s0.cachedRootDirectory hflags (by omega))
  have hb41 : 41 ≤ b := by
    by_contra hcon
    exact hmeta b (by omega) hbz
  have hcreate := vscreate_eq s0 name b j hn (by omega) hno hb hbz hbl hj hjz hjl
  -- open
  have hidx_ne : ∀ k, k < 16 → InUse s0 k → (s0.openFileTable k).cachedRootDirIndex.toNat ≠ j := by
    intro k hk hu e
    have := hopen k hk hu
    rw [e, hjz] at this
    exact absurd this (by decide)
  have hnoref : ∀ k, k < 16 → InUse (createState s0 name b j) k →
      ¬ RefersTo (createState s0 name b j) k name := by
    intro k hk hu hr
    have hu0 : InUse s0 k := hu
    have hne := hidx_ne k hk hu0
    have hr0 : strcmp0 (nameBytes (s0.cachedRootDirectory
        (s0.openFileTable k).cachedRootDirIndex.toNat).filename) name = some true := by
      unfold RefersTo at hr
      simp only [createState, Function.update_noteq hne] at hr
      exact hr
    rcases hv k hk with h0 | ⟨_, h2, h3⟩
    · exact hu0 h0
    · simp only [DIR_ENTRY_COUNT] at h3
      exact hno _ (by omega) ⟨hopen k hk hu0, hr0⟩
  obtain ⟨f, hf, hfz, hfl⟩ := exists_least (fun f => (s0.openFileTable f).dirBlock = -1) 16
    (exists_free_slot s0.openFileTable (by omega))
  have hfind : findDirectoryEntryIndexByFilename (createState s0 name b j) name = some (j : Int) :=
    findDirectoryEntryIndexByFilename_some _ name hn j hj (createState_hasName s0 name b j hn)
      (fun k hk hh => by
        have hne : k ≠ j := by omega
        have : HasName s0 k name := by
          unfold HasName at hh ⊢
          simp only [createState, Function.update_noteq hne] at hh
          exact hh
        exact hno k (by omega) this)
  have hopen2 := vsopen_eq (createState s0 name b j) name MODE_APPEND j f hn
    (by show s0.openFileCount ≠ 16; omega) hv hnoref hf hfz hfl hfind
  -- append
  have hslot : (openState (createState s0 name b j) f j MODE_APPEND).openFileTable f
      = { accessMode := 1, dirBlock := (j : Int).tdiv 16, dirBlockOffset := (j : Int).tmod 16,
          cachedRootDirIndex := j, positionPtr := 0 } := by
    simp [openState]
  have hentry : (openState (createState s0 name b j) f j MODE_APPEND).cachedRootDirectory j
      = { filename := memcpyName name, size := 0, startBlock := b, allocated := 1 } := by
    simp [openState, createState]
  have hfat : (openState (createState s0 name b j) f j MODE_APPEND).cachedFatTable
      = Function.update s0.cachedFatTable b (-1) := rfl
  have hfc2 := freeCount_update_alloc s0.cachedFatTable b (-1) hb hbz (by decide)
  obtain ⟨s3, new, happ, hspec⟩ := vsappend_ok
    (openState (createState s0 name b j) f j MODE_APPEND) f buf N j 0 [b] hf
    (by rw [hslot]; simp only; rw [tdiv_16]; omega)
    (by rw [hslot]; simp) (by rw [hslot]) hj (by rw [hentry]; rfl)
    (by
      rw [hentry, hfat]
      exact (isChain_singleton _ _ _).mpr ⟨rfl, hb41, hb, Function.update_same _ _ _⟩)
    (by unfold blocksFor; simp) hN
    (by
      simp only [Nat.cast_zero]
      rw [hreq]
      show _ ≤ s0.freeBlockCount - 1
      exact hcheck)
    (by
      rw [hfat]
      show s0.freeBlockCount - 1 ≤ _
      omega)
    (by
      intro i hi
      rw [hfat, Function.update_noteq (by omega)]
      exact hmeta i hi)
  -- delete
  have hdir3 : s3.cachedRootDirectory j
      = { filename := memcpyName name, size := ((0 : Nat) : Int) + (N : Int), startBlock := b,
          allocated := 1 } := by
    rw [hspec.dir, Function.update_same, hentry]
  have hv3 : HandlesValid s3 := by
    intro k hk
    rw [hspec.oft]
    by_cases e : k = f
    · subst e
      rw [hslot]
      right
      simp only [DIR_ENTRY_COUNT]
      rw [tdiv_16]
      omega
    · have hk2 : (openState (createState s0 name b j) f (j : Int) MODE_APPEND).openFileTable k
          = s0.openFileTable k := by
        show Function.update s0.openFileTable f _ k = _
        rw [Function.update_noteq e]
      rw [hk2]
      exact hv k hk
  have hname3 : HasName s3 j name := by
    refine ⟨?_, ?_⟩
    · rw [hdir3]
    · rw [hdir3]; exact strcmp0_memcpyName name hn
  have hleast3 : ∀ k, k < j → ¬ HasName s3 k name := by
    intro k hk hh
    have hne : k ≠ j := by omega
    have : HasName s0 k name := by
      unfold HasName at hh ⊢
      rw [hspec.dir, Function.update_noteq hne] at hh
      simp only [openState, createState, Function.update_noteq hne] at hh
      exact hh
    exact hno k (by omega) this
  have hch3 : IsChain s3.cachedFatTable (s3.cachedRootDirectory j).startBlock ([b] ++ new) := by
    have := hspec.chain
    rw [hentry] at this
    rw [hdir3]
    exact this
  have hdel := vsdelete_ok s3 name j ([b] ++ new) hn hv3 hj hname3 hleast3 hch3
  refine ⟨_, f, _, s3, _, hcreate, hopen2, happ, hdel, ?_, ?_⟩
  · show s3.freeBlockCount + (([b] ++ new).length : Int) = s0.freeBlockCount
    rw [hspec.free]
    show s0.freeBlockCount - 1 - (new.length : Int) + (([b] ++ new).length : Int) = _
    simp only [List.length_append, List.length_singleton]
    push_cast
    ring
  · show s3.fileCount - 1 = s0.fileCount
    rw [hspec.fileCount]
    show s0.fileCount + 1 - 1 = s0.fileCount
    ring

/-! ## The claims -/

/-- **C4.** On a volume whose `fileCount` counts the slots with `allocated == 1`
(all flags being 0 or 1): when `fileCount < 128`, no allocated slot carries
`name` (a string that ends within 30 bytes) and some FAT entry is free,
`vscreate name` returns 0; with `b` the lowest free FAT entry and `j` the lowest
unallocated slot, entry `b` becomes EOF, slot `j` becomes
`(name, size 0, startBlock b, allocated 1)`, `freeBlockCount` drops by one,
`fileCount` grows by one, every other FAT entry and slot, the open-file table
and the other counters are unchanged, and the container receives exactly the
two write-through stores. -/
theorem vscreate_success (s : State) (name : Bytes) (hn : NulTerminated name)
    (hflags : ∀ i, i < 128 →
      (s.cachedRootDirectory i).allocated = 0 ∨ (s.cachedRootDirectory i).allocated = 1)
    (hcount : s.fileCount = allocatedCount s.cachedRootDirectory)
    (hfc : s.fileCount < 128)
    (hno : ∀ k, k < 128 → ¬ HasName s k name)
    (hfree : ∃ b, b < 16384 ∧ s.cachedFatTable b = 0) :
    ∃ b j s1,
      vscreate s name = some (0, s1) ∧
      (b < 16384 ∧ s.cachedFatTable b = 0 ∧ ∀ k, k < b → s.cachedFatTable k ≠ 0) ∧
      (j < 128 ∧ (s.cachedRootDirectory j).allocated = 0
        ∧ ∀ k, k < j → (s.cachedRootDirectory k).allocated ≠ 0) ∧
      s1.cachedFatTable b = -1 ∧
      s1.cachedRootDirectory j
        = { filename := memcpyName name, size := 0, startBlock := b, allocated := 1 } ∧
      HasName s1 j name ∧
      s1.freeBlockCount = s.freeBlockCount - 1 ∧
      s1.fileCount = s.fileCount + 1 ∧
      (∀ i, i ≠ b → s1.cachedFatTable i = s.cachedFatTable i) ∧
      (∀ i, i ≠ j → s1.cachedRootDirectory i = s.cachedRootDirectory i) ∧
      s1.openFileTable = s.openFileTable ∧ s1.openFileCount = s.openFileCount ∧
      s1.totalBlockCount = s.totalBlockCount ∧ s1.dataBlockCount = s.dataBlockCount ∧
      s1.disk = dirDiskWrite (fatDiskWrite s.disk b (-1)) j name 0 b 1 := by
  obtain ⟨b, hb, hbz, hbl⟩ := exists_least (fun b => s.cachedFatTable b = 0) 16384 hfree
  have hslot := exists_unallocated s.cachedRootDirectory hflags (by omega)
  obtain ⟨j, hj, hjz, hjl⟩ :=
    exists_least (fun j => (s.cachedRootDirectory j).allocated = 0) 128 hslot
  refine ⟨b, j, createState s name b j,
    vscreate_eq s name b j hn (by omega) hno hb hbz hbl hj hjz hjl, ⟨hb, hbz, hbl⟩,
    ⟨hj, hjz, hjl⟩, ?_, ?_, createState_hasName s name b j hn, rfl, rfl, ?_, ?_, rfl, rfl, rfl,
    rfl, rfl⟩
  · simp [createState]
  · simp [createState]
  · intro i hi
    simp [createState, Function.update_noteq hi]
  · intro i hi
    simp [createState, Function.update_noteq hi]

/-- Witness for C4: creating "f" on the empty sample volume. -/
theorem vscreate_success_witness :
    NulTerminated nameF ∧ emptyVolume.fileCount < 128 ∧
      (∃ b, b < 16384 ∧ emptyVolume.cachedFatTable b = 0) ∧
      ∃ b j s1, vscreate emptyVolume nameF = some (0, s1) ∧ s1.cachedFatTable b = -1 ∧
        HasName s1 j nameF ∧ s1.fileCount = emptyVolume.fileCount + 1 := by
  refine ⟨nameF_nul, by decide, ⟨41, by omega, emptyVolume_fat_41⟩, ?_⟩
  obtain ⟨b, j, s1, h1, _, _, h4, _, h6, _, h8, _⟩ :=
    vscreate_success emptyVolume nameF nameF_nul (fun i _ => emptyVolume_flags i)
      (by rw [emptyVolume_allocatedCount]; rfl) (by decide)
      (fun k _ => emptyVolume_no_name k nameF) ⟨41, by omega, emptyVolume_fat_41⟩
  exact ⟨b, j, s1, h1, h4, h6, h8⟩

/-- **C5.** For a string that ends within 30 bytes, `vscreate name` returns -1
and leaves the whole state (counters, FAT cache, directory cache, open-file
table, container) as it was whenever `fileCount == 128`, or an allocated slot
already carries `name`, or no FAT entry is free.  In particular, after a
successful `vscreate name` on a volume with `fileCount == 0`, a second
`vscreate name` returns -1, changes nothing, and `fileCount` is still 1. -/
theorem vscreate_failure (s : State) (name : Bytes) (hn : NulTerminated name) :
    ((s.fileCount = 128 ∨ (∃ k, k < 128 ∧ HasName s k name)
        ∨ (∀ b, b < 16384 → s.cachedFatTable b ≠ 0)) →
      vscreate s name = some (-1, s)) ∧
    (∀ s1, s.fileCount = 0 → vscreate s name = some (0, s1) →
      vscreate s1 name = some (-1, s1) ∧ s1.fileCount = 1) := by
  refine ⟨vscreate_fail s name hn, fun s1 h0 h1 => ?_⟩
  obtain ⟨b, j, _, hj, rfl⟩ := vscreate_inv s s1 name h1
  refine ⟨vscreate_fail _ name hn (Or.inr (Or.inl ⟨j, hj, createState_hasName s name b j hn⟩)), ?_⟩
  simp [createState, h0]

/-- Witness for C5: creating "f" twice on the empty sample volume. -/
theorem vscreate_failure_witness :
    NulTerminated nameF ∧
      ∃ s1, vscreate emptyVolume nameF = some (0, s1) ∧
        vscreate s1 nameF = some (-1, s1) ∧ s1.fileCount = 1 := by
  refine ⟨nameF_nul, ?_⟩
  have h := vscreate_eq emptyVolume nameF 41 0 nameF_nul (by decide)
    (fun k _ => emptyVolume_no_name k nameF) (by omega) emptyVolume_fat_41
    (fun k hk => emptyVolume_fat_meta k hk) (by omega) rfl (fun k hk => by omega)
  exact ⟨_, h, (vscreate_failure emptyVolume nameF nameF_nul).2 _ rfl h⟩

/-- **C6** (the code departs from the claim).  When no allocated slot carries
`name`, `vsopen` does not fail: on a volume with a free open-file slot and no
handle on that name it only prints the error, then fills the lowest free slot
`f` with directory index -1 (so `dirBlock = -1 / 16 = 0`, the slot counts as in
use), adds one to `openFileCount` and returns `f`, not -1. -/
theorem vsopen_missing_file (s : State) (name : Bytes) (mode : Int) (hn : NulTerminated name)
    (hv : HandlesValid s) (hcount : s.openFileCount = inUseCount s.openFileTable)
    (hlt : s.openFileCount < 16)
    (hno : ∀ k, k < 16 → InUse s k → ¬ RefersTo s k name)
    (hnone : ∀ k, k < 128 → ¬ HasName s k name) :
    ∃ (f : Nat) (s1 : State), f < 16 ∧ ¬ InUse s f ∧ vsopen s name mode = some ((f : Int), s1) ∧
      InUse s1 f ∧ (s1.openFileTable f).cachedRootDirIndex = -1 ∧
      s1.openFileCount = s.openFileCount + 1 := by
  have hslot := exists_free_slot s.openFileTable (by omega)
  obtain ⟨f, hf, hfz, hfl⟩ := exists_least (fun f => (s.openFileTable f).dirBlock = -1) 16 hslot
  refine ⟨f, openState s f (-1) mode, hf, fun h => h hfz,
    vsopen_eq s name mode (-1) f hn (by omega) hv hno hf hfz hfl
      (findDirectoryEntryIndexByFilename_none s name hn hnone), ?_, ?_, rfl⟩
  · simp only [InUse, openState, Function.update_same]
    decide
  · simp only [openState, Function.update_same]

/-- Witness for C6: opening "f" on the empty sample volume returns 0. -/
theorem vsopen_missing_file_witness :
    (∀ k, k < 128 → ¬ HasName emptyVolume k nameF) ∧
      ∃ (f : Nat) (s1 : State), vsopen emptyVolume nameF MODE_READ = some ((f : Int), s1) ∧ InUse s1 f ∧
        s1.openFileCount = 1 := by
  refine ⟨fun k _ => emptyVolume_no_name k nameF, ?_⟩
  obtain ⟨f, s1, _, _, h3, h4, _, h6⟩ :=
    vsopen_missing_file emptyVolume nameF MODE_READ nameF_nul emptyVolume_handlesValid
      (by rw [emptyVolume_inUseCount]; rfl) (by decide)
      (fun k _ hu => absurd hu (emptyVolume_not_inUse k))
      (fun k _ => emptyVolume_no_name k nameF)
  exact ⟨f, s1, h3, h4, h6⟩

/-- **C7.** On a volume whose `openFileCount` counts the slots in use and whose
handles are valid: when fewer than 16 files are open, some allocated slot
carries `name` and no handle in use points at an entry with that name,
`vsopen name mode` returns the lowest slot `f` that was free; slot `f` is then
in use with `accessMode = mode`, `positionPtr = 0` and the index `j` of the
lowest allocated entry named `name`; `openFileCount` grows by one; every other
slot, the directory, the FAT, the superblock counters and the container are
unchanged. -/
theorem vsopen_success (s : State) (name : Bytes) (mode : Int) (hn : NulTerminated name)
    (hv : HandlesValid s) (hcount : s.openFileCount = inUseCount s.openFileTable)
    (hlt : s.openFileCount < 16)
    (hex : ∃ k, k < 128 ∧ HasName s k name)
    (hno : ∀ k, k < 16 → InUse s k → ¬ RefersTo s k name) :
    ∃ (f j : Nat) (s1 : State),
      vsopen s name mode = some ((f : Int), s1) ∧
      (f < 16 ∧ ¬ InUse s f ∧ ∀ k, k < f → InUse s k) ∧
      (j < 128 ∧ HasName s j name ∧ ∀ k, k < j → ¬ HasName s k name) ∧
      InUse s1 f ∧
      (s1.openFileTable f).accessMode = mode ∧
      (s1.openFileTable f).positionPtr = 0 ∧
      (s1.openFileTable f).cachedRootDirIndex = (j : Int) ∧
      s1.openFileCount = s.openFileCount + 1 ∧
      (∀ k, k ≠ f → s1.openFileTable k = s.openFileTable k) ∧
      s1.cachedRootDirectory = s.cachedRootDirectory ∧
      s1.cachedFatTable = s.cachedFatTable ∧
      s1.freeBlockCount = s.freeBlockCount ∧ s1.fileCount = s.fileCount ∧
      s1.totalBlockCount = s.totalBlockCount ∧ s1.dataBlockCount = s.dataBlockCount ∧
      s1.disk = s.disk := by
  have hslot := exists_free_slot s.openFileTable (by omega)
  obtain ⟨f, hf, hfz, hfl⟩ := exists_least (fun f => (s.openFileTable f).dirBlock = -1) 16 hslot
  obtain ⟨j, hj, hjn, hjl⟩ := exists_least (fun j => HasName s j name) 128 hex
  refine ⟨f, j, openState s f (j : Int) mode,
    vsopen_eq s name mode j f hn (by omega) hv hno hf hfz hfl
      (findDirectoryEntryIndexByFilename_some s name hn j hj hjn hjl),
    ⟨hf, fun h => h hfz, hfl⟩, ⟨hj, hjn, hjl⟩, ?_, ?_, ?_, ?_, rfl, ?_, rfl, rfl, rfl, rfl, rfl,
    rfl, rfl⟩
  · simp only [InUse, openState, Function.update_same]
    rw [tdiv_16]
    omega
  · simp only [openState, Function.update_same]
  · simp only [openState, Function.update_same]
  · simp only [openState, Function.update_same]
  · intro k hk
    simp only [openState, Function.update_noteq hk]

/-- **C8.** For a string that ends within 30 bytes and a valid open-file table,
`vsopen name mode` returns -1 and leaves the whole state as it was whenever
`openFileCount == 16`, or some handle in use points at a directory entry whose
stored name equals `name`; the mode plays no part. -/
theorem vsopen_failure (s : State) (name : Bytes) (mode : Int) (hn : NulTerminated name)
    (hv : HandlesValid s)
    (h : s.openFileCount = 16 ∨ ∃ k, k < 16 ∧ InUse s k ∧ RefersTo s k name) :
    vsopen s name mode = some (-1, s) :=
  vsopen_fail s name mode hn hv h

/-- **C10** (the code departs from the claim).  When no allocated slot carries
`name` (and no handle points at that name), `vsdelete name` does not return -1:
`findDirectoryEntryIndexByFilename` yields -1 and `deallocateDirectoryEntry(-1)`
writes `cachedRootDirectory[-1]`, outside the array. -/
theorem vsdelete_missing_file (s : State) (name : Bytes) (hn : NulTerminated name)
    (hv : HandlesValid s) (hno : ∀ k, k < 16 → InUse s k → ¬ RefersTo s k name)
    (hnone : ∀ k, k < 128 → ¬ HasName s k name) :
    findDirectoryEntryIndexByFilename s name = some (-1) ∧
      deallocateDirectoryEntry s (-1) = none ∧ vsdelete s name = none :=
  ⟨findDirectoryEntryIndexByFilename_none s name hn hnone,
    deallocateDirectoryEntry_none s (-1) (by omega), vsdelete_notfound s name hn hv hno hnone⟩

/-- Witness for C10: deleting "f" on the empty sample volume. -/
theorem vsdelete_missing_file_witness :
    (∀ k, k < 128 → ¬ HasName emptyVolume k nameF) ∧ vsdelete emptyVolume nameF = none :=
  ⟨fun k _ => emptyVolume_no_name k nameF,
    (vsdelete_missing_file emptyVolume nameF nameF_nul emptyVolume_handlesValid
      (fun k _ hu => absurd hu (emptyVolume_not_inUse k))
      (fun k _ => emptyVolume_no_name k nameF)).2.2⟩

/-- **C3.** On a volume whose `freeBlockCount` does not exceed the number of free
FAT entries and whose FAT entries 0..40 are not free: for a handle in use in
`MODE_APPEND` on the file in slot `j` of size `sz`, with chain `l` of
`max(1, ceil(sz / 2048))` blocks, and `N > 0` bytes that pass the free-block
check, `vsappend` returns `N`, the entry's size becomes `sz + N` (and `vssize`
returns it), the chain becomes `l ++ new`, the first `sz` logical bytes are
unchanged and bytes `[sz, sz + N)` are `buf[0 .. N)`. -/
theorem vsappend_success (s : State) (f : Nat) (buf : Bytes) (N j sz : Nat) (l : List Nat)
    (hf : f < 16) (hin : InUse s f)
    (hmode : (s.openFileTable f).accessMode = MODE_APPEND)
    (hidx : (s.openFileTable f).cachedRootDirIndex = (j : Int)) (hj : j < 128)
    (hsz : (s.cachedRootDirectory j).size = (sz : Int))
    (hch : IsChain s.cachedFatTable (s.cachedRootDirectory j).startBlock l)
    (hlen : (l.length : Int) = blocksFor (sz : Int))
    (hN : 0 < N)
    (hcheck : requiredBlockCount (sz : Int) (N : Int) ≤ s.freeBlockCount)
    (hfree : s.freeBlockCount ≤ (freeCount s.cachedFatTable : Int))
    (hmeta : ∀ i, i < 41 → s.cachedFatTable i ≠ 0) :
    ∃ s2 new,
      vsappend s (f : Int) buf (N : Int) = some ((N : Int), s2) ∧
      (s2.cachedRootDirectory j).size = (sz : Int) + (N : Int) ∧
      vssize s2 (f : Int) = some ((sz : Int) + (N : Int)) ∧
      IsChain s2.cachedFatTable (s2.cachedRootDirectory j).startBlock (l ++ new) ∧
      (∀ x, x < sz → fileByte s2.disk (l ++ new) x = fileByte s.disk l x) ∧
      (∀ y, y < N → fileByte s2.disk (l ++ new) (sz + y) = buf y) := by
  obtain ⟨s2, new, hrun, hspec⟩ := vsappend_ok s f buf N j sz l hf hin
    (by rw [hmode]; decide) hidx hj hsz hch hlen hN hcheck hfree hmeta
  have hsize : (s2.cachedRootDirectory j).size = (sz : Int) + (N : Int) := by
    rw [hspec.dir, Function.update_same]
  have hstart : (s2.cachedRootDirectory j).startBlock = (s.cachedRootDirectory j).startBlock := by
    rw [hspec.dir, Function.update_same]
  refine ⟨s2, new, hrun, hsize, ?_, by rw [hstart]; exact hspec.chain, hspec.keep, hspec.added⟩
  have hin2 : (s.openFileTable f).dirBlock ≠ -1 := hin
  have hneg : ¬ ((sz : Int) + (N : Int) < 0) := by omega
  unfold vssize
  simp only [MAX_NOF_OPEN_FILES, DIR_ENTRY_COUNT, Int.toNat_ofNat, Int.ofNat_nonneg, hf, and_self,
    if_true, hspec.oft, hin2, if_false, hidx, hj, hsize, hneg]

/-- Witness for C3: appending 5000 bytes to the new file "f" of the sample volume. -/
theorem vsappend_success_witness :
    InUse appendVolume 0 ∧ (appendVolume.openFileTable 0).accessMode = MODE_APPEND ∧
      ∃ s2 new, vsappend appendVolume 0 sampleBytes 5000 = some (5000, s2) ∧
        (s2.cachedRootDirectory 0).size = 5000 ∧
        ∀ y, y < 5000 → fileByte s2.disk ([41] ++ new) y = sampleBytes y := by
  have hin : InUse appendVolume 0 := by
    unfold InUse; simp [appendVolume_slot]
  have hmode : (appendVolume.openFileTable 0).accessMode = MODE_APPEND := by
    simp [appendVolume_slot]
  have hcur : appendCursor ((0 : Nat) : Int) = ((0 : Nat) : Int) := by
    rw [appendCursor_cast]; rfl
  have hreq : requiredBlockCount ((0 : Nat) : Int) ((5000 : Nat) : Int)
      ≤ appendVolume.freeBlockCount := by
    rw [requiredBlockCount_cast 0 5000 0 hcur (by omega)]
    decide
  have hfree : appendVolume.freeBlockCount ≤ (freeCount appendVolume.cachedFatTable : Int) := by
    have h3 : freeCount appendVolume.cachedFatTable = 86 := oneFileVolume_freeCount
    rw [h3]
    decide
  obtain ⟨s2, new, h1, h2, _, _, _, h6⟩ :=
    vsappend_success appendVolume 0 sampleBytes 5000 0 0 [41] (by omega) hin hmode
      (by simp [appendVolume_slot]) (by omega) rfl oneFileVolume_chain
      (by unfold blocksFor; decide) (by omega) hreq hfree oneFileVolume_meta
  refine ⟨hin, hmode, s2, new, h1, ?_, fun y hy => ?_⟩
  · rw [h2]; rfl
  · have := h6 y hy
    rw [Nat.zero_add] at this
    exact this

/-- **C1** (the code departs from the claim).  On the empty sample volume the
sequence create "f", open for append, append 2049 bytes, close, open for read,
read 2049 bytes: every call up to the read succeeds, and the read returns -1. -/
theorem roundtrip_2049_fails :
    ∃ s1 s2 s3 s4 s5 r,
      vscreate emptyVolume nameF = some (0, s1) ∧
      vsopen s1 nameF MODE_APPEND = some (0, s2) ∧
      vsappend s2 0 sampleBytes 2049 = some (2049, s3) ∧
      vsclose s3 0 = some (0, s4) ∧
      vsopen s4 nameF MODE_READ = some (0, s5) ∧
      vsread s5 0 (fun _ => 0) 2049 = some (-1, r) := by
  obtain ⟨s3, new, happ, hspec⟩ := vsappend_appendVolume sampleBytes 2049 (by omega) (by omega)
  obtain ⟨hclose, hopen⟩ := reopen_after_append s3 new sampleBytes 2049 hspec
  obtain ⟨hslot, hsize, hstart, _, _⟩ := readVolume_facts s3 new sampleBytes 2049 hspec
  obtain ⟨s5, hs5⟩ : ∃ s5, s5 = openState (closeState s3 0) 0 0 MODE_READ := ⟨_, rfl⟩
  rw [← hs5] at hopen hslot hsize hstart
  have hread := vsread_next_block s5 0 (fun _ => 0) 0 0 2049 41 (by omega)
    (by simp [hslot]) (by simp [hslot]) (by simp [hslot]) (by omega) (by simp [hslot])
    (by simp [hsize]) (by omega) hstart (by omega) (by decide)
  rw [if_neg (by decide)] at hread
  exact ⟨oneFileVolume, appendVolume, s3, closeState s3 0, s5, _, vscreate_emptyVolume,
    vsopen_oneFileVolume, happ, hclose, hopen, hread⟩

/-- **C2** (the code departs from the claim).  On the empty sample volume, after
create "f", open for append, append 4096 bytes (2048 'A' then 2048 'B'), close,
open for read and a first read of 2048 bytes, the handle is at position 2048 of
a file of size 4096 with a well-formed chain `l`; `vsread` of 10 more bytes
returns 10, but `buf[0]` is logical byte 0 of the file, which differs from
logical byte 2048. -/
theorem read_second_block_wrong :
    ∃ s1 s2 s3 s4 s5 s6 s7 l b1 b2,
      vscreate emptyVolume nameF = some (0, s1) ∧
      vsopen s1 nameF MODE_APPEND = some (0, s2) ∧
      vsappend s2 0 sampleBytes 4096 = some (4096, s3) ∧
      vsclose s3 0 = some (0, s4) ∧
      vsopen s4 nameF MODE_READ = some (0, s5) ∧
      vsread s5 0 (fun _ => 0) 2048 = some (2048, s6, b1) ∧
      InUse s6 0 ∧ (s6.openFileTable 0).accessMode = MODE_READ ∧
      (s6.openFileTable 0).positionPtr = 2048 ∧
      (s6.cachedRootDirectory 0).size = 4096 ∧
      IsChain s6.cachedFatTable (s6.cachedRootDirectory 0).startBlock l ∧
      (l.length : Int) = blocksFor 4096 ∧
      vsread s6 0 b1 10 = some (10, s7, b2) ∧
      b2 0 = fileByte s6.disk l 0 ∧ b2 0 ≠ fileByte s6.disk l 2048 := by
  obtain ⟨s3, new, happ, hspec⟩ := vsappend_appendVolume sampleBytes 4096 (by omega) (by omega)
  obtain ⟨hclose, hopen⟩ := reopen_after_append s3 new sampleBytes 4096 hspec
  obtain ⟨hslot, hsize, hstart, hdisk, hfat⟩ := readVolume_facts s3 new sampleBytes 4096 hspec
  obtain ⟨s5, hs5⟩ : ∃ s5, s5 = openState (closeState s3 0) 0 0 MODE_READ := ⟨_, rfl⟩
  rw [← hs5] at hopen hslot hsize hstart hdisk hfat
  -- the first read
  have hread1 := vsread_next_block s5 0 (fun _ => 0) 0 0 2048 41 (by omega)
    (by simp [hslot]) (by simp [hslot]) (by simp [hslot]) (by omega) (by simp [hslot])
    (by simp [hsize]) (by omega) hstart (by omega) (by decide)
  rw [if_pos (by decide)] at hread1
  obtain ⟨s6, hs6⟩ : ∃ s6, s6 = seekState s5 0 ((0 + 2048 : Nat) : Int) := ⟨_, rfl⟩
  obtain ⟨b1, hb1⟩ : ∃ b1,
      b1 = bufferRead (fun _ => 0) 0 (2048 - 0 % 2048) (s5.disk 41) (0 % 2048) := ⟨_, rfl⟩
  rw [← hs6, ← hb1] at hread1
  have hslot6 : s6.openFileTable 0
      = { accessMode := 0, dirBlock := 0, dirBlockOffset := 0, cachedRootDirIndex := 0,
          positionPtr := 2048 } := by
    rw [hs6]
    simp only [seekState, Function.update_same, hslot]
    rfl
  have hdir6 : s6.cachedRootDirectory = s5.cachedRootDirectory := by rw [hs6]; rfl
  have hdisk6 : s6.disk = s3.disk := by rw [hs6]; exact hdisk
  have hfat6 : s6.cachedFatTable = s3.cachedFatTable := by rw [hs6]; exact hfat
  -- the second read
  have hread2 := vsread_single s6 0 b1 0 2048 10 41 (by omega)
    (by simp [hslot6]) (by simp [hslot6]) (by simp [hslot6]) (by omega)
    (by simp [hslot6]) (by simp [hdir6, hsize]) (by omega) (by rw [hdir6]; exact hstart)
    (by decide)
  obtain ⟨b2, hb2⟩ : ∃ b2, b2 = bufferRead b1 0 10 (s6.disk 41) (2048 % 2048) := ⟨_, rfl⟩
  rw [← hb2] at hread2
  -- the bytes of the file
  have hb0 : fileByte s3.disk ([41] ++ new) 0 = 65 := by
    have := hspec.added 0 (by omega)
    rw [Nat.zero_add] at this
    rw [this]; rfl
  have hb2048 : fileByte s3.disk ([41] ++ new) 2048 = 66 := by
    have := hspec.added 2048 (by omega)
    rw [Nat.zero_add] at this
    rw [this]; rfl
  have hchain : IsChain s3.cachedFatTable ((41 : Nat) : Int) ([41] ++ new) := hspec.chain
  have hlen : (([41] ++ new).length : Int) = blocksFor 4096 := hspec.blocks
  have hfirst : b2 0 = fileByte s3.disk ([41] ++ new) 0 := by
    rw [hb2, hdisk6]
    simp [bufferRead, fileByte]
  refine ⟨oneFileVolume, appendVolume, s3, closeState s3 0, s5, s6, _, [41] ++ new, b1, b2,
    vscreate_emptyVolume, vsopen_oneFileVolume, happ, hclose, hopen, hread1, ?_, ?_, ?_, ?_, ?_,
    hlen, hread2, ?_, ?_⟩
  · unfold InUse; simp [hslot6]
  · simp [hslot6]
  · simp [hslot6]
  · rw [hdir6]; exact hsize
  · rw [hdir6, hstart, hfat6]; exact hchain
  · rw [hdisk6]; exact hfirst
  · rw [hdisk6, hfirst, hb0, hb2048]
    decide

/-- Witness for C7: opening the file "f" of the sample volume. -/
theorem vsopen_success_witness :
    (∃ k, k < 128 ∧ HasName oneFileVolume k nameF) ∧ oneFileVolume.openFileCount < 16 ∧
      ∃ (f j : Nat) (s1 : State), vsopen oneFileVolume nameF MODE_READ = some ((f : Int), s1) ∧
        InUse s1 f ∧ (s1.openFileTable f).accessMode = MODE_READ ∧
        (s1.openFileTable f).cachedRootDirIndex = (j : Int) ∧ HasName oneFileVolume j nameF := by
  refine ⟨⟨0, by omega, oneFileVolume_hasName⟩, by decide, ?_⟩
  obtain ⟨f, j, s1, h1, _, h3, h4, h5, _, h7, _⟩ :=
    vsopen_success oneFileVolume nameF MODE_READ nameF_nul oneFileVolume_handlesValid
      (by rw [oneFileVolume_inUseCount]; rfl) (by decide) ⟨0, by omega, oneFileVolume_hasName⟩
      (fun k _ hu => absurd rfl hu)
  exact ⟨f, j, s1, h1, h4, h5, h7, h3.2.1⟩

/-- Witness for C8: opening "f" while it is already open on the sample volume. -/
theorem vsopen_failure_witness :
    (∃ k, k < 16 ∧ InUse appendVolume k ∧ RefersTo appendVolume k nameF) ∧
      vsopen appendVolume nameF MODE_READ = some (-1, appendVolume) :=
  ⟨⟨0, by omega, appendVolume_refers⟩,
    vsopen_failure appendVolume nameF MODE_READ nameF_nul appendVolume_handlesValid
      (Or.inr ⟨0, by omega, appendVolume_refers⟩)⟩

/-- **C9.** For a valid open-file table and an allocated file `name` (a string
that ends within 30 bytes) that sits in slot `j` only, whose FAT chain from
`startBlock` is the well-formed chain `l`: `vsdelete name` returns 0; afterwards
slot `j` is unallocated and `findDirectoryEntryIndexByFilename name` yields -1,
every block of `l` is free in the FAT, `freeBlockCount` has grown by the length
of `l`, `fileCount` has dropped by one, every handle that pointed at slot `j` is
closed, and the FAT entries outside `l` and the other directory slots are
unchanged.  In particular, on a consistent volume, create, open for append,
append `N` bytes, delete brings `freeBlockCount` back to its value before the
create. -/
theorem vsdelete_success (s : State) (name : Bytes) (j : Nat) (l : List Nat)
    (hn : NulTerminated name) (hv : HandlesValid s) (hj : j < 128) (hname : HasName s j name)
    (huniq : ∀ k, k < 128 → HasName s k name → k = j)
    (hch : IsChain s.cachedFatTable (s.cachedRootDirectory j).startBlock l) :
    (∃ s1, vsdelete s name = some (0, s1) ∧
      (s1.cachedRootDirectory j).allocated = 0 ∧
      findDirectoryEntryIndexByFilename s1 name = some (-1) ∧
      (∀ x, x ∈ l → s1.cachedFatTable x = 0) ∧
      s1.freeBlockCount = s.freeBlockCount + l.length ∧
      s1.fileCount = s.fileCount - 1 ∧
      (∀ i, i < 16 → (s.openFileTable i).cachedRootDirIndex = (j : Int) → ¬ InUse s1 i) ∧
      (∀ x, x ∉ l → s1.cachedFatTable x = s.cachedFatTable x) ∧
      (∀ i, i ≠ j → s1.cachedRootDirectory i = s.cachedRootDirectory i)) ∧
    (∀ (s0 : State) (buf : Bytes) (N : Nat),
      (∀ i, i < 128 →
        (s0.cachedRootDirectory i).allocated = 0 ∨ (s0.cachedRootDirectory i).allocated = 1) →
      s0.fileCount = allocatedCount s0.cachedRootDirectory →
      s0.fileCount < 128 →
      (∀ k, k < 128 → ¬ HasName s0 k name) →
      (∀ i, i < 41 → s0.cachedFatTable i ≠ 0) →
      s0.freeBlockCount ≤ (freeCount s0.cachedFatTable : Int) →
      HandlesValid s0 →
      s0.openFileCount = inUseCount s0.openFileTable →
      s0.openFileCount < 16 →
      (∀ k, k < 16 → InUse s0 k →
        (s0.cachedRootDirectory (s0.openFileTable k).cachedRootDirIndex.toNat).allocated = 1) →
      0 < N →
      requiredBlockCount 0 (N : Int) ≤ s0.freeBlockCount - 1 →
      ∃ (s1 : State) (f : Nat) (s2 s3 s4 : State),
        vscreate s0 name = some (0, s1) ∧
        vsopen s1 name MODE_APPEND = some ((f : Int), s2) ∧
        vsappend s2 (f : Int) buf (N : Int) = some ((N : Int), s3) ∧
        vsdelete s3 name = some (0, s4) ∧
        s4.freeBlockCount = s0.freeBlockCount) := by
  constructor
  · have hleast : ∀ k, k < j → ¬ HasName s k name := fun k hk hh => by
      have := huniq k (by omega) hh
      omega
    refine ⟨deleteState s name j l, vsdelete_ok s name j l hn hv hj hname hleast hch, ?_, ?_,
      fun x hx => freedFat_mem _ l x hx, rfl, rfl, ?_, fun x hx => freedFat_not_mem _ l x hx, ?_⟩
    · simp [deleteState]
    · apply findDirectoryEntryIndexByFilename_none _ name hn
      intro k hk hh
      by_cases e : k = j
      · subst e
        have := hh.1
        simp [deleteState] at this
      · have h2 : HasName s k name := by
          unfold HasName at hh ⊢
          simp only [deleteState, Function.update_noteq e] at hh
          exact hh
        exact e (huniq k hk h2)
    · intro i hi hidx hu
      have hrefers : RefersTo s i name := by
        unfold RefersTo
        rw [hidx, Int.toNat_ofNat]
        exact hname.2
      have hslot : (deleteState s name j l).openFileTable i = closedTable s name 16 i := rfl
      unfold InUse at hu
      rw [hslot] at hu
      unfold closedTable at hu
      by_cases hc : i < 16 ∧ (s.openFileTable i).dirBlock > -1 ∧ RefersTo s i name
      · rw [if_pos hc] at hu
        exact hu rfl
      · rw [if_neg hc] at hu
        rcases hv i hi with h0 | ⟨h1, _, _⟩
        · exact hu h0
        · exact hc ⟨hi, by omega, hrefers⟩
    · intro i hi
      simp [deleteState, Function.update_noteq hi]
  · intro s0 buf N hflags hcount hfc hno hmeta hfree hv0 hocount holt hopen hN hcheck
    obtain ⟨s1, f, s2, s3, s4, h1, h2, h3, h4, h5, _⟩ :=
      create_append_delete s0 name buf N hn hflags hcount hfc hno hmeta hfree hv0 hocount holt
        hopen hN hcheck
    exact ⟨s1, f, s2, s3, s4, h1, h2, h3, h4, h5⟩

/-- Witness for C9: deleting the file "f" of the sample volume, and the sequence
create, open, append 5000 bytes, delete on the empty sample volume. -/
theorem vsdelete_success_witness :
    HasName oneFileVolume 0 nameF ∧
      (∃ s1, vsdelete oneFileVolume nameF = some (0, s1) ∧
        s1.freeBlockCount = oneFileVolume.freeBlockCount + 1 ∧ s1.cachedFatTable 41 = 0) ∧
      (∃ (s1 : State) (f : Nat) (s2 s3 s4 : State),
        vscreate emptyVolume nameF = some (0, s1) ∧
        vsopen s1 nameF MODE_APPEND = some ((f : Int), s2) ∧
        vsappend s2 (f : Int) sampleBytes 5000 = some (5000, s3) ∧
        vsdelete s3 nameF = some (0, s4) ∧
        s4.freeBlockCount = emptyVolume.freeBlockCount) := by
  have h := vsdelete_success oneFileVolume nameF 0 [41] nameF_nul oneFileVolume_handlesValid
    (by omega) oneFileVolume_hasName (fun k _ hk => oneFileVolume_unique k hk) oneFileVolume_chain
  have hcur : appendCursor ((0 : Nat) : Int) = ((0 : Nat) : Int) := by
    rw [appendCursor_cast]; rfl
  have hreq : requiredBlockCount 0 ((5000 : Nat) : Int) ≤ emptyVolume.freeBlockCount - 1 := by
    have := requiredBlockCount_cast 0 5000 0 hcur (by omega)
    simp only [Nat.cast_zero] at this
    rw [this]
    decide
  refine ⟨oneFileVolume_hasName, ?_, ?_⟩
  · obtain ⟨s1, h1, _, _, h4, h5, _⟩ := h.1
    exact ⟨s1, h1, h5, h4 41 (List.mem_singleton.mpr rfl)⟩
  · exact h.2 emptyVolume sampleBytes 5000 (fun i _ => emptyVolume_flags i)
      (by rw [emptyVolume_allocatedCount]; rfl) (by decide)
      (fun k _ => emptyVolume_no_name k nameF) (fun i hi => emptyVolume_fat_meta i hi)
      (by
        have h3 : freeCount emptyVolume.cachedFatTable = 87 := emptyFat_freeCount
        rw [h3]; decide)
      emptyVolume_handlesValid (by rw [emptyVolume_inUseCount]; rfl) (by decide)
      (fun k _ hu => absurd hu (emptyVolume_not_inUse k)) (by omega) hreq

theorem requiredBlockCount_spec (sz N c0 : Nat) (hc : appendCursor (sz : Int) = (c0 : Int))
    (hc2 : c0 ≤ 2048) :
    requiredBlockCount (sz : Int) (N : Int)
      = requiredBlocksSpec (c0 : Int) (N : Int)
        + (if 2048 - c0 < N ∧ (N - (2048 - c0)) % 2048 = 0 then 1 else 0) := by
  rw [requiredBlockCount_cast sz N c0 hc hc2]
  unfold requiredBlocksSpec
  simp only [BLOCKSIZE]
  by_cases h : N ≤ 2048 - c0
  · have h1 : (N : Int) ≤ 2048 - (c0 : Int) := by omega
    have h2 : ¬ (2048 - c0 < N ∧ (N - (2048 - c0)) % 2048 = 0) := by omega
    simp only [h, h1, h2, if_true, if_false]
    simp
  · have h1 : ¬ ((N : Int) ≤ 2048 - (c0 : Int)) := by omega
    simp only [h, h1, if_false]
    split_ifs with h3
    · push_cast
      omega
    · push_cast
      omega

theorem appendVolume_required : requiredBlockCount 0 178176 = 87 := by
  have h := requiredBlockCount_cast 0 178176 0 (by simp [appendCursor]) (by omega)
  simpa using h

/-- What a defined `vsappend` has passed when it does not leave early. -/
theorem vsappend_inv (s s1 : State) (fd : Int) (buf : Bytes) (n r : Int)
    (h : vsappend s fd buf n = some (r, s1)) :
    (r = -1 ∧ s1 = s) ∨
      (0 < n ∧ 0 ≤ fd ∧ fd.toNat < 16 ∧ (s.openFileTable fd.toNat).dirBlock ≠ -1 ∧
        (s.openFileTable fd.toNat).accessMode ≠ 0 ∧
        0 ≤ (s.openFileTable fd.toNat).cachedRootDirIndex ∧
        (s.openFileTable fd.toNat).cachedRootDirIndex.toNat < 128 ∧
        requiredBlockCount
          (s.cachedRootDirectory (s.openFileTable fd.toNat).cachedRootDirIndex.toNat).size n
            ≤ s.freeBlockCount) := by
  unfold vsappend at h
  simp only [MAX_NOF_OPEN_FILES, DIR_ENTRY_COUNT, MODE_READ] at h
  split_ifs at h with h1 h2 h3 h4 h5 h6
  all_goals first
    | (simp only [Option.some.injEq, Prod.mk.injEq] at h
       exact Or.inl ⟨h.1.symm, h.2.symm⟩)
    | exact Or.inr ⟨by omega, h2.1, h2.2, h3, h4, h5.1, h5.2, by omega⟩

theorem blocksFor_nat (x : Nat) : blocksFor (x : Int) = ((max 1 ((x + 2047) / 2048) : Nat) : Int) := by
  unfold blocksFor
  push_cast
  rfl

theorem vsappend_growth (s s2 : State) (f : Nat) (buf : Bytes) (N j sz : Nat) (l : List Nat)
    (hidx : (s.openFileTable f).cachedRootDirIndex = (j : Int))
    (hsz : (s.cachedRootDirectory j).size = (sz : Int))
    (hch : IsChain s.cachedFatTable (s.cachedRootDirectory j).startBlock l)
    (hlen : (l.length : Int) = blocksFor (sz : Int))
    (hfree : s.freeBlockCount ≤ (freeCount s.cachedFatTable : Int))
    (hmeta : ∀ i, i < 41 → s.cachedFatTable i ≠ 0)
    (hN : 0 < N)
    (hret : vsappend s (f : Int) buf (N : Int) = some ((N : Int), s2)) :
    ∃ new, AppendSpec s s2 j l new buf sz N := by
  rcases vsappend_inv s s2 f buf N N hret with ⟨h1, _⟩ | ⟨_, _, hf, hin, hmode, _, hj, hreq⟩
  · omega
  · simp only [Int.toNat_ofNat] at hf hin hmode hj hreq
    rw [hidx] at hj hreq
    simp only [Int.toNat_ofNat] at hj hreq
    rw [hsz] at hreq
    obtain ⟨s3, new, hrun, hspec⟩ :=
      vsappend_ok s f buf N j sz l hf hin hmode hidx hj hsz hch hlen hN hreq hfree hmeta
    rw [hrun] at hret
    simp only [Option.some.injEq, Prod.mk.injEq, true_and] at hret
    exact ⟨new, hret ▸ hspec⟩

theorem tdiv_tmod_neg (e : Int) (h : e < 0) :
    e.tdiv 2048 = -((-e) / 2048) ∧ e.tmod 2048 = -((-e) % 2048) := by
  have h1 : e.tdiv 2048 = -((-e).tdiv 2048) := by
    rw [Int.neg_tdiv, neg_neg]
  have h2 : (-e).tdiv 2048 = (-e) / 2048 := Int.tdiv_eq_ediv (by omega) (by omega)
  have h3 := Int.tmod_def e 2048
  rw [h1, h2] at h3
  refine ⟨by rw [h1, h2], ?_⟩
  rw [h3]
  omega

theorem tdiv_tmod_nonneg (e : Int) (h : 0 ≤ e) :
    e.tdiv 2048 = e / 2048 ∧ e.tmod 2048 = e % 2048 :=
  ⟨Int.tdiv_eq_ediv h (by omega), Int.tmod_eq_emod h (by omega)⟩

/-- Truncating division by the block size is monotone, and inside one block
the remainders are ordered like the offsets. -/
theorem tdiv_tmod_mono (e p : Int) (h : e ≤ p) (hp : 0 ≤ p) :
    e.tdiv 2048 ≤ p.tdiv 2048 ∧ (e.tdiv 2048 = p.tdiv 2048 → e.tmod 2048 ≤ p.tmod 2048) := by
  obtain ⟨hp1, hp2⟩ := tdiv_tmod_nonneg p hp
  by_cases he : 0 ≤ e
  · obtain ⟨he1, he2⟩ := tdiv_tmod_nonneg e he
    rw [hp1, hp2, he1, he2]
    omega
  · obtain ⟨he1, he2⟩ := tdiv_tmod_neg e (by omega)
    rw [hp1, hp2, he1, he2]
    omega

theorem wrapInt32_cases (x : Int) (h1 : -4294967296 ≤ x) (h2 : x < 4294967296) :
    (wrapInt32 x = x ∧ -2147483648 ≤ x ∧ x < 2147483648)
      ∨ (wrapInt32 x = x - 4294967296 ∧ 2147483648 ≤ x)
      ∨ (wrapInt32 x = x + 4294967296 ∧ x < -2147483648) := by
  unfold wrapInt32
  omega

/-- A read whose end offset lies before its start offset copies nothing. -/
theorem vsread_backwards (s : State) (f : Nat) (buf : Bytes) (j p : Nat) (n e : Int)
    (hf : f < 16) (hin : (s.openFileTable f).dirBlock ≠ -1)
    (hmode : (s.openFileTable f).accessMode ≠ 1)
    (hidx : (s.openFileTable f).cachedRootDirIndex = (j : Int)) (hj : j < 128)
    (hpos : (s.openFileTable f).positionPtr = (p : Int))
    (he : wrapInt32 ((p : Int) + n) = e)
    (hsz : e ≤ (s.cachedRootDirectory j).size)
    (hback : e ≤ (p : Int))
    (hstart : 0 ≤ (s.cachedRootDirectory j).startBlock) :
    vsread s (f : Int) buf n = some (vsreadFinish s (f : Int) e n buf 0) := by
  obtain ⟨hm1, hm2⟩ := tdiv_tmod_mono e p hback (by omega)
  have hsz2 : ¬ ((s.cachedRootDirectory j).size < e) := by omega
  unfold vsread
  simp only [MAX_NOF_OPEN_FILES, DIR_ENTRY_COUNT, MODE_APPEND, BLOCKSIZE, Int.toNat_ofNat,
    Int.ofNat_nonneg, hf, and_self, if_true, hin, hmode, if_false, hidx, hj, hpos, he, hsz2]
  by_cases hb : (p : Int).tdiv 2048 = e.tdiv 2048
  · rw [if_pos hb]
    have hc : (e.tmod 2048 - (p : Int).tmod 2048).toNat = 0 := by
      have := hm2 hb.symm
      omega
    unfold readFromBlockToBuffer read_block
    rw [if_pos hstart]
    simp only [hc, readLoop]
  · rw [if_neg hb]
    have hc : (e.tdiv 2048 - (p : Int).tdiv 2048).toNat = 0 := by omega
    simp only [hc, vsreadLoop]

theorem vsopen_oneFileVolume_mode (mode : Int) :
    vsopen oneFileVolume nameF mode = some (0, openState oneFileVolume 0 0 mode) := by
  have h := vsopen_eq oneFileVolume nameF mode 0 0 nameF_nul (by decide)
    oneFileVolume_handlesValid (fun k _ hu => absurd rfl hu) (by omega) rfl
    (fun k hk => by omega)
    (findDirectoryEntryIndexByFilename_some oneFileVolume nameF nameF_nul 0 (by omega)
      oneFileVolume_hasName (fun k hk => by omega))
  simpa using h

theorem openState_slot (mode : Int) : (openState oneFileVolume 0 0 mode).openFileTable 0
    = { accessMode := mode, dirBlock := 0, dirBlockOffset := 0, cachedRootDirIndex := 0,
        positionPtr := 0 } := by
  simp [openState]

theorem readVolume_slot : readVolume.openFileTable 0
    = { accessMode := 0, dirBlock := 0, dirBlockOffset := 0, cachedRootDirIndex := 0,
        positionPtr := 0 } := openState_slot 0

/-- The sample volume after 2048 bytes have been appended to "f": what the
next append needs to know. -/
theorem appendVolume_after_2048 (t1 : State) (new : List Nat)
    (h : AppendSpec appendVolume t1 0 [41] new sampleBytes 0 2048) :
    new = [] ∧ t1.openFileTable 0 = appendVolume.openFileTable 0 ∧
      (t1.cachedRootDirectory 0).size = ((2048 : Nat) : Int) ∧
      IsChain t1.cachedFatTable (t1.cachedRootDirectory 0).startBlock [41] ∧
      t1.freeBlockCount = 86 ∧ freeCount t1.cachedFatTable = 86 ∧
      (∀ i, i < 41 → t1.cachedFatTable i ≠ 0) := by
  have hb := h.blocks
  have hnew : new = [] := by
    have e : blocksFor (((0 : Nat) : Int) + ((2048 : Nat) : Int)) = 1 := by
      unfold blocksFor; decide
    rw [e, List.length_append] at hb
    have : new.length = 0 := by
      simp only [List.length_singleton] at hb
      omega
    exact List.length_eq_zero.mp this
  have hfree : appendVolume.freeBlockCount = 86 := by
    simp [appendVolume, openState, oneFileVolume, createState, emptyVolume]
  have hfc : freeCount appendVolume.cachedFatTable = 86 := oneFileVolume_freeCount
  have hc := h.chain
  have hf := h.free
  have hfcnt := h.freeCnt
  rw [hnew] at hc hf hfcnt
  simp only [List.append_nil, List.length_nil, Nat.cast_zero, sub_zero, add_zero] at hc hf hfcnt
  refine ⟨hnew, by rw [h.oft], ?_, ?_, by rw [hf, hfree], by rw [hfcnt, hfc], ?_⟩
  · rw [h.dir, Function.update_same]
    simp
  · rw [h.dir, Function.update_same]
    exact hc
  · intro i hi
    rw [h.fatFrame i (by rw [hnew]; simp) (Or.inr hnew)]
    exact oneFileVolume_meta i hi

theorem modeTwoVolume_slot : modeTwoVolume.openFileTable 0
    = { accessMode := 2, dirBlock := 0, dirBlockOffset := 0, cachedRootDirIndex := 0,
        positionPtr := 0 } := openState_slot 2

/-! ## Encoding of 32-bit integers in a block -/

theorem loadInt32_congr (b c : Block) (off : Nat)
    (h : ∀ k, k < 4 → b (off + k) = c (off + k)) : loadInt32 b off = loadInt32 c off := by
  unfold loadInt32
  have h0 := h 0 (by omega)
  rw [Nat.add_zero] at h0
  rw [h0, h 1 (by omega), h 2 (by omega), h 3 (by omega)]

theorem loadInt32_range (b : Block) (off : Nat) :
    -2147483648 ≤ loadInt32 b off ∧ loadInt32 b off < 2147483648 := by
  unfold loadInt32 wrapInt32
  omega

theorem storeInt32_at (b : Block) (off : Nat) (v : Int) (k : Nat) (hk : k < 4) :
    storeInt32 b off v (off + k) = int32Byte v k := by
  unfold storeInt32
  rw [if_pos (by omega)]
  congr 1
  omega

theorem storeInt32_other (b : Block) (off : Nat) (v : Int) (o : Nat)
    (h : o < off ∨ off + 4 ≤ o) : storeInt32 b off v o = b o := by
  unfold storeInt32
  rw [if_neg (by omega)]

theorem loadInt32_int32Byte (b : Block) (off : Nat) (v : Int)
    (h : ∀ k, k < 4 → b (off + k) = int32Byte v k)
    (hv1 : -2147483648 ≤ v) (hv2 : v < 2147483648) : loadInt32 b off = v := by
  unfold loadInt32
  have h0 := h 0 (by omega)
  rw [Nat.add_zero] at h0
  rw [h0, h 1 (by omega), h 2 (by omega), h 3 (by omega)]
  unfold int32Byte wrapInt32
  obtain ⟨x, hx⟩ : ∃ x : Nat, (v % 4294967296).toNat = x := ⟨_, rfl⟩
  have hx2 : (x : Int) = v % 4294967296 := by
    rw [← hx]
    exact Int.toNat_of_nonneg (Int.emod_nonneg _ (by omega))
  rw [hx]
  have hxlt : x < 4294967296 := by omega
  have e : x / 256 ^ 0 % 256 % 256 + 256 * (x / 256 ^ 1 % 256 % 256)
      + 65536 * (x / 256 ^ 2 % 256 % 256) + 16777216 * (x / 256 ^ 3 % 256 % 256) = x := by
    norm_num
    omega
  rw [e]
  omega

theorem loadInt32_storeInt32_same (b : Block) (off : Nat) (v : Int)
    (hv1 : -2147483648 ≤ v) (hv2 : v < 2147483648) : loadInt32 (storeInt32 b off v) off = v :=
  loadInt32_int32Byte _ off v (fun k hk => storeInt32_at b off v k hk) hv1 hv2

theorem loadInt32_storeInt32_other (b : Block) (off off2 : Nat) (v : Int)
    (h : off2 + 4 ≤ off ∨ off + 4 ≤ off2) :
    loadInt32 (storeInt32 b off v) off2 = loadInt32 b off2 :=
  loadInt32_congr _ _ off2 (fun k hk => storeInt32_other b off v _ (by omega))

theorem storeName_other (b : Block) (off : Nat) (src : Bytes) (o : Nat)
    (h : o < off ∨ off + 30 ≤ o) : storeName b off src o = b o := by
  unfold storeName
  rw [if_neg (by simp only [MAX_FILENAME_LENGTH]; omega)]

theorem storeName_at (b : Block) (off : Nat) (src : Bytes) (k : Nat) (hk : k < 30) :
    storeName b off src (off + k) = src k := by
  unfold storeName
  rw [if_pos (by simp only [MAX_FILENAME_LENGTH]; omega)]
  congr 1
  omega

theorem wrap_bytes (x0 x1 x2 x3 : Nat) (l0 : x0 < 256) (l1 : x1 < 256) (l2 : x2 < 256)
    (l3 : x3 < 256) :
    ((((x0 + 256 * x1 + 65536 * x2 + 16777216 * x3 : Nat) : Int) + 2147483648)
      % 4294967296 - 2147483648) % 4294967296
      = ((x0 + 256 * x1 + 65536 * x2 + 16777216 * x3 : Nat) : Int) := by omega

theorem split_bytes (x0 x1 x2 x3 : Nat) (l0 : x0 < 256) (l1 : x1 < 256) (l2 : x2 < 256)
    (l3 : x3 < 256) :
    (x0 + 256 * x1 + 65536 * x2 + 16777216 * x3) / 1 % 256 = x0
      ∧ (x0 + 256 * x1 + 65536 * x2 + 16777216 * x3) / 256 % 256 = x1
      ∧ (x0 + 256 * x1 + 65536 * x2 + 16777216 * x3) / 65536 % 256 = x2
      ∧ (x0 + 256 * x1 + 65536 * x2 + 16777216 * x3) / 16777216 % 256 = x3 := by
  refine ⟨by omega, by omega, by omega, by omega⟩

/-- Byte `k` of a decoded integer is the byte that was decoded. -/
theorem int32Byte_loadInt32 (b : Block) (off k : Nat) (hk : k < 4) :
    int32Byte (loadInt32 b off) k = b (off + k) % 256 := by
  unfold int32Byte loadInt32 wrapInt32
  have e := wrap_bytes (b off % 256) (b (off + 1) % 256) (b (off + 2) % 256) (b (off + 3) % 256)
    (Nat.mod_lt _ (by decide)) (Nat.mod_lt _ (by decide)) (Nat.mod_lt _ (by decide))
    (Nat.mod_lt _ (by decide))
  obtain ⟨s0, s1, s2, s3⟩ :=
    split_bytes (b off % 256) (b (off + 1) % 256) (b (off + 2) % 256) (b (off + 3) % 256)
      (Nat.mod_lt _ (by decide)) (Nat.mod_lt _ (by decide)) (Nat.mod_lt _ (by decide))
      (Nat.mod_lt _ (by decide))
  rw [e, Int.toNat_ofNat]
  have p0 : (256 : Nat) ^ 0 = 1 := by norm_num
  have p1 : (256 : Nat) ^ 1 = 256 := by norm_num
  have p2 : (256 : Nat) ^ 2 = 65536 := by norm_num
  have p3 : (256 : Nat) ^ 3 = 16777216 := by norm_num
  have hk4 : k = 0 ∨ k = 1 ∨ k = 2 ∨ k = 3 := by omega
  rcases hk4 with rfl | rfl | rfl | rfl
  · rw [Nat.add_zero, p0]; exact s0
  · rw [p1]; exact s1
  · rw [p2]; exact s2
  · rw [p3]; exact s3

/-! ## The loops of the initialisers, of the loaders and of the flush routines -/

theorem storeInts_fat (v : Nat → Int) (cnt : Nat) : ∀ (j : Nat) (block : Block) (o : Nat),
    storeInts v 4 0 cnt j block o
      = if j ≤ o / 4 ∧ o / 4 < j + cnt then int32Byte (v (o / 4)) (o % 4) else block o := by
  induction cnt with
  | zero =>
    intro j block o
    rw [storeInts, if_neg (by omega)]
  | succ cnt ih =>
    intro j block o
    rw [storeInts, ih]
    by_cases h1 : j + 1 ≤ o / 4 ∧ o / 4 < j + 1 + cnt
    · rw [if_pos h1, if_pos (by omega)]
    · rw [if_neg h1]
      by_cases h2 : o / 4 = j
      · rw [if_pos (by omega)]
        unfold storeInt32
        rw [if_pos (by omega)]
        have e1 : o - (j * 4 + 0) = o % 4 := by omega
        rw [e1, h2]
      · rw [if_neg (by omega)]
        unfold storeInt32
        rw [if_neg (by omega)]

theorem storeInts_dir (v : Nat → Int) (cnt : Nat) : ∀ (j : Nat) (block : Block) (o : Nat),
    storeInts v 128 38 cnt j block o
      = if j ≤ o / 128 ∧ o / 128 < j + cnt ∧ 38 ≤ o % 128 ∧ o % 128 < 42
        then int32Byte (v (o / 128)) (o % 128 - 38) else block o := by
  induction cnt with
  | zero =>
    intro j block o
    rw [storeInts, if_neg (by omega)]
  | succ cnt ih =>
    intro j block o
    rw [storeInts, ih]
    by_cases h1 : j + 1 ≤ o / 128 ∧ o / 128 < j + 1 + cnt ∧ 38 ≤ o % 128 ∧ o % 128 < 42
    · rw [if_pos h1, if_pos (by omega)]
    · rw [if_neg h1]
      by_cases h2 : o / 128 = j ∧ 38 ≤ o % 128 ∧ o % 128 < 42
      · rw [if_pos (by omega)]
        unfold storeInt32
        rw [if_pos (by omega)]
        have e1 : o - (j * 128 + 38) = o % 128 - 38 := by omega
        rw [e1, h2.1]
      · rw [if_neg (by omega)]
        unfold storeInt32
        rw [if_neg (by omega)]

theorem write_block_nat (d : Disk) (block : Block) (a : Int) (i : Nat) (ha : 0 ≤ a) :
    write_block d block (a + (i : Int)) = some (Function.update d (a.toNat + i) block) := by
  unfold write_block
  rw [if_pos (by omega)]
  have e : (a + (i : Int)).toNat = a.toNat + i := by omega
  rw [e]

theorem read_block_nat (d : Disk) (a : Int) (i : Nat) (ha : 0 ≤ a) :
    read_block d (a + (i : Int)) = some (d (a.toNat + i)) := by
  unfold read_block
  rw [if_pos (by omega)]
  have e : (a + (i : Int)).toNat = a.toNat + i := by omega
  rw [e]

/-- What `writeFatLoop` leaves in the container: FAT blocks `1 + i .. i + cnt`
hold the entries `v`, every other block is as before. -/
theorem writeFatLoop_spec (v : Nat → Int) (cnt : Nat) : ∀ (i : Nat) (d : Disk) (block : Block),
    ∃ D B, writeFatLoop v cnt i d block = some (D, B) ∧
      (∀ k, k < 1 + i ∨ 1 + i + cnt ≤ k → D k = d k) ∧
      (∀ k o, 1 + i ≤ k → k < 1 + i + cnt → o < 2048 →
        D k o = int32Byte (v ((k - 1) * 512 + o / 4)) (o % 4)) := by
  induction cnt with
  | zero =>
    intro i d block
    exact ⟨d, block, rfl, fun _ _ => rfl, fun k o h1 h2 => by omega⟩
  | succ cnt ih =>
    intro i d block
    obtain ⟨b1, hb1⟩ : ∃ b1, b1 = storeInts (fun j => v (i * FAT_ENTRY_PER_BLOCK + j))
      FAT_ENTRY_SIZE 0 FAT_ENTRY_PER_BLOCK 0 block := ⟨_, rfl⟩
    obtain ⟨D, B, hrun, hframe, hval⟩ := ih (i + 1) (Function.update d (1 + i) b1) b1
    refine ⟨D, B, ?_, ?_, ?_⟩
    · rw [writeFatLoop]
      simp only [FAT_BLOCK_START]
      rw [write_block_nat d _ 1 i (by omega)]
      simp only [← hb1]
      exact hrun
    · intro k hk
      rw [hframe k (by omega), Function.update_noteq (by omega)]
    · intro k o h1 h2 ho
      by_cases hk : k = 1 + i
      · rw [hframe k (by omega), hk, Function.update_same, hb1]
        simp only [FAT_ENTRY_PER_BLOCK, FAT_ENTRY_SIZE]
        rw [storeInts_fat, if_pos (by omega)]
        have e : 1 + i - 1 = i := by omega
        rw [e]
      · exact hval k o (by omega) (by omega) ho

theorem writeBlocks_eq (block : Block) (first : Int) (hf : 0 ≤ first) (cnt : Nat) :
    ∀ (i : Nat) (d : Disk),
      writeBlocks block first cnt i d
        = some (fun k => if first.toNat + i ≤ k ∧ k < first.toNat + i + cnt then block else d k) := by
  induction cnt with
  | zero =>
    intro i d
    rw [writeBlocks]
    congr 1
    funext k
    rw [if_neg (by omega)]
  | succ cnt ih =>
    intro i d
    rw [writeBlocks, write_block_nat d block first i hf]
    simp only
    rw [ih]
    congr 1
    funext k
    by_cases h1 : first.toNat + (i + 1) ≤ k ∧ k < first.toNat + (i + 1) + cnt
    · rw [if_pos h1, if_pos (by omega)]
    · rw [if_neg h1]
      by_cases h2 : k = first.toNat + i
      · rw [if_pos (by omega), h2, Function.update_same]
      · rw [if_neg (by omega), Function.update_noteq h2]

theorem cacheFatInner_eq (block : Block) (i cnt : Nat) : ∀ (j : Nat) (fat : Nat → Int) (k : Nat),
    cacheFatInner block i cnt j fat k
      = if i * 512 + j ≤ k ∧ k < i * 512 + j + cnt then loadInt32 block ((k - i * 512) * 4)
        else fat k := by
  induction cnt with
  | zero =>
    intro j fat k
    rw [cacheFatInner, if_neg (by omega)]
  | succ cnt ih =>
    intro j fat k
    rw [cacheFatInner, ih]
    simp only [FAT_ENTRY_PER_BLOCK, FAT_ENTRY_SIZE]
    by_cases h1 : i * 512 + (j + 1) ≤ k ∧ k < i * 512 + (j + 1) + cnt
    · rw [if_pos h1, if_pos (by omega)]
    · rw [if_neg h1]
      by_cases h2 : k = i * 512 + j
      · rw [if_pos (by omega), h2, Function.update_same]
        congr 1
        omega
      · rw [if_neg (by omega), Function.update_noteq h2]

theorem cacheFatLoop_eq (cnt : Nat) : ∀ (i : Nat) (s : State),
    cacheFatLoop cnt i s = some { s with
      cachedFatTable := fun k =>
        if i * 512 ≤ k ∧ k < (i + cnt) * 512 then fatOnDisk s.disk k else s.cachedFatTable k } := by
  induction cnt with
  | zero =>
    intro i s
    rw [cacheFatLoop]
    have e : (fun k => if i * 512 ≤ k ∧ k < (i + 0) * 512 then fatOnDisk s.disk k
        else s.cachedFatTable k) = s.cachedFatTable := by
      funext k
      rw [if_neg (by omega)]
    rw [e]
  | succ cnt ih =>
    intro i s
    rw [cacheFatLoop]
    simp only [FAT_BLOCK_START, FAT_ENTRY_PER_BLOCK]
    rw [read_block_nat s.disk 1 i (by omega)]
    simp only
    generalize hF : cacheFatInner (s.disk ((1 : Int).toNat + i)) i 512 0 s.cachedFatTable = F
    rw [ih]
    have e : (fun k => if (i + 1) * 512 ≤ k ∧ k < (i + 1 + cnt) * 512 then fatOnDisk s.disk k
          else F k)
        = (fun k => if i * 512 ≤ k ∧ k < (i + (cnt + 1)) * 512 then fatOnDisk s.disk k
          else s.cachedFatTable k) := by
      funext k
      by_cases h1 : (i + 1) * 512 ≤ k ∧ k < (i + 1 + cnt) * 512
      · rw [if_pos h1, if_pos (by omega)]
      · rw [if_neg h1, ← hF, cacheFatInner_eq]
        by_cases h2 : i * 512 + 0 ≤ k ∧ k < i * 512 + 0 + 512
        · rw [if_pos h2, if_pos (by omega)]
          unfold fatOnDisk
          have e1 : (1 : Int).toNat + i = 1 + k / 512 := by
            have : (1 : Int).toNat = 1 := rfl
            omega
          have e2 : (k - i * 512) * 4 = k % 512 * 4 := by omega
          rw [e1, e2]
        · rw [if_neg h2, if_neg (by omega)]
    simp only [e]

theorem cacheDirInner_eq (block : Block) (i cnt : Nat) :
    ∀ (j : Nat) (dir : Nat → dirEntry) (k : Nat),
      cacheDirInner block i cnt j dir k
        = if i * 16 + j ≤ k ∧ k < i * 16 + j + cnt then
            { filename := memcpyName (fun t => block ((k - i * 16) * 128 + t))
              size := loadInt32 block ((k - i * 16) * 128 + 30)
              startBlock := loadInt32 block ((k - i * 16) * 128 + 34)
              allocated := loadInt32 block ((k - i * 16) * 128 + 38) }
          else dir k := by
  induction cnt with
  | zero =>
    intro j dir k
    rw [cacheDirInner, if_neg (by omega)]
  | succ cnt ih =>
    intro j dir k
    rw [cacheDirInner, ih]
    simp only [DIR_ENTRY_PER_BLOCK, DIR_ENTRY_SIZE, MAX_FILENAME_LENGTH]
    by_cases h1 : i * 16 + (j + 1) ≤ k ∧ k < i * 16 + (j + 1) + cnt
    · rw [if_pos h1, if_pos (by omega)]
    · rw [if_neg h1]
      by_cases h2 : k = i * 16 + j
      · rw [if_pos (by omega), h2, Function.update_same]
        have e : i * 16 + j - i * 16 = j := by omega
        rw [e]
      · rw [if_neg (by omega), Function.update_noteq h2]

theorem cacheDirLoop_eq (cnt : Nat) : ∀ (i : Nat) (s : State),
    cacheDirLoop cnt i s = some { s with
      cachedRootDirectory := fun k =>
        if i * 16 ≤ k ∧ k < (i + cnt) * 16 then dirOnDisk s.disk k
        else s.cachedRootDirectory k } := by
  induction cnt with
  | zero =>
    intro i s
    rw [cacheDirLoop]
    have e : (fun k => if i * 16 ≤ k ∧ k < (i + 0) * 16 then dirOnDisk s.disk k
        else s.cachedRootDirectory k) = s.cachedRootDirectory := by
      funext k
      rw [if_neg (by omega)]
    rw [e]
  | succ cnt ih =>
    intro i s
    rw [cacheDirLoop]
    simp only [ROOT_DIR_START, DIR_ENTRY_PER_BLOCK]
    rw [read_block_nat s.disk 33 i (by omega)]
    simp only
    generalize hF : cacheDirInner (s.disk ((33 : Int).toNat + i)) i 16 0 s.cachedRootDirectory = F
    rw [ih]
    have e : (fun k => if (i + 1) * 16 ≤ k ∧ k < (i + 1 + cnt) * 16 then dirOnDisk s.disk k
          else F k)
        = (fun k => if i * 16 ≤ k ∧ k < (i + (cnt + 1)) * 16 then dirOnDisk s.disk k
          else s.cachedRootDirectory k) := by
      funext k
      by_cases h1 : (i + 1) * 16 ≤ k ∧ k < (i + 1 + cnt) * 16
      · rw [if_pos h1, if_pos (by omega)]
      · rw [if_neg h1, ← hF, cacheDirInner_eq]
        by_cases h2 : i * 16 + 0 ≤ k ∧ k < i * 16 + 0 + 16
        · rw [if_pos h2, if_pos (by omega)]
          unfold dirOnDisk
          have e1 : (33 : Int).toNat + i = 33 + k / 16 := by
            have : (33 : Int).toNat = 33 := rfl
            omega
          have e2 : (k - i * 16) * 128 = k % 16 * 128 := by omega
          rw [e1, e2]
        · rw [if_neg h2, if_neg (by omega)]
    simp only [e]

theorem clearLoop_eq (cnt : Nat) : ∀ (i : Nat) (s : State), 0 < cnt →
    clearLoop cnt i s = { s with
      openFileTable := fun k =>
        if i ≤ k ∧ k < i + cnt then { s.openFileTable k with dirBlock := -1 }
        else s.openFileTable k
      openFileCount := 0 } := by
  induction cnt with
  | zero => intro i s h; omega
  | succ cnt ih =>
    intro i s _
    rw [clearLoop]
    by_cases hc : cnt = 0
    · subst hc
      rw [clearLoop]
      congr 1
      funext k
      by_cases h2 : k = i
      · rw [if_pos (by omega), h2, Function.update_same]
      · rw [if_neg (by omega), Function.update_noteq h2]
    · rw [ih _ _ (by omega)]
      congr 1
      funext k
      simp only
      by_cases h1 : i + 1 ≤ k ∧ k < i + 1 + cnt
      · rw [if_pos h1, if_pos (by omega), Function.update_noteq (by omega)]
      · rw [if_neg h1]
        by_cases h2 : k = i
        · rw [if_pos (by omega), h2, Function.update_same]
        · rw [if_neg (by omega), Function.update_noteq h2]

/-- `vsmount` loads the four counters, the FAT and the directory from the
container and marks the 16 slots of the open-file table free. -/
theorem vsmount_eq (g : State) (d : Disk) : vsmount g d = some (0, mountState g d) := by
  unfold vsmount getSuperblock cacheFatTable cacheRootDirectory clearOpenFileTable read_block
  simp only [SUPERBLOCK_START, le_refl, if_true, FAT_BLOCK_COUNT, ROOT_DIR_COUNT,
    MAX_NOF_OPEN_FILES, Int.toNat_zero]
  rw [cacheFatLoop_eq]
  simp only
  rw [cacheDirLoop_eq]
  simp only
  rw [clearLoop_eq 16 0 _ (by omega)]
  unfold mountState
  have e1 : (fun k => if 0 ≤ k ∧ k < 0 + 16 then
        ({ g.openFileTable k with dirBlock := -1 } : fileStruct) else g.openFileTable k)
      = (fun i => if i < 16 then ({ g.openFileTable i with dirBlock := -1 } : fileStruct)
        else g.openFileTable i) := by
    funext k
    by_cases h : k < 16
    · rw [if_pos (by omega), if_pos h]
    · rw [if_neg (by omega), if_neg h]
  have e2 : (fun k => if 0 * 512 ≤ k ∧ k < (0 + 32) * 512 then fatOnDisk d k
        else g.cachedFatTable k)
      = (fun i => if i < 16384 then fatOnDisk d i else g.cachedFatTable i) := by
    funext k
    by_cases h : k < 16384
    · rw [if_pos (by omega), if_pos h]
    · rw [if_neg (by omega), if_neg h]
  have e3 : (fun k => if 0 * 16 ≤ k ∧ k < (0 + 8) * 16 then dirOnDisk d k
        else g.cachedRootDirectory k)
      = (fun j => if j < 128 then dirOnDisk d j else g.cachedRootDirectory j) := by
    funext k
    by_cases h : k < 128
    · rw [if_pos (by omega), if_pos h]
    · rw [if_neg (by omega), if_neg h]
  simp only [e1, e2, e3]

theorem flushDirInner_eq (dir : Nat → dirEntry) (i cnt : Nat) :
    ∀ (j : Nat) (block : Block) (o : Nat),
      flushDirInner dir i cnt j block o
        = if j ≤ o / 128 ∧ o / 128 < j + cnt ∧ o % 128 < 42
          then entryByte (dir (i * 16 + o / 128)) (o % 128) else block o := by
  induction cnt with
  | zero =>
    intro j block o
    rw [flushDirInner, if_neg (by omega)]
  | succ cnt ih =>
    intro j block o
    rw [flushDirInner]
    simp only [DIR_ENTRY_PER_BLOCK, DIR_ENTRY_SIZE, MAX_FILENAME_LENGTH]
    rw [ih]
    by_cases h1 : j + 1 ≤ o / 128 ∧ o / 128 < j + 1 + cnt ∧ o % 128 < 42
    · rw [if_pos h1, if_pos (by omega)]
    · rw [if_neg h1]
      by_cases h2 : o / 128 = j ∧ o % 128 < 42
      · rw [if_pos (by omega), h2.1]
        unfold entryByte
        by_cases r1 : o % 128 < 30
        · rw [if_pos r1, storeInt32_other _ _ _ _ (by omega), storeInt32_other _ _ _ _ (by omega),
            storeInt32_other _ _ _ _ (by omega)]
          have e : o = j * 128 + o % 128 := by omega
          rw [e, storeName_at _ _ _ _ (by omega)]
          congr 1
          omega
        · rw [if_neg r1]
          by_cases r2 : o % 128 < 34
          · rw [if_pos r2, storeInt32_other _ _ _ _ (by omega),
              storeInt32_other _ _ _ _ (by omega)]
            have e : o = j * 128 + 30 + (o % 128 - 30) := by omega
            rw [e, storeInt32_at _ _ _ _ (by omega)]
            congr 1
            omega
          · rw [if_neg r2]
            by_cases r3 : o % 128 < 38
            · rw [if_pos r3, storeInt32_other _ _ _ _ (by omega)]
              have e : o = j * 128 + 30 + 4 + (o % 128 - 34) := by omega
              rw [e, storeInt32_at _ _ _ _ (by omega)]
              congr 1
              omega
            · rw [if_neg r3]
              have e : o = j * 128 + 30 + 8 + (o % 128 - 38) := by omega
              rw [e, storeInt32_at _ _ _ _ (by omega)]
              congr 1
              omega
      · rw [if_neg (by omega), storeInt32_other _ _ _ _ (by omega),
          storeInt32_other _ _ _ _ (by omega), storeInt32_other _ _ _ _ (by omega),
          storeName_other _ _ _ _ (by omega)]

/-- What `flushDirLoop` leaves in the container: in directory blocks
`33 + i .. 32 + i + cnt` the first 42 bytes of every entry come from the cache
and the other 86 bytes from the local array; every other block is as before. -/
theorem flushDirLoop_spec (dir : Nat → dirEntry) (cnt : Nat) :
    ∀ (i : Nat) (d : Disk) (block : Block),
      ∃ D B, flushDirLoop dir cnt i d block = some (D, B) ∧
        (∀ k, k < 33 + i ∨ 33 + i + cnt ≤ k → D k = d k) ∧
        (∀ k o, 33 + i ≤ k → k < 33 + i + cnt → o < 2048 →
          D k o = if o % 128 < 42 then entryByte (dir ((k - 33) * 16 + o / 128)) (o % 128)
            else block o) := by
  induction cnt with
  | zero =>
    intro i d block
    exact ⟨d, block, rfl, fun _ _ => rfl, fun k o h1 h2 => by omega⟩
  | succ cnt ih =>
    intro i d block
    obtain ⟨b1, hb1⟩ : ∃ b1, b1 = flushDirInner dir i DIR_ENTRY_PER_BLOCK 0 block := ⟨_, rfl⟩
    obtain ⟨D, B, hrun, hframe, hval⟩ := ih (i + 1) (Function.update d (33 + i) b1) b1
    refine ⟨D, B, ?_, ?_, ?_⟩
    · rw [flushDirLoop]
      simp only [ROOT_DIR_START]
      rw [write_block_nat d _ 33 i (by omega)]
      simp only [← hb1]
      exact hrun
    · intro k hk
      rw [hframe k (by omega), Function.update_noteq (by omega)]
    · intro k o h1 h2 ho
      have hb1o : b1 o = if o % 128 < 42 then entryByte (dir (i * 16 + o / 128)) (o % 128)
          else block o := by
        rw [hb1]
        simp only [DIR_ENTRY_PER_BLOCK]
        rw [flushDirInner_eq]
        by_cases h : o % 128 < 42
        · rw [if_pos (by omega), if_pos h]
        · rw [if_neg (by omega), if_neg h]
      by_cases hk : k = 33 + i
      · rw [hframe k (by omega), hk, Function.update_same, hb1o]
        have e : 33 + i - 33 = i := by omega
        rw [e]
      · rw [hval k o (by omega) (by omega) ho]
        by_cases h : o % 128 < 42
        · rw [if_pos h, if_pos h]
        · rw [if_neg h, if_neg h, hb1o, if_neg h]

theorem umountCloseLoop_noop (cnt : Nat) : ∀ (i : Nat) (s : State),
    (∀ k, i ≤ k → k < i + cnt → (s.openFileTable k).dirBlock = -1) →
    umountCloseLoop cnt i s = some s := by
  induction cnt with
  | zero => intro i s _; rfl
  | succ cnt ih =>
    intro i s h
    rw [umountCloseLoop, if_neg (by rw [h i (by omega) (by omega)]; decide)]
    exact ih (i + 1) s (fun k h1 h2 => h k (by omega) (by omega))

/-- The handle-closing loop of `vsumount` touches the open-file table and
`openFileCount` only. -/
theorem umountCloseLoop_frame (cnt : Nat) : ∀ (i : Nat) (s : State), i + cnt ≤ 16 →
    ∃ s1, umountCloseLoop cnt i s = some s1 ∧ s1.disk = s.disk ∧
      s1.cachedFatTable = s.cachedFatTable ∧ s1.cachedRootDirectory = s.cachedRootDirectory ∧
      s1.freeBlockCount = s.freeBlockCount ∧ s1.fileCount = s.fileCount ∧
      s1.totalBlockCount = s.totalBlockCount ∧ s1.dataBlockCount = s.dataBlockCount := by
  induction cnt with
  | zero => intro i s _; exact ⟨s, rfl, rfl, rfl, rfl, rfl, rfl, rfl, rfl⟩
  | succ cnt ih =>
    intro i s hi
    rw [umountCloseLoop]
    by_cases h : (s.openFileTable i).dirBlock > -1
    · rw [if_pos h, vsclose_eq s i (by omega) (by omega)]
      simp only
      obtain ⟨s1, h1, h2, h3, h4, h5, h6, h7, h8⟩ := ih (i + 1) (closeState s i) (by omega)
      exact ⟨s1, h1, h2, h3, h4, h5, h6, h7, h8⟩
    · rw [if_neg h]
      exact ih (i + 1) s (by omega)

/-! ## `vsformat`, `vsmount`, `vsumount` -/

theorem formatFat_range (total : Int) (i : Nat) :
    -2147483648 ≤ formatFat total i ∧ formatFat total i < 2147483648 := by
  unfold formatFat
  split_ifs <;> omega

/-- The container that `vsformat` leaves when the volume has `count` blocks. -/
theorem format_steps (sb fb db : Block) (count : Int) :
    ∃ d1 d2 d3, initializeSuperBlock (fun _ _ => 0) sb count = some d1 ∧
      initializeFatBlocks d1 fb count = some d2 ∧
      initializeRootDirectoryBlocks d2 db = some d3 ∧
      d3 0 = storeInt32 (storeInt32 (storeInt32 (storeInt32 sb 0 (count - 41)) 4 count) 8
        (count - 41)) 12 0 ∧
      (∀ k o, 1 ≤ k → k ≤ 32 → o < 2048 →
        d3 k o = int32Byte (formatFat count ((k - 1) * 512 + o / 4)) (o % 4)) ∧
      (∀ k, 33 ≤ k → k ≤ 40 → d3 k = storeInts (fun _ => 0) 128 38 16 0 db) ∧
      (∀ k, 41 ≤ k → d3 k = fun _ => 0) := by
  obtain ⟨img0, h0⟩ : ∃ b, b = storeInt32 (storeInt32 (storeInt32 (storeInt32 sb 0 (count - 41))
    4 count) 8 (count - 41)) 12 0 := ⟨_, rfl⟩
  obtain ⟨d1, hd1⟩ : ∃ d1 : Disk, d1 = Function.update (fun _ _ => 0) 0 img0 := ⟨_, rfl⟩
  have hs1 : initializeSuperBlock (fun _ _ => 0) sb count = some d1 := by
    unfold initializeSuperBlock write_block
    simp only [SUPERBLOCK_START, METADATA_BLOCK_SIZE, le_refl, if_true, Int.toNat_zero,
      Nat.cast_ofNat]
    rw [hd1, h0]
  obtain ⟨D, B, hrun, hframe, hval⟩ := writeFatLoop_spec
    (fun k => if (k : Int) < count then NOT_USED_FLAG else EOF_FLAG) 32 0 d1 fb
  obtain ⟨img1, h1⟩ : ∃ b, b = storeInts (fun _ => EOF_FLAG) 4 0 41 0 (D 1) := ⟨_, rfl⟩
  obtain ⟨d2, hd2⟩ : ∃ d2 : Disk, d2 = Function.update D 1 img1 := ⟨_, rfl⟩
  have hs2 : initializeFatBlocks d1 fb count = some d2 := by
    unfold initializeFatBlocks
    simp only [FAT_BLOCK_COUNT]
    rw [hrun]
    have hr : read_block D FAT_BLOCK_START = some (D 1) := by
      unfold read_block
      rw [if_pos (by decide)]
      rfl
    have hw : ∀ b, write_block D b FAT_BLOCK_START = some (Function.update D 1 b) := by
      intro b
      unfold write_block
      rw [if_pos (by decide)]
      rfl
    simp only [hr, hw, FAT_ENTRY_SIZE, METADATA_BLOCK_SIZE]
    rw [hd2, h1]
  obtain ⟨img2, h2⟩ : ∃ b, b = storeInts (fun _ => (0 : Int)) 128 38 16 0 db := ⟨_, rfl⟩
  have hs3 : initializeRootDirectoryBlocks d2 db
      = some (fun k => if 33 + 0 ≤ k ∧ k < 33 + 0 + 8 then img2 else d2 k) := by
    unfold initializeRootDirectoryBlocks
    simp only [ROOT_DIR_START, ROOT_DIR_COUNT, DIR_ENTRY_SIZE, DIR_ENTRY_PER_BLOCK,
      MAX_FILENAME_LENGTH, NOT_USED_FLAG]
    rw [writeBlocks_eq _ 33 (by decide) 8 0 d2, h2]
    rfl
  refine ⟨d1, d2, _, hs1, hs2, hs3, ?_, ?_, ?_, ?_⟩
  · show (if 33 + 0 ≤ 0 ∧ 0 < 33 + 0 + 8 then img2 else d2 0) = _
    rw [if_neg (by omega), hd2, Function.update_noteq (by omega), hframe 0 (by omega), hd1,
      Function.update_same, h0]
  · intro k o hk1 hk2 ho
    show (if 33 + 0 ≤ k ∧ k < 33 + 0 + 8 then img2 else d2 k) o = _
    rw [if_neg (by omega), hd2]
    by_cases hk : k = 1
    · rw [hk, Function.update_same, h1, storeInts_fat]
      have e : (1 - 1) * 512 + o / 4 = o / 4 := by omega
      rw [e]
      by_cases hm : o / 4 < 41
      · rw [if_pos (by omega)]
        simp only [formatFat, EOF_FLAG, if_pos hm]
      · rw [if_neg (by omega), hval 1 o (by omega) (by omega) ho, e]
        simp only [formatFat, EOF_FLAG, NOT_USED_FLAG, if_neg hm]
    · rw [Function.update_noteq hk, hval k o (by omega) (by omega) ho]
      have hm : ¬ ((k - 1) * 512 + o / 4 < 41) := by omega
      simp only [formatFat, EOF_FLAG, NOT_USED_FLAG, if_neg hm]
  · intro k hk1 hk2
    show (if 33 + 0 ≤ k ∧ k < 33 + 0 + 8 then img2 else d2 k) = _
    rw [if_pos (by omega), h2]
  · intro k hk
    show (if 33 + 0 ≤ k ∧ k < 33 + 0 + 8 then img2 else d2 k) = _
    rw [if_neg (by omega), hd2, Function.update_noteq (by omega), hframe k (by omega), hd1,
      Function.update_noteq (by omega)]

/-- What a container formatted for `count` blocks decodes to. -/
theorem formatted_decode (d : Disk) (sb db : Block) (count : Int)
    (hc1 : -2147483607 ≤ count) (hc2 : count < 2147483648)
    (h0 : d 0 = storeInt32 (storeInt32 (storeInt32 (storeInt32 sb 0 (count - 41)) 4 count) 8
        (count - 41)) 12 0)
    (hfat : ∀ k o, 1 ≤ k → k ≤ 32 → o < 2048 →
        d k o = int32Byte (formatFat count ((k - 1) * 512 + o / 4)) (o % 4))
    (hdir : ∀ k, 33 ≤ k → k ≤ 40 → d k = storeInts (fun _ => 0) 128 38 16 0 db) :
    loadInt32 (d 0) 0 = count - 41 ∧ loadInt32 (d 0) 4 = count ∧
      loadInt32 (d 0) 8 = count - 41 ∧ loadInt32 (d 0) 12 = 0 ∧
      (∀ i, i < 16384 → fatOnDisk d i = formatFat count i) ∧
      (∀ j, j < 128 → (dirOnDisk d j).allocated = 0) := by
  refine ⟨?_, ?_, ?_, ?_, ?_, ?_⟩
  · rw [h0, loadInt32_storeInt32_other _ _ _ _ (by omega),
      loadInt32_storeInt32_other _ _ _ _ (by omega), loadInt32_storeInt32_other _ _ _ _ (by omega),
      loadInt32_storeInt32_same _ _ _ (by omega) (by omega)]
  · rw [h0, loadInt32_storeInt32_other _ _ _ _ (by omega),
      loadInt32_storeInt32_other _ _ _ _ (by omega),
      loadInt32_storeInt32_same _ _ _ (by omega) (by omega)]
  · rw [h0, loadInt32_storeInt32_other _ _ _ _ (by omega),
      loadInt32_storeInt32_same _ _ _ (by omega) (by omega)]
  · rw [h0, loadInt32_storeInt32_same _ _ _ (by omega) (by omega)]
  · intro i hi
    unfold fatOnDisk
    refine loadInt32_int32Byte _ _ _ (fun k hk => ?_) (formatFat_range count i).1
      (formatFat_range count i).2
    rw [hfat (1 + i / 512) (i % 512 * 4 + k) (by omega) (by omega) (by omega)]
    have e1 : (1 + i / 512 - 1) * 512 + (i % 512 * 4 + k) / 4 = i := by omega
    have e2 : (i % 512 * 4 + k) % 4 = k := by omega
    rw [e1, e2]
  · intro j hj
    unfold dirOnDisk
    simp only
    rw [hdir (33 + j / 16) (by omega) (by omega)]
    refine loadInt32_int32Byte _ _ _ (fun k hk => ?_) (by omega) (by omega)
    rw [storeInts_dir, if_pos (by omega)]
    congr 1
    omega

theorem setSuperblock_eq (s : State) :
    setSuperblock s = some { s with
      disk := Function.update s.disk 0
        (storeInt32 (storeInt32 (s.disk 0) 8 s.freeBlockCount) 12 s.fileCount) } := by
  unfold setSuperblock read_block write_block
  simp only [SUPERBLOCK_START, le_refl, if_true, Int.toNat_zero]

/-- What `vsumount` does: the caches and the counters stay, the container
receives the two counters, the FAT and the first 42 bytes of every directory
entry from the caches, and the other 86 bytes of every directory entry from the
local array `db` of `flushCachedRootDirectory`. -/
theorem vsumount_spec (s : State) (fb db : Block) :
    ∃ s1, vsumount s fb db = some (0, s1) ∧
      s1.disk 0 = storeInt32 (storeInt32 (s.disk 0) 8 s.freeBlockCount) 12 s.fileCount ∧
      (∀ k o, 1 ≤ k → k ≤ 32 → o < 2048 →
        s1.disk k o = int32Byte (s.cachedFatTable ((k - 1) * 512 + o / 4)) (o % 4)) ∧
      (∀ k o, 33 ≤ k → k ≤ 40 → o < 2048 →
        s1.disk k o = if o % 128 < 42
          then entryByte (s.cachedRootDirectory ((k - 33) * 16 + o / 128)) (o % 128)
          else db o) ∧
      (∀ k, 41 ≤ k → s1.disk k = s.disk k) ∧
      s1.cachedFatTable = s.cachedFatTable ∧ s1.cachedRootDirectory = s.cachedRootDirectory ∧
      s1.freeBlockCount = s.freeBlockCount ∧ s1.fileCount = s.fileCount ∧
      s1.totalBlockCount = s.totalBlockCount ∧ s1.dataBlockCount = s.dataBlockCount ∧
      ((∀ k, k < 16 → (s.openFileTable k).dirBlock = -1) →
        s1.openFileTable = s.openFileTable ∧ s1.openFileCount = s.openFileCount) := by
  obtain ⟨d1, hd1⟩ : ∃ d1 : Disk, d1 = Function.update s.disk 0
    (storeInt32 (storeInt32 (s.disk 0) 8 s.freeBlockCount) 12 s.fileCount) := ⟨_, rfl⟩
  obtain ⟨D2, B2, hrun2, hframe2, hval2⟩ := writeFatLoop_spec s.cachedFatTable 32 0 d1 fb
  obtain ⟨D3, B3, hrun3, hframe3, hval3⟩ := flushDirLoop_spec s.cachedRootDirectory 8 0 D2 db
  obtain ⟨s3, hs3⟩ : ∃ s3 : State, s3 = { s with disk := D3 } := ⟨_, rfl⟩
  obtain ⟨s4, hrun4, hdisk4, hfat4, hdir4, hfree4, hfc4, htot4, hdat4⟩ :=
    umountCloseLoop_frame 16 0 s3 (by omega)
  have hrun : vsumount s fb db = some (0, s4) := by
    unfold vsumount
    rw [setSuperblock_eq]
    simp only
    unfold flushCachedFatTable
    simp only [FAT_BLOCK_COUNT, ← hd1, hrun2]
    unfold flushCachedRootDirectory
    simp only [ROOT_DIR_COUNT, hrun3, MAX_NOF_OPEN_FILES, ← hs3, hrun4]
  have hd3 : s3.disk = D3 := by rw [hs3]
  refine ⟨s4, hrun, ?_, ?_, ?_, ?_, by rw [hfat4, hs3], by rw [hdir4, hs3], by rw [hfree4, hs3],
    by rw [hfc4, hs3], by rw [htot4, hs3], by rw [hdat4, hs3], ?_⟩
  · rw [hdisk4, hd3, hframe3 0 (by omega), hframe2 0 (by omega), hd1, Function.update_same]
  · intro k o h1 h2 ho
    rw [hdisk4, hd3, hframe3 k (by omega), hval2 k o (by omega) (by omega) ho]
  · intro k o h1 h2 ho
    rw [hdisk4, hd3, hval3 k o (by omega) (by omega) ho]
  · intro k hk
    rw [hdisk4, hd3, hframe3 k (by omega), hframe2 k (by omega), hd1,
      Function.update_noteq (by omega)]
  · intro hfree
    have hno := umountCloseLoop_noop 16 0 s3 (fun k _ hk => by rw [hs3]; exact hfree k (by omega))
    rw [hno] at hrun4
    simp only [Option.some.injEq] at hrun4
    rw [← hrun4, hs3]
    exact ⟨rfl, rfl⟩

theorem pow_count (m : Nat) (h1 : 18 ≤ m) (h2 : m ≤ 23) :
    ((2 : Int) ^ m).tdiv 2048 = ((2 ^ m / 2048 : Nat) : Int) ∧ 128 ≤ 2 ^ m / 2048
      ∧ 2 ^ m / 2048 ≤ 4096 := by
  have e : ((2 : Int) ^ m).tdiv 2048 = ((2 ^ m / 2048 : Nat) : Int) := by
    rw [Int.tdiv_eq_ediv (by positivity) (by omega)]
    push_cast
    rfl
  refine ⟨e, ?_, ?_⟩
  · interval_cases m <;> norm_num
  · interval_cases m <;> norm_num

/-- The calls `vsformat(m)` and `vsmount` on the container it leaves, for
`18 ≤ m ≤ 23`: both return 0, and with `T = 2^m / 2048` the mounted state has
`T` blocks, `T - 41` of them free, no file, no open handle, the FAT of a fresh
volume and no allocated directory entry. -/
theorem fresh_volume (m : Nat) (g : State) (sb fb db : Block) (h1 : 18 ≤ m) (h2 : m ≤ 23) :
    ∃ d s, vsformat m sb fb db = some (0, d) ∧ vsmount g d = some (0, s) ∧ s.disk = d ∧
      128 ≤ 2 ^ m / 2048 ∧ 2 ^ m / 2048 ≤ 4096 ∧
      s.totalBlockCount = ((2 ^ m / 2048 : Nat) : Int) ∧
      s.dataBlockCount = ((2 ^ m / 2048 : Nat) : Int) - 41 ∧
      s.freeBlockCount = ((2 ^ m / 2048 : Nat) : Int) - 41 ∧
      s.fileCount = 0 ∧ s.openFileCount = 0 ∧
      (∀ i, i < 16 → (s.openFileTable i).dirBlock = -1) ∧
      (∀ i, i < 16384 → s.cachedFatTable i = formatFat ((2 ^ m / 2048 : Nat) : Int) i) ∧
      (∀ j, j < 128 → (s.cachedRootDirectory j).allocated = 0) ∧
      (∀ k, 33 ≤ k → k ≤ 40 → d k = storeInts (fun _ => 0) 128 38 16 0 db) := by
  obtain ⟨hT, hT1, hT2⟩ := pow_count m h1 h2
  obtain ⟨d1, d2, d3, hs1, hs2, hs3, f0, ffat, fdir, _⟩ :=
    format_steps sb fb db ((2 ^ m / 2048 : Nat) : Int)
  have hfmt : vsformat m sb fb db = some (0, d3) := by
    unfold vsformat
    rw [if_pos (by omega)]
    simp only [BLOCKSIZE, hT, hs1, hs2, hs3]
  obtain ⟨a0, a4, a8, a12, afat, adir⟩ := formatted_decode d3 sb db ((2 ^ m / 2048 : Nat) : Int)
    (by omega) (by omega) f0 ffat fdir
  refine ⟨d3, mountState g d3, hfmt, vsmount_eq g d3, rfl, hT1, hT2, a4, a0, a8, a12, rfl, ?_, ?_,
    ?_, fdir⟩
  · intro i hi
    show (if i < 16 then ({ g.openFileTable i with dirBlock := -1 } : fileStruct)
      else g.openFileTable i).dirBlock = -1
    rw [if_pos hi]
  · intro i hi
    show (if i < 16384 then fatOnDisk d3 i else g.cachedFatTable i) = _
    rw [if_pos hi, afat i hi]
  · intro j hj
    show (if j < 128 then dirOnDisk d3 j else g.cachedRootDirectory j).allocated = 0
    rw [if_pos hj, adir j hj]

/-- After `vsmount` and `vsumount` with nothing in between, the container
decodes to the same counters, FAT and directory as before. -/
theorem remount_same (g : State) (d : Disk) (fb db : Block) :
    ∃ s1, vsumount (mountState g d) fb db = some (0, s1) ∧
      loadInt32 (s1.disk 0) 0 = loadInt32 (d 0) 0 ∧ loadInt32 (s1.disk 0) 4 = loadInt32 (d 0) 4 ∧
      loadInt32 (s1.disk 0) 8 = loadInt32 (d 0) 8 ∧
      loadInt32 (s1.disk 0) 12 = loadInt32 (d 0) 12 ∧
      (∀ i, i < 16384 → fatOnDisk s1.disk i = fatOnDisk d i) ∧
      (∀ j, j < 128 → dirOnDisk s1.disk j = dirOnDisk d j) := by
  obtain ⟨s1, hrun, h0, hfat, hdir, _⟩ := vsumount_spec (mountState g d) fb db
  have hfree : (mountState g d).freeBlockCount = loadInt32 (d 0) 8 := rfl
  have hfc : (mountState g d).fileCount = loadInt32 (d 0) 12 := rfl
  have hd : (mountState g d).disk = d := rfl
  rw [hfree, hfc, hd] at h0
  have r8 := loadInt32_range (d 0) 8
  have r12 := loadInt32_range (d 0) 12
  refine ⟨s1, hrun, ?_, ?_, ?_, ?_, ?_, ?_⟩
  · rw [h0, loadInt32_storeInt32_other _ _ _ _ (by omega),
      loadInt32_storeInt32_other _ _ _ _ (by omega)]
  · rw [h0, loadInt32_storeInt32_other _ _ _ _ (by omega),
      loadInt32_storeInt32_other _ _ _ _ (by omega)]
  · rw [h0, loadInt32_storeInt32_other _ _ _ _ (by omega),
      loadInt32_storeInt32_same _ _ _ r8.1 r8.2]
  · rw [h0, loadInt32_storeInt32_same _ _ _ r12.1 r12.2]
  · intro i hi
    have hc : (mountState g d).cachedFatTable i = fatOnDisk d i := by
      show (if i < 16384 then fatOnDisk d i else g.cachedFatTable i) = _
      rw [if_pos hi]
    have hr := loadInt32_range (d (1 + i / 512)) (i % 512 * 4)
    show loadInt32 (s1.disk (1 + i / 512)) (i % 512 * 4) = fatOnDisk d i
    refine loadInt32_int32Byte _ _ _ (fun k hk => ?_) hr.1 hr.2
    rw [hfat (1 + i / 512) (i % 512 * 4 + k) (by omega) (by omega) (by omega)]
    have e1 : (1 + i / 512 - 1) * 512 + (i % 512 * 4 + k) / 4 = i := by omega
    have e2 : (i % 512 * 4 + k) % 4 = k := by omega
    rw [e1, e2, hc]
  · intro j hj
    have hc : (mountState g d).cachedRootDirectory j = dirOnDisk d j := by
      show (if j < 128 then dirOnDisk d j else g.cachedRootDirectory j) = _
      rw [if_pos hj]
    have hbyte : ∀ r, r < 42 →
        s1.disk (33 + j / 16) (j % 16 * 128 + r) = entryByte (dirOnDisk d j) r := by
      intro r hr
      rw [hdir (33 + j / 16) (j % 16 * 128 + r) (by omega) (by omega) (by omega),
        if_pos (by omega)]
      have e1 : (33 + j / 16 - 33) * 16 + (j % 16 * 128 + r) / 128 = j := by omega
      have e2 : (j % 16 * 128 + r) % 128 = r := by omega
      rw [e1, e2, hc]
    have hname : (dirOnDisk s1.disk j).filename = (dirOnDisk d j).filename := by
      funext k
      show s1.disk (33 + j / 16) (j % 16 * 128 + k.val) = _
      rw [hbyte k.val (by omega)]
      unfold entryByte
      rw [if_pos k.isLt]
      unfold nameBytes
      rw [dif_pos k.isLt]
    have hsize : (dirOnDisk s1.disk j).size = (dirOnDisk d j).size := by
      have hr := loadInt32_range (d (33 + j / 16)) (j % 16 * 128 + 30)
      refine loadInt32_int32Byte _ _ _ (fun k hk => ?_) hr.1 hr.2
      rw [Nat.add_assoc, hbyte (30 + k) (by omega)]
      unfold entryByte
      rw [if_neg (by omega), if_pos (by omega)]
      have e : 30 + k - 30 = k := by omega
      rw [e]
    have hstart : (dirOnDisk s1.disk j).startBlock = (dirOnDisk d j).startBlock := by
      have hr := loadInt32_range (d (33 + j / 16)) (j % 16 * 128 + 34)
      refine loadInt32_int32Byte _ _ _ (fun k hk => ?_) hr.1 hr.2
      rw [Nat.add_assoc, hbyte (34 + k) (by omega)]
      unfold entryByte
      rw [if_neg (by omega), if_neg (by omega), if_pos (by omega)]
      have e : 34 + k - 34 = k := by omega
      rw [e]
    have halloc : (dirOnDisk s1.disk j).allocated = (dirOnDisk d j).allocated := by
      have hr := loadInt32_range (d (33 + j / 16)) (j % 16 * 128 + 38)
      refine loadInt32_int32Byte _ _ _ (fun k hk => ?_) hr.1 hr.2
      rw [Nat.add_assoc, hbyte (38 + k) (by omega)]
      unfold entryByte
      rw [if_neg (by omega), if_neg (by omega), if_neg (by omega)]
      have e : 38 + k - 38 = k := by omega
      rw [e]
    calc dirOnDisk s1.disk j
        = { filename := (dirOnDisk s1.disk j).filename, size := (dirOnDisk s1.disk j).size,
            startBlock := (dirOnDisk s1.disk j).startBlock,
            allocated := (dirOnDisk s1.disk j).allocated } := rfl
      _ = dirOnDisk d j := by rw [hname, hsize, hstart, halloc]

/-! ## Counting -/

/-- The share of one directory entry in `usedBlocks`. -/
theorem usedBlocks_update (dir : Nat → dirEntry) (j : Nat) (e : dirEntry) (hj : j < 128) :
    usedBlocks (Function.update dir j e)
      = usedBlocks dir
        - (if (dir j).allocated = USED_FLAG then blocksFor (dir j).size else 0)
        + (if e.allocated = USED_FLAG then blocksFor e.size else 0) := by
  unfold usedBlocks
  have hmem : j ∈ Finset.range DIR_ENTRY_COUNT := by
    simp only [DIR_ENTRY_COUNT, Finset.mem_range]; exact hj
  rw [← Finset.add_sum_erase _ _ hmem, ← Finset.add_sum_erase (Finset.range DIR_ENTRY_COUNT)
    (fun j => if (dir j).allocated = USED_FLAG then blocksFor (dir j).size else 0) hmem]
  have hrest : ∑ x in (Finset.range DIR_ENTRY_COUNT).erase j,
        (if (Function.update dir j e x).allocated = USED_FLAG
          then blocksFor (Function.update dir j e x).size else 0)
      = ∑ x in (Finset.range DIR_ENTRY_COUNT).erase j,
        (if (dir x).allocated = USED_FLAG then blocksFor (dir x).size else 0) := by
    refine Finset.sum_congr rfl (fun x hx => ?_)
    rw [Function.update_noteq (Finset.ne_of_mem_erase hx)]
  rw [hrest, Function.update_same]
  ring

theorem allocatedCount_eq_sum (dir : Nat → dirEntry) :
    allocatedCount dir
      = ∑ j in Finset.range DIR_ENTRY_COUNT, if (dir j).allocated = USED_FLAG then 1 else 0 := by
  unfold allocatedCount
  rw [Finset.card_filter]

theorem allocatedCount_update (dir : Nat → dirEntry) (j : Nat) (e : dirEntry) (hj : j < 128) :
    allocatedCount (Function.update dir j e) + (if (dir j).allocated = USED_FLAG then 1 else 0)
      = allocatedCount dir + (if e.allocated = USED_FLAG then 1 else 0) := by
  rw [allocatedCount_eq_sum, allocatedCount_eq_sum]
  have hmem : j ∈ Finset.range DIR_ENTRY_COUNT := by
    simp only [DIR_ENTRY_COUNT, Finset.mem_range]; exact hj
  rw [← Finset.add_sum_erase _ _ hmem, ← Finset.add_sum_erase (Finset.range DIR_ENTRY_COUNT)
    (fun j => if (dir j).allocated = USED_FLAG then 1 else 0) hmem]
  have hrest : ∑ x in (Finset.range DIR_ENTRY_COUNT).erase j,
        (if (Function.update dir j e x).allocated = USED_FLAG then 1 else 0)
      = ∑ x in (Finset.range DIR_ENTRY_COUNT).erase j,
        (if (dir x).allocated = USED_FLAG then 1 else 0) := by
    refine Finset.sum_congr rfl (fun x hx => ?_)
    rw [Function.update_noteq (Finset.ne_of_mem_erase hx)]
  rw [hrest, Function.update_same]
  omega

theorem usedBlocks_none (dir : Nat → dirEntry) (h : ∀ j, j < 128 → (dir j).allocated = 0) :
    usedBlocks dir = 0 := by
  unfold usedBlocks
  refine Finset.sum_eq_zero (fun j hj => ?_)
  simp only [DIR_ENTRY_COUNT, Finset.mem_range] at hj
  rw [h j hj, if_neg (by decide)]

theorem ceilBlocks_none (dir : Nat → dirEntry) (h : ∀ j, j < 128 → (dir j).allocated = 0) :
    ceilBlocks dir = 0 := by
  unfold ceilBlocks
  refine Finset.sum_eq_zero (fun j hj => ?_)
  simp only [DIR_ENTRY_COUNT, Finset.mem_range] at hj
  rw [h j hj, if_neg (by decide)]

theorem ceilBlocks_update (dir : Nat → dirEntry) (j : Nat) (e : dirEntry) (hj : j < 128) :
    ceilBlocks (Function.update dir j e)
      = ceilBlocks dir
        - (if (dir j).allocated = USED_FLAG then ((dir j).size + 2047) / 2048 else 0)
        + (if e.allocated = USED_FLAG then (e.size + 2047) / 2048 else 0) := by
  unfold ceilBlocks
  have hmem : j ∈ Finset.range DIR_ENTRY_COUNT := by
    simp only [DIR_ENTRY_COUNT, Finset.mem_range]; exact hj
  rw [← Finset.add_sum_erase _ _ hmem, ← Finset.add_sum_erase (Finset.range DIR_ENTRY_COUNT)
    (fun j => if (dir j).allocated = USED_FLAG then ((dir j).size + 2047) / 2048 else 0) hmem]
  have hrest : ∑ x in (Finset.range DIR_ENTRY_COUNT).erase j,
        (if (Function.update dir j e x).allocated = USED_FLAG
          then ((Function.update dir j e x).size + 2047) / 2048 else 0)
      = ∑ x in (Finset.range DIR_ENTRY_COUNT).erase j,
        (if (dir x).allocated = USED_FLAG then ((dir x).size + 2047) / 2048 else 0) := by
    refine Finset.sum_congr rfl (fun x hx => ?_)
    rw [Function.update_noteq (Finset.ne_of_mem_erase hx)]
  rw [hrest, Function.update_same]
  ring

theorem allocatedCount_none (dir : Nat → dirEntry) (h : ∀ j, j < 128 → (dir j).allocated = 0) :
    allocatedCount dir = 0 := by
  rw [allocatedCount_eq_sum]
  refine Finset.sum_eq_zero (fun j hj => ?_)
  simp only [DIR_ENTRY_COUNT, Finset.mem_range] at hj
  rw [h j hj, if_neg (by decide)]

theorem allocatedCount_le (dir : Nat → dirEntry) : allocatedCount dir ≤ 128 := by
  unfold allocatedCount
  calc ((Finset.range DIR_ENTRY_COUNT).filter _).card
      ≤ (Finset.range DIR_ENTRY_COUNT).card := Finset.card_filter_le _ _
    _ = 128 := by simp

theorem freedFat_cons (fat : Nat → Int) (x : Nat) (l : List Nat) :
    freedFat fat (x :: l) = Function.update (freedFat fat l) x 0 := by
  funext i
  unfold freedFat
  by_cases h : i = x
  · subst h
    simp
  · rw [Function.update_noteq h]
    simp [h]

/-- Freeing the entries of a chain adds its length to the number of free entries. -/
theorem freeCount_freedFat (fat : Nat → Int) (l : List Nat) (hn : l.Nodup)
    (h : ∀ x ∈ l, x < 16384 ∧ fat x ≠ 0) :
    freeCount (freedFat fat l) = freeCount fat + l.length := by
  induction l with
  | nil =>
    have e : freedFat fat [] = fat := by
      funext i
      simp [freedFat]
    rw [e, List.length_nil, Nat.add_zero]
  | cons x l ih =>
    have hx := h x (List.mem_cons_self _ _)
    have hnx : x ∉ l := (List.nodup_cons.mp hn).1
    rw [freedFat_cons, freeCount_update_free _ x hx.1
      (by rw [freedFat_not_mem fat l x hnx]; exact hx.2),
      ih (List.nodup_cons.mp hn).2 (fun y hy => h y (List.mem_cons_of_mem _ hy))]
    simp only [List.length_cons]
    omega

/-- The number of free entries of the FAT of a freshly formatted volume. -/
theorem freeCount_format (fat : Nat → Int) (T : Nat) (h1 : 41 ≤ T) (h2 : T ≤ 16384)
    (h : ∀ i, i < 16384 → fat i = formatFat (T : Int) i) : freeCount fat = T - 41 := by
  unfold freeCount
  have he : (Finset.range FAT_ENTRY_COUNT).filter (fun i => fat i = NOT_USED_FLAG)
      = Finset.Ico 41 T := by
    ext i
    simp only [FAT_ENTRY_COUNT, NOT_USED_FLAG, Finset.mem_filter, Finset.mem_range,
      Finset.mem_Ico]
    constructor
    · rintro ⟨a, b⟩
      rw [h i a] at b
      unfold formatFat at b
      by_cases c1 : i < 41
      · rw [if_pos c1] at b
        exact absurd b (by decide)
      · rw [if_neg c1] at b
        by_cases c2 : (i : Int) < (T : Int)
        · omega
        · rw [if_neg c2] at b
          exact absurd b (by decide)
    · rintro ⟨a, b⟩
      refine ⟨by omega, ?_⟩
      rw [h i (by omega)]
      unfold formatFat
      rw [if_neg (by omega), if_pos (by omega)]
  rw [he, Nat.card_Ico]

/-! ## What a defined call has done -/

theorem findAvailableOpenFileTableIndex_cases (s : State) :
    findAvailableOpenFileTableIndex s = -1 ∨
      ∃ f : Nat, f < 16 ∧ findAvailableOpenFileTableIndex s = (f : Int)
        ∧ (s.openFileTable f).dirBlock = -1 := by
  unfold findAvailableOpenFileTableIndex
  cases hs : scan (fun i => decide ((s.openFileTable i).dirBlock = -1)) MAX_NOF_OPEN_FILES 0 with
  | none => exact Or.inl rfl
  | some f =>
    obtain ⟨_, h2, h3, _⟩ := scan_some _ _ _ f hs
    refine Or.inr ⟨f, by simpa using h2, rfl, by simpa using h3⟩

theorem findDirLoop_inv (s : State) (name : Bytes) (cnt : Nat) : ∀ (i : Nat) (d : Int),
    findDirLoop s name cnt i = some d →
    d = -1 ∨ ∃ j : Nat, d = (j : Int) ∧ i ≤ j ∧ j < i + cnt ∧
      (s.cachedRootDirectory j).allocated = 1 ∧
      strcmp0 name (nameBytes (s.cachedRootDirectory j).filename) = some true := by
  induction cnt with
  | zero =>
    intro i d h
    rw [findDirLoop] at h
    simp only [Option.some.injEq] at h
    exact Or.inl h.symm
  | succ cnt ih =>
    intro i d h
    rw [findDirLoop] at h
    by_cases ha : (s.cachedRootDirectory i).allocated = USED_FLAG
    · rw [if_pos ha] at h
      cases hc : strcmp0 name (nameBytes (s.cachedRootDirectory i).filename) with
      | none => rw [hc] at h; exact absurd h (by simp)
      | some b =>
        rw [hc] at h
        cases b with
        | true =>
          simp only [Option.some.injEq] at h
          exact Or.inr ⟨i, h.symm, le_refl _, by omega, ha, hc⟩
        | false =>
          simp only at h
          rcases ih (i + 1) d h with h1 | ⟨j, h1, h2, h3, h4, h5⟩
          · exact Or.inl h1
          · exact Or.inr ⟨j, h1, by omega, by omega, h4, h5⟩
    · rw [if_neg ha] at h
      rcases ih (i + 1) d h with h1 | ⟨j, h1, h2, h3, h4, h5⟩
      · exact Or.inl h1
      · exact Or.inr ⟨j, h1, by omega, by omega, h4, h5⟩

theorem vsopen_inv (s s1 : State) (name : Bytes) (mode r : Int)
    (h : vsopen s name mode = some (r, s1)) :
    s1 = s ∨ ∃ (f : Nat) (d : Int), f < 16 ∧ s1 = openState s f d mode ∧
      (s.openFileTable f).dirBlock = -1 ∧
      (d = -1 ∨ ∃ j : Nat, d = (j : Int) ∧ j < 128 ∧ (s.cachedRootDirectory j).allocated = 1) := by
  unfold vsopen at h
  by_cases h1 : s.openFileCount = MAX_NOF_OPEN_FILES
  · rw [if_pos h1] at h
    simp only [Option.some.injEq, Prod.mk.injEq] at h
    exact Or.inl h.2.symm
  · rw [if_neg h1] at h
    cases h2 : openDupLoop s name MAX_NOF_OPEN_FILES 0 with
    | none => rw [h2] at h; exact absurd h (by simp)
    | some b =>
      rw [h2] at h
      cases b with
      | true =>
        simp only [Option.some.injEq, Prod.mk.injEq] at h
        exact Or.inl h.2.symm
      | false =>
        simp only at h
        cases h3 : findDirectoryEntryIndexByFilename s name with
        | none => rw [h3] at h; exact absurd h (by simp)
        | some d =>
          rw [h3] at h
          simp only at h
          rcases findAvailableOpenFileTableIndex_cases s with h4 | ⟨f, hf, h4, h5⟩
          · rw [h4] at h
            unfold allocateOpenFileTableEntry at h
            rw [if_neg (by decide)] at h
            exact absurd h (by simp)
          · rw [h4, allocateOpenFileTableEntry_eq s f d mode hf] at h
            simp only [Option.some.injEq, Prod.mk.injEq] at h
            refine Or.inr ⟨f, d, hf, h.2.symm, h5, ?_⟩
            rcases findDirLoop_inv s name DIR_ENTRY_COUNT 0 d h3 with h6 | ⟨j, h6, _, h8, h9, _⟩
            · exact Or.inl h6
            · exact Or.inr ⟨j, h6, by simpa using h8, h9⟩

theorem vsclose_inv (s s1 : State) (fd r : Int) (h : vsclose s fd = some (r, s1)) :
    s1 = s ∨ ∃ f, f < 16 ∧ s1 = closeState s f := by
  unfold vsclose at h
  split_ifs at h with h1 h2
  · simp only [Option.some.injEq, Prod.mk.injEq] at h
    exact Or.inl h.2.symm
  · simp only [Option.some.injEq, Prod.mk.injEq] at h
    exact Or.inr ⟨fd.toNat, h1.2, h.2.symm⟩

theorem vsreadFinish_state (s : State) (fd e n : Int) (buf : Bytes) (bc : Nat) :
    (vsreadFinish s fd e n buf bc).2.1 = seekState s fd.toNat e := by
  unfold vsreadFinish seekState
  split_ifs <;> rfl

theorem vsread_inv (s s1 : State) (fd n r : Int) (buf buf1 : Bytes)
    (h : vsread s fd buf n = some (r, s1, buf1)) :
    s1 = s ∨ ∃ (f : Nat) (pos : Int), s1 = seekState s f pos := by
  unfold vsread at h
  dsimp only at h
  split_ifs at h with h1 h2 h3 h4 h5 h6
  all_goals first
    | (simp only [Option.some.injEq, Prod.mk.injEq] at h
       exact Or.inl h.2.1.symm)
    | (split at h
       all_goals first
         | (simp only [Option.some.injEq, Prod.mk.injEq] at h
            exact Or.inl h.2.1.symm)
         | (simp only [Option.some.injEq] at h
            have e := congrArg (fun t => t.2.1) h
            simp only [vsreadFinish_state] at e
            exact Or.inr ⟨_, _, e.symm⟩)
         | exact absurd h (by simp))

/-- `vscreate` on a string of at most 29 characters: it either refuses and
changes nothing, or takes a free FAT entry `b` and an unallocated slot `j`
while no allocated slot carries the name. -/
theorem vscreate_cases (s : State) (name : Bytes) (hn : NulTerminated name) :
    vscreate s name = some (-1, s) ∨
      ∃ (b j : Nat), b < 16384 ∧ s.cachedFatTable b = 0 ∧ j < 128 ∧
        (s.cachedRootDirectory j).allocated = 0 ∧ (∀ k, k < 128 → ¬ HasName s k name) ∧
        vscreate s name = some (0, createState s name b j) := by
  by_cases h1 : s.fileCount = 128
  · exact Or.inl (vscreate_fail s name hn (Or.inl h1))
  by_cases h2 : ∃ k, k < 128 ∧ HasName s k name
  · exact Or.inl (vscreate_fail s name hn (Or.inr (Or.inl h2)))
  by_cases h3 : ∀ b, b < 16384 → s.cachedFatTable b ≠ 0
  · exact Or.inl (vscreate_fail s name hn (Or.inr (Or.inr h3)))
  have hno : ∀ k, k < 128 → ¬ HasName s k name := fun k hk hh => h2 ⟨k, hk, hh⟩
  have hfb : ∃ b, b < 16384 ∧ s.cachedFatTable b = 0 := by
    by_contra hc
    exact h3 (fun b hb hz => hc ⟨b, hb, hz⟩)
  obtain ⟨b, hb, hbz, hbl⟩ := exists_least (fun b => s.cachedFatTable b = 0) 16384 hfb
  by_cases h4 : ∃ j, j < 128 ∧ (s.cachedRootDirectory j).allocated = 0
  · obtain ⟨j, hj, hjz, hjl⟩ :=
      exists_least (fun j => (s.cachedRootDirectory j).allocated = 0) 128 h4
    exact Or.inr ⟨b, j, hb, hbz, hj, hjz, hno,
      vscreate_eq s name b j hn h1 hno hb hbz hbl hj hjz hjl⟩
  · refine Or.inl ?_
    have hd := createDupLoop_false s name hn 128 0 (fun k _ hk => hno k (by omega))
    have hfind := findAvailableBlockIndex_eq s b hb hbz hbl
    have hdir := findAvailableDirectoryEntryIndex_none s (fun k hk hz => h4 ⟨k, hk, hz⟩)
    have hbne : ¬ ((b : Int) = -1) := by omega
    unfold vscreate
    rw [if_neg (by simpa using h1)]
    simp only [DIR_ENTRY_COUNT, hd, hfind, hdir, hbne, if_false, if_true]

/-- A handle-closing loop of `vsdelete` that comes to its end has found a
directory index inside the directory in every slot it has looked at. -/
theorem deleteCloseLoop_valid (name : Bytes) (cnt : Nat) : ∀ (i : Nat) (s s1 : State),
    i + cnt ≤ 16 → deleteCloseLoop name cnt i s = some s1 →
    ∀ k, i ≤ k → k < i + cnt → (s.openFileTable k).dirBlock > -1 →
      0 ≤ (s.openFileTable k).cachedRootDirIndex
        ∧ (s.openFileTable k).cachedRootDirIndex.toNat < 128 := by
  induction cnt with
  | zero => intro i s s1 _ _ k h1 h2; omega
  | succ cnt ih =>
    intro i s s1 hi h k hk1 hk2 hk3
    rw [deleteCloseLoop] at h
    by_cases hd : (s.openFileTable i).dirBlock > -1
    · rw [if_pos hd] at h
      by_cases hval : 0 ≤ (s.openFileTable i).cachedRootDirIndex
          ∧ (s.openFileTable i).cachedRootDirIndex.toNat < DIR_ENTRY_COUNT
      · rw [if_pos hval] at h
        by_cases e : k = i
        · rw [e]
          exact hval
        · cases hc : strcmp0 name (nameBytes (s.cachedRootDirectory
              (s.openFileTable i).cachedRootDirIndex.toNat).filename) with
          | none => rw [hc] at h; exact absurd h (by simp)
          | some b =>
            rw [hc] at h
            cases b with
            | true =>
              simp only at h
              rw [vsclose_eq s i (by omega) (by omega)] at h
              simp only at h
              have := ih (i + 1) (closeState s i) s1 (by omega) h k (by omega) (by omega)
              have hsame : (closeState s i).openFileTable k = s.openFileTable k := by
                show Function.update s.openFileTable i _ k = _
                rw [Function.update_noteq e]
              rw [hsame] at this
              exact this hk3
            | false =>
              simp only at h
              exact ih (i + 1) s s1 (by omega) h k (by omega) (by omega) hk3
      · rw [if_neg hval] at h
        exact absurd h (by simp)
    · rw [if_neg hd] at h
      by_cases e : k = i
      · rw [e] at hk3
        exact absurd hk3 hd
      · exact ih (i + 1) s s1 (by omega) h k (by omega) (by omega) hk3

theorem vsdelete_none (s : State) (name : Bytes) (hn : NulTerminated name)
    (hv : HandlesValid s) (hnone : ∀ k, k < 128 → ¬ HasName s k name) :
    vsdelete s name = none := by
  have h1 : deleteCloseLoop name 16 0 s = some (closeUpTo s name 16) := by
    have := deleteCloseLoop_eq s name hn hv 16 0 (by omega)
    rwa [closeUpTo_zero, Nat.zero_add] at this
  have h2 : findDirectoryEntryIndexByFilename (closeUpTo s name 16) name = some (-1) :=
    findDirectoryEntryIndexByFilename_none _ name hn hnone
  unfold vsdelete
  simp only [MAX_NOF_OPEN_FILES, h1, h2, deallocateDirectoryEntry_none _ (-1) (by omega)]

/-! ## The invariant is kept by every call -/

theorem strcmp0_stored (a name : Bytes) :
    strcmp0 a (nameBytes (memcpyName name)) = strcmp0 a name := by
  rw [strcmp0_comm a, strcmp0_comm a name]
  exact strcmpAux_congr _ _ _ 30 0 (fun k _ hk => nameBytes_memcpyName name k (by omega))

theorem nulTerminated_stored (name : Bytes) (hn : NulTerminated name) :
    NulTerminated (nameBytes (memcpyName name)) := by
  obtain ⟨k, hk, hz⟩ := hn
  exact ⟨k, hk, by rw [nameBytes_memcpyName name k hk]; exact hz⟩

theorem blocksFor_zero : blocksFor 0 = 1 := by
  unfold blocksFor
  decide

/-- A name that no allocated slot carries differs from the name of every
allocated slot. -/
theorem strcmp0_of_not_hasName (s : State) (k : Nat) (name : Bytes) (hn : NulTerminated name)
    (ha : (s.cachedRootDirectory k).allocated = 1) (hno : ¬ HasName s k name) :
    strcmp0 (nameBytes (s.cachedRootDirectory k).filename) name = some false := by
  obtain ⟨r, hr⟩ := strcmp0_isSome (nameBytes (s.cachedRootDirectory k).filename) name hn
  cases r with
  | true => exact absurd ⟨ha, hr⟩ hno
  | false => exact hr

theorem wf_create (s : State) (ch : Nat → List Nat) (name : Bytes) (b j : Nat) (h : WF s ch)
    (hn : NulTerminated name) (hb : b < 16384) (hbz : s.cachedFatTable b = 0) (hj : j < 128)
    (hjz : (s.cachedRootDirectory j).allocated = 0) (hno : ∀ k, k < 128 → ¬ HasName s k name) :
    WF (createState s name b j) (Function.update ch j [b]) := by
  have hb41 : 41 ≤ b := by
    by_contra hc
    exact h.metadata b (by omega) hbz
  have hdir : ∀ k, k ≠ j →
      (createState s name b j).cachedRootDirectory k = s.cachedRootDirectory k := by
    intro k hk
    show Function.update s.cachedRootDirectory j _ k = _
    rw [Function.update_noteq hk]
  have hdirj : (createState s name b j).cachedRootDirectory j
      = { filename := memcpyName name, size := 0, startBlock := b, allocated := 1 } := by
    show Function.update s.cachedRootDirectory j _ j = _
    rw [Function.update_same]
  have hfat : ∀ x, x ≠ b → (createState s name b j).cachedFatTable x = s.cachedFatTable x := by
    intro x hx
    show Function.update s.cachedFatTable b (-1) x = _
    rw [Function.update_noteq hx]
  have hfatb : (createState s name b j).cachedFatTable b = -1 := by
    show Function.update s.cachedFatTable b (-1) b = _
    rw [Function.update_same]
  have hnotin : ∀ k, k < 128 → (s.cachedRootDirectory k).allocated = 1 → b ∉ ch k := by
    intro k hk ha hmem
    exact (isChain_mem _ _ _ (h.chain k hk ha) b hmem).2.2 hbz
  have hold : ∀ k, k ≠ j → (createState s name b j).cachedRootDirectory k
      = s.cachedRootDirectory k := hdir
  refine ⟨?_, ?_, ?_, ?_, ?_, ?_, ?_, ?_, ?_, ?_, ?_, ?_⟩
  · intro k hk
    by_cases e : k = j
    · rw [e, hdirj]; exact Or.inr rfl
    · rw [hdir k e]; exact h.flags k hk
  · intro f hf
    rcases h.handles f hf with h0 | ⟨h1, h2⟩
    · exact Or.inl h0
    · refine Or.inr ⟨h1, ?_⟩
      rcases h2 with h3 | ⟨h3, h4, h5⟩
      · exact Or.inl h3
      · refine Or.inr ⟨h3, h4, ?_⟩
        show ((createState s name b j).cachedRootDirectory
          (s.openFileTable f).cachedRootDirIndex.toNat).allocated = 1
        by_cases e : (s.openFileTable f).cachedRootDirIndex.toNat = j
        · rw [e, hdirj]
        · rw [hdir _ e]; exact h5
  · intro k hk ha
    by_cases e : k = j
    · rw [e, hdirj, Function.update_same]
      exact (isChain_singleton _ _ _).mpr ⟨rfl, hb41, hb, hfatb⟩
    · rw [hdir k e] at ha ⊢
      rw [Function.update_noteq e]
      refine isChain_congr _ _ _ _ (h.chain k hk ha) (fun x hx => hfat x ?_)
      intro hxb
      exact hnotin k hk ha (hxb ▸ hx)
  · intro k hk ha
    by_cases e : k = j
    · rw [e, hdirj, Function.update_same]
      exact ⟨le_refl _, by rw [blocksFor_zero]; rfl⟩
    · rw [hdir k e] at ha ⊢
      rw [Function.update_noteq e]
      exact h.size k hk ha
  · intro i k hi hk hik hai hak x hx
    by_cases e1 : i = j
    · have e2 : k ≠ j := fun e => hik (e1.trans e.symm)
      rw [e1, Function.update_same] at hx
      rw [Function.update_noteq e2]
      rw [hdir k e2] at hak
      have : x = b := by simpa using hx
      rw [this]
      exact hnotin k hk hak
    · rw [Function.update_noteq e1] at hx
      rw [hdir i e1] at hai
      by_cases e2 : k = j
      · rw [e2, Function.update_same]
        intro hxb
        have : x = b := by simpa using hxb
        exact hnotin i hi hai (this ▸ hx)
      · rw [Function.update_noteq e2]
        rw [hdir k e2] at hak
        exact h.disjoint i k hi hk hik hai hak x hx
  · show s.freeBlockCount - 1 = (freeCount (Function.update s.cachedFatTable b (-1)) : Int)
    have := freeCount_update_alloc s.cachedFatTable b (-1) hb hbz (by decide)
    have hf := h.free
    omega
  · intro i hi
    rw [hfat i (by omega)]
    exact h.metadata i hi
  · show usedBlocks (Function.update s.cachedRootDirectory j _) + (s.freeBlockCount - 1) + 41
      = s.totalBlockCount
    rw [usedBlocks_update _ _ _ hj]
    simp only [USED_FLAG, hjz, blocksFor_zero]
    have := h.used
    simp only [if_true, show ¬ ((0 : Int) = 1) from by decide, if_false]
    omega
  · show s.fileCount + 1 = (allocatedCount (Function.update s.cachedRootDirectory j _) : Int)
    have := allocatedCount_update s.cachedRootDirectory j
      { filename := memcpyName name, size := 0, startBlock := b, allocated := 1 } hj
    simp only [USED_FLAG, hjz, if_true, show ¬ ((0 : Int) = 1) from by decide, if_false] at this
    have hf := h.files
    omega
  · exact h.data
  · intro k hk ha
    by_cases e : k = j
    · rw [e, hdirj]
      exact nulTerminated_stored name hn
    · rw [hdir k e] at ha ⊢
      exact h.nul k hk ha
  · intro i k hi hk hik hai hak
    by_cases e1 : i = j
    · have e2 : k ≠ j := fun e => hik (e1.trans e.symm)
      rw [hdir k e2] at hak ⊢
      rw [e1, hdirj, strcmp0_comm, strcmp0_stored]
      exact strcmp0_of_not_hasName s k name hn hak (hno k hk)
    · rw [hdir i e1] at hai ⊢
      by_cases e2 : k = j
      · rw [e2, hdirj, strcmp0_stored]
        exact strcmp0_of_not_hasName s i name hn hai (hno i hi)
      · rw [hdir k e2] at hak ⊢
        exact h.distinct i k hi hk hik hai hak

theorem tdiv_16_neg_one : (-1 : Int).tdiv 16 = 0 := by decide

/-- A change of the open-file table alone keeps the invariant when every slot
in use still points at an allocated directory entry (or at -1). -/
theorem wf_of_table (s s1 : State) (ch : Nat → List Nat) (h : WF s ch)
    (hdir : s1.cachedRootDirectory = s.cachedRootDirectory)
    (hfat : s1.cachedFatTable = s.cachedFatTable)
    (hfree : s1.freeBlockCount = s.freeBlockCount) (hfc : s1.fileCount = s.fileCount)
    (htot : s1.totalBlockCount = s.totalBlockCount)
    (hdat : s1.dataBlockCount = s.dataBlockCount)
    (hh : ∀ f, f < 16 → (s1.openFileTable f).dirBlock = -1 ∨
      (0 ≤ (s1.openFileTable f).dirBlock ∧
        ((s1.openFileTable f).cachedRootDirIndex = -1 ∨
          (0 ≤ (s1.openFileTable f).cachedRootDirIndex ∧
            (s1.openFileTable f).cachedRootDirIndex.toNat < 128 ∧
            (s.cachedRootDirectory (s1.openFileTable f).cachedRootDirIndex.toNat).allocated
              = 1)))) :
    WF s1 ch := by
  refine ⟨?_, ?_, ?_, ?_, ?_, ?_, ?_, ?_, ?_, ?_, ?_, ?_⟩
  · rw [hdir]; exact h.flags
  · rw [hdir]; exact hh
  · rw [hdir, hfat]; exact h.chain
  · rw [hdir]; exact h.size
  · rw [hdir]; exact h.disjoint
  · rw [hfree, hfat]; exact h.free
  · rw [hfat]; exact h.metadata
  · rw [hdir, hfree, htot]; exact h.used
  · rw [hdir, hfc]; exact h.files
  · rw [hdat, htot]; exact h.data
  · rw [hdir]; exact h.nul
  · rw [hdir]; exact h.distinct

theorem wf_open (s : State) (ch : Nat → List Nat) (f : Nat) (d mode : Int) (h : WF s ch)
    (hd : d = -1 ∨ ∃ j : Nat, d = (j : Int) ∧ j < 128 ∧ (s.cachedRootDirectory j).allocated = 1) :
    WF (openState s f d mode) ch := by
  refine wf_of_table s _ ch h rfl rfl rfl rfl rfl rfl (fun k hk => ?_)
  by_cases e : k = f
  · have hslot : (openState s f d mode).openFileTable k
        = { accessMode := mode, dirBlock := d.tdiv 16, dirBlockOffset := d.tmod 16,
            cachedRootDirIndex := d, positionPtr := 0 } := by
      show Function.update s.openFileTable f _ k = _
      rw [e, Function.update_same]
    rw [hslot]
    simp only
    rcases hd with hd | ⟨j, hd, hj, ha⟩
    · rw [hd, tdiv_16_neg_one]
      exact Or.inr ⟨le_refl _, Or.inl rfl⟩
    · rw [hd, tdiv_16]
      refine Or.inr ⟨by omega, Or.inr ⟨by omega, ?_, ?_⟩⟩
      · rw [Int.toNat_ofNat]; exact hj
      · rw [Int.toNat_ofNat]; exact ha
  · have hslot : (openState s f d mode).openFileTable k = s.openFileTable k := by
      show Function.update s.openFileTable f _ k = _
      rw [Function.update_noteq e]
    rw [hslot]
    exact h.handles k hk

theorem wf_close (s : State) (ch : Nat → List Nat) (f : Nat) (h : WF s ch) :
    WF (closeState s f) ch := by
  refine wf_of_table s _ ch h rfl rfl rfl rfl rfl rfl (fun k hk => ?_)
  by_cases e : k = f
  · left
    show (Function.update s.openFileTable f _ k).dirBlock = -1
    rw [e, Function.update_same]
  · have hslot : (closeState s f).openFileTable k = s.openFileTable k := by
      show Function.update s.openFileTable f _ k = _
      rw [Function.update_noteq e]
    rw [hslot]
    exact h.handles k hk

theorem wf_seek (s : State) (ch : Nat → List Nat) (f : Nat) (pos : Int) (h : WF s ch) :
    WF (seekState s f pos) ch := by
  refine wf_of_table s _ ch h rfl rfl rfl rfl rfl rfl (fun k hk => ?_)
  by_cases e : k = f
  · have hslot : (seekState s f pos).openFileTable k
        = { s.openFileTable f with positionPtr := pos } := by
      show Function.update s.openFileTable f _ k = _
      rw [e, Function.update_same]
    rw [hslot]
    exact h.handles f (e ▸ hk)
  · have hslot : (seekState s f pos).openFileTable k = s.openFileTable k := by
      show Function.update s.openFileTable f _ k = _
      rw [Function.update_noteq e]
    rw [hslot]
    exact h.handles k hk

theorem allocatedCount_congr (dir1 dir : Nat → dirEntry)
    (h : ∀ k, (dir1 k).allocated = (dir k).allocated) :
    allocatedCount dir1 = allocatedCount dir := by
  unfold allocatedCount
  exact congrArg Finset.card (Finset.filter_congr (fun k _ => by rw [h k]))

theorem wf_append (s s2 : State) (ch : Nat → List Nat) (j : Nat) (new : List Nat) (buf : Bytes)
    (sz N : Nat) (h : WF s ch) (hj : j < 128) (ha : (s.cachedRootDirectory j).allocated = 1)
    (hsz : (s.cachedRootDirectory j).size = (sz : Int))
    (hspec : AppendSpec s s2 j (ch j) new buf sz N) :
    WF s2 (Function.update ch j (ch j ++ new)) := by
  have hdir : ∀ k, k ≠ j → s2.cachedRootDirectory k = s.cachedRootDirectory k := by
    intro k hk
    rw [hspec.dir, Function.update_noteq hk]
  have hdirj : s2.cachedRootDirectory j
      = { s.cachedRootDirectory j with size := (sz : Int) + (N : Int) } := by
    rw [hspec.dir, Function.update_same]
  have halloc : ∀ k, (s2.cachedRootDirectory k).allocated = (s.cachedRootDirectory k).allocated := by
    intro k
    by_cases e : k = j
    · rw [e, hdirj]
    · rw [hdir k e]
  have hname : ∀ k, (s2.cachedRootDirectory k).filename = (s.cachedRootDirectory k).filename := by
    intro k
    by_cases e : k = j
    · rw [e, hdirj]
    · rw [hdir k e]
  have hchj := h.chain j hj ha
  have hlast : lastBlock (ch j) ∈ ch j := lastBlock_mem _ (isChain_ne_nil _ _ _ hchj)
  have hnew41 : ∀ x ∈ new, 41 ≤ x :=
    fun x hx => (isChain_mem _ _ _ hspec.chain x (List.mem_append_right _ hx)).1
  -- the entries of the other chains are untouched
  have hother : ∀ k, k < 128 → k ≠ j → (s.cachedRootDirectory k).allocated = 1 →
      ∀ x ∈ ch k, s2.cachedFatTable x = s.cachedFatTable x ∧ x ∉ ch j ∧ x ∉ new := by
    intro k hk hkj hak x hx
    have hxn : x ∉ new := fun hxn =>
      (isChain_mem _ _ _ (h.chain k hk hak) x hx).2.2 (hspec.wasFree x hxn)
    have hxj : x ∉ ch j := h.disjoint k j hk hj hkj hak ha x hx
    refine ⟨hspec.fatFrame x hxn (Or.inl ?_), hxj, hxn⟩
    intro e
    exact hxj (e ▸ hlast)
  refine ⟨?_, ?_, ?_, ?_, ?_, ?_, ?_, ?_, ?_, ?_, ?_, ?_⟩
  · intro k hk
    rw [halloc k]; exact h.flags k hk
  · intro f hf
    rw [hspec.oft]
    rcases h.handles f hf with h0 | ⟨h1, h2⟩
    · exact Or.inl h0
    · refine Or.inr ⟨h1, ?_⟩
      rcases h2 with h3 | ⟨h3, h4, h5⟩
      · exact Or.inl h3
      · exact Or.inr ⟨h3, h4, by rw [halloc]; exact h5⟩
  · intro k hk hak
    rw [halloc k] at hak
    by_cases e : k = j
    · rw [e, Function.update_same, hdirj]
      exact hspec.chain
    · rw [Function.update_noteq e, hdir k e]
      exact isChain_congr _ _ _ _ (h.chain k hk hak) (fun x hx => (hother k hk e hak x hx).1)
  · intro k hk hak
    rw [halloc k] at hak
    by_cases e : k = j
    · rw [e, Function.update_same, hdirj]
      exact ⟨by simp only; omega, hspec.blocks⟩
    · rw [Function.update_noteq e, hdir k e]
      exact h.size k hk hak
  · intro i k hi hk hik hai hak x hx
    rw [halloc i] at hai
    rw [halloc k] at hak
    by_cases e1 : i = j
    · have e2 : k ≠ j := fun e => hik (e1.trans e.symm)
      rw [e1, Function.update_same] at hx
      rw [Function.update_noteq e2]
      intro hxk
      have := hother k hk e2 hak x hxk
      rcases List.mem_append.mp hx with hx1 | hx1
      · exact this.2.1 hx1
      · exact this.2.2 hx1
    · rw [Function.update_noteq e1] at hx
      by_cases e2 : k = j
      · rw [e2, Function.update_same]
        intro hxk
        have := hother i hi e1 hai x hx
        rcases List.mem_append.mp hxk with hx1 | hx1
        · exact this.2.1 hx1
        · exact this.2.2 hx1
      · rw [Function.update_noteq e2]
        exact h.disjoint i k hi hk hik hai hak x hx
  · have h1 := hspec.free
    have h2 := hspec.freeCnt
    have h3 := h.free
    omega
  · intro i hi
    rw [hspec.fatFrame i (fun hin => by have := hnew41 i hin; omega) (Or.inl ?_)]
    · exact h.metadata i hi
    · intro e
      have := (isChain_mem _ _ _ hchj _ hlast).1
      omega
  · rw [hspec.dir, usedBlocks_update _ _ _ hj, hspec.free, hspec.total]
    simp only [USED_FLAG, ha, if_true, hsz]
    have h1 := h.used
    have h2 := hspec.blocks
    have h3 := (h.size j hj ha).2
    rw [hsz] at h3
    rw [List.length_append] at h2
    push_cast at h2
    omega
  · rw [hspec.fileCount, h.files, allocatedCount_congr _ _ halloc]
  · rw [hspec.dataCount, hspec.total]; exact h.data
  · intro k hk hak
    rw [halloc k] at hak
    rw [hname k]
    exact h.nul k hk hak
  · intro i k hi hk hik hai hak
    rw [halloc i] at hai
    rw [halloc k] at hak
    rw [hname i, hname k]
    exact h.distinct i k hi hk hik hai hak

theorem wf_delete (s : State) (ch : Nat → List Nat) (name : Bytes) (j : Nat) (h : WF s ch)
    (hj : j < 128) (hname : HasName s j name) :
    WF (deleteState s name j (ch j)) ch := by
  have ha : (s.cachedRootDirectory j).allocated = 1 := hname.1
  have hchj := h.chain j hj ha
  have hdir : ∀ k, k ≠ j →
      (deleteState s name j (ch j)).cachedRootDirectory k = s.cachedRootDirectory k := by
    intro k hk
    show Function.update s.cachedRootDirectory j _ k = _
    rw [Function.update_noteq hk]
  have hdirj : ((deleteState s name j (ch j)).cachedRootDirectory j).allocated = 0 := by
    show (Function.update s.cachedRootDirectory j _ j).allocated = 0
    rw [Function.update_same]
  have hne : ∀ k, ((deleteState s name j (ch j)).cachedRootDirectory k).allocated = 1 →
      k ≠ j ∧ (s.cachedRootDirectory k).allocated = 1 := by
    intro k hk
    by_cases e : k = j
    · rw [e, hdirj] at hk
      exact absurd hk (by decide)
    · rw [hdir k e] at hk
      exact ⟨e, hk⟩
  have hfat : ∀ k, k < 128 → k ≠ j → (s.cachedRootDirectory k).allocated = 1 →
      ∀ x ∈ ch k, (deleteState s name j (ch j)).cachedFatTable x = s.cachedFatTable x := by
    intro k hk hkj hak x hx
    show freedFat s.cachedFatTable (ch j) x = _
    exact freedFat_not_mem _ _ _ (h.disjoint k j hk hj hkj hak ha x hx)
  refine ⟨?_, ?_, ?_, ?_, ?_, ?_, ?_, ?_, ?_, ?_, ?_, ?_⟩
  · intro k hk
    by_cases e : k = j
    · rw [e, hdirj]; exact Or.inl rfl
    · rw [hdir k e]; exact h.flags k hk
  · intro f hf
    show (closedTable s name 16 f).dirBlock = -1 ∨
      (0 ≤ (closedTable s name 16 f).dirBlock ∧
        ((closedTable s name 16 f).cachedRootDirIndex = -1 ∨
          (0 ≤ (closedTable s name 16 f).cachedRootDirIndex ∧
            (closedTable s name 16 f).cachedRootDirIndex.toNat < 128 ∧
            ((deleteState s name j (ch j)).cachedRootDirectory
              (closedTable s name 16 f).cachedRootDirIndex.toNat).allocated = 1)))
    unfold closedTable
    by_cases hc : f < 16 ∧ (s.openFileTable f).dirBlock > -1 ∧ RefersTo s f name
    · rw [if_pos hc]
      exact Or.inl rfl
    · rw [if_neg hc]
      rcases h.handles f hf with h0 | ⟨h1, h2⟩
      · exact Or.inl h0
      · refine Or.inr ⟨h1, ?_⟩
        rcases h2 with h3 | ⟨h3, h4, h5⟩
        · exact Or.inl h3
        · refine Or.inr ⟨h3, h4, ?_⟩
          have hidx : (s.openFileTable f).cachedRootDirIndex.toNat ≠ j := by
            intro e
            refine hc ⟨hf, by omega, ?_⟩
            unfold RefersTo
            rw [e]
            exact hname.2
          rw [hdir _ hidx]
          exact h5
  · intro k hk hak
    obtain ⟨e, hak2⟩ := hne k hak
    rw [hdir k e]
    exact isChain_congr _ _ _ _ (h.chain k hk hak2) (hfat k hk e hak2)
  · intro k hk hak
    obtain ⟨e, hak2⟩ := hne k hak
    rw [hdir k e]
    exact h.size k hk hak2
  · intro i k hi hk hik hai hak
    exact h.disjoint i k hi hk hik (hne i hai).2 (hne k hak).2
  · show s.freeBlockCount + ((ch j).length : Int)
      = (freeCount (freedFat s.cachedFatTable (ch j)) : Int)
    rw [freeCount_freedFat _ _ (isChain_nodup _ _ _ hchj)
      (fun x hx => ⟨(isChain_mem _ _ _ hchj x hx).2.1, (isChain_mem _ _ _ hchj x hx).2.2⟩)]
    have := h.free
    push_cast
    omega
  · intro i hi
    show freedFat s.cachedFatTable (ch j) i ≠ 0
    rw [freedFat_not_mem _ _ _ (fun hin => by have := (isChain_mem _ _ _ hchj i hin).1; omega)]
    exact h.metadata i hi
  · show usedBlocks (Function.update s.cachedRootDirectory j _)
      + (s.freeBlockCount + ((ch j).length : Int)) + 41 = s.totalBlockCount
    rw [usedBlocks_update _ _ _ hj]
    simp only [USED_FLAG, ha, if_true, show ¬ ((0 : Int) = 1) from by decide, if_false]
    have h1 := h.used
    have h3 := (h.size j hj ha).2
    omega
  · show s.fileCount - 1 = (allocatedCount (Function.update s.cachedRootDirectory j _) : Int)
    have := allocatedCount_update s.cachedRootDirectory j
      { s.cachedRootDirectory j with allocated := 0 } hj
    dsimp only at this ⊢
    simp only [USED_FLAG, ha, if_true, show ¬ ((0 : Int) = 1) from by decide, if_false] at this
    have hf := h.files
    omega
  · exact h.data
  · intro k hk hak
    obtain ⟨e, hak2⟩ := hne k hak
    rw [hdir k e]
    exact h.nul k hk hak2
  · intro i k hi hk hik hai hak
    obtain ⟨e1, hai2⟩ := hne i hai
    obtain ⟨e2, hak2⟩ := hne k hak
    rw [hdir i e1, hdir k e2]
    exact h.distinct i k hi hk hik hai2 hak2

/-- A freshly formatted and mounted volume satisfies the invariant. -/
theorem wf_fresh (s : State) (h : Fresh s) : WF s (fun _ => []) := by
  obtain ⟨m, g, sb, fb, db, d, h1, h2, hfmt, hmnt⟩ := h
  obtain ⟨d2, s2, hf2, hm2, _, hT1, hT2, htot, hdat, hfree, hfc, _, hoft, hfat, hdir, _⟩ :=
    fresh_volume m g sb fb db h1 h2
  have ed : d2 = d := by
    rw [hfmt] at hf2
    simp only [Option.some.injEq, Prod.mk.injEq, true_and] at hf2
    exact hf2.symm
  rw [ed, hmnt] at hm2
  have es : s2 = s := by
    simp only [Option.some.injEq, Prod.mk.injEq, true_and] at hm2
    exact hm2.symm
  rw [es] at htot hdat hfree hfc hoft hfat hdir
  have hno : ∀ j, j < 128 → ¬ ((s.cachedRootDirectory j).allocated = 1) := by
    intro j hj e
    rw [hdir j hj] at e
    exact absurd e (by decide)
  refine ⟨?_, ?_, ?_, ?_, ?_, ?_, ?_, ?_, ?_, ?_, ?_, ?_⟩
  · intro j hj; exact Or.inl (hdir j hj)
  · intro f hf; exact Or.inl (hoft f hf)
  · intro j hj e; exact absurd e (hno j hj)
  · intro j hj e; exact absurd e (hno j hj)
  · intro i j hi _ _ e; exact absurd e (hno i hi)
  · rw [hfree, freeCount_format s.cachedFatTable (2 ^ m / 2048) (by omega) (by omega) hfat]
    omega
  · intro i hi
    rw [hfat i (by omega)]
    unfold formatFat
    rw [if_pos hi]
    decide
  · rw [usedBlocks_none _ hdir, hfree, htot]
    omega
  · rw [hfc, allocatedCount_none _ hdir]
    rfl
  · rw [hdat, htot]
  · intro j hj e; exact absurd e (hno j hj)
  · intro i j hi _ _ e; exact absurd e (hno i hi)

theorem wf_step_append (s s1 : State) (ch : Nat → List Nat) (fd n r : Int) (buf : Bytes)
    (h : WF s ch) (hrun : vsappend s fd buf n = some (r, s1)) : ∃ ch1, WF s1 ch1 := by
  rcases vsappend_inv s s1 fd buf n r hrun with ⟨_, h1⟩ | ⟨hn, hfd, hf, hin, hmode, hi1, hi2, hreq⟩
  · rw [h1]; exact ⟨ch, h⟩
  · obtain ⟨f, hfe⟩ : ∃ f : Nat, fd = (f : Int) := ⟨fd.toNat, (Int.toNat_of_nonneg hfd).symm⟩
    obtain ⟨N, hNe⟩ : ∃ N : Nat, n = (N : Int) := ⟨n.toNat, (Int.toNat_of_nonneg (by omega)).symm⟩
    rw [hfe, Int.toNat_ofNat] at hf hin hmode hi1 hi2 hreq
    obtain ⟨j, hje⟩ : ∃ j : Nat, (s.openFileTable f).cachedRootDirIndex = (j : Int) :=
      ⟨_, (Int.toNat_of_nonneg hi1).symm⟩
    rw [hje, Int.toNat_ofNat] at hi2 hreq
    have ha : (s.cachedRootDirectory j).allocated = 1 := by
      rcases h.handles f hf with h0 | ⟨_, h2 | ⟨_, _, h5⟩⟩
      · exact absurd h0 hin
      · omega
      · rw [hje, Int.toNat_ofNat] at h5
        exact h5
    obtain ⟨hs0, hlen⟩ := h.size j hi2 ha
    obtain ⟨sz, hsz⟩ : ∃ sz : Nat, (s.cachedRootDirectory j).size = (sz : Int) :=
      ⟨_, (Int.toNat_of_nonneg hs0).symm⟩
    rw [hsz] at hlen hreq
    rw [hNe] at hreq hn
    obtain ⟨s2, new, hok, hspec⟩ := vsappend_ok s f buf N j sz (ch j) hf hin hmode hje hi2 hsz
      (h.chain j hi2 ha) hlen (by omega) hreq (le_of_eq h.free) h.metadata
    rw [hfe, hNe, hok] at hrun
    simp only [Option.some.injEq, Prod.mk.injEq] at hrun
    rw [← hrun.2]
    exact ⟨_, wf_append s s2 ch j new buf sz N h hi2 ha hsz hspec⟩

theorem handlesValid_of_wf (s s2 : State) (ch : Nat → List Nat) (name : Bytes) (h : WF s ch)
    (hloop : deleteCloseLoop name 16 0 s = some s2) : HandlesValid s := by
  intro i hi
  simp only [MAX_NOF_OPEN_FILES] at hi
  rcases h.handles i hi with h0 | ⟨h1, _⟩
  · exact Or.inl h0
  · have := deleteCloseLoop_valid name 16 0 s s2 (by omega) hloop i (by omega) (by omega)
      (by omega)
    refine Or.inr ⟨h1, this.1, ?_⟩
    simp only [DIR_ENTRY_COUNT]
    omega

theorem wf_step_delete (s s1 : State) (ch : Nat → List Nat) (name : Bytes) (r : Int)
    (h : WF s ch) (hn : NulTerminated name) (hrun : vsdelete s name = some (r, s1)) :
    ∃ ch1, WF s1 ch1 := by
  have hv : HandlesValid s := by
    cases hl : deleteCloseLoop name 16 0 s with
    | none =>
      unfold vsdelete at hrun
      simp only [MAX_NOF_OPEN_FILES, hl] at hrun
      exact absurd hrun (by simp)
    | some s2 => exact handlesValid_of_wf s s2 ch name h hl
  by_cases hex : ∃ k, k < 128 ∧ HasName s k name
  · obtain ⟨j, hj, hname, hleast⟩ := exists_least (fun k => HasName s k name) 128 hex
    have ha : (s.cachedRootDirectory j).allocated = 1 := hname.1
    have hok := vsdelete_ok s name j (ch j) hn hv hj hname hleast (h.chain j hj ha)
    rw [hok] at hrun
    simp only [Option.some.injEq, Prod.mk.injEq] at hrun
    rw [← hrun.2]
    exact ⟨ch, wf_delete s ch name j h hj hname⟩
  · rw [vsdelete_none s name hn hv (fun k hk hh => hex ⟨k, hk, hh⟩)] at hrun
    exact absurd hrun (by simp)

/-- One call keeps the invariant. -/
theorem wf_step (s s1 : State) (ch : Nat → List Nat) (h : WF s ch) (hs : Step s s1) :
    ∃ ch1, WF s1 ch1 := by
  rcases hs with ⟨name, r, hn, hrun⟩ | ⟨name, mode, r, _, hrun⟩ | ⟨fd, r, hrun⟩
    | ⟨fd, n, r, buf, buf1, hrun⟩ | ⟨fd, n, r, buf, hrun⟩ | ⟨name, r, hn, hrun⟩
  · rcases vscreate_cases s name hn with hfail | ⟨b, j, hb, hbz, hj, hjz, hno, hok⟩
    · rw [hfail] at hrun
      simp only [Option.some.injEq, Prod.mk.injEq] at hrun
      rw [← hrun.2]; exact ⟨ch, h⟩
    · rw [hok] at hrun
      simp only [Option.some.injEq, Prod.mk.injEq] at hrun
      rw [← hrun.2]
      exact ⟨_, wf_create s ch name b j h hn hb hbz hj hjz hno⟩
  · rcases vsopen_inv s s1 name mode r hrun with h1 | ⟨f, d, _, h1, _, hd⟩
    · rw [h1]; exact ⟨ch, h⟩
    · rw [h1]; exact ⟨ch, wf_open s ch f d mode h hd⟩
  · rcases vsclose_inv s s1 fd r hrun with h1 | ⟨f, _, h1⟩
    · rw [h1]; exact ⟨ch, h⟩
    · rw [h1]; exact ⟨ch, wf_close s ch f h⟩
  · rcases vsread_inv s s1 fd n r buf buf1 hrun with h1 | ⟨f, pos, h1⟩
    · rw [h1]; exact ⟨ch, h⟩
    · rw [h1]; exact ⟨ch, wf_seek s ch f pos h⟩
  · exact wf_step_append s s1 ch fd n r buf h hrun
  · exact wf_step_delete s s1 ch name r h hn hrun

/-- Every reachable state satisfies the invariant. -/
theorem reachable_wf (s : State) (h : Reachable s) : ∃ ch, WF s ch := by
  induction h with
  | fresh s hf => exact ⟨_, wf_fresh s hf⟩
  | step s s1 _ hs ih =>
    obtain ⟨ch, hw⟩ := ih
    exact wf_step s s1 ch hw hs

/-! ## The FAT in the container under the write-through stores -/

theorem fatOnDisk_fatDiskWrite (d : Disk) (b i : Nat) (v : Int)
    (hv1 : -2147483648 ≤ v) (hv2 : v < 2147483648) :
    fatOnDisk (fatDiskWrite d b v) i = if i = b then v else fatOnDisk d i := by
  unfold fatOnDisk fatDiskWrite
  by_cases e : i = b
  · rw [if_pos e, e, Function.update_same, loadInt32_storeInt32_same _ _ _ hv1 hv2]
  · rw [if_neg e]
    by_cases e2 : 1 + i / 512 = 1 + b / 512
    · rw [e2, Function.update_same, loadInt32_storeInt32_other _ _ _ _ (by omega)]
    · rw [Function.update_noteq e2]

theorem fatOnDisk_dirDiskWrite (d : Disk) (j i : Nat) (name : Bytes) (a b c : Int)
    (hi : i < 16384) : fatOnDisk (dirDiskWrite d j name a b c) i = fatOnDisk d i := by
  unfold fatOnDisk dirDiskWrite
  rw [Function.update_noteq (by omega)]

theorem fatOnDisk_dirDiskClear (d : Disk) (j i : Nat) (hi : i < 16384) :
    fatOnDisk (dirDiskClear d j) i = fatOnDisk d i := by
  unfold fatOnDisk dirDiskClear
  rw [Function.update_noteq (by omega)]

theorem emptyVolume_fatOnDisk (i : Nat) (hi : i < 16384) :
    fatOnDisk emptyVolume.disk i = emptyVolume.cachedFatTable i := by
  unfold fatOnDisk
  have hr : -2147483648 ≤ emptyFat 128 i ∧ emptyFat 128 i < 2147483648 := by
    unfold emptyFat
    split_ifs <;> omega
  refine loadInt32_int32Byte _ _ _ (fun k hk => ?_) hr.1 hr.2
  show (if 1 + i / 512 = 0 then _ else if 1 + i / 512 < 33 then
    int32Byte (emptyFat 128 ((1 + i / 512 - 1) * 512 + (i % 512 * 4 + k) / 4))
      ((i % 512 * 4 + k) % 4) else 0) = _
  rw [if_neg (by omega), if_pos (by omega)]
  have e1 : (1 + i / 512 - 1) * 512 + (i % 512 * 4 + k) / 4 = i := by omega
  have e2 : (i % 512 * 4 + k) % 4 = k := by omega
  rw [e1, e2]
  rfl

/-! ## A volume of 128 blocks with one and with two files -/

/-- The calls `vsformat(18)`, `vsmount`, `vscreate("f")`, `vscreate("g")` with
the local arrays of the initialisers holding zero bytes. -/
theorem two_files :
    ∃ d s0 s1 s2, vsformat 18 (fun _ => 0) (fun _ => 0) (fun _ => 0) = some (0, d) ∧
      vsmount emptyVolume d = some (0, s0) ∧
      vscreate s0 nameF = some (0, s1) ∧ vscreate s1 nameG = some (0, s2) ∧
      Reachable s0 ∧ Reachable s1 ∧ Reachable s2 ∧
      s1 = createState s0 nameF 41 0 ∧ s2 = createState s1 nameG 42 1 ∧
      s0.totalBlockCount = 128 ∧ s0.freeBlockCount = 87 ∧
      (∀ j, j < 128 → (s0.cachedRootDirectory j).allocated = 0) := by
  obtain ⟨d, s0, hfmt, hmnt, _, _, _, htot, _, hfree, hfc, _, _, hfat, hdir, _⟩ :=
    fresh_volume 18 emptyVolume (fun _ => 0) (fun _ => 0) (fun _ => 0) (by omega) (by omega)
  have e18 : (2 : Nat) ^ 18 / 2048 = 128 := by norm_num
  rw [e18] at htot hfree hfat
  have hr0 : Reachable s0 :=
    Reachable.fresh s0 ⟨18, emptyVolume, _, _, _, d, by omega, by omega, hfmt, hmnt⟩
  have hfatv : ∀ i, i < 16384 → s0.cachedFatTable i
      = if i < 41 then -1 else if i < 128 then 0 else -1 := by
    intro i hi
    rw [hfat i hi]
    unfold formatFat
    by_cases a : i < 41
    · rw [if_pos a, if_pos a]
    · rw [if_neg a, if_neg a]
      by_cases b : i < 128
      · rw [if_pos (by omega), if_pos b]
      · rw [if_neg (by omega), if_neg b]
  have hno0 : ∀ k, k < 128 → ¬ HasName s0 k nameF := by
    intro k hk hh
    have := hh.1
    rw [hdir k hk] at this
    exact absurd this (by decide)
  have hc1 : vscreate s0 nameF = some (0, createState s0 nameF 41 0) :=
    vscreate_eq s0 nameF 41 0 nameF_nul (by rw [hfc]; decide) hno0 (by omega)
      (by rw [hfatv 41 (by omega)]; rfl)
      (fun k hk => by
        rw [hfatv k (by omega), if_pos hk]
        decide)
      (by omega) (hdir 0 (by omega)) (fun k hk => by omega)
  obtain ⟨s1, hs1⟩ : ∃ s1, s1 = createState s0 nameF 41 0 := ⟨_, rfl⟩
  rw [← hs1] at hc1
  have hr1 : Reachable s1 := Reachable.step s0 s1 hr0 (Or.inl ⟨nameF, 0, nameF_nul, hc1⟩)
  have hdir1 : ∀ k, k ≠ 0 → s1.cachedRootDirectory k = s0.cachedRootDirectory k := by
    intro k hk
    rw [hs1]
    show Function.update s0.cachedRootDirectory 0 _ k = _
    rw [Function.update_noteq hk]
  have hdir10 : s1.cachedRootDirectory 0
      = { filename := memcpyName nameF, size := 0, startBlock := 41, allocated := 1 } := by
    rw [hs1]
    show Function.update s0.cachedRootDirectory 0 _ 0 = _
    rw [Function.update_same]
    rfl
  have hfat1 : ∀ k, k ≠ 41 → s1.cachedFatTable k = s0.cachedFatTable k := by
    intro k hk
    rw [hs1]
    show Function.update s0.cachedFatTable 41 (-1) k = _
    rw [Function.update_noteq hk]
  have hfat141 : s1.cachedFatTable 41 = -1 := by
    rw [hs1]
    show Function.update s0.cachedFatTable 41 (-1) 41 = _
    rw [Function.update_same]
  have hno1 : ∀ k, k < 128 → ¬ HasName s1 k nameG := by
    intro k hk hh
    by_cases e : k = 0
    · have h2 := hh.2
      rw [e, hdir10] at h2
      simp only at h2
      rw [strcmp0_comm, strcmp0_stored] at h2
      exact absurd h2 (by decide)
    · have h1 := hh.1
      rw [hdir1 k e, hdir k hk] at h1
      exact absurd h1 (by decide)
  have hc2 : vscreate s1 nameG = some (0, createState s1 nameG 42 1) :=
    vscreate_eq s1 nameG 42 1 nameG_nul
      (by rw [hs1]; show s0.fileCount + 1 ≠ 128; rw [hfc]; decide) hno1 (by omega)
      (by rw [hfat1 42 (by omega), hfatv 42 (by omega)]; rfl)
      (fun k hk => by
        by_cases e : k = 41
        · rw [e, hfat141]; decide
        · rw [hfat1 k e, hfatv k (by omega), if_pos (by omega)]
          decide)
      (by omega) (by rw [hdir1 1 (by omega)]; exact hdir 1 (by omega))
      (fun k hk => by
        have e : k = 0 := by omega
        rw [e, hdir10]
        decide)
  obtain ⟨s2, hs2⟩ : ∃ s2, s2 = createState s1 nameG 42 1 := ⟨_, rfl⟩
  rw [← hs2] at hc2
  have hr2 : Reachable s2 :=
    Reachable.step s1 s2 hr1 (Or.inl ⟨nameG, 0, nameG_nul, hc2⟩)
  exact ⟨d, s0, s1, s2, hfmt, hmnt, hc1, hc2, hr0, hr1, hr2, hs1, hs2, htot, hfree, hdir⟩

/-! ## The claims on append sizes, reads, modes, formatting and reachable states -/

/-- **C11** (the code departs from the claim).  On the sample volume with the
empty file "f" open for appending (cursor 0, `freeBlockCount = 86`), an append
of 178176 = 87 * 2048 bytes needs, by the count of the specification,
`ceil((178176 - 2048) / 2048) = 86` new blocks, which does not exceed
`freeBlockCount`; `vsappend` computes `(178176 - 2048) / 2048 + 1 = 87`, finds
it greater than `freeBlockCount` and returns -1 without a change. -/
theorem required_blocks_off_by_one (buf : Bytes) :
    (appendVolume.openFileTable 0).dirBlock ≠ -1 ∧
    (appendVolume.openFileTable 0).accessMode = MODE_APPEND ∧
    (appendVolume.cachedRootDirectory 0).size = 0 ∧
    appendVolume.freeBlockCount = 86 ∧
    appendCursor 0 = 0 ∧
    requiredBlocksSpec 0 178176 = 86 ∧
    requiredBlockCount 0 178176 = 87 ∧
    vsappend appendVolume 0 buf 178176 = some (-1, appendVolume) := by
  have hslot := appendVolume_slot
  have hsz : (appendVolume.cachedRootDirectory 0).size = 0 := by
    simp [appendVolume, openState, oneFileVolume, createState]
  have hfree : appendVolume.freeBlockCount = 86 := by
    simp [appendVolume, openState, oneFileVolume, createState, emptyVolume]
  refine ⟨by rw [hslot]; decide, by rw [hslot], hsz, hfree, by simp [appendCursor],
    by simp [requiredBlocksSpec], appendVolume_required, ?_⟩
  unfold vsappend
  have h1 : ¬ ((178176 : Int) ≤ 0) := by omega
  have h2 : (0 : Int) ≤ 0 ∧ (0 : Int).toNat < MAX_NOF_OPEN_FILES := by decide
  have h3 : ¬ ((appendVolume.openFileTable (0 : Int).toNat).dirBlock = -1) := by
    rw [Int.toNat_zero, hslot]; decide
  have h4 : ¬ ((appendVolume.openFileTable (0 : Int).toNat).accessMode = MODE_READ) := by
    rw [Int.toNat_zero, hslot]; decide
  have h5 : 0 ≤ (appendVolume.openFileTable (0 : Int).toNat).cachedRootDirIndex
      ∧ (appendVolume.openFileTable (0 : Int).toNat).cachedRootDirIndex.toNat < DIR_ENTRY_COUNT := by
    rw [Int.toNat_zero, hslot]; decide
  have h6 : (appendVolume.openFileTable (0 : Int).toNat).cachedRootDirIndex.toNat = 0 := by
    rw [Int.toNat_zero, hslot]; rfl
  rw [if_neg h1, if_pos h2, if_neg h3, if_neg h4, if_pos h5]
  simp only [h6, hsz, appendVolume_required, hfree]
  rw [if_pos (by omega)]

/-- **C12.** On a volume whose `freeBlockCount` does not exceed the number of
free FAT entries and whose FAT entries 0..40 are not free: when `vsappend` of
`N > 0` bytes through a handle on the file in slot `j` (size `sz`, chain `l` of
`max(1, ceil(sz / 2048))` blocks) returns `N`, there is a list `new` of
`max(1, ceil((sz + N) / 2048)) - max(1, ceil(sz / 2048))` blocks, all free
before, such that the chain of the file is `l ++ new` afterwards (every new
block linked behind the previous last one, the last entry EOF),
`freeBlockCount` and the number of free FAT entries have dropped by
`new.length`, and the size is `sz + N`. -/
theorem vsappend_block_growth (s s2 : State) (f : Nat) (buf : Bytes) (N j sz : Nat) (l : List Nat)
    (hidx : (s.openFileTable f).cachedRootDirIndex = (j : Int))
    (hsz : (s.cachedRootDirectory j).size = (sz : Int))
    (hch : IsChain s.cachedFatTable (s.cachedRootDirectory j).startBlock l)
    (hlen : (l.length : Int) = blocksFor (sz : Int))
    (hfree : s.freeBlockCount ≤ (freeCount s.cachedFatTable : Int))
    (hmeta : ∀ i, i < 41 → s.cachedFatTable i ≠ 0)
    (hN : 0 < N)
    (hret : vsappend s (f : Int) buf (N : Int) = some ((N : Int), s2)) :
    ∃ new : List Nat,
      (new.length : Int) = blocksFor ((sz : Int) + (N : Int)) - blocksFor (sz : Int) ∧
      (∀ c ∈ new, s.cachedFatTable c = NOT_USED_FLAG) ∧
      IsChain s2.cachedFatTable (s2.cachedRootDirectory j).startBlock (l ++ new) ∧
      s2.freeBlockCount = s.freeBlockCount - (new.length : Int) ∧
      freeCount s2.cachedFatTable + new.length = freeCount s.cachedFatTable ∧
      (s2.cachedRootDirectory j).size = (sz : Int) + (N : Int) := by
  obtain ⟨new, hspec⟩ := vsappend_growth s s2 f buf N j sz l hidx hsz hch hlen hfree hmeta hN hret
  have hb := hspec.blocks
  rw [List.length_append] at hb
  refine ⟨new, ?_, hspec.wasFree, ?_, hspec.free, hspec.freeCnt, ?_⟩
  · push_cast at hb
    omega
  · rw [hspec.dir, Function.update_same]
    exact hspec.chain
  · rw [hspec.dir, Function.update_same]

/-- Witness for C12: on the sample volume, appending 5000 bytes to the new
file leaves a chain of 3 blocks and `freeBlockCount` 3 below its value before
the create; appending 2048 bytes allocates no block, and a following append of
1 byte allocates one. -/
theorem vsappend_block_growth_witness :
    (∃ s2 new, vsappend appendVolume 0 sampleBytes 5000 = some (5000, s2) ∧
      new.length = 2 ∧
      IsChain s2.cachedFatTable (s2.cachedRootDirectory 0).startBlock ([41] ++ new) ∧
      (s2.cachedRootDirectory 0).size = 5000 ∧
      s2.freeBlockCount = emptyVolume.freeBlockCount - 3) ∧
    (∃ t1 t2 n1 n2,
      vsappend appendVolume 0 sampleBytes 2048 = some (2048, t1) ∧ n1.length = 0 ∧
      IsChain t1.cachedFatTable (t1.cachedRootDirectory 0).startBlock ([41] ++ n1) ∧
      t1.freeBlockCount = emptyVolume.freeBlockCount - 1 ∧
      vsappend t1 0 sampleBytes 1 = some (1, t2) ∧ n2.length = 1 ∧
      IsChain t2.cachedFatTable (t2.cachedRootDirectory 0).startBlock ([41] ++ n2) ∧
      t2.freeBlockCount = emptyVolume.freeBlockCount - 2) := by
  constructor
  · obtain ⟨s2, _, hrun, _⟩ := vsappend_appendVolume sampleBytes 5000 (by omega) (by omega)
    have hfree : appendVolume.freeBlockCount = 86 := by
      simp [appendVolume, openState, oneFileVolume, createState, emptyVolume]
    obtain ⟨new, h1, _, h3, h4, _, h6⟩ :=
      vsappend_block_growth appendVolume s2 0 sampleBytes 5000 0 0 [41]
        (by rw [appendVolume_slot]; rfl) rfl oneFileVolume_chain (by unfold blocksFor; decide)
        (by
          have h3 : freeCount appendVolume.cachedFatTable = 86 := oneFileVolume_freeCount
          rw [hfree, h3]; rfl)
        oneFileVolume_meta (by omega) hrun
    have hlen : new.length = 2 := by
      have e : blocksFor (((0 : Nat) : Int) + ((5000 : Nat) : Int)) - blocksFor ((0 : Nat) : Int)
          = 2 := by unfold blocksFor; decide
      rw [e] at h1
      omega
    refine ⟨s2, new, hrun, hlen, h3, ?_, ?_⟩
    · rw [h6]; rfl
    · rw [h4, hlen, hfree]; rfl
  · have hfree : appendVolume.freeBlockCount = 86 := by
      simp [appendVolume, openState, oneFileVolume, createState, emptyVolume]
    have hfc : freeCount appendVolume.cachedFatTable = 86 := oneFileVolume_freeCount
    obtain ⟨t1, new1, hrun1, hspec1⟩ := vsappend_appendVolume sampleBytes 2048 (by omega) (by omega)
    obtain ⟨hnew1, hoft, hsz1, hch1, hfree1, hfc1, hmeta1⟩ := appendVolume_after_2048 t1 new1 hspec1
    obtain ⟨n1, a1, _, a3, a4, _, _⟩ :=
      vsappend_block_growth appendVolume t1 0 sampleBytes 2048 0 0 [41]
        (by simp [appendVolume_slot]) rfl oneFileVolume_chain (by unfold blocksFor; decide)
        (by rw [hfree, hfc]; rfl) oneFileVolume_meta (by omega) hrun1
    have hl1 : n1.length = 0 := by
      have e : blocksFor (((0 : Nat) : Int) + ((2048 : Nat) : Int)) - blocksFor ((0 : Nat) : Int)
          = 0 := by unfold blocksFor; decide
      rw [e] at a1
      omega
    have hcur : appendCursor ((2048 : Nat) : Int) = ((2048 : Nat) : Int) := by
      rw [appendCursor_cast]; rfl
    have hreq : requiredBlockCount ((2048 : Nat) : Int) ((1 : Nat) : Int) ≤ t1.freeBlockCount := by
      rw [requiredBlockCount_cast 2048 1 2048 hcur (by omega), hfree1]
      decide
    obtain ⟨t2, _, hrun2, _⟩ := vsappend_ok t1 0 sampleBytes 1 0 2048 [41] (by omega)
      (by rw [hoft, appendVolume_slot]; decide) (by rw [hoft, appendVolume_slot]; decide)
      (by rw [hoft, appendVolume_slot]; rfl) (by omega) hsz1 hch1 (by unfold blocksFor; decide)
      (by omega) hreq (by rw [hfree1, hfc1]; rfl) hmeta1
    obtain ⟨n2, b1, _, b3, b4, _, _⟩ :=
      vsappend_block_growth t1 t2 0 sampleBytes 1 0 2048 [41]
        (by rw [hoft, appendVolume_slot]; rfl) hsz1 hch1 (by unfold blocksFor; decide)
        (by rw [hfree1, hfc1]; rfl) hmeta1 (by omega) hrun2
    have hl2 : n2.length = 1 := by
      have e : blocksFor (((2048 : Nat) : Int) + ((1 : Nat) : Int))
          - blocksFor ((2048 : Nat) : Int) = 1 := by unfold blocksFor; decide
      rw [e] at b1
      omega
    refine ⟨t1, t2, n1, n2, hrun1, hl1, a3, ?_, hrun2, hl2, b3, ?_⟩
    · rw [a4, hl1, hfree]; rfl
    · rw [b4, hl2, hfree1]; rfl

/-- **C13.** For a handle in use in `MODE_READ` at position `p`
(`0 ≤ p < 2^31`) on the file in slot `j`, whose start block is not negative,
and every `int` value `n`: if `n < 0` or `p + n` exceeds the size of the file,
`vsread` returns -1. -/
theorem vsread_range_violation (s : State) (f : Nat) (buf : Bytes) (j p : Nat) (n : Int)
    (hf : f < 16) (hin : InUse s f)
    (hmode : (s.openFileTable f).accessMode = MODE_READ)
    (hidx : (s.openFileTable f).cachedRootDirIndex = (j : Int)) (hj : j < 128)
    (hpos : (s.openFileTable f).positionPtr = (p : Int)) (hp : p < 2147483648)
    (hn1 : -2147483648 ≤ n) (hn2 : n < 2147483648)
    (hstart : 0 ≤ (s.cachedRootDirectory j).startBlock)
    (hviol : n < 0 ∨ (p : Int) + n > (s.cachedRootDirectory j).size) :
    ∃ s1 buf1, vsread s (f : Int) buf n = some (-1, s1, buf1) := by
  have hin2 : (s.openFileTable f).dirBlock ≠ -1 := hin
  have hmode2 : (s.openFileTable f).accessMode ≠ 1 := by rw [hmode]; decide
  have hw := wrapInt32_cases ((p : Int) + n) (by omega) (by omega)
  obtain ⟨e, he⟩ : ∃ e, wrapInt32 ((p : Int) + n) = e := ⟨_, rfl⟩
  rw [he] at hw
  by_cases hsz : (s.cachedRootDirectory j).size < e
  · refine ⟨s, buf, ?_⟩
    unfold vsread
    simp only [MAX_NOF_OPEN_FILES, DIR_ENTRY_COUNT, MODE_APPEND, Int.toNat_ofNat,
      Int.ofNat_nonneg, hf, and_self, if_true, hin2, hmode2, if_false, hidx, hj, hpos, he, hsz]
  · have hback : e ≤ (p : Int) := by omega
    have hn0 : n ≠ 0 := by omega
    have h := vsread_backwards s f buf j p n e hf hin2 hmode2 hidx hj hpos he (by omega) hback
      hstart
    have hne : ((0 : Nat) : Int) ≠ n := by
      intro h0
      exact hn0 (by rw [← h0]; rfl)
    rw [h]
    unfold vsreadFinish
    rw [if_pos hne]
    exact ⟨_, _, rfl⟩

/-- Witness for C13: reading 1 byte from the empty file "f" of the sample volume. -/
theorem vsread_range_violation_witness :
    InUse readVolume 0 ∧ (readVolume.openFileTable 0).accessMode = MODE_READ ∧
      (readVolume.cachedRootDirectory 0).size = 0 ∧
      (∃ s1 buf1, vsread readVolume 0 sampleBytes 1 = some (-1, s1, buf1)) := by
  have hin : InUse readVolume 0 := by
    unfold InUse; rw [readVolume_slot]; decide
  have hmode : (readVolume.openFileTable 0).accessMode = MODE_READ := by simp [readVolume_slot]
  have hsz : (readVolume.cachedRootDirectory 0).size = 0 := by
    simp [readVolume, openState, oneFileVolume, createState]
  refine ⟨hin, hmode, hsz, ?_⟩
  exact vsread_range_violation readVolume 0 sampleBytes 0 0 1 (by omega) hin hmode
    (by simp [readVolume_slot]) (by omega) (by simp [readVolume_slot]) (by omega)
    (by omega) (by omega)
    (by simp [readVolume, openState, oneFileVolume, createState])
    (Or.inr (by rw [hsz]; decide))

/-- **C14** (the code departs from the claim).  On the sample volume with "f"
(size 0) open for reading at position 0, `vsread` with `n = -1` passes the size
test (`0 < -1` is false), copies nothing, stores `positionPtr = -1` and only
then returns -1 because the byte count 0 differs from `n`: the position has
moved although the call failed. -/
theorem vsread_negative_moves_position :
    vsopen oneFileVolume nameF MODE_READ = some (0, readVolume) ∧
      (readVolume.openFileTable 0).positionPtr = 0 ∧
      vsread readVolume 0 sampleBytes (-1)
        = some (-1, seekState readVolume 0 (-1), sampleBytes) ∧
      ((seekState readVolume 0 (-1)).openFileTable 0).positionPtr = -1 := by
  refine ⟨vsopen_oneFileVolume_mode MODE_READ, by simp [readVolume_slot], ?_, ?_⟩
  · have h := vsread_backwards readVolume 0 sampleBytes 0 0 (-1) (-1) (by omega)
      (by simp [readVolume_slot]) (by simp [readVolume_slot])
      (by simp [readVolume_slot]) (by omega) (by simp [readVolume_slot])
      (by unfold wrapInt32; decide)
      (by simp [readVolume, openState, oneFileVolume, createState]) (by decide)
      (by simp [readVolume, openState, oneFileVolume, createState])
    have h2 : vsreadFinish readVolume ((0 : Nat) : Int) (-1) (-1) sampleBytes 0
        = (-1, seekState readVolume 0 (-1), sampleBytes) := by
      unfold vsreadFinish seekState
      rw [if_pos (by decide)]
      rfl
    rw [h2] at h
    exact h
  · simp [seekState]

/-- **C15** (counterexample).  A handle opened with mode 2 on the file "f" of
the sample volume is in use, its access mode is neither `MODE_READ` nor
`MODE_APPEND`, and yet `vsread` of 0 bytes returns 0 and `vsappend` of 1 byte
returns 1 and sets the size to 1. -/
theorem mode_two_reads_and_appends :
    vsopen oneFileVolume nameF 2 = some (0, modeTwoVolume) ∧
      InUse modeTwoVolume 0 ∧
      (modeTwoVolume.openFileTable 0).accessMode ≠ MODE_READ ∧
      (modeTwoVolume.openFileTable 0).accessMode ≠ MODE_APPEND ∧
      vsread modeTwoVolume 0 sampleBytes 0 = some (0, modeTwoVolume, sampleBytes) ∧
      ∃ s2, vsappend modeTwoVolume 0 sampleBytes 1 = some (1, s2) ∧
        (s2.cachedRootDirectory 0).size = 1 := by
  have hslot := modeTwoVolume_slot
  have hfree : modeTwoVolume.freeBlockCount = 86 := by
    simp [modeTwoVolume, openState, oneFileVolume, createState, emptyVolume]
  have hfc : freeCount modeTwoVolume.cachedFatTable = 86 := oneFileVolume_freeCount
  refine ⟨vsopen_oneFileVolume_mode 2, by unfold InUse; simp [hslot], by simp [hslot],
    by simp [hslot], ?_, ?_⟩
  · have h := vsread_single modeTwoVolume 0 sampleBytes 0 0 0 41 (by omega) (by simp [hslot])
      (by simp [hslot]) (by simp [hslot]) (by omega) (by simp [hslot])
      (by simp [modeTwoVolume, openState, oneFileVolume, createState]) (by omega)
      (by simp [modeTwoVolume, openState, oneFileVolume, createState]) (by omega)
    have e1 : seekState modeTwoVolume 0 (((0 + 0 : Nat)) : Int) = modeTwoVolume := by
      unfold seekState
      have : ({ modeTwoVolume.openFileTable 0 with positionPtr := (((0 + 0 : Nat)) : Int) }
          : fileStruct) = modeTwoVolume.openFileTable 0 := by rw [hslot]; rfl
      rw [this, Function.update_eq_self]
    have e2 : bufferRead sampleBytes 0 0 (modeTwoVolume.disk 41) (0 % 2048) = sampleBytes := by
      funext k
      unfold bufferRead
      rw [if_neg (by omega)]
    rw [e1, e2] at h
    exact h
  · have hcur : appendCursor ((0 : Nat) : Int) = ((0 : Nat) : Int) := by
      rw [appendCursor_cast]; rfl
    have hreq : requiredBlockCount ((0 : Nat) : Int) ((1 : Nat) : Int)
        ≤ modeTwoVolume.freeBlockCount := by
      rw [requiredBlockCount_cast 0 1 0 hcur (by omega), hfree]
      decide
    obtain ⟨s2, new, hrun, hspec⟩ := vsappend_ok modeTwoVolume 0 sampleBytes 1 0 0 [41] (by omega)
      (by simp [hslot]) (by simp [hslot]) (by simp [hslot]) (by omega) rfl oneFileVolume_chain
      (by unfold blocksFor; decide) (by omega) hreq (by rw [hfree, hfc]; rfl) oneFileVolume_meta
    refine ⟨s2, hrun, ?_⟩
    rw [hspec.dir, Function.update_same]
    rfl

/-- **C15** (amended).  For every handle in use: `vsread` returns -1 and
changes nothing when the access mode is `MODE_APPEND`, and `vsappend` returns
-1 and changes nothing when the access mode is `MODE_READ`. -/
theorem mode_enforcement (s : State) (f : Nat) (buf : Bytes) (n : Int) (hf : f < 16)
    (hin : InUse s f) :
    ((s.openFileTable f).accessMode = MODE_APPEND →
        vsread s (f : Int) buf n = some (-1, s, buf)) ∧
      ((s.openFileTable f).accessMode = MODE_READ →
        vsappend s (f : Int) buf n = some (-1, s)) := by
  have hin2 : (s.openFileTable f).dirBlock ≠ -1 := hin
  constructor
  · intro hm
    unfold vsread
    simp only [MAX_NOF_OPEN_FILES, Int.toNat_ofNat, Int.ofNat_nonneg, hf, and_self, if_true,
      hin2, if_false, hm]
  · intro hm
    unfold vsappend
    by_cases hn : n ≤ 0
    · rw [if_pos hn]
    · simp only [hn, MAX_NOF_OPEN_FILES, Int.toNat_ofNat, Int.ofNat_nonneg, hf, and_self, if_true,
        hin2, if_false, hm]

/-- Witness for C15: reading through the handle opened for appending and
appending through the handle opened for reading, on the sample volume. -/
theorem mode_enforcement_witness :
    InUse appendVolume 0 ∧ InUse readVolume 0 ∧
      vsread appendVolume 0 sampleBytes 1 = some (-1, appendVolume, sampleBytes) ∧
      vsappend readVolume 0 sampleBytes 1 = some (-1, readVolume) := by
  have h1 : InUse appendVolume 0 := by unfold InUse; simp [appendVolume_slot]
  have h2 : InUse readVolume 0 := by unfold InUse; simp [readVolume_slot]
  exact ⟨h1, h2,
    (mode_enforcement appendVolume 0 sampleBytes 1 (by omega) h1).1 (by simp [appendVolume_slot]),
    (mode_enforcement readVolume 0 sampleBytes 1 (by omega) h2).2 (by simp [readVolume_slot])⟩

/-- **C16.** For `18 ≤ m ≤ 23`, whatever the globals `g` held before and
whatever the uninitialised local arrays hold: `vsformat m` and `vsmount` return
0 and the mounted state has `totalBlockCount = 2^m / 2048`,
`dataBlockCount = freeBlockCount = 2^m / 2048 - 41`, `fileCount = 0`, FAT entry
`i` equal to `EOF_FLAG` for `i < 41` and for `i ≥ 2^m / 2048` and to
`NOT_USED_FLAG` for every other `i < 16384`, all 128 directory entries
unallocated and no open handle; a following `vsumount` returns 0 and the
superblock in the container holds `fileCount = 0` at offset 12 and
`freeBlockCount = 2^m / 2048 - 41` at offset 8. -/
theorem format_mount_empty (m : Nat) (g : State) (sb fb db ub1 ub2 : Block)
    (h1 : 18 ≤ m) (h2 : m ≤ 23) :
    ∃ d s s1, vsformat m sb fb db = some (0, d) ∧ vsmount g d = some (0, s) ∧
      s.totalBlockCount = ((2 ^ m / 2048 : Nat) : Int) ∧
      s.dataBlockCount = ((2 ^ m / 2048 : Nat) : Int) - 41 ∧
      s.freeBlockCount = ((2 ^ m / 2048 : Nat) : Int) - 41 ∧
      s.fileCount = 0 ∧
      (∀ i, i < 16384 → s.cachedFatTable i
        = if i < 41 ∨ 2 ^ m / 2048 ≤ i then EOF_FLAG else NOT_USED_FLAG) ∧
      (∀ j, j < 128 → (s.cachedRootDirectory j).allocated = NOT_USED_FLAG) ∧
      s.openFileCount = 0 ∧ (∀ i, i < 16 → (s.openFileTable i).dirBlock = -1) ∧
      vsumount s ub1 ub2 = some (0, s1) ∧
      loadInt32 (s1.disk 0) 12 = 0 ∧
      loadInt32 (s1.disk 0) 8 = ((2 ^ m / 2048 : Nat) : Int) - 41 := by
  obtain ⟨d, s, hfmt, hmnt, _, hT1, hT2, htot, hdat, hfree, hfc, hoc, hoft, hfat, hdir, _⟩ :=
    fresh_volume m g sb fb db h1 h2
  obtain ⟨s1, hrun, h0, _⟩ := vsumount_spec s ub1 ub2
  refine ⟨d, s, s1, hfmt, hmnt, htot, hdat, hfree, hfc, ?_, hdir, hoc, hoft, hrun, ?_, ?_⟩
  · intro i hi
    rw [hfat i hi]
    unfold formatFat
    simp only [EOF_FLAG, NOT_USED_FLAG]
    by_cases a : i < 41
    · rw [if_pos a, if_pos (Or.inl a)]
    · rw [if_neg a]
      by_cases b : 2 ^ m / 2048 ≤ i
      · rw [if_neg (by omega), if_pos (Or.inr b)]
      · rw [if_pos (by omega), if_neg (by omega)]
  · rw [h0, hfc, loadInt32_storeInt32_same _ _ _ (by omega) (by omega)]
  · rw [h0, hfree, loadInt32_storeInt32_other _ _ _ _ (by omega),
      loadInt32_storeInt32_same _ _ _ (by omega) (by omega)]

/-- Witness for C16: `m = 20` gives 512 blocks, 471 of them free. -/
theorem format_mount_empty_witness :
    18 ≤ 20 ∧ 20 ≤ 23 ∧
    ∃ d s s1, vsformat 20 (fun _ => 0) (fun _ => 0) (fun _ => 0) = some (0, d) ∧
      vsmount emptyVolume d = some (0, s) ∧ s.totalBlockCount = 512 ∧
      s.freeBlockCount = 471 ∧ s.fileCount = 0 ∧
      vsumount s (fun _ => 0) (fun _ => 0) = some (0, s1) ∧
      loadInt32 (s1.disk 0) 12 = 0 ∧ loadInt32 (s1.disk 0) 8 = 471 := by
  refine ⟨by omega, by omega, ?_⟩
  obtain ⟨d, s, s1, a1, a2, a3, _, a5, a6, _, _, _, _, a11, a12, a13⟩ :=
    format_mount_empty 20 emptyVolume (fun _ => 0) (fun _ => 0) (fun _ => 0) (fun _ => 0)
      (fun _ => 0) (by omega) (by omega)
  have e : (2 : Nat) ^ 20 / 2048 = 512 := by norm_num
  rw [e] at a3 a5 a13
  exact ⟨d, s, s1, a1, a2, a3, by rw [a5]; rfl, a6, a11, a12, by rw [a13]; rfl⟩

/-- **C17.** On a volume whose open-file slots are free or carry a directory
index inside the directory, whose FAT entries 0..40 are not free and whose FAT
blocks in the container decode to the cached FAT: when `vscreate name` returns
0, the following `vsdelete name` returns 0 and leaves `freeBlockCount`,
`fileCount`, the other two counters, every cached FAT entry and every FAT entry
in the container as they were before the create. -/
theorem create_delete_identity (s s1 : State) (name : Bytes) (hn : NulTerminated name)
    (hv : HandlesValid s) (hmeta : ∀ i, i < 41 → s.cachedFatTable i ≠ NOT_USED_FLAG)
    (hcoh : ∀ i, i < 16384 → fatOnDisk s.disk i = s.cachedFatTable i)
    (hcreate : vscreate s name = some (0, s1)) :
    ∃ s2, vsdelete s1 name = some (0, s2) ∧
      s2.freeBlockCount = s.freeBlockCount ∧ s2.fileCount = s.fileCount ∧
      s2.dataBlockCount = s.dataBlockCount ∧ s2.totalBlockCount = s.totalBlockCount ∧
      (∀ i, i < 16384 → s2.cachedFatTable i = s.cachedFatTable i) ∧
      (∀ i, i < 16384 → fatOnDisk s2.disk i = fatOnDisk s.disk i) := by
  rcases vscreate_cases s name hn with hfail | ⟨b, j, hb, hbz, hj, hjz, hno, hok⟩
  · rw [hfail] at hcreate
    simp only [Option.some.injEq, Prod.mk.injEq] at hcreate
    exact absurd hcreate.1 (by decide)
  rw [hok] at hcreate
  simp only [Option.some.injEq, Prod.mk.injEq, true_and] at hcreate
  have hb41 : 41 ≤ b := by
    by_contra hc
    exact hmeta b (by omega) hbz
  have hv1 : HandlesValid (createState s name b j) := hv
  have hname : HasName (createState s name b j) j name := createState_hasName s name b j hn
  have hleast : ∀ k, k < j → ¬ HasName (createState s name b j) k name := by
    intro k hk hh
    have hne : k ≠ j := by omega
    have : HasName s k name := by
      unfold HasName at hh ⊢
      simp only [createState, Function.update_noteq hne] at hh
      exact hh
    exact hno k (by omega) this
  have hch : IsChain (createState s name b j).cachedFatTable
      ((createState s name b j).cachedRootDirectory j).startBlock [b] := by
    refine (isChain_singleton _ _ _).mpr ⟨?_, hb41, hb, ?_⟩
    · simp [createState]
    · simp [createState]
  have hdel := vsdelete_ok (createState s name b j) name j [b] hn hv1 hj hname hleast hch
  rw [← hcreate]
  refine ⟨_, hdel, ?_, ?_, rfl, rfl, ?_, ?_⟩
  · show s.freeBlockCount - 1 + (([b] : List Nat).length : Int) = s.freeBlockCount
    simp
  · show s.fileCount + 1 - 1 = s.fileCount
    omega
  · intro i _
    show freedFat (Function.update s.cachedFatTable b (-1)) [b] i = s.cachedFatTable i
    unfold freedFat
    by_cases e : i = b
    · rw [if_pos (by simp [e]), e, hbz]
    · rw [if_neg (by simp [e]), Function.update_noteq e]
  · intro i hi
    show fatOnDisk (freedDisk (dirDiskClear
      (dirDiskWrite (fatDiskWrite s.disk b (-1)) j name 0 b 1) j) [b]) i = _
    have e1 : freedDisk (dirDiskClear (dirDiskWrite (fatDiskWrite s.disk b (-1)) j name 0 b 1) j)
        [b] = fatDiskWrite (dirDiskClear (dirDiskWrite (fatDiskWrite s.disk b (-1)) j name 0 b 1)
          j) b 0 := rfl
    rw [e1, fatOnDisk_fatDiskWrite _ _ _ _ (by omega) (by omega)]
    by_cases e : i = b
    · rw [if_pos e, e, hcoh b hb, hbz]
    · rw [if_neg e, fatOnDisk_dirDiskClear _ _ _ hi, fatOnDisk_dirDiskWrite _ _ _ _ _ _ _ hi,
        fatOnDisk_fatDiskWrite _ _ _ _ (by omega) (by omega), if_neg e]

/-- Witness for C17: creating and deleting "f" on the empty sample volume. -/
theorem create_delete_identity_witness :
    NulTerminated nameF ∧ vscreate emptyVolume nameF = some (0, oneFileVolume) ∧
      ∃ s2, vsdelete oneFileVolume nameF = some (0, s2) ∧
        s2.freeBlockCount = 87 ∧ s2.fileCount = 0 ∧
        (∀ i, i < 16384 → s2.cachedFatTable i = emptyVolume.cachedFatTable i) ∧
        (∀ i, i < 16384 → fatOnDisk s2.disk i = fatOnDisk emptyVolume.disk i) := by
  obtain ⟨s2, h1, h2, h3, _, _, h6, h7⟩ :=
    create_delete_identity emptyVolume oneFileVolume nameF nameF_nul emptyVolume_handlesValid
      emptyVolume_fat_meta emptyVolume_fatOnDisk vscreate_emptyVolume
  exact ⟨nameF_nul, vscreate_emptyVolume, s2, h1, h2, h3, h6, h7⟩

/-- **C18** (counterexample).  After `vsformat(18)`, `vsmount` and
`vscreate("f")` the volume has 128 blocks, 86 of them free, and one file of
size 0: the sum of `ceil(size / 2048)` is 0, and `0 + 86 + 41 = 127`, not 128. -/
theorem empty_file_breaks_ceiling_sum :
    ∃ d s0 s1, vsformat 18 (fun _ => 0) (fun _ => 0) (fun _ => 0) = some (0, d) ∧
      vsmount emptyVolume d = some (0, s0) ∧ vscreate s0 nameF = some (0, s1) ∧
      Reachable s1 ∧
      ceilBlocks s1.cachedRootDirectory + s1.freeBlockCount + 41 = 127 ∧
      s1.totalBlockCount = 128 := by
  obtain ⟨d, s0, s1, _, hfmt, hmnt, hc1, _, _, hr1, _, hs1, _, htot, hfree, hdir⟩ := two_files
  refine ⟨d, s0, s1, hfmt, hmnt, hc1, hr1, ?_, by rw [hs1]; exact htot⟩
  rw [hs1]
  show ceilBlocks (Function.update s0.cachedRootDirectory 0 _) + (s0.freeBlockCount - 1) + 41 = 127
  rw [ceilBlocks_update _ _ _ (by omega), ceilBlocks_none _ hdir, hfree, hdir 0 (by omega)]
  simp only [USED_FLAG, show ¬ ((0 : Int) = 1) from by decide, if_false, if_true]
  norm_num

/-- **C18** (amended).  In every reachable state the sum over the allocated
directory entries of `max(1, ceil(size / 2048))`, plus `freeBlockCount`, plus
41, equals `totalBlockCount`. -/
theorem block_conservation (s : State) (h : Reachable s) :
    usedBlocks s.cachedRootDirectory + s.freeBlockCount + 41 = s.totalBlockCount := by
  obtain ⟨ch, hw⟩ := reachable_wf s h
  exact hw.used

/-- Witness for C18: the volume of 128 blocks after `vscreate("f")`. -/
theorem block_conservation_witness :
    ∃ s, Reachable s ∧ s.freeBlockCount = 86 ∧ s.totalBlockCount = 128 ∧
      usedBlocks s.cachedRootDirectory = 1 := by
  obtain ⟨d, s0, s1, _, _, _, _, _, _, hr1, _, hs1, _, htot, hfree, _⟩ := two_files
  have h := block_conservation s1 hr1
  have hf : s1.freeBlockCount = 86 := by
    rw [hs1]
    show s0.freeBlockCount - 1 = 86
    rw [hfree]
    decide
  have ht : s1.totalBlockCount = 128 := by rw [hs1]; exact htot
  refine ⟨s1, hr1, hf, ht, ?_⟩
  rw [hf, ht] at h
  omega

/-- **C19.** In every reachable state (file names being strings of at most 29
characters) two different allocated directory entries carry names that
`strcmp` finds different, and so their name arrays differ. -/
theorem filenames_distinct (s : State) (i j : Nat) (h : Reachable s) (hi : i < 128)
    (hj : j < 128) (hij : i ≠ j) (hai : (s.cachedRootDirectory i).allocated = USED_FLAG)
    (haj : (s.cachedRootDirectory j).allocated = USED_FLAG) :
    strcmp0 (nameBytes (s.cachedRootDirectory i).filename)
        (nameBytes (s.cachedRootDirectory j).filename) = some false ∧
      (s.cachedRootDirectory i).filename ≠ (s.cachedRootDirectory j).filename := by
  obtain ⟨ch, hw⟩ := reachable_wf s h
  have hd := hw.distinct i j hi hj hij hai haj
  refine ⟨hd, fun e => ?_⟩
  rw [e] at hd
  obtain ⟨k, hk, hz⟩ := hw.nul j hj haj
  have hself : strcmp0 (nameBytes (s.cachedRootDirectory j).filename)
      (nameBytes (s.cachedRootDirectory j).filename) = some true :=
    strcmpAux_self _ 30 0 ⟨k, by omega, by omega, hz⟩
  rw [hself] at hd
  exact absurd hd (by decide)

/-- Witness for C19: the volume of 128 blocks after `vscreate("f")` and
`vscreate("g")`. -/
theorem filenames_distinct_witness :
    ∃ s, Reachable s ∧ (s.cachedRootDirectory 0).allocated = USED_FLAG ∧
      (s.cachedRootDirectory 1).allocated = USED_FLAG ∧
      (s.cachedRootDirectory 0).filename = memcpyName nameF ∧
      (s.cachedRootDirectory 1).filename = memcpyName nameG ∧
      (s.cachedRootDirectory 0).filename ≠ (s.cachedRootDirectory 1).filename := by
  obtain ⟨d, s0, s1, s2, _, _, _, _, _, _, hr2, hs1, hs2, _, _, _⟩ := two_files
  have h1 : s2.cachedRootDirectory 1
      = { filename := memcpyName nameG, size := 0, startBlock := 42, allocated := 1 } := by
    rw [hs2]
    simp [createState]
  have h0 : s2.cachedRootDirectory 0
      = { filename := memcpyName nameF, size := 0, startBlock := 41, allocated := 1 } := by
    rw [hs2, hs1]
    simp [createState]
  have ha0 : (s2.cachedRootDirectory 0).allocated = USED_FLAG := by rw [h0]
  have ha1 : (s2.cachedRootDirectory 1).allocated = USED_FLAG := by rw [h1]
  exact ⟨s2, hr2, ha0, ha1, by rw [h0], by rw [h1],
    (filenames_distinct s2 0 1 hr2 (by omega) (by omega) (by omega) ha0 ha1).2⟩

/-- **C20** (the code departs from the claim).  `flushCachedRootDirectory`
fills its local array without reading the block first, so bytes 42..127 of
every directory entry go to the container as the array happens to hold them.
On a volume formatted with `m = 18` (local arrays of the initialisers zero),
`vsmount` followed at once by `vsumount` with that array holding bytes 255
changes byte 42 of block 33 from 0 to 255; a following `vsmount` still loads
the same counters, FAT entries and directory entries. -/
theorem umount_rewrites_padding :
    ∃ d s s1 s2, vsformat 18 (fun _ => 0) (fun _ => 0) (fun _ => 0) = some (0, d) ∧
      vsmount emptyVolume d = some (0, s) ∧
      vsumount s (fun _ => 0) (fun _ => 255) = some (0, s1) ∧
      d 33 42 = 0 ∧ s1.disk 33 42 = 255 ∧
      vsmount s1 s1.disk = some (0, s2) ∧
      s2.dataBlockCount = s.dataBlockCount ∧ s2.totalBlockCount = s.totalBlockCount ∧
      s2.freeBlockCount = s.freeBlockCount ∧ s2.fileCount = s.fileCount ∧
      (∀ i, i < 16384 → s2.cachedFatTable i = s.cachedFatTable i) ∧
      (∀ j, j < 128 → s2.cachedRootDirectory j = s.cachedRootDirectory j) := by
  obtain ⟨d, s, hfmt, hmnt, _, _, _, _, _, _, _, _, _, _, _, hdirblk⟩ :=
    fresh_volume 18 emptyVolume (fun _ => 0) (fun _ => 0) (fun _ => 0) (by omega) (by omega)
  have hs : s = mountState emptyVolume d := by
    have := vsmount_eq emptyVolume d
    rw [hmnt] at this
    simp only [Option.some.injEq, Prod.mk.injEq, true_and] at this
    exact this
  obtain ⟨s1, hrun, b0, b4, b8, b12, bfat, bdir⟩ :=
    remount_same emptyVolume d (fun _ => 0) (fun _ => 255)
  obtain ⟨t1, hrun2, _, _, hpad, _⟩ := vsumount_spec (mountState emptyVolume d) (fun _ => 0)
    (fun _ => 255)
  have ht : t1 = s1 := by
    rw [hrun] at hrun2
    simp only [Option.some.injEq, Prod.mk.injEq, true_and] at hrun2
    exact hrun2.symm
  rw [ht] at hpad
  refine ⟨d, s, s1, mountState s1 s1.disk, hfmt, hmnt, by rw [hs]; exact hrun, ?_, ?_,
    vsmount_eq s1 s1.disk, ?_, ?_, ?_, ?_, ?_, ?_⟩
  · rw [hdirblk 33 (by omega) (by omega), storeInts_dir, if_neg (by omega)]
  · rw [hpad 33 42 (by omega) (by omega) (by omega), if_neg (by omega)]
  · rw [hs]; exact b0
  · rw [hs]; exact b4
  · rw [hs]; exact b8
  · rw [hs]; exact b12
  · intro i hi
    rw [hs]
    show (if i < 16384 then fatOnDisk s1.disk i else s1.cachedFatTable i)
      = (if i < 16384 then fatOnDisk d i else emptyVolume.cachedFatTable i)
    rw [if_pos hi, if_pos hi, bfat i hi]
  · intro j hj
    rw [hs]
    show (if j < 128 then dirOnDisk s1.disk j else s1.cachedRootDirectory j)
      = (if j < 128 then dirOnDisk d j else emptyVolume.cachedRootDirectory j)
    rw [if_pos hj, if_pos hj, bdir j hj]

/-! ## Decoding the container after a write -/

theorem fatOnDisk_congr (d1 d : Disk) (i : Nat) (h : ∀ k, 1 ≤ k → k < 33 → d1 k = d k)
    (hi : i < 16384) : fatOnDisk d1 i = fatOnDisk d i := by
  unfold fatOnDisk
  rw [h (1 + i / 512) (by omega) (by omega)]

theorem dirOnDisk_congr (d1 d : Disk) (j : Nat) (h : ∀ k, 33 ≤ k → k < 41 → d1 k = d k)
    (hj : j < 128) : dirOnDisk d1 j = dirOnDisk d j := by
  unfold dirOnDisk
  rw [h (33 + j / 16) (by omega) (by omega)]

theorem fatOnDisk_update (d : Disk) (k : Nat) (b : Block) (i : Nat) (hk : 33 ≤ k)
    (hi : i < 16384) : fatOnDisk (Function.update d k b) i = fatOnDisk d i :=
  fatOnDisk_congr _ _ i (fun k2 _ h2 => Function.update_noteq (by omega) _ _) hi

theorem dirOnDisk_update (d : Disk) (k : Nat) (b : Block) (j : Nat) (hk : 41 ≤ k)
    (hj : j < 128) : dirOnDisk (Function.update d k b) j = dirOnDisk d j :=
  dirOnDisk_congr _ _ j (fun k2 _ h2 => Function.update_noteq (by omega) _ _) hj

theorem dirOnDisk_fatDiskWrite (d : Disk) (i : Nat) (v : Int) (j : Nat) (hi : i < 16384)
    (hj : j < 128) : dirOnDisk (fatDiskWrite d i v) j = dirOnDisk d j :=
  dirOnDisk_congr _ _ j (fun k h1 _ => fatDiskWrite_frame d i v k hi h1) hj

theorem dirOnDisk_dirDiskWrite (d : Disk) (j k : Nat) (name : Bytes) (a b c : Int)
    (ha : -2147483648 ≤ a ∧ a < 2147483648) (hb : -2147483648 ≤ b ∧ b < 2147483648)
    (hc : -2147483648 ≤ c ∧ c < 2147483648) :
    dirOnDisk (dirDiskWrite d j name a b c) k
      = if k = j then { filename := memcpyName name, size := a, startBlock := b, allocated := c }
        else dirOnDisk d k := by
  by_cases e : k = j
  · rw [if_pos e, e]
    unfold dirOnDisk dirDiskWrite
    rw [Function.update_same]
    have h1 : loadInt32 (storeInt32 (storeInt32 (storeInt32
        (storeName (d (33 + j / 16)) (j % 16 * 128) name) (j % 16 * 128 + 30) a)
        (j % 16 * 128 + 34) b) (j % 16 * 128 + 38) c) (j % 16 * 128 + 30) = a := by
      rw [loadInt32_storeInt32_other _ _ _ _ (by omega),
        loadInt32_storeInt32_other _ _ _ _ (by omega),
        loadInt32_storeInt32_same _ _ _ ha.1 ha.2]
    have h2 : loadInt32 (storeInt32 (storeInt32 (storeInt32
        (storeName (d (33 + j / 16)) (j % 16 * 128) name) (j % 16 * 128 + 30) a)
        (j % 16 * 128 + 34) b) (j % 16 * 128 + 38) c) (j % 16 * 128 + 34) = b := by
      rw [loadInt32_storeInt32_other _ _ _ _ (by omega),
        loadInt32_storeInt32_same _ _ _ hb.1 hb.2]
    have h3 : loadInt32 (storeInt32 (storeInt32 (storeInt32
        (storeName (d (33 + j / 16)) (j % 16 * 128) name) (j % 16 * 128 + 30) a)
        (j % 16 * 128 + 34) b) (j % 16 * 128 + 38) c) (j % 16 * 128 + 38) = c :=
      loadInt32_storeInt32_same _ _ _ hc.1 hc.2
    have h4 : memcpyName (fun k2 => storeInt32 (storeInt32 (storeInt32
        (storeName (d (33 + j / 16)) (j % 16 * 128) name) (j % 16 * 128 + 30) a)
        (j % 16 * 128 + 34) b) (j % 16 * 128 + 38) c (j % 16 * 128 + k2)) = memcpyName name := by
      funext i
      simp only [memcpyName]
      have hi := i.isLt
      rw [storeInt32_other _ _ _ _ (by omega), storeInt32_other _ _ _ _ (by omega),
        storeInt32_other _ _ _ _ (by omega), storeName_at _ _ _ _ hi]
    rw [h1, h2, h3, h4]
  · rw [if_neg e]
    by_cases e2 : 33 + k / 16 = 33 + j / 16
    · unfold dirOnDisk dirDiskWrite
      rw [e2, Function.update_same]
      have hoff : k % 16 * 128 + 128 ≤ j % 16 * 128 ∨ j % 16 * 128 + 128 ≤ k % 16 * 128 := by
        omega
      have hl : ∀ o, o = 30 ∨ o = 34 ∨ o = 38 →
          loadInt32 (storeInt32 (storeInt32 (storeInt32
            (storeName (d (33 + j / 16)) (j % 16 * 128) name) (j % 16 * 128 + 30) a)
            (j % 16 * 128 + 34) b) (j % 16 * 128 + 38) c) (k % 16 * 128 + o)
          = loadInt32 (d (33 + j / 16)) (k % 16 * 128 + o) := by
        intro o ho
        rw [loadInt32_storeInt32_other _ _ _ _ (by omega),
          loadInt32_storeInt32_other _ _ _ _ (by omega),
          loadInt32_storeInt32_other _ _ _ _ (by omega)]
        exact loadInt32_congr _ _ _ (fun q hq => storeName_other _ _ _ _ (by omega))
      have h4 : memcpyName (fun k2 => storeInt32 (storeInt32 (storeInt32
          (storeName (d (33 + j / 16)) (j % 16 * 128) name) (j % 16 * 128 + 30) a)
          (j % 16 * 128 + 34) b) (j % 16 * 128 + 38) c (k % 16 * 128 + k2))
          = memcpyName (fun k2 => d (33 + j / 16) (k % 16 * 128 + k2)) := by
        funext i
        simp only [memcpyName]
        have hi := i.isLt
        rw [storeInt32_other _ _ _ _ (by omega), storeInt32_other _ _ _ _ (by omega),
          storeInt32_other _ _ _ _ (by omega), storeName_other _ _ _ _ (by omega)]
      rw [hl 30 (by omega), hl 34 (by omega), hl 38 (by omega), h4]
    · unfold dirOnDisk dirDiskWrite
      rw [Function.update_noteq e2]

theorem dirOnDisk_dirDiskClear (d : Disk) (j k : Nat) :
    dirOnDisk (dirDiskClear d j) k
      = if k = j then { dirOnDisk d j with allocated := 0 } else dirOnDisk d k := by
  by_cases e : k = j
  · rw [if_pos e, e]
    unfold dirOnDisk dirDiskClear
    rw [Function.update_same]
    have h1 : loadInt32 (storeInt32 (d (33 + j / 16)) (j % 16 * 128 + 38) 0) (j % 16 * 128 + 30)
        = loadInt32 (d (33 + j / 16)) (j % 16 * 128 + 30) :=
      loadInt32_storeInt32_other _ _ _ _ (by omega)
    have h2 : loadInt32 (storeInt32 (d (33 + j / 16)) (j % 16 * 128 + 38) 0) (j % 16 * 128 + 34)
        = loadInt32 (d (33 + j / 16)) (j % 16 * 128 + 34) :=
      loadInt32_storeInt32_other _ _ _ _ (by omega)
    have h3 : loadInt32 (storeInt32 (d (33 + j / 16)) (j % 16 * 128 + 38) 0) (j % 16 * 128 + 38)
        = 0 := loadInt32_storeInt32_same _ _ _ (by omega) (by omega)
    have h4 : memcpyName (fun k2 => storeInt32 (d (33 + j / 16)) (j % 16 * 128 + 38) 0
          (j % 16 * 128 + k2))
        = memcpyName (fun k2 => d (33 + j / 16) (j % 16 * 128 + k2)) := by
      funext i
      simp only [memcpyName]
      have hi := i.isLt
      rw [storeInt32_other _ _ _ _ (by omega)]
    rw [h1, h2, h3, h4]
  · rw [if_neg e]
    by_cases e2 : 33 + k / 16 = 33 + j / 16
    · unfold dirOnDisk dirDiskClear
      rw [e2, Function.update_same]
      have hoff : k % 16 * 128 + 128 ≤ j % 16 * 128 ∨ j % 16 * 128 + 128 ≤ k % 16 * 128 := by
        omega
      have hl : ∀ o, o = 30 ∨ o = 34 ∨ o = 38 →
          loadInt32 (storeInt32 (d (33 + j / 16)) (j % 16 * 128 + 38) 0) (k % 16 * 128 + o)
          = loadInt32 (d (33 + j / 16)) (k % 16 * 128 + o) := by
        intro o ho
        exact loadInt32_storeInt32_other _ _ _ _ (by omega)
      have h4 : memcpyName (fun k2 => storeInt32 (d (33 + j / 16)) (j % 16 * 128 + 38) 0
            (k % 16 * 128 + k2))
          = memcpyName (fun k2 => d (33 + j / 16) (k % 16 * 128 + k2)) := by
        funext i
        simp only [memcpyName]
        have hi := i.isLt
        rw [storeInt32_other _ _ _ _ (by omega)]
      rw [hl 30 (by omega), hl 34 (by omega), hl 38 (by omega), h4]
    · unfold dirOnDisk dirDiskClear
      rw [Function.update_noteq e2]

theorem freedDisk_cons (d : Disk) (x : Nat) (l : List Nat) :
    freedDisk d (x :: l) = freedDisk (fatDiskWrite d x 0) l := rfl

theorem fatOnDisk_freedDisk (l : List Nat) : ∀ (d : Disk) (i : Nat), (∀ x ∈ l, x < 16384) →
    i < 16384 → fatOnDisk (freedDisk d l) i = if i ∈ l then 0 else fatOnDisk d i := by
  induction l with
  | nil =>
    intro d i _ _
    simp [freedDisk]
  | cons x l ih =>
    intro d i hl hi
    rw [freedDisk_cons, ih _ i (fun y hy => hl y (List.mem_cons_of_mem _ hy)) hi]
    by_cases e : i ∈ l
    · rw [if_pos e, if_pos (List.mem_cons_of_mem _ e)]
    · rw [if_neg e, fatOnDisk_fatDiskWrite _ _ _ _ (by omega) (by omega)]
      by_cases e2 : i = x
      · rw [if_pos e2, if_pos (by rw [e2]; exact List.mem_cons_self _ _)]
      · rw [if_neg e2, if_neg (by
          intro hm
          rcases List.mem_cons.mp hm with h | h
          · exact e2 h
          · exact e h)]

theorem freedDisk_frame (l : List Nat) : ∀ (d : Disk) (k : Nat), (∀ x ∈ l, x < 16384) →
    33 ≤ k → freedDisk d l k = d k := by
  induction l with
  | nil =>
    intro d k _ _
    rfl
  | cons x l ih =>
    intro d k hl hk
    rw [freedDisk_cons, ih _ k (fun y hy => hl y (List.mem_cons_of_mem _ hy)) hk,
      fatDiskWrite_frame _ _ _ _ (hl x (List.mem_cons_self _ _)) hk]

theorem dirOnDisk_freedDisk (l : List Nat) (d : Disk) (j : Nat) (hl : ∀ x ∈ l, x < 16384)
    (hj : j < 128) : dirOnDisk (freedDisk d l) j = dirOnDisk d j :=
  dirOnDisk_congr _ _ j (fun k h1 _ => freedDisk_frame l d k hl h1) hj

/-! ## The metadata blocks of the container during `vsappend` -/

/-- A round of the loop of `vsappend` that allocates the lowest free block `c`. -/
theorem appendLoop_alloc_round (buf : Bytes) (N idx f : Nat) (s : State) (l : List Nat)
    (bc c : Nat) (hch : IsChain s.cachedFatTable (s.cachedRootDirectory idx).startBlock l)
    (hc : c < 16384) (hcz : s.cachedFatTable c = 0) (hcl : ∀ k, k < c → s.cachedFatTable k ≠ 0)
    (hlt : bc < N) :
    appendLoop buf (N : Int) idx (f + 1) s 2048 bc
      = appendLoop buf (N : Int) idx f
          (fillState (allocState s c (lastBlock l)) c 0 (min 2048 (N - bc)) buf bc) 2048
          (bc + min 2048 (N - bc)) := by
  have hne : ¬ ((bc : Int) = (N : Int)) := by omega
  have hc1 : ¬ ((c : Int) = -1) := by omega
  rw [appendLoop]
  simp only [ne_eq, hne, not_false_eq_true, if_true, BLOCKSIZE]
  rw [allocateAvailableBlockForFile_eq s _ l c hch hc hcz hcl]
  simp only [hc1, if_false]
  have hw := writeFromBufferToBlock_zero (allocState s c (lastBlock l)).disk buf c N bc hlt
  simp only [BLOCKSIZE] at hw
  rw [hw]
  rfl

/-- The first round of the loop of `vsappend` when the last block has room. -/
theorem appendLoop_fill_round (buf : Bytes) (N idx f : Nat) (s : State) (l : List Nat)
    (c0 : Nat) (hch : IsChain s.cachedFatTable (s.cachedRootDirectory idx).startBlock l)
    (hlt : c0 < 2048) (hN : 0 < N) :
    appendLoop buf (N : Int) idx (f + 1) s (c0 : Int) 0
      = appendLoop buf (N : Int) idx f
          (fillState s (lastBlock l) c0 (min (2048 - c0) N) buf 0) 2048
          (min (2048 - c0) N) := by
  have hne : ¬ ((0 : Int) = (N : Int)) := by omega
  have hne2 : ¬ ((c0 : Int) = 2048) := by omega
  rw [appendLoop]
  simp only [Nat.cast_zero, ne_eq, hne, not_false_eq_true, if_true, BLOCKSIZE, hne2, if_false]
  rw [getLastBlockOfFile_chain s _ l hch]
  have hw := writeFromBufferToBlock_eq s.disk buf (lastBlock l) c0 N 0 hlt hN
  simp only [BLOCKSIZE, Nat.sub_zero, Nat.zero_add] at hw
  simp only
  rw [hw]
  rfl

theorem appendLoop_full_meta (buf : Bytes) (N idx : Nat) :
    ∀ (m fuel : Nat) (s : State) (l : List Nat) (bc : Nat),
      IsChain s.cachedFatTable (s.cachedRootDirectory idx).startBlock l →
      (∀ i, i < 41 → s.cachedFatTable i ≠ 0) →
      bc ≤ N → (N - bc + 2047) / 2048 = m → m ≤ freeCount s.cachedFatTable → m < fuel →
      (∀ i, i < 16384 → fatOnDisk s.disk i = s.cachedFatTable i) →
      ∀ (r : Bool × State × Nat), appendLoop buf (N : Int) idx fuel s 2048 bc = some r →
        (∀ i, i < 16384 → fatOnDisk r.2.1.disk i = r.2.1.cachedFatTable i) ∧
        (∀ j, j < 128 → dirOnDisk r.2.1.disk j = dirOnDisk s.disk j) := by
  intro m
  induction m with
  | zero =>
    intro fuel s l bc _ _ hbc hm _ hfuel hcoh r hr
    have hbN : bc = N := by omega
    subst hbN
    obtain ⟨f, rfl⟩ : ∃ f, fuel = f + 1 := ⟨fuel - 1, by omega⟩
    simp only [appendLoop, ne_eq, not_true_eq_false, if_false, Option.some.injEq] at hr
    rw [← hr]
    exact ⟨hcoh, fun _ _ => rfl⟩
  | succ m ih =>
    intro fuel s l bc hch hmeta hbc hm hfree hfuel hcoh r hr
    have hlt : bc < N := by omega
    obtain ⟨f, rfl⟩ : ∃ f, fuel = f + 1 := ⟨fuel - 1, by omega⟩
    obtain ⟨c, hc, hcz, hcl⟩ := exists_least (fun b => s.cachedFatTable b = 0) 16384
      (exists_free_block s.cachedFatTable (by omega))
    have hc41 : 41 ≤ c := by
      by_contra hcon
      exact hmeta c (by omega) hcz
    have hlast := isChain_mem _ _ _ hch (lastBlock l) (lastBlock_mem l (isChain_ne_nil _ _ _ hch))
    have hlc : lastBlock l ≠ c := by
      intro e; rw [e] at hlast; exact hlast.2.2 hcz
    rw [appendLoop_alloc_round buf N idx f s l bc c hch hc hcz hcl hlt] at hr
    obtain ⟨s2, hs2⟩ : ∃ s2, s2
        = fillState (allocState s c (lastBlock l)) c 0 (min 2048 (N - bc)) buf bc := ⟨_, rfl⟩
    rw [← hs2] at hr
    have hfat2 : s2.cachedFatTable
        = Function.update (Function.update s.cachedFatTable c (-1)) (lastBlock l) (c : Int) := by
      rw [hs2]; rfl
    have hdir2 : s2.cachedRootDirectory = s.cachedRootDirectory := by rw [hs2]; rfl
    have hdisk2 : s2.disk = Function.update
        (fatDiskWrite (fatDiskWrite s.disk c (-1)) (lastBlock l) (c : Int)) c
        (blockWrite (fatDiskWrite (fatDiskWrite s.disk c (-1)) (lastBlock l) (c : Int) c) 0
          (min 2048 (N - bc)) buf bc) := by
      rw [hs2]; rfl
    have hch2 : IsChain s2.cachedFatTable (s2.cachedRootDirectory idx).startBlock (l ++ [c]) := by
      rw [hfat2, hdir2]
      exact isChain_snoc _ _ l c hch hcz hc41 hc
    have hmeta2 : ∀ i, i < 41 → s2.cachedFatTable i ≠ 0 := by
      intro i hi
      rw [hfat2, Function.update_noteq (by omega), Function.update_noteq (by omega)]
      exact hmeta i hi
    have hfc2 : freeCount s2.cachedFatTable + 1 = freeCount s.cachedFatTable := by
      rw [hfat2, freeCount_update_used _ _ _
        (by rw [Function.update_noteq hlc, isChain_last_eof _ _ _ hch]; decide) (by omega)]
      exact freeCount_update_alloc _ c (-1) hc hcz (by decide)
    have hcoh2 : ∀ i, i < 16384 → fatOnDisk s2.disk i = s2.cachedFatTable i := by
      intro i hi
      rw [hdisk2, hfat2, fatOnDisk_update _ _ _ _ (by omega) hi,
        fatOnDisk_fatDiskWrite _ _ _ _ (by omega) (by omega),
        fatOnDisk_fatDiskWrite _ _ _ _ (by omega) (by omega)]
      by_cases e1 : i = lastBlock l
      · rw [if_pos e1, e1, Function.update_same]
      · rw [if_neg e1, Function.update_noteq e1]
        by_cases e2 : i = c
        · rw [if_pos e2, e2, Function.update_same]
        · rw [if_neg e2, Function.update_noteq e2, hcoh i hi]
    have hdd2 : ∀ j, j < 128 → dirOnDisk s2.disk j = dirOnDisk s.disk j := by
      intro j hj
      rw [hdisk2, dirOnDisk_update _ _ _ _ hc41 hj, dirOnDisk_fatDiskWrite _ _ _ _ hlast.2.1 hj,
        dirOnDisk_fatDiskWrite _ _ _ _ hc hj]
    obtain ⟨a1, a2⟩ := ih f s2 (l ++ [c]) (bc + min 2048 (N - bc)) hch2 hmeta2
      (by omega) (by omega) (by omega) (by omega) hcoh2 r hr
    exact ⟨a1, fun j hj => (a2 j hj).trans (hdd2 j hj)⟩

theorem appendLoop_ok_meta (s : State) (buf : Bytes) (N j sz c0 : Nat) (l : List Nat)
    (hc0 : c0 = if 0 < sz ∧ sz % 2048 = 0 then 2048 else sz % 2048)
    (hch : IsChain s.cachedFatTable (s.cachedRootDirectory j).startBlock l)
    (hN : 0 < N)
    (hcheck : (if N ≤ 2048 - c0 then 0 else (N - (2048 - c0)) / 2048 + 1)
      ≤ freeCount s.cachedFatTable)
    (hmeta : ∀ i, i < 41 → s.cachedFatTable i ≠ 0)
    (hcoh : ∀ i, i < 16384 → fatOnDisk s.disk i = s.cachedFatTable i)
    (r : Bool × State × Nat)
    (hr : appendLoop buf (N : Int) j (N + 1) s (c0 : Int) 0 = some r) :
    (∀ i, i < 16384 → fatOnDisk r.2.1.disk i = r.2.1.cachedFatTable i) ∧
      (∀ k, k < 128 → dirOnDisk r.2.1.disk k = dirOnDisk s.disk k) := by
  have hc0le : c0 ≤ 2048 := by
    rw [hc0]; split_ifs <;> omega
  by_cases hfull : c0 = 2048
  · have hcheck2 : (N - 0 + 2047) / 2048 ≤ freeCount s.cachedFatTable := by
      rw [if_neg (by omega)] at hcheck
      omega
    rw [hfull] at hr
    exact appendLoop_full_meta buf N j ((N - 0 + 2047) / 2048) (N + 1) s l 0 hch hmeta (by omega)
      rfl hcheck2 (by omega) hcoh r hr
  · have hlt : c0 < 2048 := by omega
    have hlast := isChain_mem _ _ _ hch (lastBlock l) (lastBlock_mem l (isChain_ne_nil _ _ _ hch))
    rw [appendLoop_fill_round buf N j N s l c0 hch hlt hN] at hr
    have hcheck2 : (N - min (2048 - c0) N + 2047) / 2048 ≤ freeCount s.cachedFatTable := by
      by_cases h : N ≤ 2048 - c0
      · rw [if_pos h] at hcheck
        omega
      · rw [if_neg h] at hcheck
        omega
    have hcohf : ∀ i, i < 16384 →
        fatOnDisk (fillState s (lastBlock l) c0 (min (2048 - c0) N) buf 0).disk i
          = (fillState s (lastBlock l) c0 (min (2048 - c0) N) buf 0).cachedFatTable i := by
      intro i hi
      show fatOnDisk (Function.update s.disk (lastBlock l) _) i = s.cachedFatTable i
      rw [fatOnDisk_update _ _ _ _ (by omega) hi, hcoh i hi]
    obtain ⟨a1, a2⟩ := appendLoop_full_meta buf N j ((N - min (2048 - c0) N + 2047) / 2048) N
      (fillState s (lastBlock l) c0 (min (2048 - c0) N) buf 0)
      l (min (2048 - c0) N) hch hmeta (by omega) rfl hcheck2 (by omega) hcohf r hr
    refine ⟨a1, fun k hk => (a2 k hk).trans ?_⟩
    show dirOnDisk (Function.update s.disk (lastBlock l) _) k = dirOnDisk s.disk k
    exact dirOnDisk_update _ _ _ _ hlast.1 hk

/-- The run of a `vsappend` whose tests pass: the loop ends with every byte
stored, and the directory entry is written with the new size. -/
theorem vsappend_run (s : State) (f : Nat) (buf : Bytes) (N j sz : Nat) (l : List Nat)
    (hf : f < 16) (hin : (s.openFileTable f).dirBlock ≠ -1)
    (hmode : (s.openFileTable f).accessMode ≠ 0)
    (hidx : (s.openFileTable f).cachedRootDirIndex = (j : Int)) (hj : j < 128)
    (hsz : (s.cachedRootDirectory j).size = (sz : Int))
    (hch : IsChain s.cachedFatTable (s.cachedRootDirectory j).startBlock l)
    (hlen : (l.length : Int) = blocksFor (sz : Int))
    (hN : 0 < N)
    (hcheck : requiredBlockCount (sz : Int) (N : Int) ≤ s.freeBlockCount)
    (hfree : s.freeBlockCount ≤ (freeCount s.cachedFatTable : Int))
    (hmeta : ∀ i, i < 41 → s.cachedFatTable i ≠ 0) :
    ∃ (s1 : State) (c0 : Nat),
      c0 = (if 0 < sz ∧ sz % 2048 = 0 then 2048 else sz % 2048) ∧
      appendCursor (sz : Int) = (c0 : Int) ∧
      (if N ≤ 2048 - c0 then 0 else (N - (2048 - c0)) / 2048 + 1) ≤ freeCount s.cachedFatTable ∧
      appendLoop buf (N : Int) j (N + 1) s (c0 : Int) 0 = some (true, s1, N) ∧
      s1.cachedRootDirectory = s.cachedRootDirectory ∧
      (sz : Int) + (N : Int) < 2147483648 ∧
      vsappend s (f : Int) buf (N : Int) = some ((N : Int), { s1 with
        cachedRootDirectory := Function.update s1.cachedRootDirectory j
          { filename := memcpyName (nameBytes (s1.cachedRootDirectory j).filename)
            size := (sz : Int) + (N : Int)
            startBlock := (s1.cachedRootDirectory j).startBlock
            allocated := (s1.cachedRootDirectory j).allocated }
        disk := dirDiskWrite s1.disk j (nameBytes (s1.cachedRootDirectory j).filename)
          ((sz : Int) + (N : Int)) (s1.cachedRootDirectory j).startBlock
          (s1.cachedRootDirectory j).allocated }) := by
  obtain ⟨c0, hc0⟩ : ∃ c0 : Nat, c0 = if 0 < sz ∧ sz % 2048 = 0 then 2048 else sz % 2048 :=
    ⟨_, rfl⟩
  have hcur : appendCursor (sz : Int) = (c0 : Int) := by rw [appendCursor_cast, hc0]
  have hc0le : c0 ≤ 2048 := by
    rw [hc0]; split_ifs <;> omega
  have hgeom : (l.length - 1) * 2048 + c0 = sz ∧ 1 ≤ l.length := by
    unfold blocksFor at hlen
    split_ifs at hc0 <;> omega
  have hreq := requiredBlockCount_cast sz N c0 hcur hc0le
  have hfc := freeCount_le s.cachedFatTable
  have hcheck2 : (if N ≤ 2048 - c0 then 0 else (N - (2048 - c0)) / 2048 + 1)
      ≤ freeCount s.cachedFatTable := by
    rw [hreq] at hcheck
    omega
  have hNb : N < 16385 * 2048 := by
    split_ifs at hcheck2 <;> omega
  have hlenle := isChain_length_le _ _ _ hch
  obtain ⟨s1, new, hrun, hrel⟩ := appendLoop_ok s buf N j sz c0 l hc0 hch hN hcheck2 hmeta
  have hdir1 : s1.cachedRootDirectory = s.cachedRootDirectory := hrel.dir
  have hoft1 : s1.openFileTable = s.openFileTable := hrel.oft
  refine ⟨s1, c0, hc0, hcur, hcheck2, hrun, hdir1, by omega, ?_⟩
  have h1 : ¬ ((N : Int) ≤ 0) := by omega
  have h2 : ¬ (requiredBlockCount (sz : Int) (N : Int) > s.freeBlockCount) := by omega
  have h3 : wrapInt32 ((sz : Int) + (N : Int)) = (sz : Int) + (N : Int) :=
    wrapInt32_small _ (by omega) (by omega)
  unfold vsappend
  simp only [h1, if_false, MAX_NOF_OPEN_FILES, DIR_ENTRY_COUNT, MODE_READ, Int.toNat_ofNat,
    Int.ofNat_nonneg, hf, and_self, if_true, hin, hmode, hidx, hj, hsz, h2, hcur, hrun, hoft1]
  rw [hdir1, hsz, h3, ← hdir1, allocateDirectoryEntry_eq s1 j _ _ _ _ hj]
  simp only [ne_eq, not_true_eq_false, if_false, hoft1]

/-- A `vsappend` whose tests pass leaves the FAT blocks and the directory blocks
of the container in agreement with the caches. -/
theorem vsappend_coherent (s s2 : State) (f : Nat) (buf : Bytes) (N j sz : Nat) (l : List Nat)
    (r : Int)
    (hf : f < 16) (hin : (s.openFileTable f).dirBlock ≠ -1)
    (hmode : (s.openFileTable f).accessMode ≠ 0)
    (hidx : (s.openFileTable f).cachedRootDirIndex = (j : Int)) (hj : j < 128)
    (hsz : (s.cachedRootDirectory j).size = (sz : Int))
    (hch : IsChain s.cachedFatTable (s.cachedRootDirectory j).startBlock l)
    (hlen : (l.length : Int) = blocksFor (sz : Int))
    (hN : 0 < N)
    (hcheck : requiredBlockCount (sz : Int) (N : Int) ≤ s.freeBlockCount)
    (hfree : s.freeBlockCount ≤ (freeCount s.cachedFatTable : Int))
    (hmeta : ∀ i, i < 41 → s.cachedFatTable i ≠ 0)
    (hfd : ∀ i, i < 16384 → fatOnDisk s.disk i = s.cachedFatTable i)
    (hdd : ∀ k, k < 128 → dirOnDisk s.disk k = s.cachedRootDirectory k)
    (hret : vsappend s (f : Int) buf (N : Int) = some (r, s2)) :
    (∀ i, i < 16384 → fatOnDisk s2.disk i = s2.cachedFatTable i) ∧
      (∀ k, k < 128 → dirOnDisk s2.disk k = s2.cachedRootDirectory k) := by
  obtain ⟨s1, c0, hc0, _, hcheck2, hrun, hdir1, hsmall, hok⟩ :=
    vsappend_run s f buf N j sz l hf hin hmode hidx hj hsz hch hlen hN hcheck hfree hmeta
  obtain ⟨a1, a2⟩ := appendLoop_ok_meta s buf N j sz c0 l hc0 hch hN hcheck2 hmeta hfd _ hrun
  rw [hok] at hret
  simp only [Option.some.injEq, Prod.mk.injEq] at hret
  rw [← hret.2]
  have hst := loadInt32_range (s.disk (33 + j / 16)) (j % 16 * 128 + 34)
  have hal := loadInt32_range (s.disk (33 + j / 16)) (j % 16 * 128 + 38)
  have hej := hdd j hj
  have hst2 : (dirOnDisk s.disk j).startBlock = (s.cachedRootDirectory j).startBlock := by
    rw [hej]
  have hal2 : (dirOnDisk s.disk j).allocated = (s.cachedRootDirectory j).allocated := by
    rw [hej]
  have hst3 : -2147483648 ≤ (s1.cachedRootDirectory j).startBlock
      ∧ (s1.cachedRootDirectory j).startBlock < 2147483648 := by
    rw [hdir1, ← hst2]; exact hst
  have hal3 : -2147483648 ≤ (s1.cachedRootDirectory j).allocated
      ∧ (s1.cachedRootDirectory j).allocated < 2147483648 := by
    rw [hdir1, ← hal2]; exact hal
  constructor
  · intro i hi
    show fatOnDisk (dirDiskWrite s1.disk j _ _ _ _) i = s1.cachedFatTable i
    rw [fatOnDisk_dirDiskWrite _ _ _ _ _ _ _ hi]
    exact a1 i hi
  · intro k hk
    show dirOnDisk (dirDiskWrite s1.disk j _ _ _ _) k
      = Function.update s1.cachedRootDirectory j _ k
    rw [dirOnDisk_dirDiskWrite _ _ _ _ _ _ _ ⟨by omega, hsmall⟩ hst3 hal3]
    by_cases e : k = j
    · rw [if_pos e, e, Function.update_same]
    · rw [if_neg e, Function.update_noteq e, a2 k hk, hdd k hk, hdir1]

/-! ## The shape of the FAT and the agreement with the container are kept by every call -/

theorem fatwf_create (s : State) (ch : Nat → List Nat) (name : Bytes) (b j : Nat)
    (h : FatWF s ch) (hn : NulTerminated name) (hb : b < 16384) (hbz : s.cachedFatTable b = 0)
    (hj : j < 128) (hjz : (s.cachedRootDirectory j).allocated = 0)
    (hno : ∀ k, k < 128 → ¬ HasName s k name) :
    FatWF (createState s name b j) (Function.update ch j [b]) := by
  have hfat : (createState s name b j).cachedFatTable = Function.update s.cachedFatTable b (-1) :=
    rfl
  have hdir : (createState s name b j).cachedRootDirectory
      = Function.update s.cachedRootDirectory j
          { filename := memcpyName name, size := 0, startBlock := b, allocated := 1 } := rfl
  have htot : (createState s name b j).totalBlockCount = s.totalBlockCount := rfl
  have hdisk : (createState s name b j).disk
      = dirDiskWrite (fatDiskWrite s.disk b (-1)) j name 0 b 1 := rfl
  have hbt : (b : Int) < s.totalBlockCount := by
    by_contra hc
    have := h.high b hb (by omega)
    rw [hbz] at this
    exact absurd this (by decide)
  refine ⟨wf_create s ch name b j h.wf hn hb hbz hj hjz hno, ?_, ?_, ?_, ?_, ?_, ?_⟩
  · intro i hi
    rw [hfat]
    by_cases e : i = b
    · rw [e, Function.update_same]
    · rw [Function.update_noteq e]; exact h.low i hi
  · intro i hi ht
    rw [hfat]
    by_cases e : i = b
    · rw [e, Function.update_same]
    · rw [Function.update_noteq e]; exact h.high i hi ht
  · intro k hk ha x hx
    rw [htot]
    by_cases e : k = j
    · rw [e, Function.update_same] at hx
      rw [List.mem_singleton.mp hx]
      exact hbt
    · rw [Function.update_noteq e] at hx
      rw [hdir, Function.update_noteq e] at ha
      exact h.inside k hk ha x hx
  · intro i hi h41 ht hne
    rw [htot] at ht
    by_cases e : i = b
    · refine ⟨j, hj, ?_, ?_⟩
      · rw [hdir, Function.update_same]
      · rw [Function.update_same, e]; exact List.mem_singleton_self _
    · rw [hfat, Function.update_noteq e] at hne
      obtain ⟨k, hk, ha, hm⟩ := h.cover i hi h41 ht hne
      have hkj : k ≠ j := by
        intro e2
        rw [e2, hjz] at ha
        exact absurd ha (by decide)
      refine ⟨k, hk, ?_, ?_⟩
      · rw [hdir, Function.update_noteq hkj]; exact ha
      · rw [Function.update_noteq hkj]; exact hm
  · intro i hi
    rw [hdisk, hfat, fatOnDisk_dirDiskWrite _ _ _ _ _ _ _ hi,
      fatOnDisk_fatDiskWrite _ _ _ _ (by omega) (by omega)]
    by_cases e : i = b
    · rw [if_pos e, e, Function.update_same]
    · rw [if_neg e, Function.update_noteq e]; exact h.fatDisk i hi
  · intro k hk
    rw [hdisk, hdir, dirOnDisk_dirDiskWrite _ _ _ _ _ _ _ ⟨by omega, by omega⟩
      ⟨by omega, by omega⟩ ⟨by omega, by omega⟩]
    by_cases e : k = j
    · rw [if_pos e, e, Function.update_same]
    · rw [if_neg e, Function.update_noteq e, dirOnDisk_fatDiskWrite _ _ _ _ hb hk]
      exact h.dirDisk k hk

/-- A call that touches only the open-file table. -/
theorem fatwf_of_table (s s1 : State) (ch : Nat → List Nat) (h : FatWF s ch) (hw : WF s1 ch)
    (hdir : s1.cachedRootDirectory = s.cachedRootDirectory)
    (hfat : s1.cachedFatTable = s.cachedFatTable)
    (htot : s1.totalBlockCount = s.totalBlockCount) (hdisk : s1.disk = s.disk) :
    FatWF s1 ch := by
  refine ⟨hw, ?_, ?_, ?_, ?_, ?_, ?_⟩
  · rw [hfat]; exact h.low
  · rw [hfat, htot]; exact h.high
  · rw [hdir, htot]; exact h.inside
  · rw [hdir, hfat, htot]; exact h.cover
  · rw [hdisk, hfat]; exact h.fatDisk
  · rw [hdisk, hdir]; exact h.dirDisk

theorem fatwf_append (s s2 : State) (ch : Nat → List Nat) (j : Nat) (new : List Nat)
    (buf : Bytes) (sz N : Nat) (h : FatWF s ch) (hj : j < 128)
    (ha : (s.cachedRootDirectory j).allocated = 1)
    (hsz : (s.cachedRootDirectory j).size = (sz : Int))
    (hspec : AppendSpec s s2 j (ch j) new buf sz N)
    (hfd : ∀ i, i < 16384 → fatOnDisk s2.disk i = s2.cachedFatTable i)
    (hdd : ∀ k, k < 128 → dirOnDisk s2.disk k = s2.cachedRootDirectory k) :
    FatWF s2 (Function.update ch j (ch j ++ new)) := by
  have hch := h.wf.chain j hj ha
  have hlastmem := lastBlock_mem (ch j) (isChain_ne_nil _ _ _ hch)
  have hlast := isChain_mem _ _ _ hch (lastBlock (ch j)) hlastmem
  have hlastT := h.inside j hj ha _ hlastmem
  have halloc : ∀ k, (s2.cachedRootDirectory k).allocated = (s.cachedRootDirectory k).allocated := by
    intro k
    rw [hspec.dir]
    by_cases e : k = j
    · rw [e, Function.update_same]
    · rw [Function.update_noteq e]
  have hnewT : ∀ x ∈ new, x < 16384 → (x : Int) < s.totalBlockCount := by
    intro x hx hx2
    by_contra hc
    have := h.high x hx2 (by omega)
    rw [hspec.wasFree x hx] at this
    exact absurd this (by decide)
  have hnewmem : ∀ c ∈ new, 41 ≤ c ∧ c < 16384 :=
    fun c hc => ⟨(isChain_mem _ _ _ hspec.chain c (List.mem_append_right _ hc)).1,
      (isChain_mem _ _ _ hspec.chain c (List.mem_append_right _ hc)).2.1⟩
  refine ⟨wf_append s s2 ch j new buf sz N h.wf hj ha hsz hspec, ?_, ?_, ?_, ?_, hfd, hdd⟩
  · intro i hi
    have hin : i ∉ new := fun hm => by
      have := (hnewmem i hm).1
      omega
    rw [hspec.fatFrame i hin (Or.inl (by omega))]
    exact h.low i hi
  · intro i hi ht
    rw [hspec.total] at ht
    have hin : i ∉ new := fun hm => by
      have := hnewT i hm hi
      omega
    have hil : i ≠ lastBlock (ch j) := by
      intro e
      rw [e] at ht
      omega
    rw [hspec.fatFrame i hin (Or.inl hil)]
    exact h.high i hi ht
  · intro k hk hak x hx
    rw [halloc k] at hak
    rw [hspec.total]
    by_cases e : k = j
    · rw [e, Function.update_same] at hx
      rcases List.mem_append.mp hx with hm | hm
      · exact h.inside j hj ha x hm
      · exact hnewT x hm (hnewmem x hm).2
    · rw [Function.update_noteq e] at hx
      exact h.inside k hk hak x hx
  · intro i hi h41 ht hne
    rw [hspec.total] at ht
    by_cases e1 : i ∈ new
    · refine ⟨j, hj, by rw [halloc j]; exact ha, ?_⟩
      rw [Function.update_same]
      exact List.mem_append_right _ e1
    · by_cases e2 : i = lastBlock (ch j)
      · refine ⟨j, hj, by rw [halloc j]; exact ha, ?_⟩
        rw [Function.update_same, e2]
        exact List.mem_append_left _ hlastmem
      · rw [hspec.fatFrame i e1 (Or.inl e2)] at hne
        obtain ⟨k, hk, hak, hm⟩ := h.cover i hi h41 ht hne
        refine ⟨k, hk, by rw [halloc k]; exact hak, ?_⟩
        by_cases e : k = j
        · rw [e, Function.update_same]
          rw [e] at hm
          exact List.mem_append_left _ hm
        · rw [Function.update_noteq e]; exact hm

theorem fatwf_delete (s : State) (ch : Nat → List Nat) (name : Bytes) (j : Nat)
    (h : FatWF s ch) (hj : j < 128) (hname : HasName s j name) :
    FatWF (deleteState s name j (ch j)) ch := by
  have ha : (s.cachedRootDirectory j).allocated = 1 := hname.1
  have hch := h.wf.chain j hj ha
  have hmem := isChain_mem _ _ _ hch
  have hfat : (deleteState s name j (ch j)).cachedFatTable = freedFat s.cachedFatTable (ch j) :=
    rfl
  have hdir : (deleteState s name j (ch j)).cachedRootDirectory
      = Function.update s.cachedRootDirectory j { s.cachedRootDirectory j with allocated := 0 } :=
    rfl
  have htot : (deleteState s name j (ch j)).totalBlockCount = s.totalBlockCount := rfl
  have hdisk : (deleteState s name j (ch j)).disk = freedDisk (dirDiskClear s.disk j) (ch j) :=
    rfl
  have hold : ∀ k, ((deleteState s name j (ch j)).cachedRootDirectory k).allocated = 1 →
      k ≠ j ∧ (s.cachedRootDirectory k).allocated = 1 := by
    intro k hk
    rw [hdir] at hk
    by_cases e : k = j
    · rw [e, Function.update_same] at hk
      simp at hk
    · rw [Function.update_noteq e] at hk
      exact ⟨e, hk⟩
  refine ⟨wf_delete s ch name j h.wf hj hname, ?_, ?_, ?_, ?_, ?_, ?_⟩
  · intro i hi
    rw [hfat, freedFat_not_mem _ _ _ (fun hm => by have := (hmem i hm).1; omega)]
    exact h.low i hi
  · intro i hi ht
    rw [htot] at ht
    rw [hfat, freedFat_not_mem _ _ _ (fun hm => by have := h.inside j hj ha i hm; omega)]
    exact h.high i hi ht
  · intro k hk hak x hx
    rw [htot]
    exact h.inside k hk (hold k hak).2 x hx
  · intro i hi h41 ht hne
    rw [htot] at ht
    have hin : i ∉ ch j := by
      intro hm
      rw [hfat, freedFat_mem _ _ _ hm] at hne
      exact hne rfl
    rw [hfat, freedFat_not_mem _ _ _ hin] at hne
    obtain ⟨k, hk, hak, hm⟩ := h.cover i hi h41 ht hne
    have hkj : k ≠ j := by
      intro e
      rw [e] at hm
      exact hin hm
    exact ⟨k, hk, by rw [hdir, Function.update_noteq hkj]; exact hak, hm⟩
  · intro i hi
    rw [hdisk, hfat, fatOnDisk_freedDisk _ _ _ (fun x hx => (hmem x hx).2.1) hi,
      fatOnDisk_dirDiskClear _ _ _ hi, h.fatDisk i hi]
    rfl
  · intro k hk
    rw [hdisk, hdir, dirOnDisk_freedDisk _ _ _ (fun x hx => (hmem x hx).2.1) hk,
      dirOnDisk_dirDiskClear]
    by_cases e : k = j
    · rw [if_pos e, e, Function.update_same, h.dirDisk j hj]
    · rw [if_neg e, Function.update_noteq e, h.dirDisk k hk]

theorem fatwf_fresh (s : State) (h : Fresh s) : FatWF s (fun _ => []) := by
  have hw := wf_fresh s h
  obtain ⟨m, g, sb, fb, db, d, h1, h2, hfmt, hmnt⟩ := h
  obtain ⟨d2, s2, hf2, hm2, _, hT1, hT2, htot, _, _, _, _, _, hfat, hdir, _⟩ :=
    fresh_volume m g sb fb db h1 h2
  have ed : d2 = d := by
    rw [hfmt] at hf2
    simp only [Option.some.injEq, Prod.mk.injEq, true_and] at hf2
    exact hf2.symm
  rw [ed, hmnt] at hm2
  have es : s2 = s := by
    simp only [Option.some.injEq, Prod.mk.injEq, true_and] at hm2
    exact hm2.symm
  rw [es] at htot hfat hdir
  have hs : s = mountState g d := by
    have := vsmount_eq g d
    rw [hmnt] at this
    simp only [Option.some.injEq, Prod.mk.injEq, true_and] at this
    exact this
  have hno : ∀ j, j < 128 → ¬ ((s.cachedRootDirectory j).allocated = 1) := by
    intro j hj e
    rw [hdir j hj] at e
    exact absurd e (by decide)
  refine ⟨hw, ?_, ?_, ?_, ?_, ?_, ?_⟩
  · intro i hi
    rw [hfat i (by omega)]
    unfold formatFat
    rw [if_pos hi]
  · intro i hi ht
    rw [htot] at ht
    rw [hfat i hi]
    unfold formatFat
    by_cases e : i < 41
    · rw [if_pos e]
    · rw [if_neg e, if_neg (by omega)]
  · intro j hj e; exact absurd e (hno j hj)
  · intro i hi h41 ht hne
    rw [htot] at ht
    rw [hfat i hi] at hne
    unfold formatFat at hne
    rw [if_neg (by omega), if_pos ht] at hne
    exact absurd rfl hne
  · intro i hi
    rw [hs]
    show fatOnDisk d i = if i < 16384 then fatOnDisk d i else g.cachedFatTable i
    rw [if_pos hi]
  · intro j hj
    rw [hs]
    show dirOnDisk d j = if j < 128 then dirOnDisk d j else g.cachedRootDirectory j
    rw [if_pos hj]

theorem fatwf_step_append (s s1 : State) (ch : Nat → List Nat) (fd n r : Int) (buf : Bytes)
    (h : FatWF s ch) (hrun : vsappend s fd buf n = some (r, s1)) : ∃ ch1, FatWF s1 ch1 := by
  rcases vsappend_inv s s1 fd buf n r hrun with ⟨_, h1⟩ | ⟨hn, hfd, hf, hin, hmode, hi1, hi2, hreq⟩
  · rw [h1]; exact ⟨ch, h⟩
  · obtain ⟨f, hfe⟩ : ∃ f : Nat, fd = (f : Int) := ⟨fd.toNat, (Int.toNat_of_nonneg hfd).symm⟩
    obtain ⟨N, hNe⟩ : ∃ N : Nat, n = (N : Int) := ⟨n.toNat, (Int.toNat_of_nonneg (by omega)).symm⟩
    rw [hfe, Int.toNat_ofNat] at hf hin hmode hi1 hi2 hreq
    obtain ⟨j, hje⟩ : ∃ j : Nat, (s.openFileTable f).cachedRootDirIndex = (j : Int) :=
      ⟨_, (Int.toNat_of_nonneg hi1).symm⟩
    rw [hje, Int.toNat_ofNat] at hi2 hreq
    have ha : (s.cachedRootDirectory j).allocated = 1 := by
      rcases h.wf.handles f hf with h0 | ⟨_, h2 | ⟨_, _, h5⟩⟩
      · exact absurd h0 hin
      · omega
      · rw [hje, Int.toNat_ofNat] at h5
        exact h5
    obtain ⟨hs0, hlen⟩ := h.wf.size j hi2 ha
    obtain ⟨sz, hsz⟩ : ∃ sz : Nat, (s.cachedRootDirectory j).size = (sz : Int) :=
      ⟨_, (Int.toNat_of_nonneg hs0).symm⟩
    rw [hsz] at hlen hreq
    rw [hNe] at hreq hn
    obtain ⟨s2, new, hok, hspec⟩ := vsappend_ok s f buf N j sz (ch j) hf hin hmode hje hi2 hsz
      (h.wf.chain j hi2 ha) hlen (by omega) hreq (le_of_eq h.wf.free) h.wf.metadata
    obtain ⟨c1, c2⟩ := vsappend_coherent s s2 f buf N j sz (ch j) (N : Int) hf hin hmode hje hi2
      hsz (h.wf.chain j hi2 ha) hlen (by omega) hreq (le_of_eq h.wf.free) h.wf.metadata
      h.fatDisk h.dirDisk hok
    rw [hfe, hNe, hok] at hrun
    simp only [Option.some.injEq, Prod.mk.injEq] at hrun
    rw [← hrun.2]
    exact ⟨_, fatwf_append s s2 ch j new buf sz N h hi2 ha hsz hspec c1 c2⟩

theorem fatwf_step_delete (s s1 : State) (ch : Nat → List Nat) (name : Bytes) (r : Int)
    (h : FatWF s ch) (hn : NulTerminated name) (hrun : vsdelete s name = some (r, s1)) :
    ∃ ch1, FatWF s1 ch1 := by
  have hv : HandlesValid s := by
    cases hl : deleteCloseLoop name 16 0 s with
    | none =>
      unfold vsdelete at hrun
      simp only [MAX_NOF_OPEN_FILES, hl] at hrun
      exact absurd hrun (by simp)
    | some s2 => exact handlesValid_of_wf s s2 ch name h.wf hl
  by_cases hex : ∃ k, k < 128 ∧ HasName s k name
  · obtain ⟨j, hj, hname, hleast⟩ := exists_least (fun k => HasName s k name) 128 hex
    have ha : (s.cachedRootDirectory j).allocated = 1 := hname.1
    have hok := vsdelete_ok s name j (ch j) hn hv hj hname hleast (h.wf.chain j hj ha)
    rw [hok] at hrun
    simp only [Option.some.injEq, Prod.mk.injEq] at hrun
    rw [← hrun.2]
    exact ⟨ch, fatwf_delete s ch name j h hj hname⟩
  · rw [vsdelete_none s name hn hv (fun k hk hh => hex ⟨k, hk, hh⟩)] at hrun
    exact absurd hrun (by simp)

/-- One call keeps the invariant. -/
theorem fatwf_step (s s1 : State) (ch : Nat → List Nat) (h : FatWF s ch) (hs : Step s s1) :
    ∃ ch1, FatWF s1 ch1 := by
  rcases hs with ⟨name, r, hn, hrun⟩ | ⟨name, mode, r, _, hrun⟩ | ⟨fd, r, hrun⟩
    | ⟨fd, n, r, buf, buf1, hrun⟩ | ⟨fd, n, r, buf, hrun⟩ | ⟨name, r, hn, hrun⟩
  · rcases vscreate_cases s name hn with hfail | ⟨b, j, hb, hbz, hj, hjz, hno, hok⟩
    · rw [hfail] at hrun
      simp only [Option.some.injEq, Prod.mk.injEq] at hrun
      rw [← hrun.2]; exact ⟨ch, h⟩
    · rw [hok] at hrun
      simp only [Option.some.injEq, Prod.mk.injEq] at hrun
      rw [← hrun.2]
      exact ⟨_, fatwf_create s ch name b j h hn hb hbz hj hjz hno⟩
  · rcases vsopen_inv s s1 name mode r hrun with h1 | ⟨f, d, _, h1, _, hd⟩
    · rw [h1]; exact ⟨ch, h⟩
    · rw [h1]
      exact ⟨ch, fatwf_of_table s _ ch h (wf_open s ch f d mode h.wf hd) rfl rfl rfl rfl⟩
  · rcases vsclose_inv s s1 fd r hrun with h1 | ⟨f, _, h1⟩
    · rw [h1]; exact ⟨ch, h⟩
    · rw [h1]
      exact ⟨ch, fatwf_of_table s _ ch h (wf_close s ch f h.wf) rfl rfl rfl rfl⟩
  · rcases vsread_inv s s1 fd n r buf buf1 hrun with h1 | ⟨f, pos, h1⟩
    · rw [h1]; exact ⟨ch, h⟩
    · rw [h1]
      exact ⟨ch, fatwf_of_table s _ ch h (wf_seek s ch f pos h.wf) rfl rfl rfl rfl⟩
  · exact fatwf_step_append s s1 ch fd n r buf h hrun
  · exact fatwf_step_delete s s1 ch name r h hn hrun

/-- Every reachable state satisfies the invariant. -/
theorem reachable_fatwf (s : State) (h : Reachable s) : ∃ ch, FatWF s ch := by
  induction h with
  | fresh s hf => exact ⟨_, fatwf_fresh s hf⟩
  | step s s1 _ hs ih =>
    obtain ⟨ch, hw⟩ := ih
    exact fatwf_step s s1 ch hw hs

/-! ## Closing and reopening; a volume with an open file -/

theorem inUseCount_le (oft : Nat → fileStruct) : inUseCount oft ≤ 16 := by
  unfold inUseCount
  have := Finset.card_filter_le (Finset.range MAX_NOF_OPEN_FILES)
    (fun i => (oft i).dirBlock ≠ -1)
  simpa using this

theorem usedBlocks_nonneg (dir : Nat → dirEntry) : 0 ≤ usedBlocks dir := by
  unfold usedBlocks
  refine Finset.sum_nonneg (fun j _ => ?_)
  split_ifs
  · unfold blocksFor
    omega
  · exact le_refl 0

/-- After slot `f` is closed, a file that no other handle in use refers to can
be opened. -/
theorem vsopen_after_close (s : State) (f : Nat) (name : Bytes) (mode : Int) (hf : f < 16)
    (hn : NulTerminated name) (hv : HandlesValid s)
    (hcount : s.openFileCount = inUseCount s.openFileTable)
    (hex : ∃ k, k < 128 ∧ HasName s k name)
    (hno : ∀ k, k < 16 → k ≠ f → InUse s k → ¬ RefersTo s k name) :
    ∃ (f2 j : Nat), f2 < 16 ∧ j < 128 ∧ HasName s j name ∧
      vsopen (closeState s f) name mode
        = some ((f2 : Int), openState (closeState s f) f2 (j : Int) mode) := by
  have hle := inUseCount_le s.openFileTable
  have hfree : ((closeState s f).openFileTable f).dirBlock = -1 := by
    simp [closeState]
  have hother : ∀ k, k ≠ f → (closeState s f).openFileTable k = s.openFileTable k := by
    intro k hk
    simp [closeState, Function.update_noteq hk]
  have hv1 : HandlesValid (closeState s f) := by
    intro k hk
    by_cases e : k = f
    · rw [e]; exact Or.inl hfree
    · rw [hother k e]; exact hv k hk
  have hno1 : ∀ k, k < 16 → InUse (closeState s f) k → ¬ RefersTo (closeState s f) k name := by
    intro k hk hu hr
    by_cases e : k = f
    · rw [e] at hu
      exact hu hfree
    · have hu2 : InUse s k := by
        unfold InUse at hu ⊢
        rw [hother k e] at hu
        exact hu
      have hr2 : RefersTo s k name := by
        unfold RefersTo at hr ⊢
        rw [hother k e] at hr
        exact hr
      exact hno k hk e hu2 hr2
  obtain ⟨f2, hf2, hf2z, hf2l⟩ :=
    exists_least (fun k => ((closeState s f).openFileTable k).dirBlock = -1) 16 ⟨f, hf, hfree⟩
  obtain ⟨j, hj, hjn, hjl⟩ := exists_least (fun j => HasName s j name) 128 hex
  refine ⟨f2, j, hf2, hj, hjn, ?_⟩
  exact vsopen_eq (closeState s f) name mode j f2 hn
    (by
      show s.openFileCount - 1 ≠ 16
      rw [hcount]
      omega)
    hv1 hno1 hf2 hf2z hf2l
    (findDirectoryEntryIndexByFilename_some (closeState s f) name hn j hj hjn hjl)

theorem appendVolume_inUseCount : inUseCount appendVolume.openFileTable = 1 := by
  have e : (Finset.range MAX_NOF_OPEN_FILES).filter
      (fun i => (appendVolume.openFileTable i).dirBlock ≠ -1) = {0} := by
    ext k
    simp only [Finset.mem_filter, Finset.mem_range, Finset.mem_singleton, MAX_NOF_OPEN_FILES]
    constructor
    · rintro ⟨_, h⟩
      by_contra hk
      apply h
      simp [appendVolume, openState, Function.update_noteq hk, oneFileVolume, createState,
        emptyVolume]
    · intro hk
      rw [hk, appendVolume_slot]
      exact ⟨by omega, by decide⟩
  unfold inUseCount
  rw [e]
  rfl

/-- The calls `vsformat(18)`, `vsmount`, `vscreate("f")`, `vsopen("f", MODE_APPEND)`
with the local arrays of the initialisers holding zero bytes. -/
theorem open_file_volume :
    ∃ s0 s1 s2, Reachable s1 ∧ Reachable s2 ∧
      s1 = createState s0 nameF 41 0 ∧ s2 = openState s1 0 0 MODE_APPEND ∧
      vsopen s1 nameF MODE_APPEND = some (0, s2) ∧
      s0.totalBlockCount = 128 ∧ s0.dataBlockCount = 87 ∧ s0.freeBlockCount = 87 ∧
      s0.fileCount = 0 ∧ s0.openFileCount = 0 ∧
      (∀ i, i < 16 → (s0.openFileTable i).dirBlock = -1) ∧
      (∀ i, i < 16384 → s0.cachedFatTable i = if i < 41 then -1 else if i < 128 then 0 else -1) ∧
      (∀ j, j < 128 → (s0.cachedRootDirectory j).allocated = 0) := by
  obtain ⟨d, s0, hfmt, hmnt, _, _, _, htot, hdat, hfree, hfc, hoc, hoft, hfat, hdir, _⟩ :=
    fresh_volume 18 emptyVolume (fun _ => 0) (fun _ => 0) (fun _ => 0) (by omega) (by omega)
  have e18 : (2 : Nat) ^ 18 / 2048 = 128 := by norm_num
  rw [e18] at htot hfree hfat hdat
  have hr0 : Reachable s0 :=
    Reachable.fresh s0 ⟨18, emptyVolume, _, _, _, d, by omega, by omega, hfmt, hmnt⟩
  have hfatv : ∀ i, i < 16384 → s0.cachedFatTable i
      = if i < 41 then -1 else if i < 128 then 0 else -1 := by
    intro i hi
    rw [hfat i hi]
    unfold formatFat
    by_cases a : i < 41
    · rw [if_pos a, if_pos a]
    · rw [if_neg a, if_neg a]
      by_cases b : i < 128
      · rw [if_pos (by omega), if_pos b]
      · rw [if_neg (by omega), if_neg b]
  have hno0 : ∀ k, k < 128 → ¬ HasName s0 k nameF := by
    intro k hk hh
    have := hh.1
    rw [hdir k hk] at this
    exact absurd this (by decide)
  have hc1 : vscreate s0 nameF = some (0, createState s0 nameF 41 0) :=
    vscreate_eq s0 nameF 41 0 nameF_nul (by rw [hfc]; decide) hno0 (by omega)
      (by rw [hfatv 41 (by omega)]; rfl)
      (fun k hk => by
        rw [hfatv k (by omega), if_pos hk]
        decide)
      (by omega) (hdir 0 (by omega)) (fun k hk => by omega)
  obtain ⟨s1, hs1⟩ : ∃ s1, s1 = createState s0 nameF 41 0 := ⟨_, rfl⟩
  rw [← hs1] at hc1
  have hr1 : Reachable s1 := Reachable.step s0 s1 hr0 (Or.inl ⟨nameF, 0, nameF_nul, hc1⟩)
  have hoft1 : s1.openFileTable = s0.openFileTable := by rw [hs1]; rfl
  have hv1 : HandlesValid s1 := by
    intro k hk
    rw [hoft1]
    exact Or.inl (hoft k hk)
  have hname1 : HasName s1 0 nameF := by
    rw [hs1]
    exact createState_hasName s0 nameF 41 0 nameF_nul
  have ho : vsopen s1 nameF MODE_APPEND
      = some (((0 : Nat) : Int), openState s1 0 ((0 : Nat) : Int) MODE_APPEND) :=
    vsopen_eq s1 nameF MODE_APPEND ((0 : Nat) : Int) 0 nameF_nul
      (by rw [hs1]; show s0.openFileCount ≠ 16; rw [hoc]; decide) hv1
      (fun k hk hu _ => by
        unfold InUse at hu
        rw [hoft1] at hu
        exact hu (hoft k hk))
      (by omega) (by rw [hoft1]; exact hoft 0 (by omega)) (fun k hk => by omega)
      (findDirectoryEntryIndexByFilename_some s1 nameF nameF_nul 0 (by omega) hname1
        (fun k hk => by omega))
  obtain ⟨s2, hs2⟩ : ∃ s2, s2 = openState s1 0 0 MODE_APPEND := ⟨_, rfl⟩
  have ho2 : vsopen s1 nameF MODE_APPEND = some (0, s2) := by
    rw [hs2]; exact ho
  have hr2 : Reachable s2 :=
    Reachable.step s1 s2 hr1 (Or.inr (Or.inl ⟨nameF, MODE_APPEND, 0, nameF_nul, ho2⟩))
  exact ⟨s0, s1, s2, hr1, hr2, hs1, hs2, ho2, htot, by rw [hdat]; rfl, by rw [hfree]; rfl, hfc,
    hoc, hoft, hfatv, hdir⟩

/-! ## The claims on `vsclose` and on the invariants of reachable states -/

/-- **C21.** For a slot `f` in `[0, 16)`: if the slot is not in use, `vsclose`
returns -1 and leaves the whole state as it was; if it is in use, `vsclose`
returns 0, sets `dirBlock = -1` in slot `f` and nothing else in it, takes 1
from `openFileCount`, and leaves every other slot, the directory, the FAT, the
four superblock counters and the container unchanged.  After that, on a volume
whose handles are valid and whose `openFileCount` counts the slots in use,
`vsopen` of an existing file that no other handle in use refers to (so of the
file just closed) returns a slot that is then in use for that file. -/
theorem vsclose_frame (s : State) (f : Nat) (hf : f < 16) :
    (¬ InUse s f → vsclose s (f : Int) = some (-1, s)) ∧
    (InUse s f →
      ∃ s1, vsclose s (f : Int) = some (0, s1) ∧
        s1.openFileTable f = { s.openFileTable f with dirBlock := -1 } ∧
        ¬ InUse s1 f ∧
        s1.openFileCount = s.openFileCount - 1 ∧
        (∀ k, k ≠ f → s1.openFileTable k = s.openFileTable k) ∧
        s1.cachedRootDirectory = s.cachedRootDirectory ∧
        s1.cachedFatTable = s.cachedFatTable ∧
        s1.freeBlockCount = s.freeBlockCount ∧ s1.fileCount = s.fileCount ∧
        s1.totalBlockCount = s.totalBlockCount ∧ s1.dataBlockCount = s.dataBlockCount ∧
        s1.disk = s.disk ∧
        ∀ (name : Bytes) (mode : Int), NulTerminated name → HandlesValid s →
          s.openFileCount = inUseCount s.openFileTable →
          (∃ k, k < 128 ∧ HasName s k name) →
          (∀ k, k < 16 → k ≠ f → InUse s k → ¬ RefersTo s k name) →
          ∃ (f2 j : Nat) (s2 : State), vsopen s1 name mode = some ((f2 : Int), s2) ∧
            f2 < 16 ∧ InUse s2 f2 ∧ j < 128 ∧ HasName s j name ∧
            (s2.openFileTable f2).cachedRootDirIndex = (j : Int)) := by
  constructor
  · intro hu
    have hz : (s.openFileTable f).dirBlock = -1 := by
      unfold InUse at hu
      exact not_not.mp hu
    exact vsclose_free s f hf hz
  · intro hu
    refine ⟨closeState s f, vsclose_eq s f hf hu, ?_, ?_, rfl, ?_, rfl, rfl, rfl, rfl, rfl, rfl,
      rfl, ?_⟩
    · simp [closeState]
    · simp [InUse, closeState]
    · intro k hk
      simp [closeState, Function.update_noteq hk]
    · intro name mode hn hv hcount hex hno
      obtain ⟨f2, j, hf2, hj, hjn, hopen⟩ :=
        vsopen_after_close s f name mode hf hn hv hcount hex hno
      refine ⟨f2, j, _, hopen, hf2, ?_, hj, hjn, ?_⟩
      · simp only [InUse, openState, Function.update_same]
        rw [tdiv_16]
        omega
      · simp only [openState, Function.update_same]

/-- Witness for C21: on the sample volume, closing slot 0 and opening "f" again. -/
theorem vsclose_frame_witness :
    InUse appendVolume 0 ∧
      ∃ s1, vsclose appendVolume 0 = some (0, s1) ∧ ¬ InUse s1 0 ∧
        s1.openFileCount = 0 ∧
        ∃ (f2 : Nat) (s2 : State), vsopen s1 nameF MODE_READ = some ((f2 : Int), s2) ∧
          InUse s2 f2 := by
  have hu : InUse appendVolume 0 := appendVolume_refers.1
  obtain ⟨s1, h1, _, h3, h4, _, _, _, _, _, _, _, _, h13⟩ :=
    (vsclose_frame appendVolume 0 (by omega)).2 hu
  obtain ⟨f2, j, s2, h5, _, h7, _⟩ := h13 nameF MODE_READ nameF_nul appendVolume_handlesValid
    (by
      rw [appendVolume_inUseCount]
      rfl)
    ⟨0, by omega, oneFileVolume_hasName⟩
    (fun k _ hk hu2 _ => by
      apply hu2
      simp [appendVolume, openState, Function.update_noteq hk, oneFileVolume, createState,
        emptyVolume])
  refine ⟨hu, s1, h1, h3, ?_, f2, s2, h5, h7⟩
  rw [h4]
  rfl

/-- **C22.** In every reachable state there is a chain `ch j` for every
allocated directory entry `j` (the blocks from its start block along the FAT to
`EOF_FLAG`, all of them data blocks inside the volume with an entry in use,
none of them twice) such that: FAT entries 0..40 and the entries from
`totalBlockCount` on hold `EOF_FLAG`, and every entry in
`[41, totalBlockCount)` that is not `NOT_USED_FLAG` lies on the chain of one
allocated directory entry and of no other. -/
theorem fat_well_formed (s : State) (h : Reachable s) :
    ∃ ch : Nat → List Nat,
      (∀ j, j < 128 → (s.cachedRootDirectory j).allocated = USED_FLAG →
        IsChain s.cachedFatTable (s.cachedRootDirectory j).startBlock (ch j) ∧ (ch j).Nodup ∧
        ∀ x ∈ ch j, 41 ≤ x ∧ (x : Int) < s.totalBlockCount ∧
          s.cachedFatTable x ≠ NOT_USED_FLAG) ∧
      (∀ i, i < 41 → s.cachedFatTable i = EOF_FLAG) ∧
      (∀ i : Nat, i < 16384 → s.totalBlockCount ≤ (i : Int) → s.cachedFatTable i = EOF_FLAG) ∧
      (∀ i : Nat, i < 16384 → 41 ≤ i → (i : Int) < s.totalBlockCount →
        s.cachedFatTable i ≠ NOT_USED_FLAG →
        ∃ j, j < 128 ∧ (s.cachedRootDirectory j).allocated = USED_FLAG ∧ i ∈ ch j ∧
          ∀ k, k < 128 → (s.cachedRootDirectory k).allocated = USED_FLAG → i ∈ ch k → k = j) := by
  obtain ⟨ch, hw⟩ := reachable_fatwf s h
  refine ⟨ch, ?_, hw.low, hw.high, ?_⟩
  · intro j hj ha
    have hc := hw.wf.chain j hj ha
    refine ⟨hc, isChain_nodup _ _ _ hc, fun x hx => ?_⟩
    have hm := isChain_mem _ _ _ hc x hx
    exact ⟨hm.1, hw.inside j hj ha x hx, hm.2.2⟩
  · intro i hi h41 ht hne
    obtain ⟨j, hj, ha, hm⟩ := hw.cover i hi h41 ht hne
    refine ⟨j, hj, ha, hm, fun k hk hak hmk => ?_⟩
    by_contra hkj
    exact hw.wf.disjoint k j hk hj hkj hak ha i hmk hm

/-- Witness for C22: the volume of 128 blocks after `vscreate("f")`; the chain
of the file is block 41. -/
theorem fat_well_formed_witness :
    ∃ (s : State) (ch : Nat → List Nat), Reachable s ∧
      (s.cachedRootDirectory 0).allocated = USED_FLAG ∧
      IsChain s.cachedFatTable (s.cachedRootDirectory 0).startBlock (ch 0) ∧ ch 0 = [41] ∧
      s.cachedFatTable 40 = EOF_FLAG ∧ s.cachedFatTable 128 = EOF_FLAG := by
  obtain ⟨s0, s1, s2, hr1, _, hs1, _, _, htot, _, _, _, _, _, _, _⟩ := open_file_volume
  obtain ⟨ch, c1, c2, c3, _⟩ := fat_well_formed s1 hr1
  have ha : (s1.cachedRootDirectory 0).allocated = USED_FLAG := by
    rw [hs1]; simp [createState]
  have hst : (s1.cachedRootDirectory 0).startBlock = ((41 : Nat) : Int) := by
    rw [hs1]; simp [createState]
  have h41 : s1.cachedFatTable 41 = -1 := by
    rw [hs1]; simp [createState]
  obtain ⟨hc, _, _⟩ := c1 0 (by omega) ha
  have hc2 : IsChain s1.cachedFatTable (s1.cachedRootDirectory 0).startBlock [41] := by
    rw [hst]
    exact (isChain_singleton _ _ _).mpr ⟨rfl, by omega, by omega, h41⟩
  refine ⟨s1, ch, hr1, ha, hc, isChain_unique _ _ _ _ hc hc2, c2 40 (by omega),
    c3 128 (by omega) ?_⟩
  rw [hs1]
  show s0.totalBlockCount ≤ ((128 : Nat) : Int)
  rw [htot]
  rfl

/-- **C23** (the code departs from the claim).  In every state reached through
calls within defined behaviour the container decodes to the caches: for every
`i < 16384` the 32-bit value at block `1 + i / 512`, offset `(i % 512) * 4`, is
`cachedFatTable[i]`, and for every `j < 128` the 30 bytes at block
`33 + j / 16`, offset `(j % 16) * 128`, and the 32-bit values at +30, +34 and
+38 are the name, the size, the start block and the allocation flag of
`cachedRootDirectory[j]`.  But `vsdelete` of a name that no allocated entry
carries, a call of the sequences of the claim, does not keep it so:
`findDirectoryEntryIndexByFilename` yields -1, `deallocateDirectoryEntry(-1)`
stores `allocated = 0` through `cachedRootDirectory[-1]`, outside the array and
with no store to the container that matches it, and the call has no defined
result. -/
theorem coherence_lost_by_missing_delete (s : State) (h : Reachable s) :
    ((∀ i, i < 16384 → loadInt32 (s.disk (1 + i / 512)) (i % 512 * 4) = s.cachedFatTable i) ∧
      (∀ j, j < 128 →
        memcpyName (fun k => s.disk (33 + j / 16) (j % 16 * 128 + k))
          = (s.cachedRootDirectory j).filename ∧
        loadInt32 (s.disk (33 + j / 16)) (j % 16 * 128 + 30) = (s.cachedRootDirectory j).size ∧
        loadInt32 (s.disk (33 + j / 16)) (j % 16 * 128 + 34)
          = (s.cachedRootDirectory j).startBlock ∧
        loadInt32 (s.disk (33 + j / 16)) (j % 16 * 128 + 38)
          = (s.cachedRootDirectory j).allocated)) ∧
    ∀ name : Bytes, NulTerminated name → (∀ k, k < 128 → ¬ HasName s k name) →
      findDirectoryEntryIndexByFilename s name = some (-1) ∧
        deallocateDirectoryEntry s (-1) = none ∧ vsdelete s name = none := by
  obtain ⟨ch, hw⟩ := reachable_fatwf s h
  refine ⟨⟨fun i hi => hw.fatDisk i hi, fun j hj => ?_⟩, fun name hn hnone => ?_⟩
  · have e := hw.dirDisk j hj
    rw [← e]
    simp only [dirOnDisk, and_self]
  · refine ⟨findDirectoryEntryIndexByFilename_none s name hn hnone,
      deallocateDirectoryEntry_none s (-1) (by omega), ?_⟩
    cases hl : deleteCloseLoop name 16 0 s with
    | none =>
      unfold vsdelete
      simp only [MAX_NOF_OPEN_FILES, hl]
    | some s2 =>
      exact vsdelete_none s name hn (handlesValid_of_wf s s2 ch name hw.wf hl) hnone

/-- Witness for C23: on the volume of 128 blocks right after `vsformat(18)` and
`vsmount`, FAT entry 16383 is `EOF_FLAG` in the cache and in the container
(block 32, offset 2044), no file is named "f", and `vsdelete("f")` stores
through `cachedRootDirectory[-1]`. -/
theorem coherence_lost_by_missing_delete_witness :
    ∃ d s, vsformat 18 (fun _ => 0) (fun _ => 0) (fun _ => 0) = some (0, d) ∧
      vsmount emptyVolume d = some (0, s) ∧ Reachable s ∧
      s.cachedFatTable 16383 = -1 ∧ loadInt32 (s.disk 32) 2044 = -1 ∧
      (∀ k, k < 128 → ¬ HasName s k nameF) ∧
      findDirectoryEntryIndexByFilename s nameF = some (-1) ∧
      deallocateDirectoryEntry s (-1) = none ∧ vsdelete s nameF = none := by
  obtain ⟨d, s0, _, _, hfmt, hmnt, _, _, hr0, _, _, _, _, htot, _, hdir⟩ := two_files
  obtain ⟨ch, hw⟩ := reachable_fatwf s0 hr0
  have hno : ∀ k, k < 128 → ¬ HasName s0 k nameF := by
    intro k hk hh
    have := hh.1
    rw [hdir k hk] at this
    exact absurd this (by decide)
  have hfat : s0.cachedFatTable 16383 = -1 :=
    hw.high 16383 (by omega) (by rw [htot]; decide)
  obtain ⟨⟨c1, _⟩, c2⟩ := coherence_lost_by_missing_delete s0 hr0
  obtain ⟨b1, b2, b3⟩ := c2 nameF nameF_nul hno
  refine ⟨d, s0, hfmt, hmnt, hr0, hfat, ?_, hno, b1, b2, b3⟩
  have a := c1 16383 (by omega)
  rw [hfat] at a
  exact a

/-- **C24.** In every reachable state `dataBlockCount = totalBlockCount - 41`,
`0 ≤ freeBlockCount ≤ dataBlockCount` and `0 ≤ fileCount ≤ 128`. -/
theorem superblock_invariants (s : State) (h : Reachable s) :
    s.dataBlockCount = s.totalBlockCount - METADATA_BLOCK_SIZE ∧
      0 ≤ s.freeBlockCount ∧ s.freeBlockCount ≤ s.dataBlockCount ∧
      0 ≤ s.fileCount ∧ s.fileCount ≤ DIR_ENTRY_COUNT := by
  obtain ⟨ch, hw⟩ := reachable_wf s h
  have h1 := hw.data
  have h2 := hw.free
  have h3 := hw.used
  have h4 := hw.files
  have h5 := usedBlocks_nonneg s.cachedRootDirectory
  have h6 := allocatedCount_le s.cachedRootDirectory
  simp only [METADATA_BLOCK_SIZE, DIR_ENTRY_COUNT]
  refine ⟨by rw [h1]; rfl, by omega, by omega, by omega, by omega⟩

/-- Witness for C24: the volume of 128 blocks after `vscreate("f")` has 87 data
blocks, 86 of them free, and one file. -/
theorem superblock_invariants_witness :
    ∃ s, Reachable s ∧ s.totalBlockCount = 128 ∧ s.dataBlockCount = 87 ∧
      s.freeBlockCount = 86 ∧ s.fileCount = 1 ∧
      s.dataBlockCount = s.totalBlockCount - METADATA_BLOCK_SIZE ∧
      s.freeBlockCount ≤ s.dataBlockCount := by
  obtain ⟨s0, s1, s2, hr1, _, hs1, _, _, htot, hdat, hfree, hfc, _⟩ := open_file_volume
  obtain ⟨a1, _, a3, _, _⟩ := superblock_invariants s1 hr1
  refine ⟨s1, hr1, ?_, ?_, ?_, ?_, a1, a3⟩
  · rw [hs1]; exact htot
  · rw [hs1]; exact hdat
  · rw [hs1]
    show s0.freeBlockCount - 1 = 86
    rw [hfree]; rfl
  · rw [hs1]
    show s0.fileCount + 1 = 1
    rw [hfc]; rfl

/-- **C25.** In every reachable state, for every allocated directory entry `j`
of size `sz`: the blocks from the start block along the FAT form a chain `l`
that ends at `EOF_FLAG`, visits no block twice and no entry that holds
`NOT_USED_FLAG`, and has `max(1, ceil(sz / 2048))` blocks;
`getLastBlockOfFile` returns its last block, which is block number
`sz / 2048` of the chain, or block number `sz / 2048 - 1` when `sz` is a
positive multiple of 2048. -/
theorem chain_length_matches_size (s : State) (j : Nat) (h : Reachable s) (hj : j < 128)
    (ha : (s.cachedRootDirectory j).allocated = USED_FLAG) :
    ∃ (l : List Nat) (sz : Nat), (s.cachedRootDirectory j).size = (sz : Int) ∧
      IsChain s.cachedFatTable (s.cachedRootDirectory j).startBlock l ∧
      s.cachedFatTable (lastBlock l) = EOF_FLAG ∧
      (∀ x ∈ l, s.cachedFatTable x ≠ NOT_USED_FLAG) ∧ l.Nodup ∧
      (l.length : Int) = blocksFor (sz : Int) ∧
      getLastBlockOfFile s (s.cachedRootDirectory j).startBlock = some ((lastBlock l : Nat) : Int) ∧
      lastBlock l = l.getD (if 0 < sz ∧ sz % 2048 = 0 then sz / 2048 - 1 else sz / 2048) 0 := by
  obtain ⟨ch, hw⟩ := reachable_wf s h
  have hc := hw.chain j hj ha
  obtain ⟨hs0, hlen⟩ := hw.size j hj ha
  obtain ⟨sz, hsz⟩ : ∃ sz : Nat, (s.cachedRootDirectory j).size = (sz : Int) :=
    ⟨_, (Int.toNat_of_nonneg hs0).symm⟩
  rw [hsz] at hlen
  refine ⟨ch j, sz, hsz, hc, isChain_last_eof _ _ _ hc,
    fun x hx => (isChain_mem _ _ _ hc x hx).2.2, isChain_nodup _ _ _ hc, hlen,
    getLastBlockOfFile_chain s _ _ hc, ?_⟩
  have hidx : (ch j).length - 1
      = (if 0 < sz ∧ sz % 2048 = 0 then sz / 2048 - 1 else sz / 2048) := by
    rw [blocksFor_nat] at hlen
    have hlen2 : (ch j).length = max 1 ((sz + 2047) / 2048) := by exact_mod_cast hlen
    split_ifs <;> omega
  unfold lastBlock
  rw [hidx]

/-- Witness for C25: the empty file "f" on the volume of 128 blocks has a chain
of one block. -/
theorem chain_length_matches_size_witness :
    ∃ (s : State) (l : List Nat), Reachable s ∧
      (s.cachedRootDirectory 0).allocated = USED_FLAG ∧ (s.cachedRootDirectory 0).size = 0 ∧
      IsChain s.cachedFatTable (s.cachedRootDirectory 0).startBlock l ∧ l.length = 1 ∧
      getLastBlockOfFile s (s.cachedRootDirectory 0).startBlock = some ((lastBlock l : Nat) : Int) := by
  obtain ⟨s0, s1, s2, hr1, _, hs1, _⟩ := open_file_volume
  have ha : (s1.cachedRootDirectory 0).allocated = USED_FLAG := by
    rw [hs1]; simp [createState]
  have hsz : (s1.cachedRootDirectory 0).size = 0 := by
    rw [hs1]; simp [createState]
  obtain ⟨l, sz, a1, a2, _, _, _, a6, a7, _⟩ :=
    chain_length_matches_size s1 0 hr1 (by omega) ha
  refine ⟨s1, l, hr1, ha, hsz, a2, ?_, a7⟩
  rw [hsz] at a1
  have e : sz = 0 := by omega
  rw [e, blocksFor_nat] at a6
  have : l.length = max 1 ((0 + 2047) / 2048) := by exact_mod_cast a6
  omega

/-- **C26.** In every reachable state `freeBlockCount` is the number of FAT
entries that hold `NOT_USED_FLAG` and `fileCount` is the number of directory
entries with `allocated == 1`; and for a handle in use, not opened in
`MODE_READ`, on the directory entry `j`, a byte count `N > 0` that passes the
free-block test of `vsappend` makes the write loop end with all `N` bytes
stored (its `return -1` after a failed block allocation is not taken), and
`vsappend` returns `N`. -/
theorem counters_agree (s : State) (h : Reachable s) :
    s.freeBlockCount = (freeCount s.cachedFatTable : Int) ∧
    s.fileCount = (allocatedCount s.cachedRootDirectory : Int) ∧
    ∀ (f j N : Nat) (buf : Bytes), f < 16 → InUse s f →
      (s.openFileTable f).accessMode ≠ MODE_READ →
      (s.openFileTable f).cachedRootDirIndex = (j : Int) → 0 < N →
      requiredBlockCount (s.cachedRootDirectory j).size (N : Int) ≤ s.freeBlockCount →
      ∃ s1 s2,
        appendLoop buf (N : Int) j (N + 1) s (appendCursor (s.cachedRootDirectory j).size) 0
          = some (true, s1, N) ∧
        vsappend s (f : Int) buf (N : Int) = some ((N : Int), s2) := by
  obtain ⟨ch, hw⟩ := reachable_wf s h
  refine ⟨hw.free, hw.files, ?_⟩
  intro f j N buf hf hin hmode hidx hN hreq
  have hj : j < 128 ∧ (s.cachedRootDirectory j).allocated = 1 := by
    rcases hw.handles f hf with h0 | ⟨_, h2 | ⟨_, h4, h5⟩⟩
    · exact absurd h0 hin
    · rw [hidx] at h2
      omega
    · rw [hidx, Int.toNat_ofNat] at h4 h5
      exact ⟨h4, h5⟩
  obtain ⟨hs0, hlen⟩ := hw.size j hj.1 hj.2
  obtain ⟨sz, hsz⟩ : ∃ sz : Nat, (s.cachedRootDirectory j).size = (sz : Int) :=
    ⟨_, (Int.toNat_of_nonneg hs0).symm⟩
  rw [hsz] at hlen hreq
  obtain ⟨s1, c0, _, hcur, _, hrun, _, _, hok⟩ :=
    vsappend_run s f buf N j sz (ch j) hf hin hmode hidx hj.1 hsz (hw.chain j hj.1 hj.2) hlen hN
      hreq (le_of_eq hw.free) hw.metadata
  exact ⟨s1, _, by rw [hsz, hcur]; exact hrun, hok⟩

/-- Witness for C26: on the volume of 128 blocks with "f" created and opened
for appending, 86 blocks are free and an append of 5000 bytes runs its loop to
the end. -/
theorem counters_agree_witness :
    ∃ s, Reachable s ∧ s.freeBlockCount = 86 ∧ freeCount s.cachedFatTable = 86 ∧
      s.fileCount = 1 ∧ allocatedCount s.cachedRootDirectory = 1 ∧
      ∃ s1 s2, appendLoop sampleBytes 5000 0 5001 s 0 0 = some (true, s1, 5000) ∧
        vsappend s 0 sampleBytes 5000 = some (5000, s2) := by
  obtain ⟨s0, s1, s2, _, hr2, hs1, hs2, _, _, _, hfree, hfc, _⟩ := open_file_volume
  obtain ⟨a1, a2, a3⟩ := counters_agree s2 hr2
  have hf2 : s2.freeBlockCount = 86 := by
    rw [hs2, hs1]
    show s0.freeBlockCount - 1 = 86
    rw [hfree]; rfl
  have hc2 : s2.fileCount = 1 := by
    rw [hs2, hs1]
    show s0.fileCount + 1 = 1
    rw [hfc]; rfl
  have hslot : s2.openFileTable 0
      = { accessMode := 1, dirBlock := 0, dirBlockOffset := 0, cachedRootDirIndex := 0,
          positionPtr := 0 } := by
    rw [hs2]
    simp [openState]
  have hsz : (s2.cachedRootDirectory 0).size = 0 := by
    rw [hs2, hs1]; simp [openState, createState]
  obtain ⟨t1, t2, b1, b2⟩ := a3 0 0 5000 sampleBytes (by omega)
    (by unfold InUse; rw [hslot]; decide) (by rw [hslot]; decide) (by rw [hslot]; rfl) (by omega)
    (by
      rw [hsz, hf2]
      unfold requiredBlockCount appendCursor
      decide)
  refine ⟨s2, hr2, hf2, ?_, hc2, ?_, t1, t2, ?_, b2⟩
  · rw [hf2] at a1
    exact_mod_cast a1.symm
  · rw [hc2] at a2
    exact_mod_cast a2.symm
  · rw [hsz] at b1
    exact b1

end Vsfs
